import Mathlib

/-!
# Pacman simulation core: a shallow embedding

The definitions below follow `src/Logic` function by function.

Conventions of the embedding:

* `float` values are exact rationals (`ℚ`); `int` values are unbounded integers (`Int`).
* `static_cast<int>` of a float is truncation toward zero (`truncToInt`).
* The `Stopwatch` singleton is the explicit argument `dt` (the value `getDeltaTime()` returns
  during the frame).
* The `Random` singleton is an explicit stream of draws that is threaded through the code.
* `std::sqrt` is the explicit argument `sqrtf`.
* The map file is the list of lines `std::getline` yields, or `none` when it cannot be opened.
* Observer notifications (`notify()`) and console output carry no state and are left out.
-/

namespace Logic

/-! ## Numeric helpers -/

/-- Conversion `static_cast<int>(float)`: truncation toward zero. -/
def truncToInt (q : ℚ) : Int := if 0 ≤ q then ⌊q⌋ else ⌈q⌉

/-! ## Random.h -/

/-- The random source: an arbitrary stream of draws and the number of draws consumed so far. -/
structure Random where
  draws : Nat → Nat
  pos : Nat

/-- Method `Random::nextInt(min, max)`: a value of the closed range `[min, max]`. -/
def Random.nextInt (r : Random) (min max : Int) : Int × Random :=
  (min + (r.draws r.pos : Int) % (max - min + 1), { r with pos := r.pos + 1 })

/-- Method `Random::nextBool(p)`: one Bernoulli draw. -/
def Random.nextBool (r : Random) : Bool × Random :=
  (r.draws r.pos % 2 == 1, { r with pos := r.pos + 1 })

/-! ## Score.h -/

/-- Data members of `Score`. -/
structure Score where
  currentScore : Int
  timeSinceLastCoin : ℚ
  consecutiveGhosts : Int
deriving DecidableEq

namespace Score

def BASE_COIN_SCORE : Int := 10
def FRUIT_SCORE : Int := 50
def BASE_GHOST_SCORE : Int := 200
def LEVEL_CLEAR_BONUS : Int := 500
def FAST_COLLECT_TIME : ℚ := 1
def MEDIUM_COLLECT_TIME : ℚ := 3

/-- Constructor `Score()`. -/
def new : Score := { currentScore := 0, timeSinceLastCoin := 0, consecutiveGhosts := 0 }

/-- Method `Score::onCoinCollected`; `stopwatchDelta` is `Stopwatch::getDeltaTime()`. -/
def onCoinCollected (stopwatchDelta : ℚ) (s : Score) : Score :=
  let t := s.timeSinceLastCoin + stopwatchDelta
  let multiplier : Int :=
    if t < FAST_COLLECT_TIME then 3 else if t < MEDIUM_COLLECT_TIME then 2 else 1
  let points := BASE_COIN_SCORE * multiplier
  { s with currentScore := s.currentScore + points, timeSinceLastCoin := 0 }

/-- Method `Score::onFruitCollected`. -/
def onFruitCollected (s : Score) : Score :=
  { s with currentScore := s.currentScore + FRUIT_SCORE, consecutiveGhosts := 0 }

/-- Method `Score::onGhostEaten`. -/
def onGhostEaten (s : Score) : Score :=
  let c := s.consecutiveGhosts + 1
  let points := BASE_GHOST_SCORE * c
  { s with consecutiveGhosts := c, currentScore := s.currentScore + points }

/-- Method `Score::onPacmanDied`. -/
def onPacmanDied (s : Score) : Score :=
  { s with consecutiveGhosts := 0, timeSinceLastCoin := 0 }

/-- Method `Score::onLevelCleared`. -/
def onLevelCleared (s : Score) : Score :=
  { s with currentScore := s.currentScore + LEVEL_CLEAR_BONUS, consecutiveGhosts := 0,
           timeSinceLastCoin := 0 }

/-- Method `Score::update`. -/
def update (deltaTime : ℚ) (s : Score) : Score :=
  { s with timeSinceLastCoin := s.timeSinceLastCoin + deltaTime }

/-- Method `Score::reset`. -/
def reset (_s : Score) : Score :=
  { currentScore := 0, timeSinceLastCoin := 0, consecutiveGhosts := 0 }

end Score

/-! ## Entities/Entity.h -/

/-- Data members of `Entity`; walls, coins and fruits carry nothing else the logic reads. -/
structure Entity where
  x : ℚ
  y : ℚ
  width : ℚ
  height : ℚ
deriving DecidableEq

/-! ## Entities/Pacman.h, Pacman.cpp -/

/-- Data members of `Pacman` (with its `Entity` base). -/
structure Pacman extends Entity where
  direction : Char
  directionBuffer : Char
  speed : ℚ
  moving : Bool
  lives : Int
  dying : Bool
  deathTimer : ℚ
  spawnX : ℚ
  spawnY : ℚ
deriving DecidableEq

namespace Pacman

/-- Member `deathAnimationDuration`. -/
def deathAnimationDuration : ℚ := 1

/-- Constructor `Pacman(x, y, width, height)` with the default member initialisers. -/
def new (x y width height : ℚ) : Pacman :=
  { x := x, y := y, width := width, height := height,
    direction := ' ', directionBuffer := ' ', speed := 1 / 2, moving := false,
    lives := 3, dying := false, deathTimer := 0, spawnX := x, spawnY := y }

/-- Method `Entity::setPosition` on a `Pacman`. -/
def setPosition (newX newY : ℚ) (p : Pacman) : Pacman := { p with x := newX, y := newY }

/-- Method `Pacman::setMoving`. -/
def setMoving (move : Bool) (p : Pacman) : Pacman := { p with moving := move }

/-- Method `Pacman::setDirection`. -/
def setDirection (dir : Char) (p : Pacman) : Pacman :=
  if p.dying then p
  else if dir = 'U' ∨ dir = 'D' ∨ dir = 'L' ∨ dir = 'R' ∨ dir = ' ' then
    { p with direction := dir }
  else p

/-- Method `Pacman::queueDirection`. -/
def queueDirection (dir : Char) (p : Pacman) : Pacman :=
  if p.dying then p
  else if dir = 'U' ∨ dir = 'D' ∨ dir = 'L' ∨ dir = 'R' then
    { p with directionBuffer := dir }
  else p

/-- Method `Pacman::die`. -/
def die (p : Pacman) : Pacman :=
  if p.dying then p
  else { p with dying := true, deathTimer := 0, direction := ' ', moving := false,
                lives := p.lives - 1 }

/-- Method `Pacman::updateDeath`. -/
def updateDeath (deltaTime : ℚ) (p : Pacman) : Pacman :=
  if !p.dying then p else { p with deathTimer := p.deathTimer + deltaTime }

/-- Method `Pacman::isDeathAnimationComplete`. -/
def isDeathAnimationComplete (p : Pacman) : Bool :=
  decide (deathAnimationDuration ≤ p.deathTimer)

/-- Method `Pacman::respawn`. -/
def respawn (p : Pacman) : Pacman :=
  { p with dying := false, deathTimer := 0, direction := ' ', directionBuffer := ' ',
           moving := false, x := p.spawnX, y := p.spawnY }

/-- Method `Pacman::update`. -/
def update (deltaTime : ℚ) (p : Pacman) : Pacman :=
  if p.dying then p.updateDeath deltaTime
  else if p.direction = ' ' then p
  else
    let distance := p.speed * deltaTime
    let nextX := if p.direction = 'L' then p.x - distance
                 else if p.direction = 'R' then p.x + distance else p.x
    let nextY := if p.direction = 'U' then p.y - distance
                 else if p.direction = 'D' then p.y + distance else p.y
    { (p.setPosition nextX nextY) with moving := true }

end Pacman

/-! ## Entities/Ghost.h, Ghost.cpp -/

/-- Enumeration `GhostState`. -/
inductive GhostState where
  | WAITING
  | CHASING
  | FEARED
  | DEAD
  | DESPAWNED
deriving DecidableEq

/-- The concrete class of a ghost object, which selects its `decideDirection` override. -/
inductive GhostKind where
  | Red
  | Pink
  | Blue
  | Orange
deriving DecidableEq

/-- Data members of `Ghost` (with its `Entity` base) and the dynamic type of the object. -/
structure Ghost extends Entity where
  kind : GhostKind
  state : GhostState
  direction : Char
  speed : ℚ
  baseSpeed : ℚ
  spriteId : Int
  startX : ℚ
  startY : ℚ
  spawnTimer : ℚ
  originalSpawnTime : ℚ
  fearedTimer : ℚ
deriving DecidableEq

/-- The constant `std::numeric_limits<float>::max()`. -/
def FLT_MAX : ℚ := 340282346638528859811704183484516925440

/-- The loop body of `getBestManhattanDirection`: one candidate move is examined. -/
def bestManhattanStep (startX startY targetX targetY : ℚ) (acc : ℚ × List Char) (move : Char) :
    ℚ × List Char :=
  let minDistance := acc.1
  let bestMoves := acc.2
  let nextX := if move = 'L' then startX - 1 else if move = 'R' then startX + 1 else startX
  let nextY := if move = 'U' then startY - 1 else if move = 'D' then startY + 1 else startY
  let dist := |nextX - targetX| + |nextY - targetY|
  if dist < minDistance - 1 / 1000 then (dist, [move])
  else if |dist - minDistance| < 1 / 1000 then (minDistance, bestMoves ++ [move])
  else (minDistance, bestMoves)

/-- Function `getBestManhattanDirection` of GhostsTypes.cpp. -/
def getBestManhattanDirection (startX startY targetX targetY : ℚ) (valid : List Char)
    (rng : Random) : Char × Random :=
  let bestMoves := (valid.foldl (bestManhattanStep startX startY targetX targetY) (FLT_MAX, [])).2
  if bestMoves.isEmpty then (valid.getD 0 ' ', rng)
  else
    let r := rng.nextInt 0 ((bestMoves.length : Int) - 1)
    (bestMoves.getD r.1.toNat ' ', r.2)

namespace Ghost

/-- Constructor `Ghost(x, y, width, height, waitTime, id)`, for an object of class `kind`. -/
def new (kind : GhostKind) (x y width height waitTime : ℚ) (id : Int) : Ghost :=
  { x := x, y := y, width := width, height := height, kind := kind,
    state := GhostState.WAITING, direction := ' ', speed := 3 / 10, baseSpeed := 3 / 10,
    spriteId := id, startX := x, startY := y, spawnTimer := waitTime,
    originalSpawnTime := waitTime, fearedTimer := 0 }

/-- Method `Entity::setPosition` on a `Ghost`. -/
def setPosition (newX newY : ℚ) (g : Ghost) : Ghost := { g with x := newX, y := newY }

/-- Method `Ghost::getOppositeDirection`. -/
def getOppositeDirection (g : Ghost) : Char :=
  if g.direction = 'U' then 'D'
  else if g.direction = 'D' then 'U'
  else if g.direction = 'L' then 'R'
  else if g.direction = 'R' then 'L'
  else ' '

/-- Method `Ghost::setFeared`. -/
def setFeared (duration : ℚ) (g : Ghost) : Ghost :=
  if g.state ≠ GhostState.DEAD ∧ g.state ≠ GhostState.WAITING then
    { g with state := GhostState.FEARED, fearedTimer := duration,
             speed := g.baseSpeed * (1 / 2), direction := g.getOppositeDirection }
  else g

/-- Method `Ghost::die`. -/
def die (g : Ghost) : Ghost :=
  { g with state := GhostState.DEAD, speed := g.baseSpeed * (5 / 2) }

/-- Method `Ghost::despawn`. -/
def despawn (g : Ghost) : Ghost :=
  { g with state := GhostState.DESPAWNED, direction := ' ' }

/-- Method `Ghost::resetForPacmanDeath`. -/
def resetForPacmanDeath (g : Ghost) : Ghost :=
  { g with state := GhostState.WAITING, speed := g.baseSpeed, x := g.startX, y := g.startY,
           direction := ' ', spawnTimer := g.originalSpawnTime, fearedTimer := 0 }

/-- Method `Ghost::setBaseSpeed`. -/
def setBaseSpeed (newSpeed : ℚ) (g : Ghost) : Ghost :=
  { g with baseSpeed := newSpeed, speed := newSpeed }

/-- Function `getGridCenter` of Ghost.cpp. -/
def getGridCenter (pos size : ℚ) : ℚ :=
  let shifted := pos + 1
  let tileIndex := truncToInt (shifted / size)
  ((tileIndex : ℚ) * size) + (size / 2) - 1

/-- Method `Ghost::pickRandomDirection`. -/
def pickRandomDirection (valid : List Char) (rng : Random) : Char × Random :=
  if valid.isEmpty then (' ', rng)
  else
    let r := rng.nextInt 0 ((valid.length : Int) - 1)
    (valid.getD r.1.toNat ' ', r.2)

/-- Method `RedGhost::decideDirection`. -/
def decideDirectionRed (g : Ghost) (valid : List Char) (rng : Random) : Char × Random :=
  if valid.isEmpty then (' ', rng)
  else
    let canGoStraight : Bool := valid.any (fun c => c == g.direction)
    let isIntersection : Bool := decide (2 ≤ valid.length) || !canGoStraight
    if isIntersection then
      let b := rng.nextBool
      if b.1 then
        let r := b.2.nextInt 0 ((valid.length : Int) - 1)
        (valid.getD r.1.toNat ' ', r.2)
      else if canGoStraight then (g.direction, b.2)
      else
        let r := b.2.nextInt 0 ((valid.length : Int) - 1)
        (valid.getD r.1.toNat ' ', r.2)
    else if canGoStraight then (g.direction, rng)
    else (valid.getD 0 ' ', rng)

/-- Method `PinkGhost::decideDirection`. -/
def decideDirectionPink (g : Ghost) (valid : List Char) (pacman : Pacman) (rng : Random) :
    Char × Random :=
  if valid.isEmpty then (' ', rng)
  else
    let pacDir := pacman.direction
    let offset : ℚ := 1
    let targetX := if pacDir = 'L' then pacman.x - offset
                   else if pacDir = 'R' then pacman.x + offset else pacman.x
    let targetY := if pacDir = 'U' then pacman.y - offset
                   else if pacDir = 'D' then pacman.y + offset else pacman.y
    getBestManhattanDirection g.x g.y targetX targetY valid rng

/-- Method `BlueGhost::decideDirection`. -/
def decideDirectionBlue (g : Ghost) (valid : List Char) (pacman : Pacman) (rng : Random) :
    Char × Random :=
  if valid.isEmpty then (' ', rng)
  else
    let pacDir := pacman.direction
    let offset : ℚ := 1
    let targetX := if pacDir = 'L' then pacman.x - offset
                   else if pacDir = 'R' then pacman.x + offset else pacman.x
    let targetY := if pacDir = 'U' then pacman.y - offset
                   else if pacDir = 'D' then pacman.y + offset else pacman.y
    getBestManhattanDirection g.x g.y targetX targetY valid rng

/-- Method `OrangeGhost::decideDirection`. -/
def decideDirectionOrange (g : Ghost) (valid : List Char) (pacman : Pacman) (rng : Random) :
    Char × Random :=
  if valid.isEmpty then (' ', rng)
  else getBestManhattanDirection g.x g.y pacman.x pacman.y valid rng

/-- Virtual method `Ghost::decideDirection`, dispatched on the class of the object. -/
def decideDirection (g : Ghost) (valid : List Char) (pacman : Pacman) (rng : Random) :
    Char × Random :=
  match g.kind with
  | GhostKind.Red => g.decideDirectionRed valid rng
  | GhostKind.Pink => g.decideDirectionPink valid pacman rng
  | GhostKind.Blue => g.decideDirectionBlue valid pacman rng
  | GhostKind.Orange => g.decideDirectionOrange valid pacman rng

/-- The choice `state == FEARED ? pickRandomDirection(valid) : decideDirection(valid, pacman)`
that `Ghost::update` makes at each decision point. -/
def chooseDirection (g : Ghost) (valid : List Char) (pacman : Pacman) (rng : Random) :
    Char × Random :=
  if g.state = GhostState.FEARED then pickRandomDirection valid rng
  else g.decideDirection valid pacman rng

/-- The flag `approachingCenter` that section 3 of `Ghost::update` computes by a switch on
the direction. -/
def approachingCenter (g : Ghost) (centerX centerY : ℚ) : Bool :=
  if g.direction = 'U' then decide (centerY < g.y)
  else if g.direction = 'D' then decide (g.y < centerY)
  else if g.direction = 'L' then decide (centerX < g.x)
  else if g.direction = 'R' then decide (g.x < centerX)
  else false

/-- The value `distRemaining` that section 3 of `Ghost::update` computes by the same
switch. -/
def distRemaining (g : Ghost) (centerX centerY : ℚ) : ℚ :=
  if g.direction = 'U' then |g.y - centerY|
  else if g.direction = 'D' then |g.y - centerY|
  else if g.direction = 'L' then |g.x - centerX|
  else if g.direction = 'R' then |g.x - centerX|
  else 0

/-- The switch of `Ghost::update` that moves the ghost by `dist` along its direction. -/
def advance (dist : ℚ) (g : Ghost) : Ghost :=
  if g.direction = 'U' then g.setPosition g.x (g.y - dist)
  else if g.direction = 'D' then g.setPosition g.x (g.y + dist)
  else if g.direction = 'L' then g.setPosition (g.x - dist) g.y
  else if g.direction = 'R' then g.setPosition (g.x + dist) g.y
  else g

/-- The axis locking at the end of `Ghost::update`. -/
def axisLock (centerX centerY : ℚ) (g : Ghost) : Ghost :=
  if g.direction = 'U' ∨ g.direction = 'D' then g.setPosition centerX g.y
  else if g.direction = 'L' ∨ g.direction = 'R' then g.setPosition g.x centerY
  else g

/-- Method `Ghost::update`, sections 2 to 4 and the axis locking: grid movement of a ghost
that is CHASING or FEARED after the state handling. -/
def updateMovement (dt : ℚ) (valid : List Char) (pacman : Pacman) (g0 : Ghost) (rng0 : Random) :
    Ghost × Random :=
  -- 2. first direction
  let c1 := if g0.direction = ' ' then g0.chooseDirection valid pacman rng0
            else (g0.direction, rng0)
  let g : Ghost := { g0 with direction := c1.1 }
  let rng := c1.2
  -- 3. positions
  let tileW := g.width
  let tileH := g.height
  let centerX := getGridCenter g.x tileW
  let centerY := getGridCenter g.y tileH
  let moveDist := g.speed * dt
  let approaching := g.approachingCenter centerX centerY
  let remaining := g.distRemaining centerX centerY
  let isBlocked : Bool := !(valid.any (fun c => c == g.direction))
  -- 4. intersection or blockade
  if isBlocked && !approaching then
    let gc := g.setPosition centerX centerY
    let c := gc.chooseDirection valid pacman rng
    ({ gc with direction := c.1 }, c.2)
  else if approaching && decide (remaining ≤ moveDist) then
    let gc := g.setPosition centerX centerY
    let overshoot := moveDist - remaining
    let c := gc.chooseDirection valid pacman rng
    let gd : Ghost := { gc with direction := c.1 }
    ((gd.advance overshoot).axisLock centerX centerY, c.2)
  else
    ((g.advance moveDist).axisLock centerX centerY, rng)

/-- Method `Ghost::update`; `dt` is `Stopwatch::getDeltaTime()`. -/
def update (sqrtf : ℚ → ℚ) (dt : ℚ) (valid : List Char) (pacman : Pacman) (g : Ghost)
    (rng : Random) : Ghost × Random :=
  if g.state = GhostState.DESPAWNED then (g, rng)
  else if g.state = GhostState.WAITING then
    let g1 : Ghost := { g with spawnTimer := g.spawnTimer - dt }
    if g1.spawnTimer ≤ 0 then
      updateMovement dt valid pacman { g1 with state := GhostState.CHASING } rng
    else (g1, rng)
  else if g.state = GhostState.FEARED then
    let g1 : Ghost := { g with fearedTimer := g.fearedTimer - dt }
    let g2 : Ghost :=
      if g1.fearedTimer ≤ 0 then { g1 with state := GhostState.CHASING, speed := g1.baseSpeed }
      else g1
    updateMovement dt valid pacman g2 rng
  else if g.state = GhostState.DEAD then
    let dx := g.startX - g.x
    let dy := g.startY - g.y
    let dist := sqrtf (dx * dx + dy * dy)
    if dist < 1 / 10 then
      ({ g with state := GhostState.CHASING, speed := g.baseSpeed, x := g.startX, y := g.startY,
                direction := ' ' }, rng)
    else
      let move := g.speed * (5 / 2) * dt
      (g.setPosition (g.x + (dx / dist) * move) (g.y + (dy / dist) * move), rng)
  else updateMovement dt valid pacman g rng

end Ghost

/-! ## Representation/ConcreteFactory.cpp -/

/-- Method `ConcreteFactory::createGhost`: the class, wait time and sprite id per map
character (the view it attaches carries no logic state). -/
def createGhost (x y w h : ℚ) (type : Char) : Ghost :=
  if type = 'R' then Ghost.new GhostKind.Red x y w h 0 0
  else if type = 'I' then Ghost.new GhostKind.Pink x y w h 0 1
  else if type = 'B' then Ghost.new GhostKind.Blue x y w h 5 2
  else if type = 'O' then Ghost.new GhostKind.Orange x y w h 10 3
  else Ghost.new GhostKind.Red x y w h 0 0

/-! ## World.h, World.cpp -/

/-- Function `countLines` of World.cpp, on the lines of an opened file. -/
def countLines (lines : List (List Char)) : Int := lines.length

/-- Function `getWidth` of World.cpp, on the lines of an opened file. -/
def getWidth (lines : List (List Char)) : Int :=
  match lines with
  | [] => 0
  | line :: _ => line.length

/-- Function `getCenteredPosition` of World.cpp. -/
def getCenteredPosition (currentPos size : ℚ) : ℚ :=
  let shifted := currentPos + 1
  let tileIndex := truncToInt (shifted / size)
  let center := ((tileIndex : ℚ) * size) + (size / 2)
  center - 1

/-- The switch `case U: y--; case D: y++; case L: x--; case R: x++` that the tile
controller applies to a pair of tile indices. -/
def stepTile (dir : Char) (tileX tileY : Int) : Int × Int :=
  if dir = 'U' then (tileX, tileY - 1)
  else if dir = 'D' then (tileX, tileY + 1)
  else if dir = 'L' then (tileX - 1, tileY)
  else if dir = 'R' then (tileX + 1, tileY)
  else (tileX, tileY)

/-- Data members of `World`; `pacman` is `none` while the pointer is null. A coin is kept as
its `Entity` base: the `collected` flag is never read or written by `World`. -/
structure World where
  difficulty : Int
  currentLevel : Int
  pacman : Option Pacman
  ghosts : List Ghost
  coins : List Entity
  fruits : List Entity
  walls : List Entity
  levelCleared : Bool
  B_width : ℚ
  B_height : ℚ
  scoreSystem : Score
  inFruitMode : Bool
  waitingToRestart : Bool
  gameStarted : Bool
  pacmanTileProgress : ℚ
  pacmanTileX : Int
  pacmanTileY : Int
  pacmanMoveDir : Char
  pacmanBufferedInput : Char

namespace World

/-- Method `World::getTileFromPosition`. -/
def getTileFromPosition (w : World) (x y : ℚ) : Int × Int :=
  let shiftedX := x + 1
  let shiftedY := y + 1
  (truncToInt (shiftedX / w.B_width), truncToInt (shiftedY / w.B_height))

/-- Method `World::getPositionFromTile`. -/
def getPositionFromTile (w : World) (tileX tileY : Int) : ℚ × ℚ :=
  (-1 + ((tileX : ℚ) * w.B_width) + (w.B_width / 2),
   -1 + ((tileY : ℚ) * w.B_height) + (w.B_height / 2))

/-- Method `World::isTileWall`. -/
def isTileWall (w : World) (tileX tileY : Int) : Bool :=
  let pos := w.getPositionFromTile tileX tileY
  let epsilon := w.B_width * (3 / 10)
  w.walls.any (fun wall => decide (|wall.x - pos.1| < epsilon) && decide (|wall.y - pos.2| < epsilon))

/-- The body of the character loop of `World::initializeLevel`: the entity for `ch` is created
at `(x, y)` and `x` advances by one tile. -/
def placeChar (y : ℚ) (acc : World × ℚ) (ch : Char) : World × ℚ :=
  let w := acc.1
  let x := acc.2
  let w1 : World :=
    if ch = '#' then { w with walls := w.walls ++ [{ x := x, y := y, width := w.B_width, height := w.B_height }] }
    else if ch = '0' then { w with coins := w.coins ++ [{ x := x, y := y, width := w.B_width, height := w.B_height }] }
    else if ch = 'P' then
      let t := w.getTileFromPosition x y
      { w with pacman := some (Pacman.new x y w.B_width w.B_height),
               pacmanTileX := t.1, pacmanTileY := t.2, pacmanTileProgress := 0,
               pacmanMoveDir := ' ', pacmanBufferedInput := ' ' }
    else if ch = 'f' then { w with fruits := w.fruits ++ [{ x := x, y := y, width := w.B_width, height := w.B_height }] }
    else if ch = 'R' ∨ ch = 'I' ∨ ch = 'B' ∨ ch = 'O' then
      { w with ghosts := w.ghosts ++ [createGhost x y w.B_width w.B_height ch] }
    else w
  (w1, x + w.B_width)

/-- The body of the line loop of `World::initializeLevel`: one line is laid out from the left
edge and `y` advances by one tile. -/
def placeLine (acc : World × ℚ) (line : List Char) : World × ℚ :=
  let w := acc.1
  let y := acc.2
  let r := line.foldl (placeChar y) (w, -1 + w.B_width / 2)
  (r.1, y + w.B_height)

/-- Method `World::initializeLevel`; `file` is the content of the map file, `none` when it
cannot be opened. The exception it throws is the `error` result. -/
def initializeLevel (file : Option (List (List Char))) (w : World) : Except String World :=
  match file with
  | none => Except.error "Failed to open map file: ../assets/Map1"
  | some lines =>
    let W_width : ℚ := (getWidth lines : ℚ)
    let W_height : ℚ := (countLines lines : ℚ)
    let w1 : World := { w with B_width := 2 / W_width, B_height := 2 / W_height }
    let r := lines.foldl placeLine (w1, -1 + w1.B_height / 2)
    Except.ok { r.1 with gameStarted := false }

/-- The member initialisers of `World` before the constructor body runs. -/
def blank : World :=
  { difficulty := 1, currentLevel := 1, pacman := none, ghosts := [], coins := [], fruits := [],
    walls := [], levelCleared := false, B_width := 0, B_height := 0, scoreSystem := Score.new,
    inFruitMode := false, waitingToRestart := false, gameStarted := false,
    pacmanTileProgress := 0, pacmanTileX := 0, pacmanTileY := 0, pacmanMoveDir := ' ',
    pacmanBufferedInput := ' ' }

/-- Constructor `World::World(factory)`: the exception of `initializeLevel` is rethrown. -/
def new (file : Option (List (List Char))) : Except String World :=
  match blank.initializeLevel file with
  | Except.error e => Except.error e
  | Except.ok w => Except.ok w

/-- Method `World::resetPositions`; `none` stands for the dereference of a null `pacman`. -/
def resetPositions (w : World) : Option World :=
  match w.pacman with
  | none => none
  | some p =>
    let p1 := p.respawn
    let t := w.getTileFromPosition p1.x p1.y
    some { w with pacman := some p1, pacmanTileX := t.1, pacmanTileY := t.2,
                  pacmanTileProgress := 0, pacmanMoveDir := ' ', pacmanBufferedInput := ' ',
                  ghosts := w.ghosts.map Ghost.resetForPacmanDeath,
                  waitingToRestart := true, gameStarted := false }

/-- Method `World::getLives`. -/
def getLives (w : World) : Int :=
  match w.pacman with
  | some p => p.lives
  | none => 0

/-- Method `World::isGameOver`. -/
def isGameOver (w : World) : Bool :=
  match w.pacman with
  | none => false
  | some p => decide (p.lives ≤ 0) && p.dying && p.isDeathAnimationComplete

/-- Method `World::nextLevel`; an exception of `initializeLevel` is rethrown, and the
dereference of a null `pacman` is an `error` too. -/
def nextLevel (file : Option (List (List Char))) (w : World) : Except String World :=
  let w1 : World := { w with scoreSystem := w.scoreSystem.onLevelCleared,
                             currentLevel := w.currentLevel + 1 }
  let speedMultiplier : ℚ := 1 + ((w1.currentLevel - 1 : Int) : ℚ) * (15 / 100)
  let newGhostSpeed : ℚ := (3 / 10) * speedMultiplier
  let w2 : World := { w1 with coins := [], fruits := [], ghosts := [] }
  match w2.initializeLevel file with
  | Except.error e => Except.error e
  | Except.ok w3 =>
    let w4 : World := { w3 with ghosts := w3.ghosts.map (Ghost.setBaseSpeed newGhostSpeed) }
    match w4.pacman with
    | none => Except.error "null pointer dereference"
    | some p =>
      Except.ok { w4 with pacman := some p.respawn, waitingToRestart := true,
                          gameStarted := false }

/-- Method `World::checkGhostWallCollision`. -/
def checkGhostWallCollision (w : World) (ghost : Ghost) (dir : Char) : Bool :=
  let cx := getCenteredPosition ghost.x w.B_width
  let cy := getCenteredPosition ghost.y w.B_height
  if dir = 'U' ∨ dir = 'D' ∨ dir = 'L' ∨ dir = 'R' then
    let nx := if dir = 'L' then cx - w.B_width else if dir = 'R' then cx + w.B_width else cx
    let ny := if dir = 'U' then cy - w.B_height else if dir = 'D' then cy + w.B_height else cy
    let epsilon := w.B_width * (1 / 4)
    w.walls.any (fun wall => decide (|wall.x - nx| < epsilon) && decide (|wall.y - ny| < epsilon))
  else false

/-- Method `World::intersectsPickup`. -/
def intersectsPickup (entity pickup : Entity) : Bool :=
  let shrinkFactor : ℚ := 1 / 2
  let w := entity.width * shrinkFactor
  let h := entity.height * shrinkFactor
  let left := entity.x - w / 2
  let right := entity.x + w / 2
  let top := entity.y - h / 2
  let bottom := entity.y + h / 2
  let pickupLeft := pickup.x - pickup.width / 2
  let pickupRight := pickup.x + pickup.width / 2
  let pickupTop := pickup.y - pickup.height / 2
  let pickupBottom := pickup.y + pickup.height / 2
  !(decide (right ≤ pickupLeft) || decide (pickupRight ≤ left) ||
    decide (bottom ≤ pickupTop) || decide (pickupBottom ≤ top))

/-! ### The player tile controller (`World::updatePacmanTileBased`)

The functions of this section work on the world and on the object `*pacman`, which the
caller has dereferenced; the field `pacman` of the world is put back by `World.update`. -/

/-- Step 1 of `updatePacmanTileBased`: the input is latched into the buffer. -/
def bufferInput (input : Char) (w : World) : World :=
  if input ≠ Char.ofNat 0 ∧ input ≠ ' ' then { w with pacmanBufferedInput := input } else w

/-- The test of step 3: the buffered input is the opposite of the current direction. -/
def isOppositeInput (w : World) : Bool :=
  (w.pacmanMoveDir = 'U' ∧ w.pacmanBufferedInput = 'D') ∨
  (w.pacmanMoveDir = 'D' ∧ w.pacmanBufferedInput = 'U') ∨
  (w.pacmanMoveDir = 'L' ∧ w.pacmanBufferedInput = 'R') ∨
  (w.pacmanMoveDir = 'R' ∧ w.pacmanBufferedInput = 'L')

/-- Step 3 of `updatePacmanTileBased`: the instant reversal; the flag `instantReversal` is
the third component. -/
def instantReversalStep (w : World) (p : Pacman) : World × Pacman × Bool :=
  if w.pacmanBufferedInput ≠ ' ' ∧ w.pacmanMoveDir ≠ ' ' ∧ 0 < w.pacmanTileProgress
      ∧ w.isOppositeInput = true then
    let t := stepTile w.pacmanMoveDir w.pacmanTileX w.pacmanTileY
    let w1 : World :=
      { w with pacmanTileX := t.1, pacmanTileY := t.2, pacmanMoveDir := w.pacmanBufferedInput,
               pacmanBufferedInput := ' ', pacmanTileProgress := 1 - w.pacmanTileProgress }
    (w1, p.setDirection w1.pacmanMoveDir, true)
  else (w, p, false)

/-- Step 4 of `updatePacmanTileBased`, first half: the buffered direction is committed when
its target tile is not a wall. -/
def applyBufferedInput (w : World) (p : Pacman) : World × Pacman :=
  if w.pacmanBufferedInput ≠ ' ' ∧ w.pacmanBufferedInput ≠ w.pacmanMoveDir then
    let t := stepTile w.pacmanBufferedInput w.pacmanTileX w.pacmanTileY
    if !w.isTileWall t.1 t.2 then
      ({ w with pacmanMoveDir := w.pacmanBufferedInput, pacmanBufferedInput := ' ' },
       p.setDirection w.pacmanBufferedInput)
    else (w, p)
  else (w, p)

/-- Step 4 of `updatePacmanTileBased`, second half: the player stops when the tile ahead is
a wall. -/
def stopAtWall (w : World) (p : Pacman) : World × Pacman :=
  if w.pacmanMoveDir ≠ ' ' then
    let t := stepTile w.pacmanMoveDir w.pacmanTileX w.pacmanTileY
    if w.isTileWall t.1 t.2 then
      ({ w with pacmanMoveDir := ' ' }, (p.setDirection ' ').setMoving false)
    else (w, p)
  else (w, p)

/-- Step 4 of `updatePacmanTileBased`: the decision taken at a tile centre. -/
def tileCenterStep (w : World) (p : Pacman) : World × Pacman :=
  let a := w.applyBufferedInput p
  a.1.stopAtWall a.2

/-- Step 5 of `updatePacmanTileBased`: progress along the current direction. -/
def advanceStep (tileProgressDelta : ℚ) (w : World) (p : Pacman) : World × Pacman :=
  if w.pacmanMoveDir ≠ ' ' then
    let w1 : World := { w with pacmanTileProgress := w.pacmanTileProgress + tileProgressDelta }
    let p1 := p.setMoving true
    if 1 ≤ w1.pacmanTileProgress then
      let t := stepTile w1.pacmanMoveDir w1.pacmanTileX w1.pacmanTileY
      ({ w1 with pacmanTileX := t.1, pacmanTileY := t.2, pacmanTileProgress := 0 }, p1)
    else (w1, p1)
  else (w, p.setMoving false)

/-- Step 6 of `updatePacmanTileBased`: the interpolated visual position. -/
def visualPosition (w : World) : ℚ × ℚ :=
  let current := w.getPositionFromTile w.pacmanTileX w.pacmanTileY
  if w.pacmanMoveDir ≠ ' ' ∧ 0 < w.pacmanTileProgress then
    let t := stepTile w.pacmanMoveDir w.pacmanTileX w.pacmanTileY
    let next := w.getPositionFromTile t.1 t.2
    (current.1 + (next.1 - current.1) * w.pacmanTileProgress,
     current.2 + (next.2 - current.2) * w.pacmanTileProgress)
  else current

/-- Method `World::updatePacmanTileBased`. -/
def updatePacmanTileBased (deltaTime : ℚ) (input : Char) (w : World) (p : Pacman) :
    World × Pacman :=
  let w1 := w.bufferInput input
  let tilesPerSecond : ℚ := 5
  let tileProgressDelta := tilesPerSecond * deltaTime
  let r := w1.instantReversalStep p
  let c : World × Pacman :=
    if r.2.2 = false ∧ r.1.pacmanTileProgress = 0 then r.1.tileCenterStep r.2.1
    else (r.1, r.2.1)
  let a := c.1.advanceStep tileProgressDelta c.2
  let pos := a.1.visualPosition
  (a.1, a.2.setPosition pos.1 pos.2)

/-! ### The frame (`World::update`) -/

/-- The legal set `World::update` builds for one ghost: the four directions without those
blocked by a wall and, when more than one is left, without the reverse direction. -/
def validDirections (w : World) (ghost : Ghost) : List Char :=
  let valid := ['U', 'D', 'L', 'R'].filter (fun dir => !w.checkGhostWallCollision ghost dir)
  if 1 < valid.length then valid.filter (fun dir => dir != ghost.getOppositeDirection)
  else valid

/-- What the ghost loop of `World::update` leaves behind. `died` is set when the loop was
left through the `return` that follows `pacman->die()`. -/
structure GhostLoopResult where
  died : Bool
  pacman : Pacman
  ghosts : List Ghost
  score : Score
  rng : Random

/-- The ghost loop of `World::update`: `done` are the ghosts already visited in this frame
(in order), the list argument those still to be visited. -/
def ghostLoop (sqrtf : ℚ → ℚ) (dt : ℚ) (w : World) (p : Pacman) (done : List Ghost) :
    List Ghost → Score → Random → GhostLoopResult
  | [], sc, rng => { died := false, pacman := p, ghosts := done, score := sc, rng := rng }
  | ghost :: rest, sc, rng =>
    let touching := intersectsPickup p.toEntity ghost.toEntity
    if touching = true ∧ ghost.state ≠ GhostState.FEARED ∧ ghost.state = GhostState.CHASING then
      { died := true, pacman := p.die, ghosts := (done ++ ghost :: rest).map Ghost.despawn,
        score := sc, rng := rng }
    else
      let eaten : Bool := touching && decide (ghost.state = GhostState.FEARED)
      let sc1 := if eaten then sc.onGhostEaten else sc
      let g1 := if eaten then ghost.die else ghost
      let valid := w.validDirections g1
      let r := g1.update sqrtf dt valid p rng
      ghostLoop sqrtf dt w p (done ++ [r.1]) rest sc1 r.2

/-- The coin pass of `World::update` (`std::erase_if` over `coins`). -/
def collectCoins (dt : ℚ) (p : Pacman) (coins : List Entity) (sc : Score) :
    List Entity × Score :=
  coins.foldl
    (fun acc coin =>
      if intersectsPickup p.toEntity coin then (acc.1, acc.2.onCoinCollected dt)
      else (acc.1 ++ [coin], acc.2))
    ([], sc)

/-- The state the fruit pass of `World::update` works on. -/
structure FruitPass where
  fruits : List Entity
  score : Score
  inFruitMode : Bool
  ghosts : List Ghost

/-- The fruit pass of `World::update` (`std::erase_if` over `fruits`). -/
def collectFruits (p : Pacman) (fruits : List Entity) (start : FruitPass) : FruitPass :=
  fruits.foldl
    (fun acc fruit =>
      if intersectsPickup p.toEntity fruit then
        { acc with score := acc.score.onFruitCollected, inFruitMode := true,
                   ghosts := acc.ghosts.map (Ghost.setFeared 5) }
      else { acc with fruits := acc.fruits ++ [fruit] })
    start

/-- The test `input != 0 && input != ' '` of `World::update`: a direction key is held. -/
def isStartInput (input : Char) : Bool := decide (input ≠ Char.ofNat 0 ∧ input ≠ ' ')

/-- Method `World::update`, the branch taken while the player is dying: only the death
animation advances, and the positions are reset when it completes with lives left. -/
def dyingFrame (dt : ℚ) (w : World) (p0 : Pacman) : Option World :=
  let p1 := p0.update dt
  let w1 : World := { w with pacman := some p1 }
  if p1.isDeathAnimationComplete then
    if 0 < p1.lives then
      ({ w1 with scoreSystem := w1.scoreSystem.onPacmanDied } : World).resetPositions
    else some w1
  else some w1

/-- Method `World::update`, from the call of `updatePacmanTileBased` to the end: player
movement, ghost loop, coin and fruit passes and the fruit-mode bookkeeping. -/
def playFrame (sqrtf : ℚ → ℚ) (dt : ℚ) (input : Char) (w : World) (p0 : Pacman)
    (rng : Random) : World × Random :=
  let t := w.updatePacmanTileBased dt input p0
  let wt := t.1
  let gl : GhostLoopResult :=
    if wt.gameStarted then ghostLoop sqrtf dt wt t.2 [] wt.ghosts wt.scoreSystem rng
    else { died := false, pacman := t.2, ghosts := wt.ghosts, score := wt.scoreSystem,
           rng := rng }
  if gl.died then
    ({ wt with pacman := some gl.pacman, ghosts := gl.ghosts, scoreSystem := gl.score,
               inFruitMode := false }, gl.rng)
  else
    let cc := collectCoins dt gl.pacman wt.coins gl.score
    let fp := collectFruits gl.pacman wt.fruits
      { fruits := [], score := cc.2, inFruitMode := wt.inFruitMode, ghosts := gl.ghosts }
    let stillFeared : Bool := fp.ghosts.any (fun g => decide (g.state = GhostState.FEARED))
    let fruitMode : Bool := if fp.inFruitMode then stillFeared else fp.inFruitMode
    ({ wt with pacman := some gl.pacman, ghosts := fp.ghosts, coins := cc.1,
               fruits := fp.fruits, scoreSystem := fp.score, inFruitMode := fruitMode },
     gl.rng)

/-- Method `World::update`; `dt` is the delta time the stopwatch reports for the frame and
`none` stands for the dereference of a null `pacman`. -/
def update (sqrtf : ℚ → ℚ) (dt : ℚ) (input : Char) (w0 : World) (rng : Random) :
    Option (World × Random) :=
  match w0.pacman with
  | none => none
  | some p0 =>
    let w : World := { w0 with scoreSystem := w0.scoreSystem.update dt }
    if p0.dying then
      match dyingFrame dt w p0 with
      | none => none
      | some w1 => some (w1, rng)
    else if w.waitingToRestart = true ∧ isStartInput input = false then some (w, rng)
    else
      let wr : World :=
        if w.waitingToRestart then { w with waitingToRestart := false, gameStarted := true }
        else w
      if wr.gameStarted = false ∧ isStartInput input = false then some (wr, rng)
      else
        let ws : World := if wr.gameStarted then wr else { wr with gameStarted := true }
        some (playFrame sqrtf dt input ws p0 rng)

end World

/-! ## Specification vocabulary -/

/-- The character the map holds at column `tileX`, row `tileY`; `none` outside the map. -/
def mapCharAt (lines : List (List Char)) (tileX tileY : Int) : Option Char :=
  if 0 ≤ tileX ∧ 0 ≤ tileY then
    (lines[tileY.toNat]?).bind (fun row => row[tileX.toNat]?)
  else none

/-- A wall tile of the map: the map holds `#` there. -/
def isWallTile (lines : List (List Char)) (tileX tileY : Int) : Prop :=
  mapCharAt lines tileX tileY = some '#'

/-- The world states the program reaches with the map `lines`: the constructor, followed by
any number of `update` calls (any input, any random draws, any elapsed time `dt ≥ 0`) and
`nextLevel` calls. -/
inductive Reachable (lines : List (List Char)) : World → Prop where
  | init (w : World) : World.new (some lines) = Except.ok w → Reachable lines w
  | update (sqrtf : ℚ → ℚ) (dt : ℚ) (input : Char) (rng rng1 : Random) (w w1 : World) :
      Reachable lines w → 0 ≤ dt → w.update sqrtf dt input rng = some (w1, rng1) →
      Reachable lines w1
  | nextLevel (w w1 : World) :
      Reachable lines w → w.nextLevel (some lines) = Except.ok w1 → Reachable lines w1

/-- The speed a ghost has matches its state: `baseSpeed` when WAITING or CHASING, half of it
when FEARED, two and a half times it when DEAD (nothing is asked of a DESPAWNED ghost). -/
def Ghost.speedMatchesState (g : Ghost) : Prop :=
  match g.state with
  | GhostState.WAITING => g.speed = g.baseSpeed
  | GhostState.CHASING => g.speed = g.baseSpeed
  | GhostState.FEARED => g.speed = g.baseSpeed * (1 / 2)
  | GhostState.DEAD => g.speed = g.baseSpeed * (5 / 2)
  | GhostState.DESPAWNED => True

/-- The ghost states reached from construction through the public operations of `Ghost`,
called in any order with any arguments. -/
inductive Ghost.Reachable : Ghost → Prop where
  | construct (kind : GhostKind) (x y width height waitTime : ℚ) (id : Int) :
      Ghost.Reachable (Ghost.new kind x y width height waitTime id)
  | setFeared (duration : ℚ) (g : Ghost) : Ghost.Reachable g →
      Ghost.Reachable (g.setFeared duration)
  | die (g : Ghost) : Ghost.Reachable g → Ghost.Reachable g.die
  | despawn (g : Ghost) : Ghost.Reachable g → Ghost.Reachable g.despawn
  | resetForPacmanDeath (g : Ghost) : Ghost.Reachable g →
      Ghost.Reachable g.resetForPacmanDeath
  | setBaseSpeed (newSpeed : ℚ) (g : Ghost) : Ghost.Reachable g →
      Ghost.Reachable (g.setBaseSpeed newSpeed)
  | update (sqrtf : ℚ → ℚ) (dt : ℚ) (valid : List Char) (pacman : Pacman) (rng : Random)
      (g : Ghost) : Ghost.Reachable g →
      Ghost.Reachable (g.update sqrtf dt valid pacman rng).1

/-- The ghost states reached as in `Ghost.Reachable`, with `setBaseSpeed` called only on a
ghost that is neither FEARED nor DEAD (as `World::nextLevel` does, on fresh ghosts). -/
inductive Ghost.ReachableScaledAtRest : Ghost → Prop where
  | construct (kind : GhostKind) (x y width height waitTime : ℚ) (id : Int) :
      Ghost.ReachableScaledAtRest (Ghost.new kind x y width height waitTime id)
  | setFeared (duration : ℚ) (g : Ghost) : Ghost.ReachableScaledAtRest g →
      Ghost.ReachableScaledAtRest (g.setFeared duration)
  | die (g : Ghost) : Ghost.ReachableScaledAtRest g → Ghost.ReachableScaledAtRest g.die
  | despawn (g : Ghost) : Ghost.ReachableScaledAtRest g → Ghost.ReachableScaledAtRest g.despawn
  | resetForPacmanDeath (g : Ghost) : Ghost.ReachableScaledAtRest g →
      Ghost.ReachableScaledAtRest g.resetForPacmanDeath
  | setBaseSpeed (newSpeed : ℚ) (g : Ghost) : Ghost.ReachableScaledAtRest g →
      g.state ≠ GhostState.FEARED → g.state ≠ GhostState.DEAD →
      Ghost.ReachableScaledAtRest (g.setBaseSpeed newSpeed)
  | update (sqrtf : ℚ → ℚ) (dt : ℚ) (valid : List Char) (pacman : Pacman) (rng : Random)
      (g : Ghost) : Ghost.ReachableScaledAtRest g →
      Ghost.ReachableScaledAtRest (g.update sqrtf dt valid pacman rng).1

/-! ## Concrete levels used as test inputs -/

/-- A one-row map: the player on the first of four tiles, no wall. -/
def corridorMap : List (List Char) := [['P', ' ', ' ', ' ']]

/-- The level loaded from `corridorMap`. -/
def corridorWorld : World :=
  { World.blank with
    B_width := 1 / 2, B_height := 2,
    pacman := some (Pacman.new (-3 / 4) 0 (1 / 2) 2) }

/-- The player of `corridorWorld`. -/
def corridorPacman : Pacman := Pacman.new (-3 / 4) 0 (1 / 2) 2

/-- A mid-tile state of the corridor: half way to the second tile, moving right, with the
opposite direction buffered. -/
def corridorMidTile : World :=
  { corridorWorld with
    pacmanMoveDir := 'R', pacmanBufferedInput := 'L', pacmanTileProgress := 1 / 2 }

/-- The corridor level after one death: the player has two lives left. -/
def corridorWorldTwoLives : World :=
  { corridorWorld with pacman := some { corridorPacman with lives := 2 } }

/-- The corridor level after a first frame of 0.1 s with the input R: the player is half way
to the second tile. -/
def corridorAfterFrame : World :=
  { corridorWorld with
    scoreSystem := { Score.new with timeSinceLastCoin := 1 / 10 },
    gameStarted := true, pacmanTileProgress := 1 / 2, pacmanMoveDir := 'R',
    pacman := some { corridorPacman with x := -1 / 2, direction := 'R', moving := true } }

/-- A random source whose draws are all 0. -/
def zeroRandom : Random := { draws := fun _ => 0, pos := 0 }

/-! ## Invariants of the reachable world states -/

/-- Two player objects agree on what the tile controller never writes: lives, dying flag and
spawn point. -/
def Pacman.sameCore (p q : Pacman) : Prop :=
  q.lives = p.lives ∧ q.dying = p.dying ∧ q.spawnX = p.spawnX ∧ q.spawnY = p.spawnY

/-- Two worlds agree on the maze: walls and tile size. -/
def World.sameMaze (w v : World) : Prop :=
  v.walls = w.walls ∧ v.B_width = w.B_width ∧ v.B_height = w.B_height

/-- Two worlds agree on the tile state of the player. -/
def World.sameTile (w v : World) : Prop :=
  v.pacmanTileX = w.pacmanTileX ∧ v.pacmanTileY = w.pacmanTileY ∧
  v.pacmanTileProgress = w.pacmanTileProgress ∧ v.pacmanMoveDir = w.pacmanMoveDir

/-- The tile progress lies in `[0, 1)`. -/
def ProgressInv (w : World) : Prop :=
  0 ≤ w.pacmanTileProgress ∧ w.pacmanTileProgress < 1

/-- The committed tile is not a wall tile of the map, and neither is the tile ahead. -/
def TileStrong (lines : List (List Char)) (w : World) : Prop :=
  ProgressInv w ∧ ¬ isWallTile lines w.pacmanTileX w.pacmanTileY ∧
  ¬ isWallTile lines (stepTile w.pacmanMoveDir w.pacmanTileX w.pacmanTileY).1
      (stepTile w.pacmanMoveDir w.pacmanTileX w.pacmanTileY).2

/-- The committed tile is not a wall tile of the map, and while the player is in transit the
tile ahead is not a wall tile either. -/
def TileCore (lines : List (List Char)) (w : World) : Prop :=
  ProgressInv w ∧ ¬ isWallTile lines w.pacmanTileX w.pacmanTileY ∧
  (0 < w.pacmanTileProgress →
    ¬ isWallTile lines (stepTile w.pacmanMoveDir w.pacmanTileX w.pacmanTileY).1
      (stepTile w.pacmanMoveDir w.pacmanTileX w.pacmanTileY).2)

/-- Every `#` of the map has a wall entity at the centre of its tile, and tiles have a
positive size. -/
def WallsLoaded (lines : List (List Char)) (w : World) : Prop :=
  0 < w.B_width ∧ 0 < w.B_height ∧
  ∀ c r : ℕ, mapCharAt lines (c : ℤ) (r : ℤ) = some '#' →
    ∃ e ∈ w.walls, e.x = (w.getPositionFromTile (c : ℤ) (r : ℤ)).1 ∧
      e.y = (w.getPositionFromTile (c : ℤ) (r : ℤ)).2

/-- The spawn point of the player is the centre of a tile where the map holds `P`. -/
def SpawnAtP (lines : List (List Char)) (w : World) (p : Pacman) : Prop :=
  ∃ c r : ℕ, mapCharAt lines (c : ℤ) (r : ℤ) = some 'P' ∧
    p.spawnX = (w.getPositionFromTile (c : ℤ) (r : ℤ)).1 ∧
    p.spawnY = (w.getPositionFromTile (c : ℤ) (r : ℤ)).2

/-- The player the level loader has just created: a fresh object on the tile of a `P`, at
rest at the centre of that tile. -/
def FreshAt (lines : List (List Char)) (w : World) : Prop :=
  ∃ (c r : ℕ) (p : Pacman), mapCharAt lines (c : ℤ) (r : ℤ) = some 'P' ∧
    w.pacman = some p ∧ p.lives = 3 ∧ p.dying = false ∧
    p.spawnX = (w.getPositionFromTile (c : ℤ) (r : ℤ)).1 ∧
    p.spawnY = (w.getPositionFromTile (c : ℤ) (r : ℤ)).2 ∧
    w.pacmanTileX = (c : ℤ) ∧ w.pacmanTileY = (r : ℤ) ∧
    w.pacmanTileProgress = 0 ∧ w.pacmanMoveDir = ' '

/-- The lives of the player stay within 0..3, a player that is not dying has a life left, and
a player exists only when the map holds a `P`. -/
def LivesInv (lines : List (List Char)) (w : World) : Prop :=
  ∀ p : Pacman, w.pacman = some p →
    0 ≤ p.lives ∧ p.lives ≤ 3 ∧ (p.dying = false → 1 ≤ p.lives) ∧
    ∃ c r : ℕ, mapCharAt lines (c : ℤ) (r : ℤ) = some 'P'

/-- The invariant of the player tile state: off the walls, in a loaded maze, with the spawn
point on a `P`. -/
def TileInv (lines : List (List Char)) (w : World) : Prop :=
  ∀ p : Pacman, w.pacman = some p →
    TileCore lines w ∧ WallsLoaded lines w ∧ SpawnAtP lines w p

/-! ## Score events and ghost histories -/

/-- The calls `World` makes on the score engine, with `reset()`. A coin event carries the
stopwatch delta that `onCoinCollected` reads. -/
inductive ScoreEvent where
  | update (deltaTime : ℚ)
  | coinCollected (stopwatchDelta : ℚ)
  | fruitCollected
  | ghostEaten
  | pacmanDied
  | levelCleared
  | reset

/-- The effect of one event on the score state. -/
def Score.apply (s : Score) (e : ScoreEvent) : Score :=
  match e with
  | ScoreEvent.update deltaTime => s.update deltaTime
  | ScoreEvent.coinCollected stopwatchDelta => s.onCoinCollected stopwatchDelta
  | ScoreEvent.fruitCollected => s.onFruitCollected
  | ScoreEvent.ghostEaten => s.onGhostEaten
  | ScoreEvent.pacmanDied => s.onPacmanDied
  | ScoreEvent.levelCleared => s.onLevelCleared
  | ScoreEvent.reset => s.reset

/-- The score state after a sequence of events. -/
def Score.run (s : Score) (events : List ScoreEvent) : Score :=
  events.foldl Score.apply s

/-- The value an `int` of 32 bits holds after an operation whose exact result is `n`
(two's complement, reduced into the range from -2^31 to 2^31 - 1). -/
def wrapInt32 (n : Int) : Int := (n + 2147483648) % 4294967296 - 2147483648

/-- The effect of one event on the score state when every `int` operation of the handler is
carried out in 32 bits. -/
def Score.apply32 (s : Score) (e : ScoreEvent) : Score :=
  match e with
  | ScoreEvent.update deltaTime => s.update deltaTime
  | ScoreEvent.coinCollected stopwatchDelta =>
    let t := s.timeSinceLastCoin + stopwatchDelta
    let multiplier : Int :=
      if t < Score.FAST_COLLECT_TIME then 3 else if t < Score.MEDIUM_COLLECT_TIME then 2 else 1
    let points := wrapInt32 (Score.BASE_COIN_SCORE * multiplier)
    { s with currentScore := wrapInt32 (s.currentScore + points), timeSinceLastCoin := 0 }
  | ScoreEvent.fruitCollected =>
    { s with currentScore := wrapInt32 (s.currentScore + Score.FRUIT_SCORE),
             consecutiveGhosts := 0 }
  | ScoreEvent.ghostEaten =>
    let c := wrapInt32 (s.consecutiveGhosts + 1)
    let points := wrapInt32 (Score.BASE_GHOST_SCORE * c)
    { s with consecutiveGhosts := c, currentScore := wrapInt32 (s.currentScore + points) }
  | ScoreEvent.pacmanDied => s.onPacmanDied
  | ScoreEvent.levelCleared =>
    { s with currentScore := wrapInt32 (s.currentScore + Score.LEVEL_CLEAR_BONUS),
             consecutiveGhosts := 0, timeSinceLastCoin := 0 }
  | ScoreEvent.reset => s.reset

/-- The score state after a sequence of events, with 32-bit `int` operations. -/
def Score.run32 (s : Score) (events : List ScoreEvent) : Score :=
  events.foldl Score.apply32 s

/-- The ghost states that a ghost `g0` reaches through the public operations of `Ghost`,
called in any order with any arguments. -/
inductive Ghost.EvolvesFrom (g0 : Ghost) : Ghost → Prop where
  | start : Ghost.EvolvesFrom g0 g0
  | setFeared (duration : ℚ) (g : Ghost) : Ghost.EvolvesFrom g0 g →
      Ghost.EvolvesFrom g0 (g.setFeared duration)
  | die (g : Ghost) : Ghost.EvolvesFrom g0 g → Ghost.EvolvesFrom g0 g.die
  | despawn (g : Ghost) : Ghost.EvolvesFrom g0 g → Ghost.EvolvesFrom g0 g.despawn
  | resetForPacmanDeath (g : Ghost) : Ghost.EvolvesFrom g0 g →
      Ghost.EvolvesFrom g0 g.resetForPacmanDeath
  | setBaseSpeed (newSpeed : ℚ) (g : Ghost) : Ghost.EvolvesFrom g0 g →
      Ghost.EvolvesFrom g0 (g.setBaseSpeed newSpeed)
  | update (sqrtf : ℚ → ℚ) (dt : ℚ) (valid : List Char) (pacman : Pacman) (rng : Random)
      (g : Ghost) : Ghost.EvolvesFrom g0 g →
      Ghost.EvolvesFrom g0 (g.update sqrtf dt valid pacman rng).1
  | setPosition (newX newY : ℚ) (g : Ghost) : Ghost.EvolvesFrom g0 g →
      Ghost.EvolvesFrom g0 (g.setPosition newX newY)

/-- The entity the layout rule gives the tile at column `c`, row `r` of the map: size
`(2/W, 2/H)` and centre `(-1 + (c + 1/2) * 2/W, -1 + (r + 1/2) * 2/H)`. -/
def tileEntityAt (lines : List (List Char)) (c r : ℕ) : Entity :=
  { x := -1 + ((c : ℚ) + 1 / 2) * (2 / ((getWidth lines : ℤ) : ℚ)),
    y := -1 + ((r : ℚ) + 1 / 2) * (2 / ((countLines lines : ℤ) : ℚ)),
    width := 2 / ((getWidth lines : ℤ) : ℚ),
    height := 2 / ((countLines lines : ℤ) : ℚ) }

/-- The player the loader created on the `P` of tile `(c, r)`: a fresh `Pacman` with the
entity of that tile, and the tile state set to that tile. -/
def PlayerPlacedAt (lines : List (List Char)) (w : World) : Prop :=
  ∃ c r : ℕ, mapCharAt lines (c : ℤ) (r : ℤ) = some 'P' ∧
    w.pacman = some (Pacman.new (tileEntityAt lines c r).x (tileEntityAt lines c r).y
      (tileEntityAt lines c r).width (tileEntityAt lines c r).height) ∧
    w.pacmanTileX = (c : ℤ) ∧ w.pacmanTileY = (r : ℤ) ∧
    w.pacmanTileProgress = 0 ∧ w.pacmanMoveDir = ' ' ∧ w.pacmanBufferedInput = ' '

/-! ## A fear window that ends by its timer -/

/-- A ghost that was eaten during the fear window: DEAD, one unit to the left of its spawn
point (3/4, 0) and on its way back at 2.5 times its base speed. -/
def eatenGhost : Ghost :=
  { Ghost.new GhostKind.Red (3 / 4) 0 (1 / 2) 2 0 0 with
    x := -1 / 4, state := GhostState.DEAD, speed := 3 / 4, direction := 'L',
    spawnTimer := -1 / 60 }

/-- A ghost with 0.01 s of fear left: FEARED at half its base speed, moving right from the
centre of the third tile. -/
def fearedGhost : Ghost :=
  { Ghost.new GhostKind.Pink (1 / 4) 0 (1 / 2) 2 0 1 with
    state := GhostState.FEARED, speed := 3 / 20, direction := 'R', spawnTimer := -1 / 60,
    fearedTimer := 1 / 100 }

/-- The corridor level late in a fear window: the game runs, the fruit-mode flag is set, one
ghost has been eaten (50 for the fruit, 200 for the ghost, combo counter 1) and the other
ghost is about to leave the FEARED state. -/
def fearEndWorld : World :=
  { corridorWorld with
    gameStarted := true, inFruitMode := true,
    scoreSystem := { currentScore := 250, timeSinceLastCoin := 0, consecutiveGhosts := 1 },
    ghosts := [eatenGhost, fearedGhost] }

/-- The state one frame of 1/60 s later: the second ghost is CHASING again and the fruit-mode
flag is cleared. -/
def fearEndAfterFrame : World :=
  { fearEndWorld with
    inFruitMode := false,
    scoreSystem := { currentScore := 250, timeSinceLastCoin := 1 / 60, consecutiveGhosts := 1 },
    ghosts := [{ eatenGhost with x := -7 / 32 },
               { fearedGhost with x := 51 / 200, state := GhostState.CHASING, speed := 3 / 10,
                                  fearedTimer := -1 / 150 }] }

/-! ## Ghost strategies: targets and distances -/

/-- The distance `dist` the loop body of `getBestManhattanDirection` computes for `move`: the
Manhattan distance to the target after one simulated step. -/
def manhattanAfterStep (startX startY targetX targetY : ℚ) (move : Char) : ℚ :=
  |(if move = 'L' then startX - 1 else if move = 'R' then startX + 1 else startX) - targetX| +
  |(if move = 'U' then startY - 1 else if move = 'D' then startY + 1 else startY) - targetY|

/-- The target one tile ahead of the player: the position of the player displaced by the
width of its tile horizontally, or by the height of its tile vertically, in its direction. -/
def oneTileAhead (pacman : Pacman) : ℚ × ℚ :=
  (if pacman.direction = 'L' then pacman.x - pacman.width
   else if pacman.direction = 'R' then pacman.x + pacman.width else pacman.x,
   if pacman.direction = 'U' then pacman.y - pacman.height
   else if pacman.direction = 'D' then pacman.y + pacman.height else pacman.y)

/-- The same ghost object seen as an object of class `k`. -/
def Ghost.withKind (k : GhostKind) (g : Ghost) : Ghost := { g with kind := k }

/-- A player on the first tile of a row of eight tiles (tile size 1/4 x 2), facing right. -/
def playerFacingRight : Pacman :=
  { Pacman.new (-7 / 8) 0 (1 / 4) 2 with direction := 'R' }

/-- A pink ghost on the third tile of that row. -/
def pinkOnThirdTile : Ghost := Ghost.new GhostKind.Pink (-3 / 8) 0 (1 / 4) 2 0 1

/-- A random source whose draws are all 1. -/
def oneRandom : Random := { draws := fun _ => 1, pos := 0 }

/-- An orange ghost on a tile centre of a map of 4 x 4 tiles. -/
def orangeBelow : Ghost := Ghost.new GhostKind.Orange (1 / 4) (1 / 4) (1 / 2) (1 / 2) 10 3

/-- A player two rows above `orangeBelow`, 1/4096 short of the centre of the same column on
its way to the right. -/
def playerNearColumn : Pacman :=
  { Pacman.new (-3 / 4) (-3 / 4) (1 / 2) (1 / 2) with
    x := 1 / 4 - 1 / 4096, direction := 'R', moving := true }

/-- The target `(targetX, targetY)` that `PinkGhost::decideDirection` and
`BlueGhost::decideDirection` compute from the player. -/
def unitAheadTarget (pacman : Pacman) : ℚ × ℚ :=
  (if pacman.direction = 'L' then pacman.x - 1
   else if pacman.direction = 'R' then pacman.x + 1 else pacman.x,
   if pacman.direction = 'U' then pacman.y - 1
   else if pacman.direction = 'D' then pacman.y + 1 else pacman.y)

/-- The target a ghost of class Pink, Blue or Orange passes to `getBestManhattanDirection`. -/
def Ghost.target (g : Ghost) (pacman : Pacman) : ℚ × ℚ :=
  if g.kind = GhostKind.Orange then (pacman.x, pacman.y) else unitAheadTarget pacman

/-! ## Frames: vocabulary -/

/-- The members of the world the player tile controller does not write. -/
def World.rest (w : World) :
    List Ghost × List Entity × List Entity × Score × Bool × Bool × Bool × Int × Int :=
  (w.ghosts, w.coins, w.fruits, w.scoreSystem, w.inFruitMode, w.waitingToRestart,
    w.gameStarted, w.currentLevel, w.difficulty)

/-- The gates of `World::update` let the frame run: a direction key is held, or the world
is started and not waiting to restart. -/
def World.runsFrame (w : World) (input : Char) : Prop :=
  World.isStartInput input = true ∨ (w.waitingToRestart = false ∧ w.gameStarted = true)

/-- The world on which a frame that runs calls `updatePacmanTileBased`: the score timer has
advanced and the game is started. -/
def World.frameStart (dt : ℚ) (w : World) : World :=
  { w with scoreSystem := w.scoreSystem.update dt, waitingToRestart := false,
           gameStarted := true }

/-- The player after `updatePacmanTileBased` in a frame that runs. -/
def World.movedPlayer (dt : ℚ) (input : Char) (w : World) (p0 : Pacman) : Pacman :=
  ((w.frameStart dt).updatePacmanTileBased dt input p0).2

/-- A running corridor level with a chasing red ghost on the tile of the player. -/
def chaseWorld : World :=
  { corridorWorld with
    gameStarted := true,
    ghosts := [{ Ghost.new GhostKind.Red (3 / 4) 0 (1 / 2) 2 0 0 with
                 x := -3 / 4, state := GhostState.CHASING, direction := 'L',
                 spawnTimer := -1 / 60 }] }

/-- A corridor level in which the player, with two lives left, has just started its death
animation. -/
def dyingWorld : World :=
  { corridorWorld with
    gameStarted := true,
    pacman := some { corridorPacman with dying := true, lives := 2 } }

/-! ## Level loading: two maps that differ in one cell -/

/-- The levels `va` and `vb` differ only by the entity of one cell: `va` holds the entity the
character `old` creates on the tile `e` (a wall, coin, fruit or ghost at its place in its
collection, or the player), `vb` does not, and everything else is the same. -/
def World.DiffersByCell (old : Char) (e : Entity) (va vb : World) : Prop :=
  (∃ A B : List Entity,
    va.walls = A ++ (if old = '#' then [e] else []) ++ B ∧ vb.walls = A ++ B) ∧
  (∃ A B : List Entity,
    va.coins = A ++ (if old = '0' then [e] else []) ++ B ∧ vb.coins = A ++ B) ∧
  (∃ A B : List Entity,
    va.fruits = A ++ (if old = 'f' then [e] else []) ++ B ∧ vb.fruits = A ++ B) ∧
  (∃ A B : List Ghost,
    va.ghosts = A ++ (if old = 'R' ∨ old = 'I' ∨ old = 'B' ∨ old = 'O'
      then [createGhost e.x e.y e.width e.height old] else []) ++ B ∧ vb.ghosts = A ++ B) ∧
  ((va.pacman = vb.pacman ∧ va.pacmanTileX = vb.pacmanTileX ∧
      va.pacmanTileY = vb.pacmanTileY ∧ va.pacmanTileProgress = vb.pacmanTileProgress ∧
      va.pacmanMoveDir = vb.pacmanMoveDir ∧ va.pacmanBufferedInput = vb.pacmanBufferedInput) ∨
    (old = 'P' ∧ va.pacman = some (Pacman.new e.x e.y e.width e.height) ∧
      (va.pacmanTileX, va.pacmanTileY) = va.getTileFromPosition e.x e.y ∧
      va.pacmanTileProgress = 0 ∧ va.pacmanMoveDir = ' ' ∧ va.pacmanBufferedInput = ' ')) ∧
  va.B_width = vb.B_width ∧ va.B_height = vb.B_height ∧
  va.difficulty = vb.difficulty ∧ va.currentLevel = vb.currentLevel ∧
  va.levelCleared = vb.levelCleared ∧ va.scoreSystem = vb.scoreSystem ∧
  va.inFruitMode = vb.inFruitMode ∧ va.waitingToRestart = vb.waitingToRestart ∧
  va.gameStarted = vb.gameStarted

/-! ## Entities/Entity.cpp: box intersection -/

/-- Method `Entity::intersects`. -/
def Entity.intersects (a other : Entity) : Bool :=
  let epsilon : ℚ := 8 / 1000
  let left := a.x - a.width / 2
  let right := a.x + a.width / 2
  let top := a.y - a.height / 2
  let bottom := a.y + a.height / 2
  let otherLeft := other.x - other.width / 2
  let otherRight := other.x + other.width / 2
  let otherTop := other.y - other.height / 2
  let otherBottom := other.y + other.height / 2
  !(decide (right ≤ otherLeft + epsilon) || decide (otherRight - epsilon ≤ left) ||
    decide (bottom ≤ otherTop + epsilon) || decide (otherBottom - epsilon ≤ top))

/-- The box of an entity after every edge has been moved inward by `eps`: the same centre,
width and height reduced by `2 * eps`. -/
def Entity.shrink (eps : ℚ) (e : Entity) : Entity :=
  { e with width := e.width - 2 * eps, height := e.height - 2 * eps }

/-- Two axis-aligned boxes (centred at the position, sized by width and height) overlap: on
each axis the lower edge of each box lies strictly below the upper edge of the other. -/
def boxesOverlap (a b : Entity) : Prop :=
  a.x - a.width / 2 < b.x + b.width / 2 ∧ b.x - b.width / 2 < a.x + a.width / 2 ∧
  a.y - a.height / 2 < b.y + b.height / 2 ∧ b.y - b.height / 2 < a.y + a.height / 2

/-- The point `(px, py)` lies strictly inside the box of the entity. -/
def Entity.containsPoint (e : Entity) (px py : ℚ) : Prop :=
  e.x - e.width / 2 < px ∧ px < e.x + e.width / 2 ∧
  e.y - e.height / 2 < py ∧ py < e.y + e.height / 2

/-- A box of size 1 x 1 at the origin. -/
def unitBox : Entity := { x := 0, y := 0, width := 1, height := 1 }

/-- A box of size 1 x 1 whose centre is 0.99 to the right of the origin: it overlaps
`unitBox` by a strip of width 0.01. -/
def unitBoxShifted : Entity := { x := 99 / 100, y := 0, width := 1, height := 1 }

/-! ## A despawned ghost -/

/-- The world states reached from the freshly loaded level of the map `lines` by `update`
calls alone (any input, any random draws, any elapsed time `dt ≥ 0`). -/
inductive ReachableByUpdates (lines : List (List Char)) : World → Prop where
  | init (w : World) : World.new (some lines) = Except.ok w → ReachableByUpdates lines w
  | update (sqrtf : ℚ → ℚ) (dt : ℚ) (input : Char) (rng rng1 : Random) (w w1 : World) :
      ReachableByUpdates lines w → 0 ≤ dt → w.update sqrtf dt input rng = some (w1, rng1) →
      ReachableByUpdates lines w1

/-! ## A dead ghost on its way back -/

/-- The value `dx*dx + dy*dy` of the DEAD branch of `Ghost::update`: the squared distance of
the ghost to its spawn point. -/
def Ghost.spawnDistSq (g : Ghost) : ℚ :=
  (g.startX - g.x) * (g.startX - g.x) + (g.startY - g.y) * (g.startY - g.y)

/-- Section 2 of `Ghost::update`: a ghost without a direction takes a first one. -/
def Ghost.firstDirection (valid : List Char) (pacman : Pacman) (g0 : Ghost) (rng0 : Random) :
    Ghost × Random :=
  let c1 := if g0.direction = ' ' then g0.chooseDirection valid pacman rng0
            else (g0.direction, rng0)
  ({ g0 with direction := c1.1 }, c1.2)

/-- The horizontal component of the unit step in direction `d`: -1 for L, 1 for R. -/
def dirX (d : Char) : ℚ := if d = 'L' then -1 else if d = 'R' then 1 else 0

/-- The vertical component of the unit step in direction `d`: -1 for U, 1 for D. -/
def dirY (d : Char) : ℚ := if d = 'U' then -1 else if d = 'D' then 1 else 0

/-- A chasing red ghost in a corridor of tiles of size 1/2 x 2, moving right, 0.01 short of
the centre (1/4, 0) of the third tile. -/
def ghostNearCentre : Ghost :=
  { Ghost.new GhostKind.Red (-3 / 4) 0 (1 / 2) 2 0 0 with
    x := 1 / 4 - 1 / 100, state := GhostState.CHASING, direction := 'R',
    spawnTimer := -1 / 60 }

/-! ## A level with a wall, a coin and the player -/

/-- A one-row map: a wall, a coin and the player. -/
def wallCoinPlayerMap : List (List Char) := [['#', '0', 'P']]

/-- The wall entity of `wallCoinPlayerMap`: the first of three tiles of size 2/3 x 2. -/
def firstTileWall : Entity := { x := -2 / 3, y := 0, width := 2 / 3, height := 2 }

/-- The level loaded from `wallCoinPlayerMap`. -/
def wallCoinPlayerWorld : World :=
  { World.blank with
    B_width := 2 / 3, B_height := 2,
    walls := [firstTileWall],
    coins := [{ x := 0, y := 0, width := 2 / 3, height := 2 }],
    pacman := some (Pacman.new (2 / 3) 0 (2 / 3) 2),
    pacmanTileX := 2, pacmanTileY := 0 }

/-! ## A tall, narrow level -/

/-- A map of one column and four rows: a wall on top, two free tiles, the player at the
bottom. -/
def tallMap : List (List Char) := [['#'], [' '], [' '], ['P']]

/-- The level loaded from `tallMap`: tiles of size 2 x 1/2. -/
def tallWorld : World :=
  { World.blank with
    B_width := 2, B_height := 1 / 2,
    walls := [{ x := 0, y := -3 / 4, width := 2, height := 1 / 2 }],
    pacman := some (Pacman.new 0 (3 / 4) 2 (1 / 2)),
    pacmanTileX := 0, pacmanTileY := 3 }

/-! ## Death animation: concrete states -/

/-- The corridor level at the moment a death animation has run to its end with two lives
left: the player is dying and the death timer has reached the animation duration. -/
def animationDoneWorld : World :=
  { corridorWorld with
    gameStarted := true,
    pacman := some { corridorPacman with dying := true, lives := 2, deathTimer := 1 } }

/-- The corridor level after the last death: no life left, the player is dying and the death
timer has reached the animation duration. -/
def gameOverWorld : World :=
  { corridorWorld with
    gameStarted := true,
    pacman := some { corridorPacman with dying := true, lives := 0, deathTimer := 1 } }

/-! ## A level with a ghost -/

/-- The maze of the world is the maze of the map: tiles of size `2/W x 2/H`, every wall
entity sits at the centre of a tile where the map holds `#`, and every `#` of the map has a
wall entity at the centre of its tile. -/
def MazeFromMap (lines : List (List Char)) (w : World) : Prop :=
  w.B_width = 2 / ((getWidth lines : ℤ) : ℚ) ∧
  w.B_height = 2 / ((countLines lines : ℤ) : ℚ) ∧
  (∀ e ∈ w.walls, ∃ c r : ℕ, mapCharAt lines (c : ℤ) (r : ℤ) = some '#' ∧
    e.x = (tileEntityAt lines c r).x ∧ e.y = (tileEntityAt lines c r).y) ∧
  (∀ c r : ℕ, mapCharAt lines (c : ℤ) (r : ℤ) = some '#' →
    ∃ e ∈ w.walls, e.x = (tileEntityAt lines c r).x ∧ e.y = (tileEntityAt lines c r).y)

/-- The tile next to the tile the ghost stands on, in the direction `dir`: the ghost's tile is
the tile its position falls in (`getTileFromPosition`). -/
def World.ghostNeighbourTile (w : World) (g : Ghost) (dir : Char) : Int × Int :=
  stepTile dir (w.getTileFromPosition g.x g.y).1 (w.getTileFromPosition g.x g.y).2

/-- A map of one column and five rows: a wall on top, a free tile, the red ghost, a free
tile, the player at the bottom. -/
def narrowMap : List (List Char) := [['#'], [' '], ['R'], [' '], ['P']]

/-- The red ghost of the level loaded from `narrowMap`, on the tile `(0, 2)`. -/
def narrowGhost : Ghost := Ghost.new GhostKind.Red 0 0 2 (2 / 5) 0 0

/-- The level loaded from `narrowMap`: tiles of size 2 x 2/5. -/
def narrowWorld : World :=
  { World.blank with
    B_width := 2, B_height := 2 / 5,
    walls := [{ x := 0, y := -4 / 5, width := 2, height := 2 / 5 }],
    ghosts := [narrowGhost],
    pacman := some (Pacman.new 0 (4 / 5) 2 (2 / 5)),
    pacmanTileX := 0, pacmanTileY := 4 }

/-- The level of `tallMap` after a first frame of 0.25 s with the input U: the player has
reached the tile `(0, 2)` above its start tile and moves up. -/
def tallAfterFrame : World :=
  { tallWorld with
    scoreSystem := { Score.new with timeSinceLastCoin := 1 / 4 },
    gameStarted := true, pacmanTileY := 2, pacmanMoveDir := 'U',
    pacman := some { Pacman.new 0 (3 / 4) 2 (1 / 2) with
      y := 1 / 4, direction := 'U', moving := true } }

/-- The level of `tallMap` after a second frame of 0.125 s with the input U: the player
stands still at the centre of the tile `(0, 2)`. -/
def tallStopped : World :=
  { tallAfterFrame with
    scoreSystem := { Score.new with timeSinceLastCoin := 3 / 8 },
    pacmanMoveDir := ' ', pacmanBufferedInput := 'U',
    pacman := some { Pacman.new 0 (3 / 4) 2 (1 / 2) with
      y := 1 / 4, direction := ' ', moving := false } }

/-! # Properties -/

/-! ## Score engine -/

/-- C1 (evaluation of the code): starting from a combo counter of 0, four consecutive
`onGhostEaten` events add 200, 400, 600 and 800 points in that order: the third and the
fourth eat do not add the 800 and 1600 points the class documentation announces. -/
theorem onGhostEaten_four_eats_add_200_400_600_800 (s : Score) (h : s.consecutiveGhosts = 0) :
    s.onGhostEaten.currentScore - s.currentScore = 200 ∧
    s.onGhostEaten.onGhostEaten.currentScore - s.onGhostEaten.currentScore = 400 ∧
    s.onGhostEaten.onGhostEaten.onGhostEaten.currentScore
      - s.onGhostEaten.onGhostEaten.currentScore = 600 ∧
    s.onGhostEaten.onGhostEaten.onGhostEaten.onGhostEaten.currentScore
      - s.onGhostEaten.onGhostEaten.onGhostEaten.currentScore = 800 := by
  simp only [Score.onGhostEaten, Score.BASE_GHOST_SCORE, h]
  omega

/-- C1, witness: the four increments at a fresh score. -/
theorem onGhostEaten_four_eats_witness :
    Score.new.onGhostEaten.currentScore - Score.new.currentScore = 200 ∧
    Score.new.onGhostEaten.onGhostEaten.currentScore
      - Score.new.onGhostEaten.currentScore = 400 ∧
    Score.new.onGhostEaten.onGhostEaten.onGhostEaten.currentScore
      - Score.new.onGhostEaten.onGhostEaten.currentScore = 600 ∧
    Score.new.onGhostEaten.onGhostEaten.onGhostEaten.onGhostEaten.currentScore
      - Score.new.onGhostEaten.onGhostEaten.onGhostEaten.currentScore = 800 :=
  onGhostEaten_four_eats_add_200_400_600_800 Score.new rfl

/-- C2 (evaluation of the code): a coin collected in a frame of 0.5 s that directly follows
the previous collection (so 0.5 s after it) adds 20 points, not 30: `onCoinCollected` adds the
frame time to the timer a second time, after `update` has already added it. The timer is 0
afterwards. -/
theorem coin_half_second_after_previous_adds_20 :
    (((Score.new.onCoinCollected (1 / 60)).update (1 / 2)).onCoinCollected (1 / 2)).currentScore
      - (Score.new.onCoinCollected (1 / 60)).currentScore = 20 ∧
    (((Score.new.onCoinCollected (1 / 60)).update (1 / 2)).onCoinCollected
      (1 / 2)).timeSinceLastCoin = 0 := by
  simp [Score.new, Score.update, Score.onCoinCollected, Score.FAST_COLLECT_TIME,
    Score.MEDIUM_COLLECT_TIME, Score.BASE_COIN_SCORE]
  norm_num

/-! ## Player tile controller: reversal and frame splitting -/

/-- Stepping one tile in a direction and then one tile in the opposite direction returns to
the tile one started from. -/
theorem stepTile_back (d b : Char) (tx ty : Int)
    (h : (d = 'U' ∧ b = 'D') ∨ (d = 'D' ∧ b = 'U') ∨ (d = 'L' ∧ b = 'R') ∨ (d = 'R' ∧ b = 'L')) :
    stepTile b (stepTile d tx ty).1 (stepTile d tx ty).2 = (tx, ty) := by
  rcases h with ⟨rfl, rfl⟩ | ⟨rfl, rfl⟩ | ⟨rfl, rfl⟩ | ⟨rfl, rfl⟩ <;> simp [stepTile]

/-- C8: instant reversal preserves the continuous position. For every tile, every direction
with the opposite direction buffered and every progress p in (0,1), the reversal block fires,
advances the tile one step in the old direction, flips the direction to the buffered one, sets
the progress to 1 - p, and the interpolated position of the resulting state equals the
interpolated position of the state before. -/
theorem instant_reversal_preserves_position (w : World) (p : Pacman)
    (hopp : w.isOppositeInput = true)
    (h0 : 0 < w.pacmanTileProgress) (h1 : w.pacmanTileProgress < 1) :
    (w.instantReversalStep p).2.2 = true ∧
    ((w.instantReversalStep p).1.pacmanTileX, (w.instantReversalStep p).1.pacmanTileY)
      = stepTile w.pacmanMoveDir w.pacmanTileX w.pacmanTileY ∧
    (w.instantReversalStep p).1.pacmanMoveDir = w.pacmanBufferedInput ∧
    (w.instantReversalStep p).1.pacmanTileProgress = 1 - w.pacmanTileProgress ∧
    (w.instantReversalStep p).1.visualPosition = w.visualPosition := by
  have hopp2 := hopp
  simp only [World.isOppositeInput, decide_eq_true_eq] at hopp2
  have hb : w.pacmanBufferedInput ≠ ' ' := by
    rcases hopp2 with ⟨_, h⟩ | ⟨_, h⟩ | ⟨_, h⟩ | ⟨_, h⟩ <;> rw [h] <;> decide
  have hm : w.pacmanMoveDir ≠ ' ' := by
    rcases hopp2 with ⟨h, _⟩ | ⟨h, _⟩ | ⟨h, _⟩ | ⟨h, _⟩ <;> rw [h] <;> decide
  have hstep : w.instantReversalStep p =
      ({ w with pacmanTileX := (stepTile w.pacmanMoveDir w.pacmanTileX w.pacmanTileY).1,
                pacmanTileY := (stepTile w.pacmanMoveDir w.pacmanTileX w.pacmanTileY).2,
                pacmanMoveDir := w.pacmanBufferedInput,
                pacmanBufferedInput := ' ',
                pacmanTileProgress := 1 - w.pacmanTileProgress },
       p.setDirection w.pacmanBufferedInput, true) := by
    simp [World.instantReversalStep, hb, hm, h0, hopp]
  rw [hstep]
  refine ⟨rfl, rfl, rfl, rfl, ?_⟩
  have hback :=
    stepTile_back w.pacmanMoveDir w.pacmanBufferedInput w.pacmanTileX w.pacmanTileY hopp2
  have h1p : (0 : ℚ) < 1 - w.pacmanTileProgress := by linarith
  simp only [World.visualPosition, hb, hm, h0, h1p, hback, World.getPositionFromTile, ne_eq,
    not_false_eq_true, and_self, if_true]
  ext <;> simp <;> ring

/-- C8, witness: the reversal half way along the first tile of the corridor. -/
theorem instant_reversal_preserves_position_witness :
    (corridorMidTile.instantReversalStep corridorPacman).2.2 = true ∧
    ((corridorMidTile.instantReversalStep corridorPacman).1.pacmanTileX,
     (corridorMidTile.instantReversalStep corridorPacman).1.pacmanTileY)
      = stepTile corridorMidTile.pacmanMoveDir corridorMidTile.pacmanTileX
          corridorMidTile.pacmanTileY ∧
    (corridorMidTile.instantReversalStep corridorPacman).1.pacmanMoveDir
      = corridorMidTile.pacmanBufferedInput ∧
    (corridorMidTile.instantReversalStep corridorPacman).1.pacmanTileProgress
      = 1 - corridorMidTile.pacmanTileProgress ∧
    (corridorMidTile.instantReversalStep corridorPacman).1.visualPosition
      = corridorMidTile.visualPosition :=
  instant_reversal_preserves_position corridorMidTile corridorPacman (by decide)
    (by norm_num [corridorMidTile]) (by norm_num [corridorMidTile])

/-- C9 (evaluation of the code): in the level loaded from the corridor map, with the input R
held, one frame of 0.3 s leaves the player on tile 1 with progress 0 at x = -1/4, while two
frames of 0.2 s and 0.1 s leave it on tile 1 with progress 1/2 at x = 0: the overshoot of a
completed tile is discarded, so the result depends on how the time is cut into frames. -/
theorem one_frame_differs_from_two_frames :
    World.new (some corridorMap) = Except.ok corridorWorld ∧
    corridorWorld.pacman = some corridorPacman ∧
    ((corridorWorld.updatePacmanTileBased (3 / 10) 'R' corridorPacman).1.pacmanTileX = 1 ∧
     (corridorWorld.updatePacmanTileBased (3 / 10) 'R' corridorPacman).1.pacmanTileProgress = 0 ∧
     (corridorWorld.updatePacmanTileBased (3 / 10) 'R' corridorPacman).2.x = -1 / 4) ∧
    ((((corridorWorld.updatePacmanTileBased (2 / 10) 'R' corridorPacman).1).updatePacmanTileBased
        (1 / 10) 'R'
        (corridorWorld.updatePacmanTileBased (2 / 10) 'R' corridorPacman).2).1.pacmanTileX = 1 ∧
     (((corridorWorld.updatePacmanTileBased (2 / 10) 'R' corridorPacman).1).updatePacmanTileBased
        (1 / 10) 'R'
        (corridorWorld.updatePacmanTileBased (2 / 10) 'R'
          corridorPacman).2).1.pacmanTileProgress = 1 / 2 ∧
     (((corridorWorld.updatePacmanTileBased (2 / 10) 'R' corridorPacman).1).updatePacmanTileBased
        (1 / 10) 'R'
        (corridorWorld.updatePacmanTileBased (2 / 10) 'R' corridorPacman).2).2.x = 0) := by
  refine ⟨?_, rfl, ?_, ?_⟩
  · simp [World.new, World.initializeLevel, corridorMap, getWidth, countLines, World.placeLine,
      World.placeChar, World.blank, corridorWorld, World.getTileFromPosition, truncToInt]
    norm_num
  · simp +decide [World.updatePacmanTileBased, World.bufferInput, World.instantReversalStep,
      World.tileCenterStep, World.applyBufferedInput, World.stopAtWall, World.advanceStep,
      World.visualPosition, World.isTileWall, World.getPositionFromTile, stepTile,
      corridorWorld, corridorPacman, World.blank, Pacman.new, Pacman.setDirection,
      Pacman.setMoving, Pacman.setPosition, World.isOppositeInput]
    norm_num
  · simp +decide [World.updatePacmanTileBased, World.bufferInput, World.instantReversalStep,
      World.tileCenterStep, World.applyBufferedInput, World.stopAtWall, World.advanceStep,
      World.visualPosition, World.isTileWall, World.getPositionFromTile, stepTile,
      corridorWorld, corridorPacman, World.blank, Pacman.new, Pacman.setDirection,
      Pacman.setMoving, Pacman.setPosition, World.isOppositeInput]
    norm_num
    simp +decide
    norm_num

/-! ## Ghost speed and state -/

theorem Ghost.advance_keeps (dist : ℚ) (g : Ghost) :
    (g.advance dist).state = g.state ∧ (g.advance dist).speed = g.speed ∧
    (g.advance dist).baseSpeed = g.baseSpeed := by
  unfold Ghost.advance Ghost.setPosition
  split_ifs <;> simp

theorem Ghost.axisLock_keeps (cx cy : ℚ) (g : Ghost) :
    (g.axisLock cx cy).state = g.state ∧ (g.axisLock cx cy).speed = g.speed ∧
    (g.axisLock cx cy).baseSpeed = g.baseSpeed := by
  unfold Ghost.axisLock Ghost.setPosition
  split_ifs <;> simp

/-- The grid movement of `Ghost::update` changes neither the state nor the speeds. -/
theorem Ghost.updateMovement_keeps (dt : ℚ) (valid : List Char) (pacman : Pacman) (g : Ghost)
    (rng : Random) :
    (Ghost.updateMovement dt valid pacman g rng).1.state = g.state ∧
    (Ghost.updateMovement dt valid pacman g rng).1.speed = g.speed ∧
    (Ghost.updateMovement dt valid pacman g rng).1.baseSpeed = g.baseSpeed := by
  unfold Ghost.updateMovement
  simp only []
  split_ifs <;>
    simp [Ghost.advance_keeps, Ghost.axisLock_keeps, Ghost.setPosition]

/-- Method `Ghost::update` keeps the speed matched to the state. -/
theorem Ghost.update_speedMatchesState (sqrtf : ℚ → ℚ) (dt : ℚ) (valid : List Char)
    (pacman : Pacman) (rng : Random) (g : Ghost) (h : g.speedMatchesState) :
    (g.update sqrtf dt valid pacman rng).1.speedMatchesState := by
  unfold Ghost.update
  cases hs : g.state <;> simp [Ghost.speedMatchesState, hs] at h ⊢
  · split_ifs
    · simp [Ghost.speedMatchesState, Ghost.updateMovement_keeps, h]
    · simp [Ghost.speedMatchesState, hs, h]
  · simp [Ghost.speedMatchesState, Ghost.updateMovement_keeps, h, hs]
  · split_ifs
    · simp [Ghost.speedMatchesState, Ghost.updateMovement_keeps]
    · simp [Ghost.speedMatchesState, Ghost.updateMovement_keeps, h, hs]
  · split_ifs
    · simp [Ghost.speedMatchesState]
    · simp [Ghost.speedMatchesState, Ghost.setPosition, hs, h]

/-- C10 (as stated, refuted): a ghost that is constructed, dies and is then given a new base
speed is DEAD with speed equal to the new base speed, not 2.5 times it; so the speed is not
determined by the state in every state reachable through the listed operations. -/
theorem setBaseSpeed_breaks_speed_of_dead_ghost :
    ¬ ∀ g : Ghost, Ghost.Reachable g → g.speedMatchesState := by
  intro h
  have hr : Ghost.Reachable (((Ghost.new GhostKind.Red 0 0 1 1 0 0).die).setBaseSpeed 1) :=
    Ghost.Reachable.setBaseSpeed _ _ (Ghost.Reachable.die _ (Ghost.Reachable.construct _ _ _ _ _ _ _))
  have := h _ hr
  simp [Ghost.speedMatchesState, Ghost.setBaseSpeed, Ghost.die, Ghost.new] at this
  norm_num at this

/-- C10 (amended): in every ghost state reachable from construction through setFeared, die,
despawn, resetForPacmanDeath, update and setBaseSpeed, the latter applied only to a ghost that
is neither FEARED nor DEAD, the speed is determined by the state: baseSpeed when WAITING or
CHASING, 0.5 x baseSpeed when FEARED, 2.5 x baseSpeed when DEAD. -/
theorem speed_matches_state_when_scaled_at_rest (g : Ghost)
    (h : Ghost.ReachableScaledAtRest g) : g.speedMatchesState := by
  induction h with
  | construct kind x y width height waitTime id =>
    simp [Ghost.speedMatchesState, Ghost.new]
  | setFeared duration g _ ih =>
    unfold Ghost.setFeared
    split_ifs with hc
    · simp [Ghost.speedMatchesState]
    · exact ih
  | die g _ _ => simp [Ghost.speedMatchesState, Ghost.die]
  | despawn g _ _ => simp [Ghost.speedMatchesState, Ghost.despawn]
  | resetForPacmanDeath g _ _ => simp [Ghost.speedMatchesState, Ghost.resetForPacmanDeath]
  | setBaseSpeed newSpeed g _ hf hd _ =>
    cases hs : g.state <;> simp_all [Ghost.speedMatchesState, Ghost.setBaseSpeed]
  | update sqrtf dt valid pacman rng g _ ih =>
    exact Ghost.update_speedMatchesState sqrtf dt valid pacman rng g ih

/-- C10, witness: a red ghost that has been frightened after leaving the despawned state. -/
theorem speed_matches_state_when_scaled_at_rest_witness :
    (((Ghost.new GhostKind.Red 0 0 1 1 0 0).setBaseSpeed (1 / 2)).despawn.setFeared
      5).speedMatchesState :=
  speed_matches_state_when_scaled_at_rest _
    (Ghost.ReachableScaledAtRest.setFeared _ _
      (Ghost.ReachableScaledAtRest.despawn _
        (Ghost.ReachableScaledAtRest.setBaseSpeed _ _
          (Ghost.ReachableScaledAtRest.construct _ _ _ _ _ _ _)
          (by simp [Ghost.new]) (by simp [Ghost.new]))))

/-! ## Level loading: induction principles -/

theorem mapCharAt_natCast (lines : List (List Char)) (c r : ℕ) :
    mapCharAt lines (c : ℤ) (r : ℤ) = (lines[r]?).bind (fun row => row[c]?) := by
  simp [mapCharAt]

theorem World.placeChar_snd (y : ℚ) (v : World) (x : ℚ) (ch : Char) :
    (World.placeChar y (v, x) ch).2 = x + v.B_width := rfl

theorem World.placeChar_B (y : ℚ) (v : World) (x : ℚ) (ch : Char) :
    (World.placeChar y (v, x) ch).1.B_width = v.B_width ∧
    (World.placeChar y (v, x) ch).1.B_height = v.B_height := by
  unfold World.placeChar
  simp only []
  split_ifs <;> simp

/-- Induction principle for the character loop of `initializeLevel` on row `r`. -/
theorem World.foldl_placeChar_induction (lines : List (List Char)) (bw bh : ℚ)
    (I : World → Prop) (r : ℕ) (y : ℚ)
    (hstep : ∀ (v : World) (c : ℕ) (ch : Char), v.B_width = bw → v.B_height = bh → I v →
      mapCharAt lines (c : ℤ) (r : ℤ) = some ch →
      I (World.placeChar y (v, -1 + bw / 2 + (c : ℚ) * bw) ch).1) :
    ∀ (rest : List Char) (c0 : ℕ) (v : World), v.B_width = bw → v.B_height = bh → I v →
      (∀ (i : ℕ) (ch : Char), rest[i]? = some ch →
        mapCharAt lines ((c0 + i : ℕ) : ℤ) (r : ℤ) = some ch) →
      I (rest.foldl (World.placeChar y) (v, -1 + bw / 2 + (c0 : ℚ) * bw)).1 ∧
      (rest.foldl (World.placeChar y) (v, -1 + bw / 2 + (c0 : ℚ) * bw)).1.B_width = bw ∧
      (rest.foldl (World.placeChar y) (v, -1 + bw / 2 + (c0 : ℚ) * bw)).1.B_height = bh := by
  intro rest
  induction rest with
  | nil => intro c0 v hw hh hI _; exact ⟨hI, hw, hh⟩
  | cons ch rest ih =>
    intro c0 v hw hh hI hmap
    have h0 : mapCharAt lines ((c0 : ℕ) : ℤ) (r : ℤ) = some ch := by
      have := hmap 0 ch (by simp)
      simpa using this
    have hI1 := hstep v c0 ch hw hh hI h0
    have hB := World.placeChar_B y v (-1 + bw / 2 + (c0 : ℚ) * bw) ch
    have hx : World.placeChar y (v, -1 + bw / 2 + (c0 : ℚ) * bw) ch =
        ((World.placeChar y (v, -1 + bw / 2 + (c0 : ℚ) * bw) ch).1,
          -1 + bw / 2 + ((c0 + 1 : ℕ) : ℚ) * bw) := by
      apply Prod.ext
      · rfl
      · rw [World.placeChar_snd, hw]; push_cast; ring
    rw [List.foldl_cons, hx]
    apply ih (c0 + 1) _ (hB.1.trans hw) (hB.2.trans hh) hI1
    intro i c hi
    have := hmap (i + 1) c (by simpa using hi)
    have e : c0 + (i + 1) = c0 + 1 + i := by omega
    rw [e] at this
    exact this



/-- Induction principle for the line loop of `initializeLevel`. -/
theorem World.foldl_placeLine_induction (lines : List (List Char)) (bw bh : ℚ)
    (I : World → Prop)
    (hstep : ∀ (v : World) (c r : ℕ) (ch : Char), v.B_width = bw → v.B_height = bh → I v →
      mapCharAt lines (c : ℤ) (r : ℤ) = some ch →
      I (World.placeChar (-1 + bh / 2 + (r : ℚ) * bh) (v, -1 + bw / 2 + (c : ℚ) * bw) ch).1) :
    ∀ (rest : List (List Char)) (r0 : ℕ) (v : World), v.B_width = bw → v.B_height = bh → I v →
      (∀ (j : ℕ) (row : List Char), rest[j]? = some row → lines[r0 + j]? = some row) →
      I (rest.foldl World.placeLine (v, -1 + bh / 2 + (r0 : ℚ) * bh)).1 ∧
      (rest.foldl World.placeLine (v, -1 + bh / 2 + (r0 : ℚ) * bh)).1.B_width = bw ∧
      (rest.foldl World.placeLine (v, -1 + bh / 2 + (r0 : ℚ) * bh)).1.B_height = bh := by
  intro rest
  induction rest with
  | nil => intro r0 v hw hh hI _; exact ⟨hI, hw, hh⟩
  | cons row rest ih =>
    intro r0 v hw hh hI hmap
    have hrow : lines[r0]? = some row := by
      have := hmap 0 row (by simp)
      simpa using this
    have hline := World.foldl_placeChar_induction lines bw bh I r0 (-1 + bh / 2 + (r0 : ℚ) * bh)
      (fun v c ch h1 h2 h3 h4 => hstep v c r0 ch h1 h2 h3 h4) row 0 v hw hh hI
      (by
        intro i ch hi
        rw [mapCharAt_natCast, hrow]
        simpa using hi)
    have hx : World.placeLine (v, -1 + bh / 2 + (r0 : ℚ) * bh) row =
        ((row.foldl (World.placeChar (-1 + bh / 2 + (r0 : ℚ) * bh))
            (v, -1 + bw / 2 + ((0 : ℕ) : ℚ) * bw)).1,
          -1 + bh / 2 + ((r0 + 1 : ℕ) : ℚ) * bh) := by
      simp only [World.placeLine, hw, hh]
      apply Prod.ext
      · simp
      · push_cast; ring
    rw [List.foldl_cons, hx]
    apply ih (r0 + 1) _ hline.2.1 hline.2.2 hline.1
    intro j c hj
    have := hmap (j + 1) c (by simpa using hj)
    have e : r0 + (j + 1) = r0 + 1 + j := by omega
    rw [e] at this
    exact this

/-- Induction principle for `initializeLevel`: a property that holds once the tile size is
set and is kept by the placement of every map character at its tile centre holds of the
loaded level. -/
theorem World.initializeLevel_induction (lines : List (List Char)) (w : World)
    (I : World → Prop)
    (h0 : I { w with B_width := 2 / ((getWidth lines : ℤ) : ℚ),
                     B_height := 2 / ((countLines lines : ℤ) : ℚ) })
    (hstep : ∀ (v : World) (c r : ℕ) (ch : Char),
      v.B_width = 2 / ((getWidth lines : ℤ) : ℚ) →
      v.B_height = 2 / ((countLines lines : ℤ) : ℚ) → I v →
      mapCharAt lines (c : ℤ) (r : ℤ) = some ch →
      I (World.placeChar (-1 + v.B_height / 2 + (r : ℚ) * v.B_height)
          (v, -1 + v.B_width / 2 + (c : ℚ) * v.B_width) ch).1)
    (hfinal : ∀ v : World, I v → I { v with gameStarted := false }) :
    ∃ w1 : World, w.initializeLevel (some lines) = Except.ok w1 ∧ I w1 ∧
      w1.B_width = 2 / ((getWidth lines : ℤ) : ℚ) ∧
      w1.B_height = 2 / ((countLines lines : ℤ) : ℚ) := by
  have h := World.foldl_placeLine_induction lines (2 / ((getWidth lines : ℤ) : ℚ))
    (2 / ((countLines lines : ℤ) : ℚ)) I
    (fun v c r ch h1 h2 h3 h4 => by
      have := hstep v c r ch h1 h2 h3 h4
      rw [h1, h2] at this
      exact this)
    lines 0
    { w with B_width := 2 / ((getWidth lines : ℤ) : ℚ),
             B_height := 2 / ((countLines lines : ℤ) : ℚ) } rfl rfl h0
    (by intro j row hj; simpa using hj)
  refine ⟨_, rfl, ?_, ?_, ?_⟩
  · apply hfinal
    simpa using h.1
  · simpa using h.2.1
  · simpa using h.2.2



theorem World.foldl_placeChar_establish (lines : List (List Char)) (bw bh : ℚ)
    (S : World → Prop) (r : ℕ) (y : ℚ) (cT : ℕ) (chT : Char)
    (hest : ∀ v : World, v.B_width = bw → v.B_height = bh →
      S (World.placeChar y (v, -1 + bw / 2 + (cT : ℚ) * bw) chT).1)
    (hstable : ∀ (v : World) (c : ℕ) (ch : Char), v.B_width = bw → v.B_height = bh → S v →
      mapCharAt lines (c : ℤ) (r : ℤ) = some ch →
      S (World.placeChar y (v, -1 + bw / 2 + (c : ℚ) * bw) ch).1) :
    ∀ (rest : List Char) (c0 : ℕ) (v : World), v.B_width = bw → v.B_height = bh →
      (∀ (i : ℕ) (ch : Char), rest[i]? = some ch →
        mapCharAt lines ((c0 + i : ℕ) : ℤ) (r : ℤ) = some ch) →
      (∃ i : ℕ, rest[i]? = some chT ∧ c0 + i = cT) →
      S (rest.foldl (World.placeChar y) (v, -1 + bw / 2 + (c0 : ℚ) * bw)).1 := by
  intro rest
  induction rest with
  | nil => intro c0 v _ _ _ h; obtain ⟨i, hi, _⟩ := h; simp at hi
  | cons ch rest ih =>
    intro c0 v hw hh hmap h
    obtain ⟨i, hi, hc⟩ := h
    have hB := World.placeChar_B y v (-1 + bw / 2 + (c0 : ℚ) * bw) ch
    have hx : World.placeChar y (v, -1 + bw / 2 + (c0 : ℚ) * bw) ch =
        ((World.placeChar y (v, -1 + bw / 2 + (c0 : ℚ) * bw) ch).1,
          -1 + bw / 2 + ((c0 + 1 : ℕ) : ℚ) * bw) := by
      apply Prod.ext
      · rfl
      · rw [World.placeChar_snd, hw]; push_cast; ring
    have hmap1 : ∀ (i : ℕ) (c : Char), rest[i]? = some c →
        mapCharAt lines ((c0 + 1 + i : ℕ) : ℤ) (r : ℤ) = some c := by
      intro i c hi
      have := hmap (i + 1) c (by simpa using hi)
      have e : c0 + (i + 1) = c0 + 1 + i := by omega
      rw [e] at this
      exact this
    rw [List.foldl_cons, hx]
    cases i with
    | zero =>
      simp at hi
      subst hi
      have hc0 : c0 = cT := by omega
      subst hc0
      exact (World.foldl_placeChar_induction lines bw bh S r y hstable rest (c0 + 1) _
        (hB.1.trans hw) (hB.2.trans hh) (hest v hw hh) hmap1).1
    | succ j =>
      apply ih (c0 + 1) _ (hB.1.trans hw) (hB.2.trans hh) hmap1
      exact ⟨j, by simpa using hi, by omega⟩

theorem World.foldl_placeLine_establish (lines : List (List Char)) (bw bh : ℚ)
    (S : World → Prop) (cT rT : ℕ) (chT : Char)
    (hest : ∀ v : World, v.B_width = bw → v.B_height = bh →
      S (World.placeChar (-1 + bh / 2 + (rT : ℚ) * bh)
        (v, -1 + bw / 2 + (cT : ℚ) * bw) chT).1)
    (hstable : ∀ (v : World) (c r : ℕ) (ch : Char), v.B_width = bw → v.B_height = bh → S v →
      mapCharAt lines (c : ℤ) (r : ℤ) = some ch →
      S (World.placeChar (-1 + bh / 2 + (r : ℚ) * bh) (v, -1 + bw / 2 + (c : ℚ) * bw) ch).1) :
    ∀ (rest : List (List Char)) (r0 : ℕ) (v : World), v.B_width = bw → v.B_height = bh →
      (∀ (j : ℕ) (row : List Char), rest[j]? = some row → lines[r0 + j]? = some row) →
      (∃ (j : ℕ) (row : List Char), rest[j]? = some row ∧ r0 + j = rT ∧ row[cT]? = some chT) →
      S (rest.foldl World.placeLine (v, -1 + bh / 2 + (r0 : ℚ) * bh)).1 := by
  intro rest
  induction rest with
  | nil => intro r0 v _ _ _ h; obtain ⟨j, row, hj, _⟩ := h; simp at hj
  | cons row rest ih =>
    intro r0 v hw hh hmap h
    obtain ⟨j, rowT, hj, hr, hc⟩ := h
    have hrow : lines[r0]? = some row := by
      have := hmap 0 row (by simp)
      simpa using this
    have hmapRow : ∀ (i : ℕ) (ch : Char), row[i]? = some ch →
        mapCharAt lines ((0 + i : ℕ) : ℤ) (r0 : ℤ) = some ch := by
      intro i ch hi
      rw [mapCharAt_natCast, hrow]
      simpa using hi
    have hmap1 : ∀ (j : ℕ) (c : List Char), rest[j]? = some c →
        lines[r0 + 1 + j]? = some c := by
      intro j c hj
      have := hmap (j + 1) c (by simpa using hj)
      have e : r0 + (j + 1) = r0 + 1 + j := by omega
      rw [e] at this
      exact this
    have hx : World.placeLine (v, -1 + bh / 2 + (r0 : ℚ) * bh) row =
        ((row.foldl (World.placeChar (-1 + bh / 2 + (r0 : ℚ) * bh))
            (v, -1 + bw / 2 + ((0 : ℕ) : ℚ) * bw)).1,
          -1 + bh / 2 + ((r0 + 1 : ℕ) : ℚ) * bh) := by
      simp only [World.placeLine, hw, hh]
      apply Prod.ext
      · simp
      · push_cast; ring
    have hB := World.foldl_placeChar_induction lines bw bh (fun _ => True) r0
      (-1 + bh / 2 + (r0 : ℚ) * bh) (fun _ _ _ _ _ _ _ => trivial) row 0 v hw hh trivial hmapRow
    rw [List.foldl_cons, hx]
    cases j with
    | zero =>
      simp at hj
      subst hj
      have hr0 : r0 = rT := by omega
      subst hr0
      have hS := World.foldl_placeChar_establish lines bw bh S r0
        (-1 + bh / 2 + (r0 : ℚ) * bh) cT chT hest
        (fun v c ch h1 h2 h3 h4 => hstable v c r0 ch h1 h2 h3 h4) row 0 v hw hh hmapRow
        ⟨cT, hc, by omega⟩
      exact (World.foldl_placeLine_induction lines bw bh S hstable rest (r0 + 1) _
        hB.2.1 hB.2.2 hS hmap1).1
    | succ k =>
      apply ih (r0 + 1) _ hB.2.1 hB.2.2 hmap1
      exact ⟨k, rowT, by simpa using hj, by omega, hc⟩

/-- Establishing principle for `initializeLevel`: a property that the placement of the
character of one map cell establishes, and that the placement of every map character at its
tile centre keeps, holds of the loaded level. -/
theorem World.initializeLevel_establish (lines : List (List Char)) (w : World)
    (S : World → Prop) (cT rT : ℕ) (chT : Char)
    (hcell : mapCharAt lines (cT : ℤ) (rT : ℤ) = some chT)
    (hest : ∀ v : World, v.B_width = 2 / ((getWidth lines : ℤ) : ℚ) →
      v.B_height = 2 / ((countLines lines : ℤ) : ℚ) →
      S (World.placeChar (-1 + v.B_height / 2 + (rT : ℚ) * v.B_height)
        (v, -1 + v.B_width / 2 + (cT : ℚ) * v.B_width) chT).1)
    (hstable : ∀ (v : World) (c r : ℕ) (ch : Char),
      v.B_width = 2 / ((getWidth lines : ℤ) : ℚ) →
      v.B_height = 2 / ((countLines lines : ℤ) : ℚ) → S v →
      mapCharAt lines (c : ℤ) (r : ℤ) = some ch →
      S (World.placeChar (-1 + v.B_height / 2 + (r : ℚ) * v.B_height)
          (v, -1 + v.B_width / 2 + (c : ℚ) * v.B_width) ch).1)
    (hfinal : ∀ v : World, S v → S { v with gameStarted := false }) :
    ∃ w1 : World, w.initializeLevel (some lines) = Except.ok w1 ∧ S w1 := by
  have hcell2 : ∃ row, lines[rT]? = some row ∧ row[cT]? = some chT := by
    rw [mapCharAt_natCast] at hcell
    cases hrow : lines[rT]? with
    | none => simp [hrow] at hcell
    | some row => exact ⟨row, rfl, by simpa [hrow] using hcell⟩
  obtain ⟨row, hrow, hc⟩ := hcell2
  have h := World.foldl_placeLine_establish lines (2 / ((getWidth lines : ℤ) : ℚ))
    (2 / ((countLines lines : ℤ) : ℚ)) S cT rT chT
    (fun v h1 h2 => by
      have := hest v h1 h2
      rw [h1, h2] at this
      exact this)
    (fun v c r ch h1 h2 h3 h4 => by
      have := hstable v c r ch h1 h2 h3 h4
      rw [h1, h2] at this
      exact this)
    lines 0
    { w with B_width := 2 / ((getWidth lines : ℤ) : ℚ),
             B_height := 2 / ((countLines lines : ℤ) : ℚ) } rfl rfl
    (by intro j row hj; simpa using hj)
    ⟨rT, row, hrow, by omega, hc⟩
  refine ⟨_, rfl, ?_⟩
  apply hfinal
  simpa using h

/-! ## Level loading: the player -/

theorem World.placeChar_pacman_of_ne (y : ℚ) (v : World) (x : ℚ) (ch : Char) (h : ch ≠ 'P') :
    (World.placeChar y (v, x) ch).1.pacman = v.pacman := by
  unfold World.placeChar
  simp only []
  split_ifs <;> simp_all

theorem World.placeChar_P_lives (y : ℚ) (v : World) (x : ℚ) :
    ∃ p, (World.placeChar y (v, x) 'P').1.pacman = some p ∧ p.lives = 3 ∧ p.dying = false := by
  simp +decide [World.placeChar, Pacman.new]

theorem World.placeChar_fresh_stable (y : ℚ) (v : World) (x : ℚ) (ch : Char)
    (h : ∃ p, v.pacman = some p ∧ p.lives = 3 ∧ p.dying = false) :
    ∃ p, (World.placeChar y (v, x) ch).1.pacman = some p ∧ p.lives = 3 ∧ p.dying = false := by
  by_cases hc : ch = 'P'
  · subst hc; exact World.placeChar_P_lives y v x
  · rw [World.placeChar_pacman_of_ne _ _ _ _ hc]; exact h

/-- After `initializeLevel` on a map with a `P`, the player is a fresh object. -/
theorem World.initializeLevel_fresh_player (lines : List (List Char)) (w : World) (c r : ℕ)
    (hP : mapCharAt lines (c : ℤ) (r : ℤ) = some 'P') :
    ∃ w1 : World, w.initializeLevel (some lines) = Except.ok w1 ∧
      ∃ p, w1.pacman = some p ∧ p.lives = 3 ∧ p.dying = false :=
  World.initializeLevel_establish lines w
    (fun v => ∃ p, v.pacman = some p ∧ p.lives = 3 ∧ p.dying = false) c r 'P' hP
    (fun v _ _ => World.placeChar_P_lives _ v _)
    (fun v _ _ ch _ _ h _ => World.placeChar_fresh_stable _ v _ ch h)
    (fun _ h => h)

/-- C3 (evaluation of the code): whenever the map holds a `P`, `World::nextLevel` succeeds
and the lives count is 3 afterwards, whatever it was before: `initializeLevel` replaces the
player by a freshly constructed one, so the lives are reset by the level transition. -/
theorem nextLevel_resets_lives_to_three (lines : List (List Char)) (w : World) (c r : ℕ)
    (hP : mapCharAt lines (c : ℤ) (r : ℤ) = some 'P') :
    ∃ w1 : World, w.nextLevel (some lines) = Except.ok w1 ∧ w1.getLives = 3 := by
  obtain ⟨w3, h3, p, hp, hl, _⟩ := World.initializeLevel_fresh_player lines
    { w with scoreSystem := w.scoreSystem.onLevelCleared, currentLevel := w.currentLevel + 1,
             coins := [], fruits := [], ghosts := [] } c r hP
  have hn : ∃ w1, w.nextLevel (some lines) = Except.ok w1 ∧ w1.pacman = some p.respawn := by
    unfold World.nextLevel
    simp only [h3, hp]
    exact ⟨_, rfl, rfl⟩
  obtain ⟨w1, h1, hp1⟩ := hn
  exact ⟨w1, h1, by simp [World.getLives, hp1, Pacman.respawn, hl]⟩

/-- C3, witness: the corridor level with two lives left has three lives after `nextLevel`. -/
theorem nextLevel_resets_lives_witness :
    corridorWorldTwoLives.getLives = 2 ∧
    ∃ w1 : World, corridorWorldTwoLives.nextLevel (some corridorMap) = Except.ok w1 ∧
      w1.getLives = 3 :=
  ⟨rfl, nextLevel_resets_lives_to_three corridorMap corridorWorldTwoLives 0 0 (by decide)⟩

/-! ## Player tile controller: what each step keeps -/

theorem Pacman.sameCore_refl (p : Pacman) : p.sameCore p := ⟨rfl, rfl, rfl, rfl⟩

theorem Pacman.sameCore_trans {p q r : Pacman} (h1 : p.sameCore q) (h2 : q.sameCore r) :
    p.sameCore r :=
  ⟨h2.1.trans h1.1, h2.2.1.trans h1.2.1, h2.2.2.1.trans h1.2.2.1, h2.2.2.2.trans h1.2.2.2⟩

theorem Pacman.setDirection_sameCore (d : Char) (p : Pacman) : p.sameCore (p.setDirection d) := by
  unfold Pacman.setDirection Pacman.sameCore
  split_ifs <;> simp

theorem Pacman.setMoving_sameCore (b : Bool) (p : Pacman) : p.sameCore (p.setMoving b) :=
  ⟨rfl, rfl, rfl, rfl⟩

theorem Pacman.setPosition_sameCore (x y : ℚ) (p : Pacman) : p.sameCore (p.setPosition x y) :=
  ⟨rfl, rfl, rfl, rfl⟩

theorem World.sameMaze_refl (w : World) : w.sameMaze w := ⟨rfl, rfl, rfl⟩

theorem World.sameMaze_trans {u v w : World} (h1 : u.sameMaze v) (h2 : v.sameMaze w) :
    u.sameMaze w :=
  ⟨h2.1.trans h1.1, h2.2.1.trans h1.2.1, h2.2.2.trans h1.2.2⟩

theorem World.bufferInput_keeps (input : Char) (w : World) :
    w.sameMaze (w.bufferInput input) ∧ w.sameTile (w.bufferInput input) := by
  unfold World.bufferInput World.sameMaze World.sameTile
  split_ifs <;> simp

theorem World.instantReversalStep_keeps (w : World) (p : Pacman) :
    w.sameMaze (w.instantReversalStep p).1 ∧ p.sameCore (w.instantReversalStep p).2.1 := by
  unfold World.instantReversalStep
  simp only []
  split_ifs
  · exact ⟨⟨rfl, rfl, rfl⟩, Pacman.setDirection_sameCore _ _⟩
  · exact ⟨⟨rfl, rfl, rfl⟩, Pacman.sameCore_refl _⟩

theorem World.instantReversalStep_false (w : World) (p : Pacman)
    (h : (w.instantReversalStep p).2.2 = false) : (w.instantReversalStep p).1 = w := by
  unfold World.instantReversalStep at h ⊢
  simp only [] at h ⊢
  split_ifs at h ⊢
  rfl

theorem World.applyBufferedInput_keeps (w : World) (p : Pacman) :
    w.sameMaze (w.applyBufferedInput p).1 ∧ p.sameCore (w.applyBufferedInput p).2 ∧
    (w.applyBufferedInput p).1.pacmanTileX = w.pacmanTileX ∧
    (w.applyBufferedInput p).1.pacmanTileY = w.pacmanTileY ∧
    (w.applyBufferedInput p).1.pacmanTileProgress = w.pacmanTileProgress := by
  unfold World.applyBufferedInput
  simp only []
  split_ifs
  · exact ⟨⟨rfl, rfl, rfl⟩, Pacman.setDirection_sameCore _ _, rfl, rfl, rfl⟩
  · exact ⟨⟨rfl, rfl, rfl⟩, Pacman.sameCore_refl _, rfl, rfl, rfl⟩
  · exact ⟨⟨rfl, rfl, rfl⟩, Pacman.sameCore_refl _, rfl, rfl, rfl⟩

theorem World.stopAtWall_keeps (w : World) (p : Pacman) :
    w.sameMaze (w.stopAtWall p).1 ∧ p.sameCore (w.stopAtWall p).2 ∧
    (w.stopAtWall p).1.pacmanTileX = w.pacmanTileX ∧
    (w.stopAtWall p).1.pacmanTileY = w.pacmanTileY ∧
    (w.stopAtWall p).1.pacmanTileProgress = w.pacmanTileProgress := by
  unfold World.stopAtWall
  simp only []
  split_ifs
  · exact ⟨⟨rfl, rfl, rfl⟩,
      Pacman.sameCore_trans (Pacman.setDirection_sameCore _ _) (Pacman.setMoving_sameCore _ _),
      rfl, rfl, rfl⟩
  · exact ⟨⟨rfl, rfl, rfl⟩, Pacman.sameCore_refl _, rfl, rfl, rfl⟩
  · exact ⟨⟨rfl, rfl, rfl⟩, Pacman.sameCore_refl _, rfl, rfl, rfl⟩

theorem World.tileCenterStep_keeps (w : World) (p : Pacman) :
    w.sameMaze (w.tileCenterStep p).1 ∧ p.sameCore (w.tileCenterStep p).2 ∧
    (w.tileCenterStep p).1.pacmanTileX = w.pacmanTileX ∧
    (w.tileCenterStep p).1.pacmanTileY = w.pacmanTileY ∧
    (w.tileCenterStep p).1.pacmanTileProgress = w.pacmanTileProgress := by
  unfold World.tileCenterStep
  have a := w.applyBufferedInput_keeps p
  have s := (w.applyBufferedInput p).1.stopAtWall_keeps (w.applyBufferedInput p).2
  exact ⟨World.sameMaze_trans a.1 s.1, Pacman.sameCore_trans a.2.1 s.2.1,
    s.2.2.1.trans a.2.2.1, s.2.2.2.1.trans a.2.2.2.1, s.2.2.2.2.trans a.2.2.2.2⟩

theorem World.advanceStep_keeps (delta : ℚ) (w : World) (p : Pacman) :
    w.sameMaze (w.advanceStep delta p).1 ∧ p.sameCore (w.advanceStep delta p).2 := by
  unfold World.advanceStep
  simp only []
  split_ifs
  · exact ⟨⟨rfl, rfl, rfl⟩, Pacman.setMoving_sameCore _ _⟩
  · exact ⟨⟨rfl, rfl, rfl⟩, Pacman.setMoving_sameCore _ _⟩
  · exact ⟨⟨rfl, rfl, rfl⟩, Pacman.setMoving_sameCore _ _⟩

/-- The tile controller writes neither the maze nor the lives, dying flag and spawn point of
the player. -/
theorem World.updatePacmanTileBased_keeps (dt : ℚ) (input : Char) (w : World) (p : Pacman) :
    w.sameMaze (w.updatePacmanTileBased dt input p).1 ∧
    p.sameCore (w.updatePacmanTileBased dt input p).2 := by
  unfold World.updatePacmanTileBased
  simp only []
  have b := w.bufferInput_keeps input
  have r := (w.bufferInput input).instantReversalStep_keeps p
  split_ifs
  · have c := ((w.bufferInput input).instantReversalStep p).1.tileCenterStep_keeps
      ((w.bufferInput input).instantReversalStep p).2.1
    have a := (((w.bufferInput input).instantReversalStep p).1.tileCenterStep
      ((w.bufferInput input).instantReversalStep p).2.1).1.advanceStep_keeps (5 * dt)
      (((w.bufferInput input).instantReversalStep p).1.tileCenterStep
        ((w.bufferInput input).instantReversalStep p).2.1).2
    exact ⟨World.sameMaze_trans (World.sameMaze_trans (World.sameMaze_trans b.1 r.1) c.1) a.1,
      Pacman.sameCore_trans (Pacman.sameCore_trans (Pacman.sameCore_trans r.2 c.2.1) a.2)
        (Pacman.setPosition_sameCore _ _ _)⟩
  · have a := ((w.bufferInput input).instantReversalStep p).1.advanceStep_keeps (5 * dt)
      ((w.bufferInput input).instantReversalStep p).2.1
    exact ⟨World.sameMaze_trans (World.sameMaze_trans b.1 r.1) a.1,
      Pacman.sameCore_trans (Pacman.sameCore_trans r.2 a.2) (Pacman.setPosition_sameCore _ _ _)⟩

/-! ## Player tile controller: progress and walls -/

theorem World.instantReversalStep_progress (w : World) (p : Pacman) (h : ProgressInv w) :
    ProgressInv (w.instantReversalStep p).1 := by
  unfold World.instantReversalStep
  simp only []
  split_ifs with hc
  · obtain ⟨_, _, h0, _⟩ := hc
    unfold ProgressInv at h ⊢
    simp only []
    constructor <;> linarith [h.1, h.2]
  · exact h

theorem World.advanceStep_progress (delta : ℚ) (hd : 0 ≤ delta) (w : World) (p : Pacman)
    (h : ProgressInv w) : ProgressInv (w.advanceStep delta p).1 := by
  unfold World.advanceStep
  simp only []
  unfold ProgressInv at h ⊢
  split_ifs with h1 h2
  · simp
  · simp only []
    push_neg at h2
    constructor <;> linarith [h.1, h.2]
  · exact h

/-- The tile controller keeps the progress in `[0, 1)` for every elapsed time `dt ≥ 0`. -/
theorem World.updatePacmanTileBased_progress (dt : ℚ) (hdt : 0 ≤ dt) (input : Char) (w : World)
    (p : Pacman) (h : ProgressInv w) : ProgressInv (w.updatePacmanTileBased dt input p).1 := by
  unfold World.updatePacmanTileBased
  simp only []
  have hb : ProgressInv (w.bufferInput input) := by
    have := (w.bufferInput_keeps input).2.2.2.1
    unfold ProgressInv at h ⊢
    rw [this]; exact h
  have hr := (w.bufferInput input).instantReversalStep_progress p hb
  have h5 : (0 : ℚ) ≤ 5 * dt := by linarith
  split_ifs
  · apply World.advanceStep_progress _ h5
    have c := ((w.bufferInput input).instantReversalStep p).1.tileCenterStep_keeps
      ((w.bufferInput input).instantReversalStep p).2.1
    unfold ProgressInv at hr ⊢
    rw [c.2.2.2.2]; exact hr
  · exact World.advanceStep_progress _ h5 _ _ hr

theorem WallsLoaded_of_sameMaze (lines : List (List Char)) {w v : World} (hm : w.sameMaze v)
    (h : WallsLoaded lines w) : WallsLoaded lines v := by
  obtain ⟨h1, h2, h3⟩ := hm
  unfold WallsLoaded World.getPositionFromTile at h ⊢
  rw [h1, h2, h3]
  exact h

/-- A wall tile of the map is reported as a wall by `isTileWall`. -/
theorem World.isTileWall_of_isWallTile (lines : List (List Char)) (w : World)
    (hw : WallsLoaded lines w) (tx ty : Int) (h : isWallTile lines tx ty) :
    w.isTileWall tx ty = true := by
  unfold isWallTile mapCharAt at h
  split_ifs at h with hnn
  obtain ⟨hx, hy⟩ := hnn
  obtain ⟨bw, _, hwalls⟩ := hw
  have hcell : mapCharAt lines ((tx.toNat : ℕ) : ℤ) ((ty.toNat : ℕ) : ℤ) = some '#' := by
    rw [mapCharAt_natCast]; exact h
  obtain ⟨e, he, hex, hey⟩ := hwalls tx.toNat ty.toNat hcell
  rw [Int.toNat_of_nonneg hx, Int.toNat_of_nonneg hy] at hex hey
  unfold World.isTileWall
  simp only [List.any_eq_true, Bool.and_eq_true, decide_eq_true_eq]
  refine ⟨e, he, ?_, ?_⟩
  · rw [hex]; simp; positivity
  · rw [hey]; simp; positivity

theorem stepTile_blank (tx ty : Int) : stepTile ' ' tx ty = (tx, ty) := by
  simp +decide [stepTile]

theorem World.instantReversalStep_tile (lines : List (List Char)) (w : World) (p : Pacman)
    (h : TileCore lines w) (hr : (w.instantReversalStep p).2.2 = true) :
    TileStrong lines (w.instantReversalStep p).1 := by
  have hprog := w.instantReversalStep_progress p h.1
  unfold World.instantReversalStep at hr hprog ⊢
  simp only [] at hr hprog ⊢
  split_ifs at hr hprog ⊢ with hc
  obtain ⟨_, _, h0, hopp⟩ := hc
  simp only [World.isOppositeInput, decide_eq_true_eq] at hopp
  refine ⟨hprog, ?_, ?_⟩
  · exact h.2.2 h0
  · simp only []
    rw [stepTile_back _ _ _ _ hopp]
    exact h.2.1

theorem World.stopAtWall_tile (lines : List (List Char)) (w : World) (p : Pacman)
    (hw : WallsLoaded lines w) (hp : ProgressInv w)
    (ht : ¬ isWallTile lines w.pacmanTileX w.pacmanTileY) :
    TileStrong lines (w.stopAtWall p).1 := by
  unfold World.stopAtWall
  simp only []
  split_ifs with h1 h2
  · refine ⟨hp, ht, ?_⟩
    simp only []
    rw [stepTile_blank]
    exact ht
  · refine ⟨hp, ht, ?_⟩
    intro hwall
    have := World.isTileWall_of_isWallTile lines w hw _ _ hwall
    exact h2 this
  · refine ⟨hp, ht, ?_⟩
    push_neg at h1
    rw [h1, stepTile_blank]
    exact ht

theorem World.tileCenterStep_tile (lines : List (List Char)) (w : World) (p : Pacman)
    (hw : WallsLoaded lines w) (hp : ProgressInv w)
    (ht : ¬ isWallTile lines w.pacmanTileX w.pacmanTileY) :
    TileStrong lines (w.tileCenterStep p).1 := by
  unfold World.tileCenterStep
  have a := w.applyBufferedInput_keeps p
  apply World.stopAtWall_tile lines _ _ (WallsLoaded_of_sameMaze lines a.1 hw)
  · unfold ProgressInv at hp ⊢
    rw [a.2.2.2.2]; exact hp
  · rw [a.2.2.1, a.2.2.2.1]; exact ht

theorem World.advanceStep_tile (lines : List (List Char)) (delta : ℚ) (hd : 0 ≤ delta)
    (w : World) (p : Pacman) (h : TileStrong lines w) :
    TileCore lines (w.advanceStep delta p).1 := by
  have hprog := w.advanceStep_progress delta hd p h.1
  unfold World.advanceStep at hprog ⊢
  simp only [] at hprog ⊢
  split_ifs at hprog ⊢ with h1 h2
  · refine ⟨hprog, h.2.2, ?_⟩
    intro hpos
    simp at hpos
  · exact ⟨hprog, h.2.1, fun _ => h.2.2⟩
  · exact ⟨hprog, h.2.1, fun _ => h.2.2⟩

/-- The tile controller keeps the player off the wall tiles of the map, for every input and
every elapsed time `dt ≥ 0`. -/
theorem World.updatePacmanTileBased_tile (lines : List (List Char)) (dt : ℚ) (hdt : 0 ≤ dt)
    (input : Char) (w : World) (p : Pacman) (hw : WallsLoaded lines w)
    (h : TileCore lines w) : TileCore lines (w.updatePacmanTileBased dt input p).1 := by
  have hb : TileCore lines (w.bufferInput input) := by
    obtain ⟨_, h1, h2, h3, h4⟩ := w.bufferInput_keeps input
    unfold TileCore ProgressInv at h ⊢
    rw [h1, h2, h3, h4]; exact h
  have hwb : WallsLoaded lines (w.bufferInput input) :=
    WallsLoaded_of_sameMaze lines (w.bufferInput_keeps input).1 hw
  have h5 : (0 : ℚ) ≤ 5 * dt := by linarith
  unfold World.updatePacmanTileBased
  simp only []
  cases hr : ((w.bufferInput input).instantReversalStep p).2.2 with
  | true =>
    simp only [Bool.true_eq_false, false_and, if_false]
    exact World.advanceStep_tile lines _ h5 _ _
      (World.instantReversalStep_tile lines _ p hb hr)
  | false =>
    have heq := (w.bufferInput input).instantReversalStep_false p hr
    split_ifs with hc
    · apply World.advanceStep_tile lines _ h5
      apply World.tileCenterStep_tile lines
      · rw [heq]; exact hwb
      · rw [heq]; exact hb.1
      · rw [heq]; exact hb.2.1
    · apply World.advanceStep_tile lines _ h5
      rw [heq] at hc ⊢
      have hpos : 0 < (w.bufferInput input).pacmanTileProgress := by
        have h0 := hb.1.1
        have hne : (w.bufferInput input).pacmanTileProgress ≠ 0 := by
          intro h'; exact hc ⟨rfl, h'⟩
        exact lt_of_le_of_ne h0 (Ne.symm hne)
      exact ⟨hb.1, hb.2.1, hb.2.2 hpos⟩

/-! ## Frames: what `update` does to maze, tile state and player -/

theorem truncToInt_natCast_add_half (c : ℕ) : truncToInt ((c : ℚ) + 1 / 2) = (c : ℤ) := by
  unfold truncToInt
  have h0 : (0 : ℚ) ≤ (c : ℚ) + 1 / 2 := by positivity
  rw [if_pos h0, Int.floor_eq_iff]
  constructor
  · push_cast; linarith
  · push_cast; linarith

/-- The tile of a tile centre is the tile itself. -/
theorem World.getTileFromPosition_center (w : World) (hw : 0 < w.B_width) (hh : 0 < w.B_height)
    (c r : ℕ) :
    w.getTileFromPosition (w.getPositionFromTile (c : ℤ) (r : ℤ)).1
      (w.getPositionFromTile (c : ℤ) (r : ℤ)).2 = ((c : ℤ), (r : ℤ)) := by
  unfold World.getTileFromPosition World.getPositionFromTile
  simp only []
  have e1 : (-1 + ((c : ℤ) : ℚ) * w.B_width + w.B_width / 2 + 1) / w.B_width
      = (c : ℚ) + 1 / 2 := by
    field_simp; ring
  have e2 : (-1 + ((r : ℤ) : ℚ) * w.B_height + w.B_height / 2 + 1) / w.B_height
      = (r : ℚ) + 1 / 2 := by
    field_simp; ring
  rw [e1, e2, truncToInt_natCast_add_half, truncToInt_natCast_add_half]

theorem World.ghostLoop_pacman (sqrtf : ℚ → ℚ) (dt : ℚ) (w : World) (p : Pacman) :
    ∀ (todo done : List Ghost) (sc : Score) (rng : Random),
      (ghostLoop sqrtf dt w p done todo sc rng).pacman = p ∨
      (ghostLoop sqrtf dt w p done todo sc rng).pacman = p.die := by
  intro todo
  induction todo with
  | nil => intro done sc rng; left; rfl
  | cons g rest ih =>
    intro done sc rng
    unfold World.ghostLoop
    simp only []
    split_ifs
    all_goals first
      | (right; rfl)
      | exact ih _ _ _

/-- What `playFrame` leaves of the tile controller's result: maze and tile state are those the
controller produced, and the player object is the controller's, possibly after `die()`. -/
theorem World.playFrame_shape (sqrtf : ℚ → ℚ) (dt : ℚ) (input : Char) (w : World) (p0 : Pacman)
    (rng : Random) :
    (w.updatePacmanTileBased dt input p0).1.sameMaze (playFrame sqrtf dt input w p0 rng).1 ∧
    (w.updatePacmanTileBased dt input p0).1.sameTile (playFrame sqrtf dt input w p0 rng).1 ∧
    ((playFrame sqrtf dt input w p0 rng).1.pacman = some (w.updatePacmanTileBased dt input p0).2 ∨
     (playFrame sqrtf dt input w p0 rng).1.pacman
       = some (w.updatePacmanTileBased dt input p0).2.die) := by
  unfold World.playFrame
  simp only []
  generalize hgl : (if (w.updatePacmanTileBased dt input p0).1.gameStarted = true then
      ghostLoop sqrtf dt (w.updatePacmanTileBased dt input p0).1
        (w.updatePacmanTileBased dt input p0).2 []
        (w.updatePacmanTileBased dt input p0).1.ghosts
        (w.updatePacmanTileBased dt input p0).1.scoreSystem rng
    else
      ({ died := false, pacman := (w.updatePacmanTileBased dt input p0).2,
         ghosts := (w.updatePacmanTileBased dt input p0).1.ghosts,
         score := (w.updatePacmanTileBased dt input p0).1.scoreSystem,
         rng := rng } : GhostLoopResult)) = gl
  have hglp : gl.pacman = (w.updatePacmanTileBased dt input p0).2 ∨
      gl.pacman = (w.updatePacmanTileBased dt input p0).2.die := by
    rw [← hgl]
    split_ifs
    · exact World.ghostLoop_pacman _ _ _ _ _ _ _ _
    · left; rfl
  split_ifs
  all_goals
    refine ⟨⟨rfl, rfl, rfl⟩, ⟨rfl, rfl, rfl, rfl⟩, ?_⟩
    rcases hglp with h | h
    · left; simp only [h]
    · right; simp only [h]

/-- What the dying branch of `update` does to maze, tile state and player. -/
theorem World.dyingFrame_shape (dt : ℚ) (w w1 : World) (p0 : Pacman) (hd : p0.dying = true)
    (h : dyingFrame dt w p0 = some w1) :
    w.sameMaze w1 ∧
    ((w.sameTile w1 ∧ ∃ q, w1.pacman = some q ∧ p0.sameCore q) ∨
     (0 < p0.lives ∧ ∃ q, w1.pacman = some q ∧ q.lives = p0.lives ∧ q.dying = false ∧
        q.spawnX = p0.spawnX ∧ q.spawnY = p0.spawnY ∧
        (w1.pacmanTileX, w1.pacmanTileY) = w.getTileFromPosition p0.spawnX p0.spawnY ∧
        w1.pacmanTileProgress = 0 ∧ w1.pacmanMoveDir = ' ')) := by
  have hu : p0.update dt = { p0 with deathTimer := p0.deathTimer + dt } := by
    simp [Pacman.update, Pacman.updateDeath, hd]
  unfold World.dyingFrame at h
  simp only [hu] at h
  split_ifs at h with h1 h2
  · simp only [World.resetPositions, Option.some.injEq] at h
    subst h
    refine ⟨⟨rfl, rfl, rfl⟩, Or.inr ⟨h2, _, rfl, rfl, rfl, rfl, rfl, rfl, rfl, rfl⟩⟩
  · simp only [Option.some.injEq] at h
    subst h
    exact ⟨⟨rfl, rfl, rfl⟩, Or.inl ⟨⟨rfl, rfl, rfl, rfl⟩, _, rfl, ⟨rfl, rfl, rfl, rfl⟩⟩⟩
  · simp only [Option.some.injEq] at h
    subst h
    exact ⟨⟨rfl, rfl, rfl⟩, Or.inl ⟨⟨rfl, rfl, rfl, rfl⟩, _, rfl, ⟨rfl, rfl, rfl, rfl⟩⟩⟩

theorem some_pair_fst {α β : Type} {x : α × β} {a : α} {b : β} (h : some x = some (a, b)) :
    x.1 = a := by
  cases h; rfl

/-- The three ways a frame can go: the dying branch, a frame that only waits for a start input,
and a played frame. -/
theorem World.update_shape (sqrtf : ℚ → ℚ) (dt : ℚ) (input : Char) (w w1 : World)
    (rng rng1 : Random) (h : w.update sqrtf dt input rng = some (w1, rng1)) :
    ∃ p0, w.pacman = some p0 ∧
      ((p0.dying = true ∧ ∃ v : World, w.sameMaze v ∧ w.sameTile v ∧
          dyingFrame dt v p0 = some w1) ∨
       (p0.dying = false ∧ w.sameMaze w1 ∧ w.sameTile w1 ∧ w1.pacman = some p0) ∨
       (p0.dying = false ∧ ∃ ws : World, w.sameMaze ws ∧ w.sameTile ws ∧
          w1 = (playFrame sqrtf dt input ws p0 rng).1)) := by
  unfold World.update at h
  split at h
  · simp at h
  · rename_i p0 hp
    refine ⟨p0, hp, ?_⟩
    simp only [] at h
    by_cases hd : p0.dying = true
    · rw [if_pos hd] at h
      left
      refine ⟨hd, { w with scoreSystem := w.scoreSystem.update dt }, ⟨rfl, rfl, rfl⟩,
        ⟨rfl, rfl, rfl, rfl⟩, ?_⟩
      split at h
      · simp at h
      · rename_i v hv
        have e := some_pair_fst h
        simp only [] at e
        rw [← e]
        exact hv
    · rw [if_neg hd] at h
      simp only [Bool.not_eq_true] at hd
      split_ifs at h
      all_goals
        have e := some_pair_fst h
        subst e
      all_goals first
        | (right; left; exact ⟨hd, ⟨rfl, rfl, rfl⟩, ⟨rfl, rfl, rfl, rfl⟩, hp⟩)
        | (right; right; refine ⟨hd, _, ?_, ?_, rfl⟩
           · exact ⟨rfl, rfl, rfl⟩
           · exact ⟨rfl, rfl, rfl, rfl⟩)

/-! ## Level loading: maze and player of the loaded level -/

theorem World.new_eq (file : Option (List (List Char))) :
    World.new file = World.blank.initializeLevel file := by
  unfold World.new
  split <;> simp_all

theorem World.placeChar_of_ne (y : ℚ) (v : World) (x : ℚ) (ch : Char) (h : ch ≠ 'P') :
    (World.placeChar y (v, x) ch).1.pacman = v.pacman ∧
    v.sameTile (World.placeChar y (v, x) ch).1 := by
  unfold World.placeChar
  simp only []
  split_ifs
  all_goals exact ⟨rfl, ⟨rfl, rfl, rfl, rfl⟩⟩

theorem World.placeChar_walls_mono (y : ℚ) (v : World) (x : ℚ) (ch : Char) (e : Entity)
    (h : e ∈ v.walls) : e ∈ (World.placeChar y (v, x) ch).1.walls := by
  unfold World.placeChar
  simp only []
  split_ifs
  all_goals first
    | exact h
    | exact List.mem_append_left _ h

theorem World.placeChar_wall (y : ℚ) (v : World) (x : ℚ) :
    ({ x := x, y := y, width := v.B_width, height := v.B_height } : Entity)
      ∈ (World.placeChar y (v, x) '#').1.walls := by
  simp [World.placeChar]

theorem World.placeChar_progress (y : ℚ) (v : World) (x : ℚ) (ch : Char) (h : ProgressInv v) :
    ProgressInv (World.placeChar y (v, x) ch).1 := by
  by_cases hc : ch = 'P'
  · subst hc
    simp +decide [World.placeChar, ProgressInv]
  · have := (World.placeChar_of_ne y v x ch hc).2.2.2.1
    unfold ProgressInv at h ⊢
    rw [this]; exact h

theorem World.getPositionFromTile_congr {v w : World} (h1 : w.B_width = v.B_width)
    (h2 : w.B_height = v.B_height) (tx ty : Int) :
    w.getPositionFromTile tx ty = v.getPositionFromTile tx ty := by
  unfold World.getPositionFromTile
  rw [h1, h2]

theorem World.placeChar_P_freshAt (lines : List (List Char)) (v : World) (c r : ℕ)
    (hw : 0 < v.B_width) (hh : 0 < v.B_height)
    (hP : mapCharAt lines (c : ℤ) (r : ℤ) = some 'P') :
    FreshAt lines (World.placeChar (-1 + v.B_height / 2 + (r : ℚ) * v.B_height)
      (v, -1 + v.B_width / 2 + (c : ℚ) * v.B_width) 'P').1 := by
  have hx : -1 + v.B_width / 2 + (c : ℚ) * v.B_width
      = (v.getPositionFromTile (c : ℤ) (r : ℤ)).1 := by
    simp [World.getPositionFromTile]; ring
  have hy : -1 + v.B_height / 2 + (r : ℚ) * v.B_height
      = (v.getPositionFromTile (c : ℤ) (r : ℤ)).2 := by
    simp [World.getPositionFromTile]; ring
  have ht := v.getTileFromPosition_center hw hh c r
  rw [hx, hy]
  refine ⟨c, r, Pacman.new (v.getPositionFromTile (c : ℤ) (r : ℤ)).1
    (v.getPositionFromTile (c : ℤ) (r : ℤ)).2 v.B_width v.B_height, hP, ?_, rfl, rfl, ?_, ?_,
    ?_, ?_, ?_, ?_⟩
  · simp +decide [World.placeChar]
  · simp +decide [World.placeChar, Pacman.new, World.getPositionFromTile]
  · simp +decide [World.placeChar, Pacman.new, World.getPositionFromTile]
  · simp +decide only [World.placeChar, if_true, if_false]
    rw [ht]
  · simp +decide only [World.placeChar, if_true, if_false]
    rw [ht]
  · simp +decide [World.placeChar]
  · simp +decide [World.placeChar]

theorem FreshAt_of_same (lines : List (List Char)) {v w : World}
    (hb1 : w.B_width = v.B_width) (hb2 : w.B_height = v.B_height) (ht : v.sameTile w) (hp : w.pacman = v.pacman) (h : FreshAt lines v) : FreshAt lines w := by
  obtain ⟨c, r, p, h1, h2, h3, h4, h5, h6, h7, h8, h9, h10⟩ := h
  refine ⟨c, r, p, h1, hp.trans h2, h3, h4, ?_, ?_, ht.1.trans h7, ht.2.1.trans h8,
    ht.2.2.1.trans h9, ht.2.2.2.trans h10⟩
  · rw [World.getPositionFromTile_congr hb1 hb2]; exact h5
  · rw [World.getPositionFromTile_congr hb1 hb2]; exact h6

theorem getWidth_pos_countLines_pos (lines : List (List Char)) (hW : 0 < getWidth lines) :
    (0 : ℚ) < 2 / ((getWidth lines : ℤ) : ℚ) ∧ (0 : ℚ) < 2 / ((countLines lines : ℤ) : ℚ) := by
  constructor
  · have : (0 : ℚ) < ((getWidth lines : ℤ) : ℚ) := by exact_mod_cast hW
    positivity
  · cases lines with
    | nil => simp [getWidth] at hW
    | cons a l =>
      have : (0 : ℚ) < ((countLines (a :: l) : ℤ) : ℚ) := by
        simp only [countLines, List.length_cons]
        push_cast
        positivity
      positivity

/-- A level loaded from a map with a `P` has its player freshly created on the tile of a
`P`. -/
theorem World.initializeLevel_freshAt (lines : List (List Char)) (hW : 0 < getWidth lines)
    (w : World) (c r : ℕ) (hP : mapCharAt lines (c : ℤ) (r : ℤ) = some 'P') :
    ∃ w1 : World, w.initializeLevel (some lines) = Except.ok w1 ∧ FreshAt lines w1 := by
  obtain ⟨hbw, hbh⟩ := getWidth_pos_countLines_pos lines hW
  apply World.initializeLevel_establish lines w (FreshAt lines) c r 'P' hP
  · intro v h1 h2
    exact World.placeChar_P_freshAt lines v c r (h1 ▸ hbw) (h2 ▸ hbh) hP
  · intro v c1 r1 ch h1 h2 hS hcell
    by_cases hc : ch = 'P'
    · subst hc
      exact World.placeChar_P_freshAt lines v c1 r1 (h1 ▸ hbw) (h2 ▸ hbh) hcell
    · have hk := World.placeChar_of_ne (-1 + v.B_height / 2 + (r1 : ℚ) * v.B_height) v
        (-1 + v.B_width / 2 + (c1 : ℚ) * v.B_width) ch hc
      have hB := World.placeChar_B (-1 + v.B_height / 2 + (r1 : ℚ) * v.B_height) v
        (-1 + v.B_width / 2 + (c1 : ℚ) * v.B_width) ch
      exact FreshAt_of_same lines hB.1 hB.2 hk.2 hk.1 hS
  · intro v h
    exact h

/-- A level loaded from a map whose first row is not empty has positive tile sizes and a wall
entity at the centre of every `#` tile. -/
theorem World.initializeLevel_wallsLoaded (lines : List (List Char)) (hW : 0 < getWidth lines)
    (w w1 : World) (h : w.initializeLevel (some lines) = Except.ok w1) :
    WallsLoaded lines w1 := by
  obtain ⟨hbw, hbh⟩ := getWidth_pos_countLines_pos lines hW
  obtain ⟨w2, h2, _, hB1, hB2⟩ := World.initializeLevel_induction lines w (fun _ => True)
    trivial (fun _ _ _ _ _ _ _ _ => trivial) (fun _ _ => trivial)
  have e : w2 = w1 := by
    rw [h] at h2
    exact (Except.ok.inj h2).symm
  subst e
  refine ⟨hB1 ▸ hbw, hB2 ▸ hbh, ?_⟩
  intro c r hcell
  obtain ⟨w3, h3, hS⟩ := World.initializeLevel_establish lines w
    (fun v => ∃ e ∈ v.walls, e.x = (v.getPositionFromTile (c : ℤ) (r : ℤ)).1 ∧
      e.y = (v.getPositionFromTile (c : ℤ) (r : ℤ)).2) c r '#' hcell
    (fun v _ _ => by
      refine ⟨_, World.placeChar_wall _ v _, ?_, ?_⟩
      · have hB := World.placeChar_B (-1 + v.B_height / 2 + (r : ℚ) * v.B_height) v
          (-1 + v.B_width / 2 + (c : ℚ) * v.B_width) '#'
        simp only [World.getPositionFromTile, hB.1]
        push_cast; ring
      · have hB := World.placeChar_B (-1 + v.B_height / 2 + (r : ℚ) * v.B_height) v
          (-1 + v.B_width / 2 + (c : ℚ) * v.B_width) '#'
        simp only [World.getPositionFromTile, hB.2]
        push_cast; ring)
    (fun v c1 r1 ch _ _ hS _ => by
      obtain ⟨e, he, hx, hy⟩ := hS
      have hB := World.placeChar_B (-1 + v.B_height / 2 + (r1 : ℚ) * v.B_height) v
        (-1 + v.B_width / 2 + (c1 : ℚ) * v.B_width) ch
      refine ⟨e, World.placeChar_walls_mono _ v _ ch e he, ?_, ?_⟩
      · rw [World.getPositionFromTile_congr hB.1 hB.2]; exact hx
      · rw [World.getPositionFromTile_congr hB.1 hB.2]; exact hy)
    (fun v h => h)
  have e : w3 = w2 := by
    rw [h] at h3
    exact (Except.ok.inj h3).symm
  subst e
  exact hS

/-- A level loaded from a map without a `P` keeps the player pointer and the tile state. -/
theorem World.initializeLevel_no_P (lines : List (List Char))
    (hno : ¬ ∃ c r : ℕ, mapCharAt lines (c : ℤ) (r : ℤ) = some 'P') (w w1 : World)
    (h : w.initializeLevel (some lines) = Except.ok w1) :
    w1.pacman = w.pacman ∧ w.sameTile w1 := by
  obtain ⟨w2, h2, hI, _⟩ := World.initializeLevel_induction lines w
    (fun v => v.pacman = w.pacman ∧ w.sameTile v) ⟨rfl, ⟨rfl, rfl, rfl, rfl⟩⟩
    (fun v c r ch _ _ hI hcell => by
      have hne : ch ≠ 'P' := by
        intro hc
        exact hno ⟨c, r, hc ▸ hcell⟩
      have hk := World.placeChar_of_ne (-1 + v.B_height / 2 + (r : ℚ) * v.B_height) v
        (-1 + v.B_width / 2 + (c : ℚ) * v.B_width) ch hne
      exact ⟨hk.1.trans hI.1, hk.2.1.trans hI.2.1, hk.2.2.1.trans hI.2.2.1,
        hk.2.2.2.1.trans hI.2.2.2.1, hk.2.2.2.2.trans hI.2.2.2.2⟩)
    (fun v h => h)
  have e : w2 = w1 := by
    rw [h] at h2
    exact (Except.ok.inj h2).symm
  subst e
  exact hI

/-- Loading a level keeps the tile progress in `[0, 1)`. -/
theorem World.initializeLevel_progress (lines : List (List Char)) (w w1 : World)
    (hp : ProgressInv w) (h : w.initializeLevel (some lines) = Except.ok w1) :
    ProgressInv w1 := by
  obtain ⟨w2, h2, hI, _⟩ := World.initializeLevel_induction lines w ProgressInv hp
    (fun v c r ch _ _ hI _ => World.placeChar_progress _ v _ ch hI)
    (fun v h => h)
  have e : w2 = w1 := by
    rw [h] at h2
    exact (Except.ok.inj h2).symm
  subst e
  exact hI

/-- What `nextLevel` does after the level has been loaded again: the player is respawned, and
maze and tile state are those of the loaded level. -/
theorem World.nextLevel_shape (lines : List (List Char)) (w w1 : World)
    (h : w.nextLevel (some lines) = Except.ok w1) :
    ∃ (v w3 : World) (p : Pacman), v.pacman = w.pacman ∧ w.sameTile v ∧
      v.initializeLevel (some lines) = Except.ok w3 ∧ w3.pacman = some p ∧
      w1.pacman = some p.respawn ∧ w3.sameMaze w1 ∧ w3.sameTile w1 := by
  unfold World.nextLevel at h
  simp only [] at h
  split at h
  · simp at h
  · rename_i w3 h3
    split at h
    · simp at h
    · rename_i p hp
      have e := Except.ok.inj h
      subst e
      refine ⟨_, w3, p, ?_, ?_, h3, hp, rfl, ⟨rfl, rfl, rfl⟩, ⟨rfl, rfl, rfl, rfl⟩⟩
      · rfl
      · exact ⟨rfl, rfl, rfl, rfl⟩

/-! ## Invariants of the reachable world states -/

theorem ProgressInv_of_sameTile {w v : World} (h : w.sameTile v) (hp : ProgressInv w) :
    ProgressInv v := by
  unfold ProgressInv at hp ⊢
  rw [h.2.2.1]; exact hp

theorem TileCore_of_sameTile (lines : List (List Char)) {w v : World} (h : w.sameTile v)
    (hp : TileCore lines w) : TileCore lines v := by
  unfold TileCore ProgressInv at hp ⊢
  rw [h.1, h.2.1, h.2.2.1, h.2.2.2]; exact hp

theorem SpawnAtP_of_same (lines : List (List Char)) {w v : World} {p q : Pacman}
    (hm : w.sameMaze v) (hx : q.spawnX = p.spawnX) (hy : q.spawnY = p.spawnY)
    (h : SpawnAtP lines w p) : SpawnAtP lines v q := by
  obtain ⟨c, r, h1, h2, h3⟩ := h
  refine ⟨c, r, h1, ?_, ?_⟩
  · rw [World.getPositionFromTile_congr hm.2.1 hm.2.2, hx]; exact h2
  · rw [World.getPositionFromTile_congr hm.2.1 hm.2.2, hy]; exact h3

theorem World.sameTile_trans {u v w : World} (h1 : u.sameTile v) (h2 : v.sameTile w) :
    u.sameTile w :=
  ⟨h2.1.trans h1.1, h2.2.1.trans h1.2.1, h2.2.2.1.trans h1.2.2.1, h2.2.2.2.trans h1.2.2.2⟩

/-- In every reachable world state the tile progress lies in `[0, 1)`. -/
theorem Reachable.progressInv (lines : List (List Char)) (w : World)
    (h : Reachable lines w) : ProgressInv w := by
  induction h with
  | init w h0 =>
    rw [World.new_eq] at h0
    exact World.initializeLevel_progress lines World.blank w (by simp [ProgressInv, World.blank])
      h0
  | update sqrtf dt input rng rng1 w w1 _ hdt hu ih =>
    obtain ⟨p0, _, hcase⟩ := World.update_shape sqrtf dt input w w1 rng rng1 hu
    rcases hcase with ⟨hd, v, _, hvt, hdf⟩ | ⟨_, _, ht, _⟩ | ⟨_, ws, _, hst, hw1⟩
    · obtain ⟨_, hc | hc⟩ := World.dyingFrame_shape dt v w1 p0 hd hdf
      · exact ProgressInv_of_sameTile (World.sameTile_trans hvt hc.1) ih
      · obtain ⟨_, q, _, _, _, _, _, _, h0, _⟩ := hc
        unfold ProgressInv
        rw [h0]; norm_num
    · exact ProgressInv_of_sameTile ht ih
    · subst hw1
      have hs := World.playFrame_shape sqrtf dt input ws p0 rng
      exact ProgressInv_of_sameTile hs.2.1
        (World.updatePacmanTileBased_progress dt hdt input ws p0
          (ProgressInv_of_sameTile hst ih))
  | nextLevel w w1 _ hn ih =>
    obtain ⟨v, w3, p, _, hvt, h3, _, _, _, ht⟩ := World.nextLevel_shape lines w w1 hn
    exact ProgressInv_of_sameTile ht
      (World.initializeLevel_progress lines v w3 (ProgressInv_of_sameTile hvt ih) h3)

/-- In every reachable world state the lives of the player are within 0..3 and a player that
is not dying has a life left. -/
theorem Reachable.livesInv (lines : List (List Char)) (w : World)
    (h : Reachable lines w) : LivesInv lines w := by
  induction h with
  | init w h0 =>
    rw [World.new_eq] at h0
    intro p hp
    by_cases hP : ∃ c r : ℕ, mapCharAt lines (c : ℤ) (r : ℤ) = some 'P'
    · obtain ⟨c, r, hcr⟩ := hP
      obtain ⟨w1, h1, q, hq, hl, hd⟩ := World.initializeLevel_fresh_player lines World.blank c r hcr
      rw [h0] at h1
      have e := Except.ok.inj h1
      subst e
      rw [hp] at hq
      have e2 := Option.some.inj hq
      subst e2
      exact ⟨by omega, by omega, fun _ => by omega, c, r, hcr⟩
    · have := (World.initializeLevel_no_P lines hP World.blank w h0).1
      rw [hp] at this
      simp [World.blank] at this
  | update sqrtf dt input rng rng1 w w1 _ hdt hu ih =>
    obtain ⟨p0, hp0, hcase⟩ := World.update_shape sqrtf dt input w w1 rng rng1 hu
    obtain ⟨h0, h3, hdl, hP⟩ := ih p0 hp0
    intro q hq
    rcases hcase with ⟨hd, v, _, _, hdf⟩ | ⟨_, _, _, hp1⟩ | ⟨hd, ws, _, _, hw1⟩
    · obtain ⟨_, hc | hc⟩ := World.dyingFrame_shape dt v w1 p0 hd hdf
      · obtain ⟨_, q1, hq1, hl, hdy, _⟩ := hc
        rw [hq] at hq1
        have e := Option.some.inj hq1
        subst e
        refine ⟨by omega, by omega, ?_, hP⟩
        intro hf
        rw [hdy, hd] at hf
        cases hf
      · obtain ⟨hpos, q1, hq1, hl, _⟩ := hc
        rw [hq] at hq1
        have e := Option.some.inj hq1
        subst e
        exact ⟨by omega, by omega, fun _ => by omega, hP⟩
    · rw [hq] at hp1
      have e := Option.some.inj hp1
      subst e
      exact ⟨h0, h3, hdl, hP⟩
    · subst hw1
      have hs := World.playFrame_shape sqrtf dt input ws p0 rng
      obtain ⟨hl, hdy, _⟩ := (World.updatePacmanTileBased_keeps dt input ws p0).2
      rcases hs.2.2 with hq1 | hq1
      · rw [hq] at hq1
        have e := Option.some.inj hq1
        subst e
        refine ⟨by omega, by omega, ?_, hP⟩
        intro _
        rw [hl]; exact hdl hd
      · rw [hq] at hq1
        have e := Option.some.inj hq1
        subst e
        have h1 := hdl hd
        rw [hd] at hdy
        simp only [Pacman.die, hdy, Bool.false_eq_true, if_false]
        refine ⟨by omega, by omega, ?_, hP⟩
        intro hf
        cases hf
  | nextLevel w w1 _ hn ih =>
    obtain ⟨v, w3, p, hvp, _, h3, hp3, hp1, _, _⟩ := World.nextLevel_shape lines w w1 hn
    intro q hq
    rw [hq] at hp1
    have e := Option.some.inj hp1
    subst e
    by_cases hP : ∃ c r : ℕ, mapCharAt lines (c : ℤ) (r : ℤ) = some 'P'
    · obtain ⟨c, r, hcr⟩ := hP
      obtain ⟨w4, h4, q, hq4, hl, hd⟩ := World.initializeLevel_fresh_player lines v c r hcr
      rw [h3] at h4
      have e := Except.ok.inj h4
      subst e
      rw [hp3] at hq4
      have e2 := Option.some.inj hq4
      subst e2
      simp only [Pacman.respawn]
      exact ⟨by omega, by omega, fun _ => by omega, c, r, hcr⟩
    · exfalso
      have := (World.initializeLevel_no_P lines hP v w3 h3).1
      rw [hp3, hvp] at this
      exact hP (ih p this.symm).2.2.2

theorem TileCore_of_freshAt (lines : List (List Char)) (w : World) (h : FreshAt lines w) :
    TileCore lines w := by
  obtain ⟨c, r, p, hP, _, _, _, _, _, hx, hy, h0, _⟩ := h
  refine ⟨?_, ?_, ?_⟩
  · unfold ProgressInv; rw [h0]; norm_num
  · unfold isWallTile
    rw [hx, hy, hP]
    simp +decide
  · intro hpos
    rw [h0] at hpos
    exact absurd hpos (lt_irrefl _)

/-- In every world state reachable with a map whose first row is not empty, the player is off
the wall tiles, the maze is loaded and the spawn point is on a `P`. -/
theorem Reachable.tileInv (lines : List (List Char)) (hW : 0 < getWidth lines) (w : World)
    (h : Reachable lines w) : TileInv lines w := by
  induction h with
  | init w h0 =>
    rw [World.new_eq] at h0
    intro p hp
    have hwalls := World.initializeLevel_wallsLoaded lines hW World.blank w h0
    by_cases hP : ∃ c r : ℕ, mapCharAt lines (c : ℤ) (r : ℤ) = some 'P'
    · obtain ⟨c, r, hcr⟩ := hP
      obtain ⟨w1, h1, hf⟩ := World.initializeLevel_freshAt lines hW World.blank c r hcr
      rw [h0] at h1
      have e := Except.ok.inj h1
      subst e
      refine ⟨TileCore_of_freshAt lines w hf, hwalls, ?_⟩
      obtain ⟨c1, r1, q, hP1, hq, _, _, hsx, hsy, _⟩ := hf
      rw [hp] at hq
      have e2 := Option.some.inj hq
      subst e2
      exact ⟨c1, r1, hP1, hsx, hsy⟩
    · have := (World.initializeLevel_no_P lines hP World.blank w h0).1
      rw [hp] at this
      simp [World.blank] at this
  | update sqrtf dt input rng rng1 w w1 _ hdt hu ih =>
    obtain ⟨p0, hp0, hcase⟩ := World.update_shape sqrtf dt input w w1 rng rng1 hu
    obtain ⟨hcore, hwalls, hspawn⟩ := ih p0 hp0
    intro q hq
    rcases hcase with ⟨hd, v, hvm, hvt, hdf⟩ | ⟨_, hm, ht, hp1⟩ | ⟨hd, ws, hsm, hst, hw1⟩
    · obtain ⟨hm, hc | hc⟩ := World.dyingFrame_shape dt v w1 p0 hd hdf
      · obtain ⟨ht, q1, hq1, _, _, hsx, hsy⟩ := hc
        rw [hq] at hq1
        have e := Option.some.inj hq1
        subst e
        exact ⟨TileCore_of_sameTile lines (World.sameTile_trans hvt ht) hcore,
          WallsLoaded_of_sameMaze lines (World.sameMaze_trans hvm hm) hwalls,
          SpawnAtP_of_same lines (World.sameMaze_trans hvm hm) hsx hsy hspawn⟩
      · obtain ⟨_, q1, hq1, _, _, hsx, hsy, htile, h0, _⟩ := hc
        rw [hq] at hq1
        have e := Option.some.inj hq1
        subst e
        have hwv := WallsLoaded_of_sameMaze lines hvm hwalls
        have hsv : SpawnAtP lines v p0 := SpawnAtP_of_same lines hvm rfl rfl hspawn
        refine ⟨?_, WallsLoaded_of_sameMaze lines hm hwv,
          SpawnAtP_of_same lines hm hsx hsy hsv⟩
        obtain ⟨c, r, hP, hx, hy⟩ := hsv
        rw [hx, hy, v.getTileFromPosition_center hwv.1 hwv.2.1 c r] at htile
        have hx1 : w1.pacmanTileX = (c : ℤ) := congrArg Prod.fst htile
        have hy1 : w1.pacmanTileY = (r : ℤ) := congrArg Prod.snd htile
        refine ⟨?_, ?_, ?_⟩
        · unfold ProgressInv; rw [h0]; norm_num
        · unfold isWallTile
          rw [hx1, hy1, hP]
          simp +decide
        · intro hpos
          rw [h0] at hpos
          exact absurd hpos (lt_irrefl _)
    · rw [hq] at hp1
      have e := Option.some.inj hp1
      subst e
      exact ⟨TileCore_of_sameTile lines ht hcore, WallsLoaded_of_sameMaze lines hm hwalls,
        SpawnAtP_of_same lines hm rfl rfl hspawn⟩
    · subst hw1
      have hs := World.playFrame_shape sqrtf dt input ws p0 rng
      have hk := World.updatePacmanTileBased_keeps dt input ws p0
      have hws := WallsLoaded_of_sameMaze lines hsm hwalls
      have hcs := TileCore_of_sameTile lines hst hcore
      have htile := World.updatePacmanTileBased_tile lines dt hdt input ws p0 hws hcs
      have hmaze := World.sameMaze_trans (World.sameMaze_trans hsm hk.1) hs.1
      refine ⟨TileCore_of_sameTile lines hs.2.1 htile,
        WallsLoaded_of_sameMaze lines hmaze hwalls, ?_⟩
      obtain ⟨_, _, hsx, hsy⟩ := hk.2
      rcases hs.2.2 with hq1 | hq1
      · rw [hq] at hq1
        have e := Option.some.inj hq1
        subst e
        exact SpawnAtP_of_same lines hmaze hsx hsy hspawn
      · rw [hq] at hq1
        have e := Option.some.inj hq1
        subst e
        refine SpawnAtP_of_same lines hmaze ?_ ?_ hspawn
        · rw [← hsx]; unfold Pacman.die; split_ifs <;> rfl
        · rw [← hsy]; unfold Pacman.die; split_ifs <;> rfl
  | nextLevel w w1 _ hn ih =>
    obtain ⟨v, w3, p, hvp, _, h3, hp3, hp1, hm, ht⟩ := World.nextLevel_shape lines w w1 hn
    intro q hq
    rw [hq] at hp1
    have e := Option.some.inj hp1
    subst e
    have hwalls := World.initializeLevel_wallsLoaded lines hW v w3 h3
    by_cases hP : ∃ c r : ℕ, mapCharAt lines (c : ℤ) (r : ℤ) = some 'P'
    · obtain ⟨c, r, hcr⟩ := hP
      obtain ⟨w4, h4, hf⟩ := World.initializeLevel_freshAt lines hW v c r hcr
      rw [h3] at h4
      have e := Except.ok.inj h4
      subst e
      refine ⟨TileCore_of_sameTile lines ht (TileCore_of_freshAt lines w3 hf),
        WallsLoaded_of_sameMaze lines hm hwalls, ?_⟩
      obtain ⟨c1, r1, q, hP1, hq3, _, _, hsx, hsy, _⟩ := hf
      rw [hp3] at hq3
      have e2 := Option.some.inj hq3
      subst e2
      exact SpawnAtP_of_same lines hm rfl rfl ⟨c1, r1, hP1, hsx, hsy⟩
    · exfalso
      have := (World.initializeLevel_no_P lines hP v w3 h3).1
      rw [hp3, hvp] at this
      have hl := Reachable.livesInv lines w (by assumption) p this.symm
      exact hP hl.2.2.2

/-! ## Game over, wall tiles and progress in the reachable states -/

/-- The corridor map loads into `corridorWorld`. -/
theorem World.new_corridorMap : World.new (some corridorMap) = Except.ok corridorWorld := by
  simp [World.new, World.initializeLevel, corridorMap, getWidth, countLines, World.placeLine,
    World.placeChar, World.blank, corridorWorld, World.getTileFromPosition, truncToInt]
  norm_num

/-- One frame of 0.1 s with the input R takes `corridorWorld` to `corridorAfterFrame`. -/
theorem World.update_corridorWorld :
    corridorWorld.update (fun _ => 0) (1 / 10) 'R' zeroRandom
      = some (corridorAfterFrame, zeroRandom) := by
  simp +decide [World.update, World.playFrame, World.isStartInput, World.ghostLoop,
    World.collectCoins, World.collectFruits,
    World.updatePacmanTileBased, World.bufferInput, World.instantReversalStep,
    World.tileCenterStep, World.applyBufferedInput, World.stopAtWall, World.advanceStep,
    World.visualPosition, World.isTileWall, World.getPositionFromTile, stepTile,
    corridorWorld, corridorPacman, corridorAfterFrame, World.blank, Pacman.new,
    Pacman.setDirection, Pacman.setMoving, Pacman.setPosition, World.isOppositeInput,
    Score.update, Score.new]
  norm_num
  simp +decide [World.ghostLoop]
  norm_num

/-- The state `corridorAfterFrame` is reachable with the corridor map. -/
theorem Reachable.corridorAfterFrame : Reachable corridorMap corridorAfterFrame :=
  Reachable.update (fun _ => 0) (1 / 10) 'R' zeroRandom zeroRandom corridorWorld
    Logic.corridorAfterFrame (Reachable.init corridorWorld World.new_corridorMap) (by norm_num)
    World.update_corridorWorld

/-- C5: for every world with a player, `World::isGameOver` returns true if and only if the
lives are 0 or less, the player is dying and the death timer has reached the death-animation
duration. For a lives count that is not negative (which holds in every world state the
program reaches) this is: true if and only if lives == 0 and the player is dying and the
death timer has reached the duration; it is false in every other combination of the three,
in particular with lives left, whatever the other two are. -/
theorem isGameOver_iff_no_lives_dying_and_animation_complete (w : World) (p : Pacman)
    (hp : w.pacman = some p) :
    (w.isGameOver = true ↔
      (p.lives ≤ 0 ∧ p.dying = true ∧ Pacman.deathAnimationDuration ≤ p.deathTimer)) ∧
    (0 ≤ p.lives →
      (w.isGameOver = true ↔
        (p.lives = 0 ∧ p.dying = true ∧ Pacman.deathAnimationDuration ≤ p.deathTimer))) ∧
    (0 < p.lives → w.isGameOver = false) ∧
    (p.dying = false → w.isGameOver = false) ∧
    (p.deathTimer < Pacman.deathAnimationDuration → w.isGameOver = false) ∧
    (∀ lines : List (List Char), Reachable lines w → 0 ≤ p.lives) := by
  have hcode : w.isGameOver = true ↔
      (p.lives ≤ 0 ∧ p.dying = true ∧ Pacman.deathAnimationDuration ≤ p.deathTimer) := by
    simp only [World.isGameOver, hp, Pacman.isDeathAnimationComplete, Bool.and_eq_true,
      decide_eq_true_eq]
    tauto
  have hfalse : ¬ (p.lives ≤ 0 ∧ p.dying = true ∧
      Pacman.deathAnimationDuration ≤ p.deathTimer) → w.isGameOver = false := by
    intro hn
    cases hg : w.isGameOver with
    | false => rfl
    | true => exact absurd (hcode.mp hg) hn
  refine ⟨hcode, ?_, ?_, ?_, ?_, ?_⟩
  · intro hl
    rw [hcode]
    constructor
    · rintro ⟨h1, h2, h3⟩
      exact ⟨by omega, h2, h3⟩
    · rintro ⟨h1, h2, h3⟩
      exact ⟨by omega, h2, h3⟩
  · intro hl
    exact hfalse (fun h => by omega)
  · intro hd
    apply hfalse
    rintro ⟨_, h2, _⟩
    rw [hd] at h2
    cases h2
  · intro ht
    apply hfalse
    rintro ⟨_, _, h3⟩
    exact absurd ht (not_lt.mpr h3)
  · intro lines hr
    exact (Reachable.livesInv lines w hr p hp).1

/-- C5, witness: with two lives left the game is not over although the player is dying and
the death animation is complete; with no life left it is. -/
theorem isGameOver_iff_witness :
    animationDoneWorld.isGameOver = false ∧ gameOverWorld.isGameOver = true :=
  ⟨(isGameOver_iff_no_lives_dying_and_animation_complete animationDoneWorld
      { corridorPacman with dying := true, lives := 2, deathTimer := 1 } rfl).2.2.1
      (by decide),
   (isGameOver_iff_no_lives_dying_and_animation_complete gameOverWorld
      { corridorPacman with dying := true, lives := 0, deathTimer := 1 } rfl).1.mpr
      ⟨by decide, rfl, by norm_num [Pacman.deathAnimationDuration]⟩⟩

/-- C6: in every world state reachable from a level loaded from a map whose first row is not
empty, by `update` calls with any inputs and any elapsed times dt >= 0 (and by `nextLevel`
calls), the committed tile of the player is not a wall tile of the map, and whenever
progress > 0 the tile the player is travelling to is not a wall tile either. -/
theorem pacman_tile_and_target_never_wall (lines : List (List Char))
    (hW : 0 < getWidth lines) (w : World) (h : Reachable lines w) (p : Pacman)
    (hp : w.pacman = some p) :
    ¬ isWallTile lines w.pacmanTileX w.pacmanTileY ∧
    (0 < w.pacmanTileProgress →
      ¬ isWallTile lines (stepTile w.pacmanMoveDir w.pacmanTileX w.pacmanTileY).1
        (stepTile w.pacmanMoveDir w.pacmanTileX w.pacmanTileY).2) :=
  (Reachable.tileInv lines hW w h p hp).1.2

/-- C6, witness: the corridor level after a first frame, half way to the second tile. -/
theorem pacman_tile_and_target_never_wall_witness :
    ¬ isWallTile corridorMap corridorAfterFrame.pacmanTileX corridorAfterFrame.pacmanTileY ∧
    (0 < corridorAfterFrame.pacmanTileProgress →
      ¬ isWallTile corridorMap
        (stepTile corridorAfterFrame.pacmanMoveDir corridorAfterFrame.pacmanTileX
          corridorAfterFrame.pacmanTileY).1
        (stepTile corridorAfterFrame.pacmanMoveDir corridorAfterFrame.pacmanTileX
          corridorAfterFrame.pacmanTileY).2) :=
  pacman_tile_and_target_never_wall corridorMap (by decide) corridorAfterFrame
    Reachable.corridorAfterFrame _ rfl

/-- C7: in every world state reachable by `update` calls with elapsed times dt >= 0 (and by
`nextLevel` calls), the tile progress of the player lies in [0,1] at the end of the frame, and
it still lies in [0,1] right after the instant-reversal block of the next frame, whatever the
input. -/
theorem pacman_progress_in_unit_interval (lines : List (List Char)) (w : World)
    (h : Reachable lines w) :
    (0 ≤ w.pacmanTileProgress ∧ w.pacmanTileProgress ≤ 1) ∧
    ∀ (input : Char) (p : Pacman),
      0 ≤ ((w.bufferInput input).instantReversalStep p).1.pacmanTileProgress ∧
      ((w.bufferInput input).instantReversalStep p).1.pacmanTileProgress ≤ 1 := by
  have hp := Reachable.progressInv lines w h
  refine ⟨⟨hp.1, le_of_lt hp.2⟩, ?_⟩
  intro input p
  have hb : ProgressInv (w.bufferInput input) :=
    ProgressInv_of_sameTile (w.bufferInput_keeps input).2 hp
  have hr := (w.bufferInput input).instantReversalStep_progress p hb
  exact ⟨hr.1, le_of_lt hr.2⟩

/-- C7, witness: the corridor level after a first frame, half way to the second tile. -/
theorem pacman_progress_in_unit_interval_witness :
    (0 ≤ corridorAfterFrame.pacmanTileProgress ∧ corridorAfterFrame.pacmanTileProgress ≤ 1) ∧
    ∀ (input : Char) (p : Pacman),
      0 ≤ ((corridorAfterFrame.bufferInput input).instantReversalStep p).1.pacmanTileProgress ∧
      ((corridorAfterFrame.bufferInput input).instantReversalStep p).1.pacmanTileProgress ≤ 1 :=
  pacman_progress_in_unit_interval corridorMap corridorAfterFrame Reachable.corridorAfterFrame

/-! ## Score engine: events -/

/-- The combo counter is never negative after a sequence of events on a fresh score. -/
theorem Score.run_nonneg (events : List ScoreEvent) :
    0 ≤ (Score.new.run events).currentScore ∧ 0 ≤ (Score.new.run events).consecutiveGhosts := by
  unfold Score.run
  induction events using List.reverseRecOn with
  | nil => simp [Score.new]
  | append_singleton es e ih =>
    rw [List.foldl_append]
    simp only [List.foldl_cons, List.foldl_nil]
    obtain ⟨h1, h2⟩ := ih
    cases e <;>
      simp only [Score.apply, Score.update, Score.onCoinCollected, Score.onFruitCollected,
        Score.onGhostEaten, Score.onPacmanDied, Score.onLevelCleared, Score.reset,
        Score.BASE_COIN_SCORE, Score.FRUIT_SCORE, Score.BASE_GHOST_SCORE,
        Score.LEVEL_CLEAR_BONUS]
    · exact ⟨h1, h2⟩
    · refine ⟨?_, h2⟩
      split_ifs <;> omega
    · exact ⟨by omega, le_refl _⟩
    · constructor
      · nlinarith
      · omega
    · exact ⟨h1, le_refl _⟩
    · exact ⟨by omega, le_refl _⟩
    · exact ⟨le_refl _, le_refl _⟩

/-- What the 32-bit agreement rests on: the combo counter is not negative and 200 times the
combo counter is at most the score. -/
theorem Score.apply_combo_le (s : Score) (e : ScoreEvent)
    (h : 0 ≤ s.consecutiveGhosts ∧ 200 * s.consecutiveGhosts ≤ s.currentScore) :
    0 ≤ (s.apply e).consecutiveGhosts ∧
      200 * (s.apply e).consecutiveGhosts ≤ (s.apply e).currentScore := by
  obtain ⟨h1, h2⟩ := h
  cases e <;>
    simp only [Score.apply, Score.update, Score.onCoinCollected, Score.onFruitCollected,
      Score.onGhostEaten, Score.onPacmanDied, Score.onLevelCleared, Score.reset,
      Score.BASE_COIN_SCORE, Score.FRUIT_SCORE, Score.BASE_GHOST_SCORE,
      Score.LEVEL_CLEAR_BONUS]
  · exact ⟨h1, h2⟩
  · refine ⟨h1, ?_⟩
    split_ifs <;> omega
  · omega
  · omega
  · omega
  · omega
  · omega

/-- A value in the range of a 32-bit `int` is stored unchanged. -/
theorem wrapInt32_of_range (n : Int) (h0 : -2147483648 ≤ n) (h1 : n < 2147483648) :
    wrapInt32 n = n := by
  unfold wrapInt32
  omega

/-- One event in 32 bits gives the exact result while the exact score fits. -/
theorem Score.apply32_eq (s : Score) (e : ScoreEvent)
    (h : 0 ≤ s.consecutiveGhosts ∧ 200 * s.consecutiveGhosts ≤ s.currentScore)
    (hfit : (s.apply e).currentScore < 2147483648) : s.apply32 e = s.apply e := by
  obtain ⟨h1, h2⟩ := h
  cases e <;>
    simp only [Score.apply, Score.apply32, Score.update, Score.onCoinCollected,
      Score.onFruitCollected, Score.onGhostEaten, Score.onPacmanDied, Score.onLevelCleared,
      Score.reset, Score.BASE_COIN_SCORE, Score.FRUIT_SCORE, Score.BASE_GHOST_SCORE,
      Score.LEVEL_CLEAR_BONUS] at hfit ⊢
  · split_ifs at hfit ⊢
    · rw [wrapInt32_of_range (10 * 3) (by omega) (by omega),
        wrapInt32_of_range _ (by omega) (by omega)]
    · rw [wrapInt32_of_range (10 * 2) (by omega) (by omega),
        wrapInt32_of_range _ (by omega) (by omega)]
    · rw [wrapInt32_of_range (10 * 1) (by omega) (by omega),
        wrapInt32_of_range _ (by omega) (by omega)]
  · rw [wrapInt32_of_range _ (by omega) (by omega)]
  · rw [wrapInt32_of_range (s.consecutiveGhosts + 1) (by omega) (by omega),
      wrapInt32_of_range (200 * (s.consecutiveGhosts + 1)) (by omega) (by omega),
      wrapInt32_of_range _ (by omega) (by omega)]
  · rw [wrapInt32_of_range _ (by omega) (by omega)]

/-- A run in 32 bits gives the exact result while every running total fits. -/
theorem Score.run32_eq (events : List ScoreEvent) (s : Score)
    (h : 0 ≤ s.consecutiveGhosts ∧ 200 * s.consecutiveGhosts ≤ s.currentScore)
    (hfit : ∀ k : ℕ, (s.run (events.take k)).currentScore < 2147483648) :
    s.run32 events = s.run events := by
  induction events generalizing s with
  | nil => rfl
  | cons e es ih =>
    have h1 : (s.apply e).currentScore < 2147483648 := by
      have := hfit 1
      simpa [Score.run] using this
    have he := Score.apply32_eq s e h h1
    show (s.apply32 e).run32 es = (s.apply e).run es
    rw [he]
    apply ih (s.apply e) (Score.apply_combo_le s e h)
    intro k
    have := hfit (k + 1)
    simpa [Score.run] using this

/-- On exact integers: from a fresh Score the exact score is never negative, no event other
than `reset()` lowers it, and `reset()` sets it to 0. -/
theorem Score.run_never_lowered (events : List ScoreEvent) :
    0 ≤ (Score.new.run events).currentScore ∧
    (∀ e : ScoreEvent, e ≠ ScoreEvent.reset →
      (Score.new.run events).currentScore ≤ ((Score.new.run events).apply e).currentScore) ∧
    ((Score.new.run events).apply ScoreEvent.reset).currentScore = 0 := by
  obtain ⟨h1, h2⟩ := Score.run_nonneg events
  refine ⟨h1, ?_, rfl⟩
  intro e he
  cases e <;>
    simp only [Score.apply, Score.update, Score.onCoinCollected, Score.onFruitCollected,
      Score.onGhostEaten, Score.onPacmanDied, Score.onLevelCleared,
      Score.BASE_COIN_SCORE, Score.FRUIT_SCORE, Score.BASE_GHOST_SCORE,
      Score.LEVEL_CLEAR_BONUS]
  · exact le_refl _
  · split_ifs <;> omega
  · omega
  · nlinarith
  · exact le_refl _
  · omega
  · exact absurd rfl he

/-- The invariant behind the 32-bit agreement holds after every exact run from a fresh
Score. -/
theorem Score.run_combo_le (events : List ScoreEvent) :
    0 ≤ (Score.new.run events).consecutiveGhosts ∧
    200 * (Score.new.run events).consecutiveGhosts ≤ (Score.new.run events).currentScore := by
  unfold Score.run
  induction events using List.reverseRecOn with
  | nil => simp [Score.new]
  | append_singleton es e ih =>
    rw [List.foldl_append]
    simp only [List.foldl_cons, List.foldl_nil]
    exact Score.apply_combo_le _ e ih

/-- The state after `n` ghost-eaten events in a row on a fresh Score, in 32 bits, as long as
the total `100 n (n + 1)` fits: that is up to `n = 4633`. -/
theorem Score.run32_ghosts (n : ℕ) (hn : n ≤ 4633) :
    Score.new.run32 (List.replicate n ScoreEvent.ghostEaten) =
      { currentScore := 100 * (n : Int) * ((n : Int) + 1), timeSinceLastCoin := 0,
        consecutiveGhosts := (n : Int) } := by
  induction n with
  | zero => simp [Score.run32, Score.new]
  | succ k ih =>
    have hk := ih (by omega)
    rw [List.replicate_succ', Score.run32, List.foldl_append]
    rw [Score.run32] at hk
    rw [hk]
    simp only [List.foldl_cons, List.foldl_nil, Score.apply32, Score.BASE_GHOST_SCORE]
    have hk1 : (k : Int) ≤ 4632 := by omega
    have hk0 : (0 : Int) ≤ (k : Int) := by omega
    have hprod : 100 * (k : Int) * ((k : Int) + 1) + 200 * ((k : Int) + 1)
        = 100 * ((k : Int) + 1) * ((k : Int) + 1 + 1) := by ring
    have hbound : 100 * ((k : Int) + 1) * ((k : Int) + 1 + 1) ≤ 2146932200 := by nlinarith
    have hnn : 0 ≤ 100 * ((k : Int) + 1) * ((k : Int) + 1 + 1) := by positivity
    rw [wrapInt32_of_range ((k : Int) + 1) (by omega) (by omega),
      wrapInt32_of_range (200 * ((k : Int) + 1)) (by omega) (by omega), hprod,
      wrapInt32_of_range _ (by omega) (by omega)]
    push_cast
    rfl

/-- C16, counterexample: the score is a 32-bit `int`. After 4633 ghost-eaten events in a row
on a fresh Score it is 2146932200; the next ghost-eaten event adds 926800, which exceeds
2^31 - 1 = 2147483647 and leaves the score at -2147108296: the score is negative and the
event has lowered it. -/
theorem score_negative_after_4634_ghosts :
    (Score.new.run32 (List.replicate 4633 ScoreEvent.ghostEaten)).currentScore = 2146932200 ∧
    (Score.new.run32 (List.replicate 4634 ScoreEvent.ghostEaten)).currentScore
      = -2147108296 ∧
    (Score.new.run32 (List.replicate 4634 ScoreEvent.ghostEaten)).currentScore < 0 ∧
    ((Score.new.run32 (List.replicate 4633 ScoreEvent.ghostEaten)).apply32
        ScoreEvent.ghostEaten).currentScore
      < (Score.new.run32 (List.replicate 4633 ScoreEvent.ghostEaten)).currentScore ∧
    (Score.new.run (List.replicate 4634 ScoreEvent.ghostEaten)).currentScore
      = 2147859000 := by
  have h33 := Score.run32_ghosts 4633 (by omega)
  have hstep : (Score.new.run32 (List.replicate 4633 ScoreEvent.ghostEaten)).apply32
      ScoreEvent.ghostEaten
      = { currentScore := -2147108296, timeSinceLastCoin := 0, consecutiveGhosts := 4634 } := by
    rw [h33]
    simp only [Score.apply32, Score.BASE_GHOST_SCORE]
    norm_num [wrapInt32]
  have h34 : Score.new.run32 (List.replicate 4634 ScoreEvent.ghostEaten)
      = { currentScore := -2147108296, timeSinceLastCoin := 0, consecutiveGhosts := 4634 } := by
    rw [show (4634 : ℕ) = 4633 + 1 from rfl, List.replicate_succ', Score.run32,
      List.foldl_append]
    simp only [List.foldl_cons, List.foldl_nil]
    rw [← Score.run32]
    exact hstep
  have hexact : ∀ n : ℕ, Score.new.run (List.replicate n ScoreEvent.ghostEaten) =
      { currentScore := 100 * (n : Int) * ((n : Int) + 1), timeSinceLastCoin := 0,
        consecutiveGhosts := (n : Int) } := by
    intro n
    induction n with
    | zero => simp [Score.run, Score.new]
    | succ k ih =>
      rw [List.replicate_succ', Score.run, List.foldl_append]
      rw [Score.run] at ih
      rw [ih]
      simp only [List.foldl_cons, List.foldl_nil, Score.apply, Score.onGhostEaten,
        Score.BASE_GHOST_SCORE]
      have hprod : 100 * (k : Int) * ((k : Int) + 1) + 200 * ((k : Int) + 1)
          = 100 * ((k : Int) + 1) * ((k : Int) + 1 + 1) := by ring
      rw [hprod]
      push_cast
      rfl
  refine ⟨?_, ?_, ?_, ?_, ?_⟩
  · rw [h33]
    norm_num
  · rw [h34]
  · rw [h34]
    norm_num
  · rw [hstep, h33]
    norm_num
  · rw [hexact]
    norm_num

/-- C16, amended: the score is a 32-bit `int`. Starting from a fresh Score, for every sequence
of update, coin, fruit, ghost-eaten, player-died and level-cleared events (with `reset()`
calls anywhere in between) during which the exact total stays below 2^31, the score the
32-bit handlers compute is the exact total, it is never negative, none of these events
lowers it as long as its exact result is below 2^31 too, and `reset()`, the only call that
can decrease it, sets it to 0. -/
theorem score_never_negative_while_below_two_pow_31 (events : List ScoreEvent)
    (hfit : ∀ k : ℕ, (Score.new.run (events.take k)).currentScore < 2147483648) :
    Score.new.run32 events = Score.new.run events ∧
    0 ≤ (Score.new.run32 events).currentScore ∧
    (Score.new.run32 events).currentScore < 2147483648 ∧
    (∀ e : ScoreEvent, e ≠ ScoreEvent.reset →
      ((Score.new.run events).apply e).currentScore < 2147483648 →
      (Score.new.run32 events).apply32 e = (Score.new.run events).apply e ∧
      (Score.new.run32 events).currentScore
        ≤ ((Score.new.run32 events).apply32 e).currentScore) ∧
    ((Score.new.run32 events).apply32 ScoreEvent.reset).currentScore = 0 := by
  have heq : Score.new.run32 events = Score.new.run events :=
    Score.run32_eq events Score.new ⟨le_refl _, by simp [Score.new]⟩ hfit
  obtain ⟨h0, hmono, _⟩ := Score.run_never_lowered events
  have hlast : (Score.new.run events).currentScore < 2147483648 := by
    have := hfit events.length
    rwa [List.take_length] at this
  rw [heq]
  refine ⟨rfl, h0, hlast, ?_, rfl⟩
  intro e he hfe
  have h32 := Score.apply32_eq (Score.new.run events) e (Score.run_combo_le events) hfe
  rw [h32]
  exact ⟨rfl, hmono e he⟩

/-- C16 (amended), witness: four ghost-eaten events in a row on a fresh Score (200, 400, 600
and 800 points). -/
theorem score_never_negative_witness :
    0 ≤ (Score.new.run32 [ScoreEvent.ghostEaten, ScoreEvent.ghostEaten, ScoreEvent.ghostEaten,
      ScoreEvent.ghostEaten]).currentScore :=
  (score_never_negative_while_below_two_pow_31
    [ScoreEvent.ghostEaten, ScoreEvent.ghostEaten, ScoreEvent.ghostEaten,
      ScoreEvent.ghostEaten]
    (by
      intro k
      rcases k with _ | _ | _ | _ | _ | k <;>
        simp +decide [Score.run, Score.apply, Score.onGhostEaten, Score.new,
          Score.BASE_GHOST_SCORE])).2.1

/-- C11: for every CHASING ghost with direction d, `setFeared(duration)` yields state FEARED,
direction opposite(d) (R to L, L to R, U to D, D to U, neutral stays neutral),
speed = baseSpeed / 2 and feared timer = duration, and changes nothing else; in particular a
ghost moving R ends moving L. -/
theorem setFeared_on_chasing_ghost (g : Ghost) (duration : ℚ)
    (h : g.state = GhostState.CHASING) :
    (g.setFeared duration).state = GhostState.FEARED ∧
    (g.setFeared duration).direction = g.getOppositeDirection ∧
    (g.direction = 'R' → (g.setFeared duration).direction = 'L') ∧
    (g.direction = 'L' → (g.setFeared duration).direction = 'R') ∧
    (g.direction = 'U' → (g.setFeared duration).direction = 'D') ∧
    (g.direction = 'D' → (g.setFeared duration).direction = 'U') ∧
    (g.direction = ' ' → (g.setFeared duration).direction = ' ') ∧
    (g.setFeared duration).speed = g.baseSpeed / 2 ∧
    (g.setFeared duration).fearedTimer = duration ∧
    (g.setFeared duration).baseSpeed = g.baseSpeed ∧
    (g.setFeared duration).toEntity = g.toEntity ∧
    (g.setFeared duration).spawnTimer = g.spawnTimer := by
  have hs : g.setFeared duration =
      { g with state := GhostState.FEARED, fearedTimer := duration,
               speed := g.baseSpeed * (1 / 2), direction := g.getOppositeDirection } := by
    simp [Ghost.setFeared, h]
  rw [hs]
  refine ⟨rfl, rfl, ?_, ?_, ?_, ?_, ?_, ?_, rfl, rfl, rfl, rfl⟩
  · intro hd; simp +decide [Ghost.getOppositeDirection, hd]
  · intro hd; simp +decide [Ghost.getOppositeDirection, hd]
  · intro hd; simp +decide [Ghost.getOppositeDirection, hd]
  · intro hd; simp +decide [Ghost.getOppositeDirection, hd]
  · intro hd; simp +decide [Ghost.getOppositeDirection, hd]
  · simp only []; ring

/-- C11, witness: a red ghost that is chasing to the right. -/
theorem setFeared_on_chasing_ghost_witness :
    (({ Ghost.new GhostKind.Red 0 0 1 1 0 0 with
        state := GhostState.CHASING, direction := 'R' } : Ghost).setFeared 5).state
      = GhostState.FEARED ∧
    (({ Ghost.new GhostKind.Red 0 0 1 1 0 0 with
        state := GhostState.CHASING, direction := 'R' } : Ghost).setFeared 5).direction = 'L' ∧
    (({ Ghost.new GhostKind.Red 0 0 1 1 0 0 with
        state := GhostState.CHASING, direction := 'R' } : Ghost).setFeared 5).speed
      = ({ Ghost.new GhostKind.Red 0 0 1 1 0 0 with
        state := GhostState.CHASING, direction := 'R' } : Ghost).baseSpeed / 2 :=
  have h := setFeared_on_chasing_ghost
    ({ Ghost.new GhostKind.Red 0 0 1 1 0 0 with
        state := GhostState.CHASING, direction := 'R' } : Ghost) 5 rfl
  ⟨h.1, h.2.2.1 rfl, h.2.2.2.2.2.2.2.1⟩

/-- C12: for every DEAD ghost whose distance to its spawn point, as `update` computes it, is
below the arrival threshold 0.1, `update` sets the state to CHASING (not WAITING), the speed to
baseSpeed and the position to the spawn point, clears the direction, and leaves the spawn-wait
timer (and every other field) unchanged; no random draw is consumed. -/
theorem update_dead_ghost_arrival (sqrtf : ℚ → ℚ) (dt : ℚ) (valid : List Char)
    (pacman : Pacman) (rng : Random) (g : Ghost) (hs : g.state = GhostState.DEAD)
    (hd : sqrtf ((g.startX - g.x) * (g.startX - g.x) + (g.startY - g.y) * (g.startY - g.y))
      < 1 / 10) :
    g.update sqrtf dt valid pacman rng =
      ({ g with state := GhostState.CHASING, speed := g.baseSpeed, x := g.startX,
                y := g.startY, direction := ' ' }, rng) ∧
    (g.update sqrtf dt valid pacman rng).1.state = GhostState.CHASING ∧
    (g.update sqrtf dt valid pacman rng).1.state ≠ GhostState.WAITING ∧
    (g.update sqrtf dt valid pacman rng).1.speed = g.baseSpeed ∧
    (g.update sqrtf dt valid pacman rng).1.x = g.startX ∧
    (g.update sqrtf dt valid pacman rng).1.y = g.startY ∧
    (g.update sqrtf dt valid pacman rng).1.spawnTimer = g.spawnTimer := by
  have hu : g.update sqrtf dt valid pacman rng =
      ({ g with state := GhostState.CHASING, speed := g.baseSpeed, x := g.startX,
                y := g.startY, direction := ' ' }, rng) := by
    simp only [Ghost.update, hs, reduceCtorEq, ↓reduceIte, hd]
  rw [hu]
  exact ⟨rfl, rfl, by simp, rfl, rfl, rfl, rfl⟩

/-- C12, witness: a dead blue ghost that sits on its spawn point (distance 0). -/
theorem update_dead_ghost_arrival_witness :
    ((Ghost.new GhostKind.Blue 0 0 1 1 5 2).die.update (fun q => q) (1 / 60) [] corridorPacman
        zeroRandom).1.state = GhostState.CHASING ∧
    ((Ghost.new GhostKind.Blue 0 0 1 1 5 2).die.update (fun q => q) (1 / 60) [] corridorPacman
        zeroRandom).1.spawnTimer = 5 :=
  have h := update_dead_ghost_arrival (fun q => q) (1 / 60) [] corridorPacman zeroRandom
    (Ghost.new GhostKind.Blue 0 0 1 1 5 2).die rfl (by norm_num [Ghost.die, Ghost.new])
  ⟨h.2.1, h.2.2.2.2.2.2⟩

/-- No branch of `Ghost::update` writes the original wait duration or the spawn point. -/
theorem Ghost.update_keeps_spawn (sqrtf : ℚ → ℚ) (dt : ℚ) (valid : List Char)
    (pacman : Pacman) (rng : Random) (g : Ghost) :
    (g.update sqrtf dt valid pacman rng).1.originalSpawnTime = g.originalSpawnTime ∧
    (g.update sqrtf dt valid pacman rng).1.startX = g.startX ∧
    (g.update sqrtf dt valid pacman rng).1.startY = g.startY := by
  have hadv : ∀ (d : ℚ) (h : Ghost), (h.advance d).originalSpawnTime = h.originalSpawnTime ∧
      (h.advance d).startX = h.startX ∧ (h.advance d).startY = h.startY := by
    intro d h
    unfold Ghost.advance Ghost.setPosition
    split_ifs <;> simp
  have hlock : ∀ (a b : ℚ) (h : Ghost),
      (h.axisLock a b).originalSpawnTime = h.originalSpawnTime ∧
      (h.axisLock a b).startX = h.startX ∧ (h.axisLock a b).startY = h.startY := by
    intro a b h
    unfold Ghost.axisLock Ghost.setPosition
    split_ifs <;> simp
  have hmove : ∀ (h : Ghost) (r : Random),
      (Ghost.updateMovement dt valid pacman h r).1.originalSpawnTime = h.originalSpawnTime ∧
      (Ghost.updateMovement dt valid pacman h r).1.startX = h.startX ∧
      (Ghost.updateMovement dt valid pacman h r).1.startY = h.startY := by
    intro h r
    unfold Ghost.updateMovement
    simp only []
    split_ifs <;> simp [hadv, hlock, Ghost.setPosition]
  unfold Ghost.update
  simp only []
  split_ifs <;> simp [hmove, Ghost.setPosition]

/-- C13: for a ghost constructed at (x, y) with wait duration waitTime and then taken through
any sequence of setFeared, die, despawn, resetForPacmanDeath, setBaseSpeed, setPosition and
update calls (so from any state, in particular DESPAWNED), `resetForPacmanDeath` yields state WAITING with
the spawn-wait timer equal to waitTime, position (x, y), speed = baseSpeed, direction neutral
and feared timer 0. -/
theorem resetForPacmanDeath_restores_original_wait (kind : GhostKind)
    (x y width height waitTime : ℚ) (id : Int) (g : Ghost)
    (h : Ghost.EvolvesFrom (Ghost.new kind x y width height waitTime id) g) :
    g.resetForPacmanDeath.state = GhostState.WAITING ∧
    g.resetForPacmanDeath.spawnTimer = waitTime ∧
    g.resetForPacmanDeath.x = x ∧ g.resetForPacmanDeath.y = y ∧
    g.resetForPacmanDeath.speed = g.resetForPacmanDeath.baseSpeed ∧
    g.resetForPacmanDeath.baseSpeed = g.baseSpeed ∧
    g.resetForPacmanDeath.direction = ' ' ∧
    g.resetForPacmanDeath.fearedTimer = 0 := by
  have hinv : g.originalSpawnTime = waitTime ∧ g.startX = x ∧ g.startY = y := by
    induction h with
    | start => exact ⟨rfl, rfl, rfl⟩
    | setFeared duration g _ ih =>
      unfold Ghost.setFeared
      split_ifs
      · exact ih
      · exact ih
    | die g _ ih => exact ih
    | despawn g _ ih => exact ih
    | resetForPacmanDeath g _ ih => exact ih
    | setBaseSpeed newSpeed g _ ih => exact ih
    | setPosition newX newY g _ ih => exact ih
    | update sqrtf dt valid pacman rng g _ ih =>
      obtain ⟨h1, h2, h3⟩ := Ghost.update_keeps_spawn sqrtf dt valid pacman rng g
      exact ⟨h1.trans ih.1, h2.trans ih.2.1, h3.trans ih.2.2⟩
  exact ⟨rfl, hinv.1, hinv.2.1, hinv.2.2, rfl, rfl, rfl, rfl⟩

/-- C13, witness: an orange ghost (wait 10 s) that was frightened, eaten and despawned. -/
theorem resetForPacmanDeath_restores_original_wait_witness :
    ((Ghost.new GhostKind.Orange (1 / 4) 0 (1 / 2) 2 10 3).despawn.setFeared
        5).die.despawn.resetForPacmanDeath.state = GhostState.WAITING ∧
    ((Ghost.new GhostKind.Orange (1 / 4) 0 (1 / 2) 2 10 3).despawn.setFeared
        5).die.despawn.resetForPacmanDeath.spawnTimer = 10 :=
  have h := resetForPacmanDeath_restores_original_wait GhostKind.Orange (1 / 4) 0 (1 / 2) 2 10 3
    ((Ghost.new GhostKind.Orange (1 / 4) 0 (1 / 2) 2 10 3).despawn.setFeared 5).die.despawn
    (Ghost.EvolvesFrom.despawn _ (Ghost.EvolvesFrom.die _ (Ghost.EvolvesFrom.setFeared _ _
      (Ghost.EvolvesFrom.despawn _ Ghost.EvolvesFrom.start))))
  ⟨h.1, h.2.1⟩

/-! ## Level transition: level counter and ghost speed -/

theorem World.placeChar_level (y : ℚ) (v : World) (x : ℚ) (ch : Char) :
    (World.placeChar y (v, x) ch).1.currentLevel = v.currentLevel ∧
    (v.pacman ≠ none → (World.placeChar y (v, x) ch).1.pacman ≠ none) := by
  unfold World.placeChar
  simp only []
  split_ifs <;> simp

/-- Loading a level keeps the level counter and does not lose the player. -/
theorem World.initializeLevel_level (lines : List (List Char)) (w : World)
    (hp : w.pacman ≠ none) :
    ∃ w1 : World, w.initializeLevel (some lines) = Except.ok w1 ∧
      w1.currentLevel = w.currentLevel ∧ w1.pacman ≠ none := by
  obtain ⟨w1, h1, hI, _⟩ := World.initializeLevel_induction lines w
    (fun v => v.currentLevel = w.currentLevel ∧ v.pacman ≠ none) ⟨rfl, hp⟩
    (fun v c r ch _ _ hI _ => by
      have hk := World.placeChar_level (-1 + v.B_height / 2 + (r : ℚ) * v.B_height) v
        (-1 + v.B_width / 2 + (c : ℚ) * v.B_width) ch
      exact ⟨hk.1.trans hI.1, hk.2 hI.2⟩)
    (fun v h => h)
  exact ⟨w1, h1, hI⟩

/-- C14: on a world that has a player, `nextLevel` succeeds, increases the level counter by
exactly one, and afterwards the base speed and the current speed of every ghost equal
0.30 x (1 + 0.15 x (L - 1)), where L is the new level number. -/
theorem nextLevel_increments_level_and_scales_ghosts (lines : List (List Char)) (w : World)
    (hp : w.pacman ≠ none) :
    ∃ w1 : World, w.nextLevel (some lines) = Except.ok w1 ∧
      w1.currentLevel = w.currentLevel + 1 ∧
      ∀ g ∈ w1.ghosts,
        g.baseSpeed = (3 / 10) * (1 + (15 / 100) * (((w1.currentLevel : ℤ) : ℚ) - 1)) ∧
        g.speed = (3 / 10) * (1 + (15 / 100) * (((w1.currentLevel : ℤ) : ℚ) - 1)) := by
  obtain ⟨w3, h3, hl, hp3⟩ := World.initializeLevel_level lines
    { w with scoreSystem := w.scoreSystem.onLevelCleared, currentLevel := w.currentLevel + 1,
             coins := [], fruits := [], ghosts := [] } hp
  obtain ⟨p, hp⟩ := Option.ne_none_iff_exists'.mp hp3
  have hn : ∃ w1, w.nextLevel (some lines) = Except.ok w1 ∧
      w1.currentLevel = w3.currentLevel ∧
      w1.ghosts = w3.ghosts.map (Ghost.setBaseSpeed
        ((3 / 10) * (1 + (((w.currentLevel + 1 - 1 : ℤ)) : ℚ) * (15 / 100)))) := by
    unfold World.nextLevel
    simp only [h3, hp]
    exact ⟨_, rfl, rfl, rfl⟩
  obtain ⟨w1, h1, hl1, hg1⟩ := hn
  refine ⟨w1, h1, hl1.trans hl, ?_⟩
  intro g hg
  rw [hg1, List.mem_map] at hg
  obtain ⟨g0, _, rfl⟩ := hg
  rw [hl1, hl]
  simp only [Ghost.setBaseSpeed]
  constructor <;> (push_cast; ring)

/-- C14, witness: the corridor level with two lives left, reloaded from a map with a ghost. -/
theorem nextLevel_increments_level_witness :
    ∃ w1 : World, corridorWorldTwoLives.nextLevel (some [['P', ' ', ' ', 'R']]) = Except.ok w1 ∧
      w1.currentLevel = corridorWorldTwoLives.currentLevel + 1 ∧
      ∀ g ∈ w1.ghosts,
        g.baseSpeed = (3 / 10) * (1 + (15 / 100) * (((w1.currentLevel : ℤ) : ℚ) - 1)) ∧
        g.speed = (3 / 10) * (1 + (15 / 100) * (((w1.currentLevel : ℤ) : ℚ) - 1)) :=
  nextLevel_increments_level_and_scales_ghosts [['P', ' ', ' ', 'R']] corridorWorldTwoLives
    (by simp [corridorWorldTwoLives])

/-! ## Level loading: layout of the tiles -/

theorem World.placeChar_collections_mono (y : ℚ) (v : World) (x : ℚ) (ch : Char) :
    (∀ e, e ∈ v.walls → e ∈ (World.placeChar y (v, x) ch).1.walls) ∧
    (∀ e, e ∈ v.coins → e ∈ (World.placeChar y (v, x) ch).1.coins) ∧
    (∀ e, e ∈ v.fruits → e ∈ (World.placeChar y (v, x) ch).1.fruits) ∧
    (∀ g, g ∈ v.ghosts → g ∈ (World.placeChar y (v, x) ch).1.ghosts) := by
  unfold World.placeChar
  simp only []
  split_ifs
  all_goals
    refine ⟨?_, ?_, ?_, ?_⟩
    all_goals
      intro e he
      first
        | exact he
        | exact List.mem_append_left _ he

theorem World.placeChar_creates (y : ℚ) (v : World) (x : ℚ) (ch : Char) :
    (ch = '#' → ({ x := x, y := y, width := v.B_width, height := v.B_height } : Entity)
      ∈ (World.placeChar y (v, x) ch).1.walls) ∧
    (ch = '0' → ({ x := x, y := y, width := v.B_width, height := v.B_height } : Entity)
      ∈ (World.placeChar y (v, x) ch).1.coins) ∧
    (ch = 'f' → ({ x := x, y := y, width := v.B_width, height := v.B_height } : Entity)
      ∈ (World.placeChar y (v, x) ch).1.fruits) ∧
    (ch = 'R' ∨ ch = 'I' ∨ ch = 'B' ∨ ch = 'O' →
      createGhost x y v.B_width v.B_height ch ∈ (World.placeChar y (v, x) ch).1.ghosts) := by
  refine ⟨?_, ?_, ?_, ?_⟩
  · rintro rfl; simp +decide [World.placeChar]
  · rintro rfl; simp +decide [World.placeChar]
  · rintro rfl; simp +decide [World.placeChar]
  · rintro (rfl | rfl | rfl | rfl) <;> simp +decide [World.placeChar]

theorem tileEntityAt_eq (lines : List (List Char)) (v : World) (c r : ℕ)
    (h1 : v.B_width = 2 / ((getWidth lines : ℤ) : ℚ))
    (h2 : v.B_height = 2 / ((countLines lines : ℤ) : ℚ)) :
    -1 + v.B_width / 2 + (c : ℚ) * v.B_width = (tileEntityAt lines c r).x ∧
    -1 + v.B_height / 2 + (r : ℚ) * v.B_height = (tileEntityAt lines c r).y ∧
    v.B_width = (tileEntityAt lines c r).width ∧
    v.B_height = (tileEntityAt lines c r).height ∧
    (v.getPositionFromTile (c : ℤ) (r : ℤ)).1 = (tileEntityAt lines c r).x ∧
    (v.getPositionFromTile (c : ℤ) (r : ℤ)).2 = (tileEntityAt lines c r).y := by
  simp only [tileEntityAt, World.getPositionFromTile, h1, h2]
  refine ⟨by ring, by ring, trivial, trivial, ?_, ?_⟩ <;> (push_cast; ring)

theorem World.placeChar_P_playerPlacedAt (lines : List (List Char)) (hW : 0 < getWidth lines)
    (v : World) (c r : ℕ) (h1 : v.B_width = 2 / ((getWidth lines : ℤ) : ℚ))
    (h2 : v.B_height = 2 / ((countLines lines : ℤ) : ℚ))
    (hP : mapCharAt lines (c : ℤ) (r : ℤ) = some 'P') :
    PlayerPlacedAt lines (World.placeChar (-1 + v.B_height / 2 + (r : ℚ) * v.B_height)
      (v, -1 + v.B_width / 2 + (c : ℚ) * v.B_width) 'P').1 := by
  obtain ⟨hbw, hbh⟩ := getWidth_pos_countLines_pos lines hW
  obtain ⟨e1, e2, e3, e4, e5, e6⟩ := tileEntityAt_eq lines v c r h1 h2
  have ht := v.getTileFromPosition_center (h1 ▸ hbw) (h2 ▸ hbh) c r
  rw [e5, e6] at ht
  rw [e1, e2]
  refine ⟨c, r, hP, ?_, ?_, ?_, ?_, ?_, ?_⟩
  · simp +decide only [World.placeChar, if_true, if_false, e3, e4]
  · simp +decide only [World.placeChar, if_true, if_false]
    rw [ht]
  · simp +decide only [World.placeChar, if_true, if_false]
    rw [ht]
  · simp +decide [World.placeChar]
  · simp +decide [World.placeChar]
  · simp +decide [World.placeChar]

/-- A level loaded from a map with a `P` has its player placed on the tile of a `P`. -/
theorem World.initializeLevel_playerPlacedAt (lines : List (List Char))
    (hW : 0 < getWidth lines) (w : World) (c r : ℕ)
    (hP : mapCharAt lines (c : ℤ) (r : ℤ) = some 'P') :
    ∃ w1 : World, w.initializeLevel (some lines) = Except.ok w1 ∧ PlayerPlacedAt lines w1 := by
  apply World.initializeLevel_establish lines w (PlayerPlacedAt lines) c r 'P' hP
  · intro v h1 h2
    exact World.placeChar_P_playerPlacedAt lines hW v c r h1 h2 hP
  · intro v c1 r1 ch h1 h2 hS hcell
    by_cases hc : ch = 'P'
    · subst hc
      exact World.placeChar_P_playerPlacedAt lines hW v c1 r1 h1 h2 hcell
    · have hk := World.placeChar_of_ne (-1 + v.B_height / 2 + (r1 : ℚ) * v.B_height) v
        (-1 + v.B_width / 2 + (c1 : ℚ) * v.B_width) ch hc
      have hbuf : (World.placeChar (-1 + v.B_height / 2 + (r1 : ℚ) * v.B_height)
          (v, -1 + v.B_width / 2 + (c1 : ℚ) * v.B_width) ch).1.pacmanBufferedInput
          = v.pacmanBufferedInput := by
        unfold World.placeChar
        simp only []
        split_ifs
        all_goals rfl
      obtain ⟨c0, r0, g1, g2, g3, g4, g5, g6, g7⟩ := hS
      exact ⟨c0, r0, g1, hk.1.trans g2, hk.2.1.trans g3, hk.2.2.1.trans g4,
        hk.2.2.2.1.trans g5, hk.2.2.2.2.trans g6, hbuf.trans g7⟩
  · intro v h
    exact h

/-- C19: for every map whose first row is not empty, of width W (length of the first row) and
height H (number of rows), in particular for every rectangular map of W columns and H rows
with W, H >= 1, `initializeLevel` succeeds, sets the tile size to (2/W, 2/H) and creates the
entity for the character at column c, row r (wall, coin, fruit or ghost) with size (2/W, 2/H)
and centre (-1 + (c + 1/2) x 2/W, -1 + (r + 1/2) x 2/H); the tile of column c spans
[-1 + c x 2/W, -1 + (c + 1) x 2/W] and the tile of row r spans
[-1 + r x 2/H, -1 + (r + 1) x 2/H], so the W x H tiles exactly partition [-1,1] x [-1,1];
the player is created on the tile of the `P` character and its logical tile is (c, r) of
that character. -/
theorem initializeLevel_lays_out_the_tiles (lines : List (List Char))
    (hW : 0 < getWidth lines) (w : World) :
    ∃ w1 : World, w.initializeLevel (some lines) = Except.ok w1 ∧
      w1.B_width = 2 / ((getWidth lines : ℤ) : ℚ) ∧
      w1.B_height = 2 / ((countLines lines : ℤ) : ℚ) ∧
      (∀ (c r : ℕ) (ch : Char), mapCharAt lines (c : ℤ) (r : ℤ) = some ch →
        (ch = '#' → tileEntityAt lines c r ∈ w1.walls) ∧
        (ch = '0' → tileEntityAt lines c r ∈ w1.coins) ∧
        (ch = 'f' → tileEntityAt lines c r ∈ w1.fruits) ∧
        (ch = 'R' ∨ ch = 'I' ∨ ch = 'B' ∨ ch = 'O' →
          createGhost (tileEntityAt lines c r).x (tileEntityAt lines c r).y
            (tileEntityAt lines c r).width (tileEntityAt lines c r).height ch ∈ w1.ghosts)) ∧
      ((∃ c r : ℕ, mapCharAt lines (c : ℤ) (r : ℤ) = some 'P') → PlayerPlacedAt lines w1) ∧
      (∀ c r : ℕ, mapCharAt lines (c : ℤ) (r : ℤ) = some 'P' →
        (∀ c1 r1 : ℕ, mapCharAt lines (c1 : ℤ) (r1 : ℤ) = some 'P' → c1 = c ∧ r1 = r) →
        w1.pacman = some (Pacman.new (tileEntityAt lines c r).x (tileEntityAt lines c r).y
          (tileEntityAt lines c r).width (tileEntityAt lines c r).height) ∧
        w1.pacmanTileX = (c : ℤ) ∧ w1.pacmanTileY = (r : ℤ)) ∧
      (∀ c r : ℕ,
        (tileEntityAt lines c r).x - (tileEntityAt lines c r).width / 2
          = -1 + (c : ℚ) * (2 / ((getWidth lines : ℤ) : ℚ)) ∧
        (tileEntityAt lines c r).x + (tileEntityAt lines c r).width / 2
          = -1 + ((c : ℚ) + 1) * (2 / ((getWidth lines : ℤ) : ℚ)) ∧
        (tileEntityAt lines c r).y - (tileEntityAt lines c r).height / 2
          = -1 + (r : ℚ) * (2 / ((countLines lines : ℤ) : ℚ)) ∧
        (tileEntityAt lines c r).y + (tileEntityAt lines c r).height / 2
          = -1 + ((r : ℚ) + 1) * (2 / ((countLines lines : ℤ) : ℚ))) ∧
      (-1 : ℚ) + ((getWidth lines : ℤ) : ℚ) * (2 / ((getWidth lines : ℤ) : ℚ)) = 1 ∧
      (-1 : ℚ) + ((countLines lines : ℤ) : ℚ) * (2 / ((countLines lines : ℤ) : ℚ)) = 1 := by
  obtain ⟨hbw, hbh⟩ := getWidth_pos_countLines_pos lines hW
  have hWne : ((getWidth lines : ℤ) : ℚ) ≠ 0 := by
    intro h0; rw [h0] at hbw; simp at hbw
  have hHne : ((countLines lines : ℤ) : ℚ) ≠ 0 := by
    intro h0; rw [h0] at hbh; simp at hbh
  obtain ⟨w1, h1, _, hB1, hB2⟩ := World.initializeLevel_induction lines w (fun _ => True)
    trivial (fun _ _ _ _ _ _ _ _ => trivial) (fun _ _ => trivial)
  have same : ∀ w2 : World, w.initializeLevel (some lines) = Except.ok w2 → w2 = w1 := by
    intro w2 h2
    rw [h1] at h2
    exact (Except.ok.inj h2).symm
  refine ⟨w1, h1, hB1, hB2, ?_, ?_, ?_, ?_, ?_, ?_⟩
  · intro c r ch hcell
    refine ⟨?_, ?_, ?_, ?_⟩
    · intro hch
      obtain ⟨w2, h2, hS⟩ := World.initializeLevel_establish lines w
        (fun v => tileEntityAt lines c r ∈ v.walls) c r ch hcell
        (fun v e1 e2 => by
          have hc := (World.placeChar_creates (-1 + v.B_height / 2 + (r : ℚ) * v.B_height) v
            (-1 + v.B_width / 2 + (c : ℚ) * v.B_width) ch).1 hch
          obtain ⟨a1, a2, a3, a4, _⟩ := tileEntityAt_eq lines v c r e1 e2
          rw [a1, a2] at hc
          rw [a3] at hc
          rw [a4] at hc
          beta_reduce
          rw [a1, a2]
          exact hc)
        (fun v c1 r1 ch1 _ _ hS _ => (World.placeChar_collections_mono _ v _ ch1).1 _ hS)
        (fun v h => h)
      exact same w2 h2 ▸ hS
    · intro hch
      obtain ⟨w2, h2, hS⟩ := World.initializeLevel_establish lines w
        (fun v => tileEntityAt lines c r ∈ v.coins) c r ch hcell
        (fun v e1 e2 => by
          have hc := (World.placeChar_creates (-1 + v.B_height / 2 + (r : ℚ) * v.B_height) v
            (-1 + v.B_width / 2 + (c : ℚ) * v.B_width) ch).2.1 hch
          obtain ⟨a1, a2, a3, a4, _⟩ := tileEntityAt_eq lines v c r e1 e2
          rw [a1, a2] at hc
          rw [a3] at hc
          rw [a4] at hc
          beta_reduce
          rw [a1, a2]
          exact hc)
        (fun v c1 r1 ch1 _ _ hS _ => (World.placeChar_collections_mono _ v _ ch1).2.1 _ hS)
        (fun v h => h)
      exact same w2 h2 ▸ hS
    · intro hch
      obtain ⟨w2, h2, hS⟩ := World.initializeLevel_establish lines w
        (fun v => tileEntityAt lines c r ∈ v.fruits) c r ch hcell
        (fun v e1 e2 => by
          have hc := (World.placeChar_creates (-1 + v.B_height / 2 + (r : ℚ) * v.B_height) v
            (-1 + v.B_width / 2 + (c : ℚ) * v.B_width) ch).2.2.1 hch
          obtain ⟨a1, a2, a3, a4, _⟩ := tileEntityAt_eq lines v c r e1 e2
          rw [a1, a2] at hc
          rw [a3] at hc
          rw [a4] at hc
          beta_reduce
          rw [a1, a2]
          exact hc)
        (fun v c1 r1 ch1 _ _ hS _ => (World.placeChar_collections_mono _ v _ ch1).2.2.1 _ hS)
        (fun v h => h)
      exact same w2 h2 ▸ hS
    · intro hch
      obtain ⟨w2, h2, hS⟩ := World.initializeLevel_establish lines w
        (fun v => createGhost (tileEntityAt lines c r).x (tileEntityAt lines c r).y
            (tileEntityAt lines c r).width (tileEntityAt lines c r).height ch ∈ v.ghosts)
        c r ch hcell
        (fun v e1 e2 => by
          have hc := (World.placeChar_creates (-1 + v.B_height / 2 + (r : ℚ) * v.B_height) v
            (-1 + v.B_width / 2 + (c : ℚ) * v.B_width) ch).2.2.2 hch
          obtain ⟨a1, a2, a3, a4, _⟩ := tileEntityAt_eq lines v c r e1 e2
          rw [a1, a2] at hc
          rw [a3] at hc
          rw [a4] at hc
          beta_reduce
          rw [a1, a2]
          exact hc)
        (fun v c1 r1 ch1 _ _ hS _ => (World.placeChar_collections_mono _ v _ ch1).2.2.2 _ hS)
        (fun v h => h)
      exact same w2 h2 ▸ hS
  · rintro ⟨c, r, hP⟩
    obtain ⟨w2, h2, hS⟩ := World.initializeLevel_playerPlacedAt lines hW w c r hP
    exact same w2 h2 ▸ hS
  · intro c r hP huniq
    obtain ⟨w2, h2, hS⟩ := World.initializeLevel_playerPlacedAt lines hW w c r hP
    have hS1 : PlayerPlacedAt lines w1 := same w2 h2 ▸ hS
    obtain ⟨c0, r0, g1, g2, g3, g4, _⟩ := hS1
    obtain ⟨rfl, rfl⟩ := huniq c0 r0 g1
    exact ⟨g2, g3, g4⟩
  · intro c r
    simp only [tileEntityAt]
    refine ⟨?_, ?_, ?_, ?_⟩ <;> ring
  · field_simp; ring
  · field_simp; ring

/-- C19, witness: the corridor map (1 row, 4 columns). -/
theorem initializeLevel_lays_out_the_tiles_witness :
    ∃ w1 : World, World.blank.initializeLevel (some corridorMap) = Except.ok w1 ∧
      w1.B_width = 1 / 2 ∧ w1.B_height = 2 ∧
      w1.pacman = some (Pacman.new (-3 / 4) 0 (1 / 2) 2) ∧
      w1.pacmanTileX = 0 ∧ w1.pacmanTileY = 0 := by
  obtain ⟨w1, h1, h2, h3, _, _, h6, _⟩ :=
    initializeLevel_lays_out_the_tiles corridorMap (by decide) World.blank
  have hP : mapCharAt corridorMap ((0 : ℕ) : ℤ) ((0 : ℕ) : ℤ) = some 'P' := by decide
  have huniq : ∀ c1 r1 : ℕ, mapCharAt corridorMap (c1 : ℤ) (r1 : ℤ) = some 'P' →
      c1 = 0 ∧ r1 = 0 := by
    intro c1 r1 h
    rw [mapCharAt_natCast] at h
    match r1, c1, h with
    | 0, 0, _ => exact ⟨rfl, rfl⟩
    | 0, 1, h => simp +decide [corridorMap] at h
    | 0, 2, h => simp +decide [corridorMap] at h
    | 0, 3, h => simp +decide [corridorMap] at h
    | 0, (n + 4), h => simp +decide [corridorMap] at h
    | (m + 1), _, h => simp +decide [corridorMap] at h
  obtain ⟨g1, g2, g3⟩ := h6 0 0 hP huniq
  refine ⟨w1, h1, ?_, ?_, ?_, ?_, ?_⟩
  · rw [h2]; norm_num [corridorMap, getWidth]
  · rw [h3]; norm_num [corridorMap, countLines]
  · rw [g1]; norm_num [tileEntityAt, corridorMap, getWidth, countLines]
  · simpa using g2
  · simpa using g3

/-! ## The legal set offered to a ghost -/

/-- The legal set as a function of the four wall tests and of the reverse direction. -/
theorem World.validDirections_eq (w : World) (g : Ghost) :
    w.validDirections g =
      if 1 < (['U', 'D', 'L', 'R'].filter (fun dir => !w.checkGhostWallCollision g dir)).length
      then (['U', 'D', 'L', 'R'].filter (fun dir => !w.checkGhostWallCollision g dir)).filter
        (fun dir => dir != g.getOppositeDirection)
      else ['U', 'D', 'L', 'R'].filter (fun dir => !w.checkGhostWallCollision g dir) := rfl

/-- A list without duplicates whose members all equal `d` has at most one member. -/
theorem length_le_one_of_all_eq (F : List Char) (hnd : F.Nodup) (d : Char)
    (h : ∀ x ∈ F, x = d) : F.length ≤ 1 := by
  match F, hnd, h with
  | [], _, _ => simp
  | [_], _, _ => simp
  | a :: b :: t, hnd, h =>
    exfalso
    have ha : a = d := h a (by simp)
    have hb : b = d := h b (by simp)
    rw [List.nodup_cons] at hnd
    exact hnd.1 (by rw [ha, hb]; simp)

/-- Removing the reverse direction when more than one direction is free. -/
theorem mem_legal_iff (F : List Char) (hnd : F.Nodup) (opp d : Char) :
    d ∈ (if 1 < F.length then F.filter (fun dir => dir != opp) else F) ↔
      d ∈ F ∧ (d = opp → ∀ d1 ∈ F, d1 = d) := by
  split_ifs with hlen
  · rw [List.mem_filter]
    constructor
    · rintro ⟨hF, hne⟩
      refine ⟨hF, fun he => ?_⟩
      simp [he] at hne
    · rintro ⟨hF, himp⟩
      refine ⟨hF, ?_⟩
      by_cases he : d = opp
      · have := length_le_one_of_all_eq F hnd d (himp he)
        omega
      · simpa using he
  · constructor
    · intro hF
      refine ⟨hF, fun _ d1 hd1 => ?_⟩
      match F, hlen, hF, hd1 with
      | [a], _, hF, hd1 =>
        simp at hF hd1
        rw [hF, hd1]
      | a :: b :: t, hlen, _, _ => simp at hlen
    · exact fun h => h.1

theorem legal_eq_nil_iff (F : List Char) (hnd : F.Nodup) (opp : Char) :
    (if 1 < F.length then F.filter (fun dir => dir != opp) else F) = [] ↔ F = [] := by
  constructor
  · intro h
    by_contra hne
    have hall : ∀ x ∈ F, x = opp := by
      intro x hx
      by_contra hxo
      have : x ∈ (if 1 < F.length then F.filter (fun dir => dir != opp) else F) := by
        split_ifs
        · rw [List.mem_filter]; exact ⟨hx, by simpa using hxo⟩
        · exact hx
      rw [h] at this
      simp at this
    have hlen := length_le_one_of_all_eq F hnd opp hall
    rw [if_neg (by omega)] at h
    exact hne h
  · rintro rfl
    simp

/-- The legal set in terms of the wall test of the code: it holds exactly the directions among
U, D, L, R that `checkGhostWallCollision` does not report as blocked, with the reverse
direction of the ghost removed whenever more than one direction is not blocked; it contains
the reverse direction only when that is the sole direction that is not blocked, and it is
empty exactly when all four directions are blocked. -/
theorem World.validDirections_by_wall_test (w : World) (g : Ghost) :
    (∀ d : Char, d ∈ w.validDirections g ↔
      ((d = 'U' ∨ d = 'D' ∨ d = 'L' ∨ d = 'R') ∧ w.checkGhostWallCollision g d = false ∧
        (d = g.getOppositeDirection →
          ∀ d1 : Char, (d1 = 'U' ∨ d1 = 'D' ∨ d1 = 'L' ∨ d1 = 'R') →
            w.checkGhostWallCollision g d1 = false → d1 = d))) ∧
    (g.getOppositeDirection ∈ w.validDirections g →
      w.validDirections g = [g.getOppositeDirection]) ∧
    (w.validDirections g = [] ↔
      (w.checkGhostWallCollision g 'U' = true ∧ w.checkGhostWallCollision g 'D' = true ∧
       w.checkGhostWallCollision g 'L' = true ∧ w.checkGhostWallCollision g 'R' = true)) ∧
    (w.validDirections g).Nodup := by
  have hnd : (['U', 'D', 'L', 'R'].filter
      (fun dir => !w.checkGhostWallCollision g dir)).Nodup :=
    List.Nodup.filter _ (by decide)
  have hF : ∀ d : Char,
      d ∈ ['U', 'D', 'L', 'R'].filter (fun dir => !w.checkGhostWallCollision g dir) ↔
        (d = 'U' ∨ d = 'D' ∨ d = 'L' ∨ d = 'R') ∧ w.checkGhostWallCollision g d = false := by
    intro d
    rw [List.mem_filter]
    simp
  have hmem : ∀ d : Char, d ∈ w.validDirections g ↔
      ((d = 'U' ∨ d = 'D' ∨ d = 'L' ∨ d = 'R') ∧ w.checkGhostWallCollision g d = false ∧
        (d = g.getOppositeDirection →
          ∀ d1 : Char, (d1 = 'U' ∨ d1 = 'D' ∨ d1 = 'L' ∨ d1 = 'R') →
            w.checkGhostWallCollision g d1 = false → d1 = d)) := by
    intro d
    rw [World.validDirections_eq, mem_legal_iff _ hnd, hF]
    constructor
    · rintro ⟨⟨h1, h2⟩, h3⟩
      exact ⟨h1, h2, fun he d1 hd1 hb => h3 he d1 ((hF d1).mpr ⟨hd1, hb⟩)⟩
    · rintro ⟨h1, h2, h3⟩
      exact ⟨⟨h1, h2⟩, fun he d1 hd1 => h3 he d1 ((hF d1).mp hd1).1 ((hF d1).mp hd1).2⟩
  refine ⟨hmem, ?_, ?_, ?_⟩
  · intro ho
    have hall : ∀ x ∈ w.validDirections g, x = g.getOppositeDirection := by
      intro x hx
      obtain ⟨h1, h2, h3⟩ := (hmem _).mp ho
      obtain ⟨g1, g2, _⟩ := (hmem x).mp hx
      exact h3 rfl x g1 g2
    have hndV : (w.validDirections g).Nodup := by
      rw [World.validDirections_eq]
      split_ifs
      · exact List.Nodup.filter _ hnd
      · exact hnd
    have hlen := length_le_one_of_all_eq _ hndV _ hall
    match hV : w.validDirections g, hlen with
    | [], _ => rw [hV] at ho; simp at ho
    | [a], _ =>
      have := hall a (by rw [hV]; simp)
      rw [this]
    | a :: b :: t, hlen => simp at hlen
  · rw [World.validDirections_eq, legal_eq_nil_iff _ hnd, List.filter_eq_nil_iff]
    simp
  · rw [World.validDirections_eq]
    split_ifs
    · exact List.Nodup.filter _ hnd
    · exact hnd

/-! ## The end of a fear window -/

/-- C15 (evaluation of the code): in `fearEndWorld` the fruit-mode flag is set, the combo
counter is 1, one ghost is DEAD and the other has 0.01 s of fear left. One `World::update` of
1/60 s without input (the square root is exact at the one argument it receives, 1) ends the
fear of the second ghost, finds no ghost FEARED and clears the fruit-mode flag; at the end of
that frame the combo counter is still 1, not 0. -/
theorem fear_end_leaves_combo_counter :
    fearEndWorld.inFruitMode = true ∧
    fearEndWorld.scoreSystem.consecutiveGhosts = 1 ∧
    fearEndWorld.update (fun q => q) (1 / 60) (Char.ofNat 0) zeroRandom
      = some (fearEndAfterFrame, zeroRandom) ∧
    fearEndAfterFrame.inFruitMode = false ∧
    (∀ g ∈ fearEndAfterFrame.ghosts, g.state ≠ GhostState.FEARED) ∧
    fearEndAfterFrame.scoreSystem.consecutiveGhosts = 1 := by
  refine ⟨rfl, rfl, ?_, rfl, ?_, rfl⟩
  · simp +decide [World.update, World.playFrame, World.isStartInput, World.ghostLoop,
      World.collectCoins, World.collectFruits, World.validDirections,
      World.checkGhostWallCollision, World.intersectsPickup, Ghost.update,
      Ghost.updateMovement, Ghost.approachingCenter, Ghost.distRemaining, Ghost.advance,
      Ghost.axisLock, Ghost.getGridCenter, Ghost.setPosition, Ghost.getOppositeDirection,
      Ghost.new, getCenteredPosition, truncToInt,
      World.updatePacmanTileBased, World.bufferInput, World.instantReversalStep,
      World.tileCenterStep, World.applyBufferedInput, World.stopAtWall, World.advanceStep,
      World.visualPosition, World.isTileWall, World.getPositionFromTile, stepTile,
      fearEndWorld, fearEndAfterFrame, eatenGhost, fearedGhost,
      corridorWorld, corridorPacman, World.blank, Pacman.new,
      Pacman.setDirection, Pacman.setMoving, Pacman.setPosition, World.isOppositeInput,
      Score.update, Score.new]
    norm_num
    simp +decide [Ghost.updateMovement, Ghost.approachingCenter, Ghost.distRemaining,
      Ghost.advance, Ghost.axisLock, Ghost.getGridCenter, Ghost.setPosition, truncToInt,
      World.ghostLoop]
  · simp +decide [fearEndAfterFrame, fearEndWorld, eatenGhost, fearedGhost, Ghost.new]

/-! ## Ghost strategies -/

/-- C21 (what the code computes): the target of `PinkGhost` and `BlueGhost` is the position
of the player displaced by the constant 1.0 of the coordinate system in its direction (the
position itself when the player has no direction), whatever the size of a tile; the target of
`OrangeGhost` is the position of the player. On a row of eight tiles (tile width 1/4), with
the player on the first tile facing right, the target is four tiles ahead, not one, and a pink
ghost on the third tile that may go left or right goes right, away from the tile ahead of the
player, where the target one tile ahead sends it left. -/
theorem pink_target_is_one_unit_ahead :
    (∀ (g : Ghost) (valid : List Char) (pacman : Pacman) (rng : Random), valid ≠ [] →
      (g.decideDirectionPink valid pacman rng =
        getBestManhattanDirection g.x g.y
          (if pacman.direction = 'L' then pacman.x - 1
           else if pacman.direction = 'R' then pacman.x + 1 else pacman.x)
          (if pacman.direction = 'U' then pacman.y - 1
           else if pacman.direction = 'D' then pacman.y + 1 else pacman.y) valid rng) ∧
      (g.decideDirectionBlue valid pacman rng = g.decideDirectionPink valid pacman rng) ∧
      (g.decideDirectionOrange valid pacman rng =
        getBestManhattanDirection g.x g.y pacman.x pacman.y valid rng)) ∧
    oneTileAhead playerFacingRight = (-5 / 8, 0) ∧
    pinkOnThirdTile.decideDirectionPink ['L', 'R'] playerFacingRight zeroRandom
      = getBestManhattanDirection (-3 / 8) 0 (1 / 8) 0 ['L', 'R'] zeroRandom ∧
    (pinkOnThirdTile.decideDirectionPink ['L', 'R'] playerFacingRight zeroRandom).1 = 'R' ∧
    (getBestManhattanDirection pinkOnThirdTile.x pinkOnThirdTile.y
      (oneTileAhead playerFacingRight).1 (oneTileAhead playerFacingRight).2 ['L', 'R']
      zeroRandom).1 = 'L' := by
  refine ⟨?_, ?_, ?_, ?_, ?_⟩
  · intro g valid pacman rng hv
    have he : valid.isEmpty = false := by
      cases valid with
      | nil => exact absurd rfl hv
      | cons a t => rfl
    refine ⟨?_, rfl, ?_⟩
    · simp only [Ghost.decideDirectionPink, he, Bool.false_eq_true, ↓reduceIte]
    · simp only [Ghost.decideDirectionOrange, he, Bool.false_eq_true, ↓reduceIte]
  · simp +decide [oneTileAhead, playerFacingRight, Pacman.new]
    norm_num
  · simp +decide [Ghost.decideDirectionPink, pinkOnThirdTile, playerFacingRight, Pacman.new,
      Ghost.new]
    norm_num
  · simp +decide [Ghost.decideDirectionPink, getBestManhattanDirection, bestManhattanStep,
      pinkOnThirdTile, playerFacingRight, Pacman.new, Ghost.new, FLT_MAX, Random.nextInt,
      zeroRandom]
    norm_num [abs_of_pos]
  · simp +decide [getBestManhattanDirection, bestManhattanStep, oneTileAhead,
      pinkOnThirdTile, playerFacingRight, Pacman.new, Ghost.new, FLT_MAX, Random.nextInt,
      zeroRandom]
    norm_num [abs_of_pos]

/-! ## Ghost strategies: the Manhattan choice -/

/-- The loop body of `getBestManhattanDirection` in terms of the distance it computes. -/
theorem bestManhattanStep_eq (sx sy tx ty : ℚ) (acc : ℚ × List Char) (move : Char) :
    bestManhattanStep sx sy tx ty acc move =
      if manhattanAfterStep sx sy tx ty move < acc.1 - 1 / 1000 then
        (manhattanAfterStep sx sy tx ty move, [move])
      else if |manhattanAfterStep sx sy tx ty move - acc.1| < 1 / 1000 then
        (acc.1, acc.2 ++ [move])
      else acc := rfl

/-- The loop invariant of `getBestManhattanDirection`: every move seen so far is at most
0.001 closer than the reference minimum, every kept move is a move seen so far within 0.001
of the reference minimum, and a move is kept as soon as one has been seen. -/
theorem bestManhattan_fold_inv (sx sy tx ty : ℚ) (valid : List Char) :
    ∀ (pre : List Char) (acc : ℚ × List Char),
      (∀ x ∈ pre, acc.1 - 1 / 1000 ≤ manhattanAfterStep sx sy tx ty x) →
      (∀ x ∈ acc.2, x ∈ pre ∧ |manhattanAfterStep sx sy tx ty x - acc.1| < 1 / 1000) →
      (acc.2 = [] → acc.1 = FLT_MAX) →
      (∀ x ∈ valid, manhattanAfterStep sx sy tx ty x < FLT_MAX - 1 / 1000) →
      (∀ x ∈ pre ++ valid,
        (valid.foldl (bestManhattanStep sx sy tx ty) acc).1 - 1 / 1000
          ≤ manhattanAfterStep sx sy tx ty x) ∧
      (∀ x ∈ (valid.foldl (bestManhattanStep sx sy tx ty) acc).2,
        x ∈ pre ++ valid ∧
        |manhattanAfterStep sx sy tx ty x
          - (valid.foldl (bestManhattanStep sx sy tx ty) acc).1| < 1 / 1000) ∧
      ((valid.foldl (bestManhattanStep sx sy tx ty) acc).2 = [] →
        (valid.foldl (bestManhattanStep sx sy tx ty) acc).1 = FLT_MAX ∧ valid = []) := by
  induction valid with
  | nil =>
    intro pre acc h1 h2 h3 _
    simp only [List.foldl_nil, List.append_nil]
    exact ⟨h1, h2, fun h => ⟨h3 h, trivial⟩⟩
  | cons a t ih =>
    intro pre acc h1 h2 h3 hfit
    have hfa := hfit a (List.mem_cons_self a t)
    have hft : ∀ x ∈ t, manhattanAfterStep sx sy tx ty x < FLT_MAX - 1 / 1000 :=
      fun x hx => hfit x (List.mem_cons_of_mem a hx)
    rw [List.foldl_cons]
    have hstep : (∀ x ∈ pre ++ [a],
          (bestManhattanStep sx sy tx ty acc a).1 - 1 / 1000
            ≤ manhattanAfterStep sx sy tx ty x) ∧
        (∀ x ∈ (bestManhattanStep sx sy tx ty acc a).2, x ∈ pre ++ [a] ∧
          |manhattanAfterStep sx sy tx ty x - (bestManhattanStep sx sy tx ty acc a).1|
            < 1 / 1000) ∧
        (bestManhattanStep sx sy tx ty acc a).2 ≠ [] := by
      rw [bestManhattanStep_eq]
      by_cases c1 : manhattanAfterStep sx sy tx ty a < acc.1 - 1 / 1000
      · rw [if_pos c1]
        refine ⟨?_, ?_, by simp⟩
        · intro x hx
          rcases List.mem_append.mp hx with hx | hx
          · have := h1 x hx
            show manhattanAfterStep sx sy tx ty a - 1 / 1000 ≤ _
            linarith
          · rw [List.mem_singleton] at hx
            rw [hx]
            show manhattanAfterStep sx sy tx ty a - 1 / 1000 ≤ _
            linarith
        · intro x hx
          rw [List.mem_singleton] at hx
          rw [hx]
          refine ⟨by simp, ?_⟩
          show |manhattanAfterStep sx sy tx ty a - manhattanAfterStep sx sy tx ty a| < _
          rw [sub_self, abs_zero]
          norm_num
      · rw [if_neg c1]
        by_cases c2 : |manhattanAfterStep sx sy tx ty a - acc.1| < 1 / 1000
        · rw [if_pos c2]
          refine ⟨?_, ?_, by simp⟩
          · intro x hx
            rcases List.mem_append.mp hx with hx | hx
            · exact h1 x hx
            · rw [List.mem_singleton] at hx
              rw [hx]
              show acc.1 - 1 / 1000 ≤ _
              linarith [not_lt.mp c1]
          · intro x hx
            rcases List.mem_append.mp hx with hx | hx
            · exact ⟨List.mem_append_left _ (h2 x hx).1, (h2 x hx).2⟩
            · rw [List.mem_singleton] at hx
              rw [hx]
              exact ⟨by simp, c2⟩
        · rw [if_neg c2]
          refine ⟨?_, ?_, ?_⟩
          · intro x hx
            rcases List.mem_append.mp hx with hx | hx
            · exact h1 x hx
            · rw [List.mem_singleton] at hx
              rw [hx]
              linarith [not_lt.mp c1]
          · intro x hx
            exact ⟨List.mem_append_left _ (h2 x hx).1, (h2 x hx).2⟩
          · intro he
            have := h3 he
            rw [this] at c1
            exact c1 hfa
    obtain ⟨s1, s2, s3⟩ := hstep
    have := ih (pre ++ [a]) (bestManhattanStep sx sy tx ty acc a) s1 s2
      (fun h => absurd h s3) hft
    rw [List.append_assoc, List.singleton_append] at this
    obtain ⟨r1, r2, r3⟩ := this
    refine ⟨r1, r2, ?_⟩
    intro he
    have hh := (r3 he).2
    rw [hh, List.foldl_nil] at he
    exact absurd he s3

/-- The index `nextInt(0, size - 1)` selects an element of a non-empty vector. -/
theorem getD_nextInt_mem (l : List Char) (rng : Random) (hl : l ≠ []) :
    l.getD (rng.nextInt 0 ((l.length : Int) - 1)).1.toNat ' ' ∈ l := by
  have hpos : 0 < l.length := List.length_pos.mpr hl
  have hlt : (rng.nextInt 0 ((l.length : Int) - 1)).1.toNat < l.length := by
    unfold Random.nextInt
    simp only [zero_add, sub_zero, sub_add_cancel]
    have h0 : (0 : Int) ≤ (rng.draws rng.pos : Int) % (l.length : Int) :=
      Int.emod_nonneg _ (by omega)
    have h1 : (rng.draws rng.pos : Int) % (l.length : Int) < (l.length : Int) :=
      Int.emod_lt_of_pos _ (by omega)
    omega
  rw [List.getD_eq_getElem _ _ hlt]
  exact List.getElem_mem hlt

/-- What `getBestManhattanDirection` returns on a non-empty legal set whose distances are
below the largest float: a legal direction whose distance is less than 0.002 above the
distance of every legal direction. -/
theorem getBestManhattanDirection_near_min (sx sy tx ty : ℚ) (valid : List Char)
    (rng : Random) (hv : valid ≠ [])
    (hfit : ∀ x ∈ valid, manhattanAfterStep sx sy tx ty x < FLT_MAX - 1 / 1000) :
    (getBestManhattanDirection sx sy tx ty valid rng).1 ∈ valid ∧
    ∀ m ∈ valid,
      manhattanAfterStep sx sy tx ty (getBestManhattanDirection sx sy tx ty valid rng).1
        < manhattanAfterStep sx sy tx ty m + 2 / 1000 := by
  obtain ⟨r1, r2, r3⟩ := bestManhattan_fold_inv sx sy tx ty valid [] (FLT_MAX, [])
    (by simp) (by simp) (fun _ => rfl) hfit
  simp only [List.nil_append] at r1 r2
  have hne : (valid.foldl (bestManhattanStep sx sy tx ty) (FLT_MAX, [])).2 ≠ [] :=
    fun h => hv (r3 h).2
  have hem : (valid.foldl (bestManhattanStep sx sy tx ty) (FLT_MAX, [])).2.isEmpty = false := by
    rw [List.isEmpty_eq_false]
    exact hne
  have hres : (getBestManhattanDirection sx sy tx ty valid rng).1 ∈
      (valid.foldl (bestManhattanStep sx sy tx ty) (FLT_MAX, [])).2 := by
    unfold getBestManhattanDirection
    simp only [hem, Bool.false_eq_true, ↓reduceIte]
    exact getD_nextInt_mem _ rng hne
  obtain ⟨m1, m2⟩ := r2 _ hres
  refine ⟨m1, ?_⟩
  intro m hm
  have := r1 m hm
  have := abs_lt.mp m2
  linarith [this.2]

/-- The decision of a ghost of class Pink, Blue or Orange on a non-empty legal set is the
Manhattan choice for its target. -/
theorem Ghost.decideDirection_eq_manhattan (g : Ghost) (valid : List Char) (pacman : Pacman)
    (rng : Random) (hk : g.kind ≠ GhostKind.Red) (hv : valid ≠ []) :
    g.decideDirection valid pacman rng =
      getBestManhattanDirection g.x g.y (g.target pacman).1 (g.target pacman).2 valid rng := by
  have he : valid.isEmpty = false := by
    rw [List.isEmpty_eq_false]
    exact hv
  unfold Ghost.decideDirection Ghost.target
  cases hkind : g.kind with
  | Red => exact absurd hkind hk
  | Pink =>
    simp only [Ghost.decideDirectionPink, he, Bool.false_eq_true, ↓reduceIte, reduceCtorEq,
      unitAheadTarget]
  | Blue =>
    simp only [Ghost.decideDirectionBlue, he, Bool.false_eq_true, ↓reduceIte, reduceCtorEq,
      unitAheadTarget]
  | Orange =>
    simp only [Ghost.decideDirectionOrange, he, Bool.false_eq_true, ↓reduceIte]

/-- C22 (counterexample): an orange ghost on a tile centre, the player two rows above and
1/4096 to the left of the ghost's column, legal set L, R. Going left ends at distance
1 + 4095/4096 from the player and going right at 1 + 4097/4096; the two differ by less than
0.001, both are kept as best moves, and with the draw 1 `decideDirection` returns R although
L is strictly closer. -/
theorem manhattan_tie_returns_farther_direction :
    (orangeBelow.decideDirection ['L', 'R'] playerNearColumn oneRandom).1 = 'R' ∧
    manhattanAfterStep orangeBelow.x orangeBelow.y playerNearColumn.x playerNearColumn.y 'L'
      = 1 + 4095 / 4096 ∧
    manhattanAfterStep orangeBelow.x orangeBelow.y playerNearColumn.x playerNearColumn.y 'R'
      = 1 + 4097 / 4096 ∧
    orangeBelow.target playerNearColumn = (playerNearColumn.x, playerNearColumn.y) := by
  refine ⟨?_, ?_, ?_, ?_⟩
  · simp +decide [Ghost.decideDirection, Ghost.decideDirectionOrange,
      getBestManhattanDirection, bestManhattanStep, orangeBelow, playerNearColumn, Pacman.new,
      Ghost.new, FLT_MAX, Random.nextInt, oneRandom]
    norm_num [abs_of_pos, abs_of_neg]
    simp +decide
  · simp +decide [manhattanAfterStep, orangeBelow, playerNearColumn, Pacman.new, Ghost.new]
    norm_num [abs_of_pos, abs_of_neg]
  · simp +decide [manhattanAfterStep, orangeBelow, playerNearColumn, Pacman.new, Ghost.new]
    norm_num [abs_of_pos, abs_of_neg]
  · simp +decide [Ghost.target, orangeBelow, Ghost.new]

/-- C22 (amended): for a ghost of class Pink, Blue or Orange, a non-empty legal set whose
distances (each after one simulated step of 1.0) are below the largest float, and every
outcome of the random tie-break, `decideDirection` returns a legal direction whose distance
to the target is less than 0.002 above the distance of every legal direction; so it attains
the minimum whenever two distinct distances of legal directions differ by at least 0.002. -/
theorem manhattan_choice_within_tolerance (g : Ghost) (valid : List Char) (pacman : Pacman)
    (rng : Random) (hk : g.kind ≠ GhostKind.Red) (hv : valid ≠ [])
    (hfit : ∀ x ∈ valid,
      manhattanAfterStep g.x g.y (g.target pacman).1 (g.target pacman).2 x
        < FLT_MAX - 1 / 1000) :
    (g.decideDirection valid pacman rng).1 ∈ valid ∧
    (∀ m ∈ valid,
      manhattanAfterStep g.x g.y (g.target pacman).1 (g.target pacman).2
          (g.decideDirection valid pacman rng).1
        < manhattanAfterStep g.x g.y (g.target pacman).1 (g.target pacman).2 m + 2 / 1000) ∧
    ((∀ a ∈ valid, ∀ b ∈ valid,
        manhattanAfterStep g.x g.y (g.target pacman).1 (g.target pacman).2 a
          = manhattanAfterStep g.x g.y (g.target pacman).1 (g.target pacman).2 b ∨
        2 / 1000 ≤ |manhattanAfterStep g.x g.y (g.target pacman).1 (g.target pacman).2 a
          - manhattanAfterStep g.x g.y (g.target pacman).1 (g.target pacman).2 b|) →
      ∀ m ∈ valid,
        manhattanAfterStep g.x g.y (g.target pacman).1 (g.target pacman).2
            (g.decideDirection valid pacman rng).1
          ≤ manhattanAfterStep g.x g.y (g.target pacman).1 (g.target pacman).2 m) := by
  rw [Ghost.decideDirection_eq_manhattan g valid pacman rng hk hv]
  obtain ⟨h1, h2⟩ := getBestManhattanDirection_near_min g.x g.y (g.target pacman).1
    (g.target pacman).2 valid rng hv hfit
  refine ⟨h1, h2, ?_⟩
  intro hgap m hm
  rcases hgap _ h1 m hm with he | hge
  · exact le_of_eq he
  · have := h2 m hm
    by_contra hlt
    rw [abs_of_pos (by linarith [not_le.mp hlt])] at hge
    linarith

/-- C22 (amended), witness: the pink ghost on the third tile of a row of eight, the player on
the first tile facing right, legal set L, R. -/
theorem manhattan_choice_within_tolerance_witness :
    (pinkOnThirdTile.decideDirection ['L', 'R'] playerFacingRight zeroRandom).1 ∈ ['L', 'R'] ∧
    ∀ m ∈ ['L', 'R'],
      manhattanAfterStep pinkOnThirdTile.x pinkOnThirdTile.y
          (pinkOnThirdTile.target playerFacingRight).1
          (pinkOnThirdTile.target playerFacingRight).2
          (pinkOnThirdTile.decideDirection ['L', 'R'] playerFacingRight zeroRandom).1
        < manhattanAfterStep pinkOnThirdTile.x pinkOnThirdTile.y
          (pinkOnThirdTile.target playerFacingRight).1
          (pinkOnThirdTile.target playerFacingRight).2 m + 2 / 1000 :=
  have h := manhattan_choice_within_tolerance pinkOnThirdTile ['L', 'R'] playerFacingRight
    zeroRandom (by decide) (by decide)
    (by
      intro x hx
      have hx2 : x = 'L' ∨ x = 'R' := by simpa using hx
      rcases hx2 with rfl | rfl <;>
        simp +decide [manhattanAfterStep, Ghost.target, unitAheadTarget, pinkOnThirdTile,
          playerFacingRight, Pacman.new, Ghost.new, FLT_MAX] <;>
        norm_num [abs_of_pos, abs_of_neg])
  ⟨h.1, h.2.1⟩

/-! ## Ghost state machine: a frightened ghost -/

theorem Ghost.advance_withKind (k : GhostKind) (d : ℚ) (h : Ghost) :
    (h.withKind k).advance d = (h.advance d).withKind k := by
  unfold Ghost.advance
  simp only [show (h.withKind k).direction = h.direction from rfl]
  split_ifs <;> rfl

theorem Ghost.axisLock_withKind (k : GhostKind) (cx cy : ℚ) (h : Ghost) :
    (h.withKind k).axisLock cx cy = (h.axisLock cx cy).withKind k := by
  unfold Ghost.axisLock
  simp only [show (h.withKind k).direction = h.direction from rfl]
  split_ifs <;> rfl

/-- Moving and axis locking do not read the class of the ghost. -/
theorem Ghost.axisLock_advance_withKind (a b : Ghost) (k : GhostKind) (hab : a = b.withKind k)
    (cx cy d : ℚ) :
    (a.advance d).axisLock cx cy = ((b.advance d).axisLock cx cy).withKind k := by
  subst hab
  rw [Ghost.advance_withKind, Ghost.axisLock_withKind]

/-- A FEARED ghost chooses by `pickRandomDirection`, whatever its class and the player. -/
theorem Ghost.chooseDirection_feared (h : Ghost) (valid : List Char) (p : Pacman)
    (rng : Random) (hs : h.state = GhostState.FEARED) :
    h.chooseDirection valid p rng = Ghost.pickRandomDirection valid rng := by
  unfold Ghost.chooseDirection
  rw [if_pos hs]

/-- The grid movement of a FEARED ghost does not read its class or the player. -/
theorem Ghost.updateMovement_feared (dt : ℚ) (valid : List Char) (p1 p2 : Pacman)
    (k1 k2 : GhostKind) (rng : Random) (h : Ghost) (hs : h.state = GhostState.FEARED) :
    Ghost.updateMovement dt valid p1 (h.withKind k1) rng =
      ((Ghost.updateMovement dt valid p2 (h.withKind k2) rng).1.withKind k1,
       (Ghost.updateMovement dt valid p2 (h.withKind k2) rng).2) := by
  have hF : ∀ (A B : Prop) [Decidable A] [Decidable B] (X Y Z : Ghost × Random),
      ((if A then X else if B then Y else Z).1.withKind k1,
        (if A then X else if B then Y else Z).2)
      = if A then (X.1.withKind k1, X.2) else if B then (Y.1.withKind k1, Y.2)
        else (Z.1.withKind k1, Z.2) := by
    intro A B _ _ X Y Z
    split_ifs <;> rfl
  have hst : ∀ k : GhostKind, (h.withKind k).state = GhostState.FEARED := fun _ => hs
  have hdir : ∀ k : GhostKind, (h.withKind k).direction = h.direction := fun _ => rfl
  simp only [Ghost.updateMovement, Ghost.chooseDirection, Ghost.setPosition, hst, hdir,
    ↓reduceIte]
  rw [hF]
  refine if_congr ?_ ?_ (if_congr ?_ ?_ ?_)
  · exact Iff.rfl
  · rfl
  · exact Iff.rfl
  · exact Prod.ext (Ghost.axisLock_advance_withKind _ _ k1 (by rfl) _ _ _) rfl
  · exact Prod.ext (Ghost.axisLock_advance_withKind _ _ k1 (by rfl) _ _ _) rfl

/-- A FEARED ghost that stays FEARED during the frame: `Ghost::update` lowers the fear timer
and runs the grid movement. -/
theorem Ghost.update_feared (sqrtf : ℚ → ℚ) (dt : ℚ) (valid : List Char) (p : Pacman)
    (rng : Random) (g : Ghost) (hs : g.state = GhostState.FEARED)
    (ht : 0 < g.fearedTimer - dt) :
    g.update sqrtf dt valid p rng =
      Ghost.updateMovement dt valid p { g with fearedTimer := g.fearedTimer - dt } rng := by
  unfold Ghost.update
  simp only [hs, reduceCtorEq, ↓reduceIte, not_le.mpr ht]

theorem Ghost.advance_direction (d : ℚ) (g : Ghost) : (g.advance d).direction = g.direction := by
  unfold Ghost.advance Ghost.setPosition
  split_ifs <;> rfl

theorem Ghost.axisLock_direction (cx cy : ℚ) (g : Ghost) :
    (g.axisLock cx cy).direction = g.direction := by
  unfold Ghost.axisLock Ghost.setPosition
  split_ifs <;> rfl

/-- Method `Ghost::pickRandomDirection` returns a member of a non-empty legal set. -/
theorem Ghost.pickRandomDirection_mem (valid : List Char) (rng : Random) (hv : valid ≠ []) :
    (Ghost.pickRandomDirection valid rng).1 ∈ valid := by
  unfold Ghost.pickRandomDirection
  have he : valid.isEmpty = false := by
    rw [List.isEmpty_eq_false]
    exact hv
  simp only [he, Bool.false_eq_true, ↓reduceIte]
  exact getD_nextInt_mem valid rng hv

/-- After the grid movement a FEARED ghost faces a member of the legal set or keeps the
direction it had. -/
theorem Ghost.updateMovement_feared_direction (dt : ℚ) (valid : List Char) (p : Pacman)
    (rng : Random) (h : Ghost) (hs : h.state = GhostState.FEARED) (hv : valid ≠ []) :
    (Ghost.updateMovement dt valid p h rng).1.direction ∈ valid ∨
      (Ghost.updateMovement dt valid p h rng).1.direction = h.direction := by
  have hP : ∀ (A B : Prop) [Decidable A] [Decidable B] (X Y Z : Ghost × Random)
      (P : Ghost × Random → Prop), P X → P Y → P Z →
      P (if A then X else if B then Y else Z) := by
    intro A B _ _ X Y Z P hx hy hz
    split_ifs
    · exact hx
    · exact hy
    · exact hz
  simp only [Ghost.updateMovement, Ghost.chooseDirection, Ghost.setPosition, hs, ↓reduceIte]
  refine hP _ _ _ _ _
    (fun r => r.1.direction ∈ valid ∨ r.1.direction = h.direction) ?_ ?_ ?_
  · exact Or.inl (Ghost.pickRandomDirection_mem valid _ hv)
  · left
    show (Ghost.axisLock _ _ (Ghost.advance _ _)).direction ∈ valid
    rw [Ghost.axisLock_direction, Ghost.advance_direction]
    exact Ghost.pickRandomDirection_mem valid _ hv
  · show (Ghost.axisLock _ _ (Ghost.advance _ _)).direction ∈ valid ∨
      (Ghost.axisLock _ _ (Ghost.advance _ _)).direction = h.direction
    rw [Ghost.axisLock_direction, Ghost.advance_direction]
    show (if h.direction = ' ' then Ghost.pickRandomDirection valid rng
      else (h.direction, rng)).1 ∈ valid ∨ (if h.direction = ' ' then
        Ghost.pickRandomDirection valid rng else (h.direction, rng)).1 = h.direction
    split_ifs
    · exact Or.inl (Ghost.pickRandomDirection_mem valid _ hv)
    · exact Or.inr rfl

/-- C23: while a ghost is FEARED and stays FEARED during the frame (its fear timer does not
run out), `update` does not depend on the class of the ghost nor on the player: two runs with
the same ghost state, legal set, elapsed time and random draws, but with any two classes and
any two players, give the same resulting ghost (up to its class) and consume the same draws;
the ghost is still FEARED; and with a non-empty legal set every direction it picks is a member
of the legal set, so after the frame it faces a legal direction or the direction it had. -/
theorem feared_ghost_ignores_variant_and_player (sqrtf : ℚ → ℚ) (dt : ℚ) (valid : List Char)
    (p1 p2 : Pacman) (k1 k2 : GhostKind) (rng : Random) (g : Ghost)
    (hs : g.state = GhostState.FEARED) (ht : 0 < g.fearedTimer - dt) :
    (g.withKind k1).update sqrtf dt valid p1 rng =
      (((g.withKind k2).update sqrtf dt valid p2 rng).1.withKind k1,
       ((g.withKind k2).update sqrtf dt valid p2 rng).2) ∧
    (g.update sqrtf dt valid p1 rng).1.state = GhostState.FEARED ∧
    g.chooseDirection valid p1 rng = Ghost.pickRandomDirection valid rng ∧
    (valid ≠ [] →
      (g.chooseDirection valid p1 rng).1 ∈ valid ∧
      ((g.update sqrtf dt valid p1 rng).1.direction ∈ valid ∨
        (g.update sqrtf dt valid p1 rng).1.direction = g.direction)) := by
  refine ⟨?_, ?_, Ghost.chooseDirection_feared g valid p1 rng hs, ?_⟩
  · rw [Ghost.update_feared sqrtf dt valid p1 rng (g.withKind k1) hs ht,
      Ghost.update_feared sqrtf dt valid p2 rng (g.withKind k2) hs ht]
    exact Ghost.updateMovement_feared dt valid p1 p2 k1 k2 rng
      { g with fearedTimer := g.fearedTimer - dt } hs
  · rw [Ghost.update_feared sqrtf dt valid p1 rng g hs ht]
    rw [(Ghost.updateMovement_keeps dt valid p1 _ rng).1]
    exact hs
  · intro hv
    refine ⟨?_, ?_⟩
    · rw [Ghost.chooseDirection_feared g valid p1 rng hs]
      exact Ghost.pickRandomDirection_mem valid rng hv
    · rw [Ghost.update_feared sqrtf dt valid p1 rng g hs ht]
      exact Ghost.updateMovement_feared_direction dt valid p1 rng
        { g with fearedTimer := g.fearedTimer - dt } hs hv

/-- C23, witness: the frightened ghost of `fearedGhost` with 5 s of fear left, seen as a red
and as an orange ghost, with two different players. -/
theorem feared_ghost_ignores_variant_witness :
    (({ fearedGhost with fearedTimer := 5 } : Ghost).withKind GhostKind.Red).update
        (fun q => q) (1 / 60) ['U', 'D', 'R'] corridorPacman zeroRandom =
      (((({ fearedGhost with fearedTimer := 5 } : Ghost).withKind GhostKind.Orange).update
          (fun q => q) (1 / 60) ['U', 'D', 'R'] playerFacingRight zeroRandom).1.withKind
            GhostKind.Red,
       ((({ fearedGhost with fearedTimer := 5 } : Ghost).withKind GhostKind.Orange).update
          (fun q => q) (1 / 60) ['U', 'D', 'R'] playerFacingRight zeroRandom).2) :=
  (feared_ghost_ignores_variant_and_player (fun q => q) (1 / 60) ['U', 'D', 'R']
    corridorPacman playerFacingRight GhostKind.Red GhostKind.Orange zeroRandom
    ({ fearedGhost with fearedTimer := 5 } : Ghost) rfl
    (by norm_num [fearedGhost, Ghost.new])).1

/-- The grid movement of a blue ghost is that of a pink ghost with the same data. -/
theorem Ghost.updateMovement_blue_pink (dt : ℚ) (valid : List Char) (p : Pacman)
    (rng : Random) (h : Ghost) :
    Ghost.updateMovement dt valid p (h.withKind GhostKind.Blue) rng =
      ((Ghost.updateMovement dt valid p (h.withKind GhostKind.Pink) rng).1.withKind
          GhostKind.Blue,
       (Ghost.updateMovement dt valid p (h.withKind GhostKind.Pink) rng).2) := by
  have hF : ∀ (A B : Prop) [Decidable A] [Decidable B] (X Y Z : Ghost × Random),
      ((if A then X else if B then Y else Z).1.withKind GhostKind.Blue,
        (if A then X else if B then Y else Z).2)
      = if A then (X.1.withKind GhostKind.Blue, X.2)
        else if B then (Y.1.withKind GhostKind.Blue, Y.2)
        else (Z.1.withKind GhostKind.Blue, Z.2) := by
    intro A B _ _ X Y Z
    split_ifs <;> rfl
  have hst : ∀ k : GhostKind, (h.withKind k).state = h.state := fun _ => rfl
  have hdir : ∀ k : GhostKind, (h.withKind k).direction = h.direction := fun _ => rfl
  have hk : ∀ k : GhostKind, (h.withKind k).kind = k := fun _ => rfl
  have hx : ∀ k : GhostKind, (h.withKind k).x = h.x := fun _ => rfl
  have hy : ∀ k : GhostKind, (h.withKind k).y = h.y := fun _ => rfl
  simp only [Ghost.updateMovement, Ghost.chooseDirection, Ghost.decideDirection,
    Ghost.decideDirectionBlue, Ghost.decideDirectionPink, Ghost.setPosition, hst, hdir, hk,
    hx, hy]
  rw [hF]
  refine if_congr ?_ ?_ (if_congr ?_ ?_ ?_)
  · exact Iff.rfl
  · rfl
  · exact Iff.rfl
  · exact Prod.ext (Ghost.axisLock_advance_withKind _ _ GhostKind.Blue (by rfl) _ _ _) rfl
  · exact Prod.ext (Ghost.axisLock_advance_withKind _ _ GhostKind.Blue (by rfl) _ _ _) rfl

/-- Method `Ghost::update` on a blue ghost is `Ghost::update` on a pink ghost with the same
data. -/
theorem Ghost.update_blue_pink (sqrtf : ℚ → ℚ) (dt : ℚ) (valid : List Char) (p : Pacman)
    (rng : Random) (h : Ghost) :
    (h.withKind GhostKind.Blue).update sqrtf dt valid p rng =
      (((h.withKind GhostKind.Pink).update sqrtf dt valid p rng).1.withKind GhostKind.Blue,
       ((h.withKind GhostKind.Pink).update sqrtf dt valid p rng).2) := by
  have hst : ∀ k : GhostKind, (h.withKind k).state = h.state := fun _ => rfl
  have htm : ∀ k : GhostKind, (h.withKind k).spawnTimer = h.spawnTimer := fun _ => rfl
  have hft : ∀ k : GhostKind, (h.withKind k).fearedTimer = h.fearedTimer := fun _ => rfl
  have hsx : ∀ k : GhostKind, (h.withKind k).startX = h.startX := fun _ => rfl
  have hsy : ∀ k : GhostKind, (h.withKind k).startY = h.startY := fun _ => rfl
  have hx : ∀ k : GhostKind, (h.withKind k).x = h.x := fun _ => rfl
  have hy : ∀ k : GhostKind, (h.withKind k).y = h.y := fun _ => rfl
  cases hstate : h.state
  · simp only [Ghost.update, hst, htm, hstate, reduceCtorEq, ↓reduceIte]
    by_cases h3 : h.spawnTimer - dt ≤ 0
    · simp only [h3, ↓reduceIte]
      exact Ghost.updateMovement_blue_pink dt valid p rng
        { h with spawnTimer := h.spawnTimer - dt, state := GhostState.CHASING }
    · simp only [h3, ↓reduceIte]
      rfl
  · simp only [Ghost.update, hst, hstate, reduceCtorEq, ↓reduceIte]
    exact Ghost.updateMovement_blue_pink dt valid p rng h
  · simp only [Ghost.update, hst, hft, hstate, reduceCtorEq, ↓reduceIte]
    by_cases h5 : h.fearedTimer - dt ≤ 0
    · simp only [h5, ↓reduceIte]
      exact Ghost.updateMovement_blue_pink dt valid p rng
        { h with fearedTimer := h.fearedTimer - dt, state := GhostState.CHASING,
                 speed := h.baseSpeed }
    · simp only [h5, ↓reduceIte]
      exact Ghost.updateMovement_blue_pink dt valid p rng
        { h with fearedTimer := h.fearedTimer - dt, state := GhostState.FEARED }
  · simp only [Ghost.update, hst, hsx, hsy, hx, hy, hstate, reduceCtorEq, ↓reduceIte]
    split_ifs <;> rfl
  · simp only [Ghost.update, hst, hstate, reduceCtorEq, ↓reduceIte]
    rfl

/-- C30: `BlueGhost::decideDirection` equals `PinkGhost::decideDirection`: for the same
legal set, player and random draws they return the same direction and consume the same draws,
also for two ghost objects that agree only in their position; the objects the factory creates
for `B` and `I` differ only in class, wait time (5 s and 0 s) and sprite id (2 and 1), and
`Ghost::update` on a blue ghost does what it does on a pink ghost with the same data. -/
theorem blue_decides_as_pink (g : Ghost) (valid : List Char) (pacman : Pacman) (rng : Random) :
    g.decideDirectionBlue valid pacman rng = g.decideDirectionPink valid pacman rng ∧
    (∀ h : Ghost, h.x = g.x → h.y = g.y →
      h.decideDirectionBlue valid pacman rng = g.decideDirectionPink valid pacman rng) ∧
    (g.withKind GhostKind.Blue).decideDirection valid pacman rng
      = (g.withKind GhostKind.Pink).decideDirection valid pacman rng ∧
    (∀ (sqrtf : ℚ → ℚ) (dt : ℚ),
      (g.withKind GhostKind.Blue).update sqrtf dt valid pacman rng =
        (((g.withKind GhostKind.Pink).update sqrtf dt valid pacman rng).1.withKind
            GhostKind.Blue,
         ((g.withKind GhostKind.Pink).update sqrtf dt valid pacman rng).2)) ∧
    (∀ x y w h : ℚ, createGhost x y w h 'B' =
      { createGhost x y w h 'I' with
        kind := GhostKind.Blue, spawnTimer := 5, originalSpawnTime := 5, spriteId := 2 }) ∧
    (∀ x y w h : ℚ, (createGhost x y w h 'I').kind = GhostKind.Pink ∧
      (createGhost x y w h 'I').spawnTimer = 0 ∧ (createGhost x y w h 'I').spriteId = 1) := by
  refine ⟨rfl, ?_, rfl, ?_, ?_, ?_⟩
  · intro h hx hy
    unfold Ghost.decideDirectionBlue Ghost.decideDirectionPink
    rw [hx, hy]
  · intro sqrtf dt
    exact Ghost.update_blue_pink sqrtf dt valid pacman rng g
  · intro x y w h
    simp +decide [createGhost, Ghost.new]
  · intro x y w h
    simp +decide [createGhost, Ghost.new]

/-! ## Frames: the ghost loop -/

theorem World.bufferInput_rest (input : Char) (w : World) :
    (w.bufferInput input).rest = w.rest := by
  unfold World.bufferInput
  split_ifs <;> rfl

theorem World.instantReversalStep_rest (w : World) (p : Pacman) :
    (w.instantReversalStep p).1.rest = w.rest := by
  unfold World.instantReversalStep
  simp only []
  split_ifs <;> rfl

theorem World.applyBufferedInput_rest (w : World) (p : Pacman) :
    (w.applyBufferedInput p).1.rest = w.rest := by
  unfold World.applyBufferedInput
  simp only []
  split_ifs <;> rfl

theorem World.stopAtWall_rest (w : World) (p : Pacman) :
    (w.stopAtWall p).1.rest = w.rest := by
  unfold World.stopAtWall
  simp only []
  split_ifs <;> rfl

theorem World.tileCenterStep_rest (w : World) (p : Pacman) :
    (w.tileCenterStep p).1.rest = w.rest := by
  unfold World.tileCenterStep
  exact (World.stopAtWall_rest _ _).trans (World.applyBufferedInput_rest _ _)

theorem World.advanceStep_rest (delta : ℚ) (w : World) (p : Pacman) :
    (w.advanceStep delta p).1.rest = w.rest := by
  unfold World.advanceStep
  simp only []
  split_ifs <;> rfl

/-- The tile controller writes only the tile state of the player: ghosts, coins, fruits,
score, flags and level are left as they are. -/
theorem World.updatePacmanTileBased_rest (dt : ℚ) (input : Char) (w : World) (p : Pacman) :
    (w.updatePacmanTileBased dt input p).1.rest = w.rest := by
  unfold World.updatePacmanTileBased
  simp only []
  split_ifs
  · exact (World.advanceStep_rest _ _ _).trans ((World.tileCenterStep_rest _ _).trans
      ((World.instantReversalStep_rest _ _).trans (World.bufferInput_rest _ _)))
  · exact (World.advanceStep_rest _ _ _).trans
      ((World.instantReversalStep_rest _ _).trans (World.bufferInput_rest _ _))

/-- One pass of the ghost loop on a FEARED ghost in contact with the player: the ghost dies,
one ghost-eaten event is emitted, and the loop goes on with the ghost updated. -/
theorem World.ghostLoop_cons_feared (sqrtf : ℚ → ℚ) (dt : ℚ) (w : World) (p : Pacman)
    (done rest : List Ghost) (ghost : Ghost) (sc : Score) (rng : Random)
    (ht : intersectsPickup p.toEntity ghost.toEntity = true)
    (hs : ghost.state = GhostState.FEARED) :
    ghostLoop sqrtf dt w p done (ghost :: rest) sc rng =
      ghostLoop sqrtf dt w p
        (done ++ [(ghost.die.update sqrtf dt (w.validDirections ghost.die) p rng).1]) rest
        sc.onGhostEaten (ghost.die.update sqrtf dt (w.validDirections ghost.die) p rng).2 := by
  rw [ghostLoop]
  simp only [ht, hs, reduceCtorEq, ne_eq, not_true_eq_false, false_and, and_false, ↓reduceIte,
    Bool.true_and, decide_True]

/-- One pass of the ghost loop on a ghost that is not in contact with the player, or is
neither FEARED nor CHASING: no score event, no death, and the loop goes on with the ghost
updated. -/
theorem World.ghostLoop_cons_other (sqrtf : ℚ → ℚ) (dt : ℚ) (w : World) (p : Pacman)
    (done rest : List Ghost) (ghost : Ghost) (sc : Score) (rng : Random)
    (h : intersectsPickup p.toEntity ghost.toEntity = false ∨
      (ghost.state ≠ GhostState.FEARED ∧ ghost.state ≠ GhostState.CHASING)) :
    ghostLoop sqrtf dt w p done (ghost :: rest) sc rng =
      ghostLoop sqrtf dt w p
        (done ++ [(ghost.update sqrtf dt (w.validDirections ghost) p rng).1]) rest
        sc (ghost.update sqrtf dt (w.validDirections ghost) p rng).2 := by
  rw [ghostLoop]
  rcases h with h | ⟨h1, h2⟩
  · simp only [h, Bool.false_eq_true, false_and, ↓reduceIte, Bool.false_and]
  · simp only [h1, h2, and_false, ↓reduceIte, decide_False, Bool.and_false,
      Bool.false_eq_true]

/-- One pass of the ghost loop on a CHASING ghost in contact with the player: the player
dies, every ghost is despawned and the loop is left. -/
theorem World.ghostLoop_cons_chasing (sqrtf : ℚ → ℚ) (dt : ℚ) (w : World) (p : Pacman)
    (done rest : List Ghost) (ghost : Ghost) (sc : Score) (rng : Random)
    (ht : intersectsPickup p.toEntity ghost.toEntity = true)
    (hs : ghost.state = GhostState.CHASING) :
    ghostLoop sqrtf dt w p done (ghost :: rest) sc rng =
      { died := true, pacman := p.die, ghosts := (done ++ ghost :: rest).map Ghost.despawn,
        score := sc, rng := rng } := by
  rw [ghostLoop]
  simp only [ht, hs, reduceCtorEq, ne_eq, not_false_eq_true, and_self, ↓reduceIte]
/-- The first element of a list with a given property. -/
theorem exists_first_ghost (P : Ghost → Prop) :
    ∀ l : List Ghost, (∃ g ∈ l, P g) →
      ∃ (pre : List Ghost) (k : Ghost) (post : List Ghost),
        l = pre ++ k :: post ∧ P k ∧ ∀ g ∈ pre, ¬ P g := by
  intro l
  induction l with
  | nil =>
    rintro ⟨g, hg, _⟩
    simp at hg
  | cons a t ih =>
    rintro ⟨g, hg, hP⟩
    by_cases ha : P a
    · exact ⟨[], a, t, rfl, ha, by simp⟩
    · have hgt : g ∈ t := by
        rcases List.mem_cons.mp hg with rfl | h
        · exact absurd hP ha
        · exact h
      obtain ⟨pre, k, post, h1, h2, h3⟩ := ih ⟨g, hgt, hP⟩
      refine ⟨a :: pre, k, post, by rw [h1]; rfl, h2, ?_⟩
      intro x hx
      rcases List.mem_cons.mp hx with rfl | h
      · exact ha
      · exact h3 x h

/-- The ghost loop over ghosts none of which is CHASING and in contact with the player: each
is updated, one ghost-eaten event is emitted per FEARED ghost in contact, and the loop goes on
with the ghosts that follow. -/
theorem World.ghostLoop_before_contact (sqrtf : ℚ → ℚ) (dt : ℚ) (w : World) (p : Pacman) :
    ∀ (pre rest done : List Ghost) (sc : Score) (rng : Random),
      (∀ g ∈ pre, ¬ (g.state = GhostState.CHASING ∧
        intersectsPickup p.toEntity g.toEntity = true)) →
      ∃ (upd : List Ghost) (rng1 : Random), upd.length = pre.length ∧
        ghostLoop sqrtf dt w p done (pre ++ rest) sc rng =
          ghostLoop sqrtf dt w p (done ++ upd) rest
            ((Score.onGhostEaten^[pre.countP (fun g =>
              intersectsPickup p.toEntity g.toEntity && decide (g.state = GhostState.FEARED))])
              sc) rng1 := by
  intro pre
  induction pre with
  | nil =>
    intro rest done sc rng _
    exact ⟨[], rng, rfl, by simp⟩
  | cons a t ih =>
    intro rest done sc rng hno
    have ha := hno a (List.mem_cons_self a t)
    have ht : ∀ g ∈ t, ¬ (g.state = GhostState.CHASING ∧
        intersectsPickup p.toEntity g.toEntity = true) :=
      fun g hg => hno g (List.mem_cons_of_mem a hg)
    by_cases hf : intersectsPickup p.toEntity a.toEntity = true ∧ a.state = GhostState.FEARED
    · obtain ⟨upd, rng1, hl, he⟩ := ih rest
        (done ++ [(a.die.update sqrtf dt (w.validDirections a.die) p rng).1])
        sc.onGhostEaten (a.die.update sqrtf dt (w.validDirections a.die) p rng).2 ht
      refine ⟨(a.die.update sqrtf dt (w.validDirections a.die) p rng).1 :: upd, rng1,
        by simp [hl], ?_⟩
      rw [List.cons_append, World.ghostLoop_cons_feared sqrtf dt w p done (t ++ rest) a sc rng
        hf.1 hf.2, he, List.append_assoc, List.singleton_append,
        List.countP_cons_of_pos _ _ (by simp [hf.1, hf.2]), Function.iterate_succ_apply]
    · have hother : intersectsPickup p.toEntity a.toEntity = false ∨
          (a.state ≠ GhostState.FEARED ∧ a.state ≠ GhostState.CHASING) := by
        cases hc : intersectsPickup p.toEntity a.toEntity
        · exact Or.inl rfl
        · exact Or.inr ⟨fun h => hf ⟨hc, h⟩, fun h => ha ⟨h, hc⟩⟩
      obtain ⟨upd, rng1, hl, he⟩ := ih rest
        (done ++ [(a.update sqrtf dt (w.validDirections a) p rng).1])
        sc (a.update sqrtf dt (w.validDirections a) p rng).2 ht
      refine ⟨(a.update sqrtf dt (w.validDirections a) p rng).1 :: upd, rng1,
        by simp [hl], ?_⟩
      have hcount : ¬ ((intersectsPickup p.toEntity a.toEntity &&
          decide (a.state = GhostState.FEARED)) = true) := by
        intro h
        rw [Bool.and_eq_true, decide_eq_true_eq] at h
        exact hf h
      rw [List.cons_append, World.ghostLoop_cons_other sqrtf dt w p done (t ++ rest) a sc rng
        hother, he, List.append_assoc, List.singleton_append,
        List.countP_cons_of_neg (fun g : Ghost =>
          intersectsPickup p.toEntity g.toEntity && decide (g.state = GhostState.FEARED))
          t hcount]

/-- The ghost loop when some ghost is CHASING and in contact with the player: the loop is
left at the first such ghost, the ghosts before it have been updated, the player dies and
all ghosts are despawned. -/
theorem World.ghostLoop_kill (sqrtf : ℚ → ℚ) (dt : ℚ) (w : World) (p : Pacman)
    (todo : List Ghost) (sc : Score) (rng : Random)
    (h : ∃ g ∈ todo, g.state = GhostState.CHASING ∧
      intersectsPickup p.toEntity g.toEntity = true) :
    ∃ (pre : List Ghost) (killer : Ghost) (post upd : List Ghost) (rng1 : Random),
      todo = pre ++ killer :: post ∧ killer.state = GhostState.CHASING ∧
      intersectsPickup p.toEntity killer.toEntity = true ∧
      (∀ g ∈ pre, ¬ (g.state = GhostState.CHASING ∧
        intersectsPickup p.toEntity g.toEntity = true)) ∧
      upd.length = pre.length ∧
      ghostLoop sqrtf dt w p [] todo sc rng =
        { died := true, pacman := p.die,
          ghosts := (upd ++ killer :: post).map Ghost.despawn,
          score := (Score.onGhostEaten^[pre.countP (fun g =>
            intersectsPickup p.toEntity g.toEntity && decide (g.state = GhostState.FEARED))])
            sc,
          rng := rng1 } := by
  obtain ⟨pre, killer, post, h1, h2, h3⟩ := exists_first_ghost
    (fun g => g.state = GhostState.CHASING ∧ intersectsPickup p.toEntity g.toEntity = true)
    todo h
  obtain ⟨upd, rng1, hl, he⟩ := World.ghostLoop_before_contact sqrtf dt w p pre (killer :: post) []
    sc rng h3
  refine ⟨pre, killer, post, upd, rng1, h1, h2.1, h2.2, h3, hl, ?_⟩
  rw [h1, he, World.ghostLoop_cons_chasing sqrtf dt w p _ post killer _ rng1 h2.2 h2.1]
  simp

/-- The ghost loop when no ghost is CHASING and in contact with the player: the player
does not die, and one ghost-eaten event is emitted per FEARED ghost in contact. -/
theorem World.ghostLoop_no_kill (sqrtf : ℚ → ℚ) (dt : ℚ) (w : World) (p : Pacman)
    (todo : List Ghost) (sc : Score) (rng : Random)
    (h : ∀ g ∈ todo, ¬ (g.state = GhostState.CHASING ∧
      intersectsPickup p.toEntity g.toEntity = true)) :
    ∃ (upd : List Ghost) (rng1 : Random), upd.length = todo.length ∧
      ghostLoop sqrtf dt w p [] todo sc rng =
        { died := false, pacman := p, ghosts := upd,
          score := (Score.onGhostEaten^[todo.countP (fun g =>
            intersectsPickup p.toEntity g.toEntity && decide (g.state = GhostState.FEARED))])
            sc,
          rng := rng1 } := by
  obtain ⟨upd, rng1, hl, he⟩ := World.ghostLoop_before_contact sqrtf dt w p todo [] [] sc rng h
  refine ⟨upd, rng1, hl, ?_⟩
  rw [List.append_nil] at he
  rw [he, ghostLoop]
  simp

/-- A frame that passes the gates of `World::update` is the play frame on `frameStart`. -/
theorem World.update_runs (sqrtf : ℚ → ℚ) (dt : ℚ) (input : Char) (w0 : World)
    (rng : Random) (p0 : Pacman) (hp : w0.pacman = some p0) (hd : p0.dying = false)
    (hrun : w0.runsFrame input) :
    w0.update sqrtf dt input rng =
      some (playFrame sqrtf dt input (w0.frameStart dt) p0 rng) := by
  unfold World.update World.runsFrame at *
  rw [hp]
  simp only [hd, Bool.false_eq_true, ↓reduceIte]
  obtain ⟨d, l, pm, gh, co, fr, wa, lc, bw, bh, ss, fm, wr, gs, tp, tx, ty, md, bi⟩ := w0
  cases wr <;> cases gs <;> cases hi : isStartInput input <;>
    simp_all [World.frameStart]
/-- What the tile controller leaves of the world on which a running frame calls it. -/
theorem World.frameStart_moved (dt : ℚ) (input : Char) (w0 : World) (p0 : Pacman) :
    ((w0.frameStart dt).updatePacmanTileBased dt input p0).1.ghosts = w0.ghosts ∧
    ((w0.frameStart dt).updatePacmanTileBased dt input p0).1.coins = w0.coins ∧
    ((w0.frameStart dt).updatePacmanTileBased dt input p0).1.fruits = w0.fruits ∧
    ((w0.frameStart dt).updatePacmanTileBased dt input p0).1.scoreSystem
      = w0.scoreSystem.update dt ∧
    ((w0.frameStart dt).updatePacmanTileBased dt input p0).1.inFruitMode = w0.inFruitMode ∧
    ((w0.frameStart dt).updatePacmanTileBased dt input p0).1.waitingToRestart = false ∧
    ((w0.frameStart dt).updatePacmanTileBased dt input p0).1.gameStarted = true := by
  have h := World.updatePacmanTileBased_rest dt input (w0.frameStart dt) p0
  simp only [World.rest, Prod.mk.injEq] at h
  obtain ⟨h1, h2, h3, h4, h5, h6, h7, _, _⟩ := h
  exact ⟨h1, h2, h3, h4, h5, h6, h7⟩

/-- C24: if in an update that runs the frame (player not dying, gates passed) the player,
after its move, is in contact with a ghost that is CHASING, then the update returns and at its
end the player is dying with one life fewer, every ghost is DESPAWNED with its direction
cleared, fruit mode is off, and the coins and fruits are those of the start of the frame; the
loop was left at the first such ghost, so that ghost and the ghosts after it in creation
order have only been despawned, not updated, and the score engine has received only the
timer update and one ghost-eaten event per FEARED ghost in contact before that ghost. -/
theorem contact_with_chasing_ghost_kills (sqrtf : ℚ → ℚ) (dt : ℚ) (input : Char) (w0 : World)
    (rng : Random) (p0 : Pacman) (hp : w0.pacman = some p0) (hd : p0.dying = false)
    (hrun : w0.runsFrame input)
    (hc : ∃ g ∈ w0.ghosts, g.state = GhostState.CHASING ∧
      World.intersectsPickup (w0.movedPlayer dt input p0).toEntity g.toEntity = true) :
    ∃ (w1 : World) (rng1 : Random) (p1 : Pacman),
      w0.update sqrtf dt input rng = some (w1, rng1) ∧
      w1.pacman = some p1 ∧ p1.dying = true ∧ p1.lives = p0.lives - 1 ∧
      (∀ g ∈ w1.ghosts, g.state = GhostState.DESPAWNED ∧ g.direction = ' ') ∧
      w1.inFruitMode = false ∧ w1.coins = w0.coins ∧ w1.fruits = w0.fruits ∧
      ∃ (pre : List Ghost) (killer : Ghost) (post upd : List Ghost),
        w0.ghosts = pre ++ killer :: post ∧ killer.state = GhostState.CHASING ∧
        World.intersectsPickup (w0.movedPlayer dt input p0).toEntity killer.toEntity = true ∧
        upd.length = pre.length ∧
        w1.ghosts = (upd ++ killer :: post).map Ghost.despawn ∧
        w1.scoreSystem = (Score.onGhostEaten^[pre.countP (fun g =>
          World.intersectsPickup (w0.movedPlayer dt input p0).toEntity g.toEntity &&
            decide (g.state = GhostState.FEARED))]) (w0.scoreSystem.update dt) := by
  obtain ⟨hg, hco, hfr, hsc, _, _, hgs⟩ := World.frameStart_moved dt input w0 p0
  obtain ⟨hl, hdy, _, _⟩ := (World.updatePacmanTileBased_keeps dt input (w0.frameStart dt) p0).2
  obtain ⟨pre, killer, post, upd, rng1, h1, h2, h3, _, h5, h6⟩ :=
    World.ghostLoop_kill sqrtf dt ((w0.frameStart dt).updatePacmanTileBased dt input p0).1
      (w0.movedPlayer dt input p0) w0.ghosts (w0.scoreSystem.update dt) rng hc
  have hplay : World.playFrame sqrtf dt input (w0.frameStart dt) p0 rng =
      ({ ((w0.frameStart dt).updatePacmanTileBased dt input p0).1 with
          pacman := some (w0.movedPlayer dt input p0).die,
          ghosts := (upd ++ killer :: post).map Ghost.despawn,
          scoreSystem := (Score.onGhostEaten^[pre.countP (fun g =>
            World.intersectsPickup (w0.movedPlayer dt input p0).toEntity g.toEntity &&
              decide (g.state = GhostState.FEARED))]) (w0.scoreSystem.update dt),
          inFruitMode := false }, rng1) := by
    unfold World.playFrame
    simp only [hgs, hg, hsc, ↓reduceIte]
    unfold World.movedPlayer at h6 ⊢
    rw [h6]
    simp only [↓reduceIte]
  refine ⟨{ ((w0.frameStart dt).updatePacmanTileBased dt input p0).1 with
          pacman := some (w0.movedPlayer dt input p0).die,
          ghosts := (upd ++ killer :: post).map Ghost.despawn,
          scoreSystem := (Score.onGhostEaten^[pre.countP (fun g =>
            World.intersectsPickup (w0.movedPlayer dt input p0).toEntity g.toEntity &&
              decide (g.state = GhostState.FEARED))]) (w0.scoreSystem.update dt),
          inFruitMode := false }, rng1, (w0.movedPlayer dt input p0).die,
    ?_, rfl, ?_, ?_, ?_, rfl, hco, hfr, pre, killer, post, upd, h1, h2, h3, h5, rfl, rfl⟩
  · rw [World.update_runs sqrtf dt input w0 rng p0 hp hd hrun, hplay]
  · unfold Pacman.die World.movedPlayer
    rw [hd] at hdy
    simp [hdy]
  · unfold Pacman.die World.movedPlayer
    rw [hd] at hdy
    simp [hdy, hl]
  · intro g hg1
    obtain ⟨a, _, rfl⟩ := List.mem_map.mp hg1
    exact ⟨rfl, rfl⟩
/-- C24, witness: the corridor level with a chasing ghost on the tile of the player; after
one frame without input the player is dying with two lives left. -/
theorem contact_with_chasing_ghost_kills_witness :
    ∃ (w1 : World) (rng1 : Random) (p1 : Pacman),
      chaseWorld.update (fun q => q) (1 / 60) (Char.ofNat 0) zeroRandom = some (w1, rng1) ∧
      w1.pacman = some p1 ∧ p1.dying = true ∧ p1.lives = 2 ∧
      (∀ g ∈ w1.ghosts, g.state = GhostState.DESPAWNED ∧ g.direction = ' ') ∧
      w1.inFruitMode = false := by
  obtain ⟨w1, rng1, p1, h1, h2, h3, h4, h5, h6, _⟩ :=
    contact_with_chasing_ghost_kills (fun q => q) (1 / 60) (Char.ofNat 0) chaseWorld zeroRandom
      corridorPacman rfl rfl (Or.inr ⟨rfl, rfl⟩)
      ⟨{ Ghost.new GhostKind.Red (3 / 4) 0 (1 / 2) 2 0 0 with
          x := -3 / 4, state := GhostState.CHASING, direction := 'L', spawnTimer := -1 / 60 },
        by simp [chaseWorld], rfl, by
          simp +decide [World.movedPlayer, World.frameStart, World.intersectsPickup,
            World.updatePacmanTileBased, World.bufferInput, World.instantReversalStep,
            World.tileCenterStep, World.applyBufferedInput, World.stopAtWall,
            World.advanceStep, World.visualPosition, World.isTileWall,
            World.getPositionFromTile, stepTile, chaseWorld, corridorWorld, corridorPacman,
            World.blank, Pacman.new, Pacman.setDirection, Pacman.setMoving,
            Pacman.setPosition, World.isOppositeInput, Ghost.new]
          norm_num⟩
  exact ⟨w1, rng1, p1, h1, h2, h3, by rw [h4]; rfl, h5, h6⟩

/-- C25: in the ghost loop of `World::update`, a FEARED ghost in contact with the player is
made DEAD by `die()` (speed 2.5 x baseSpeed), exactly one ghost-eaten event is emitted for it,
the loop is not left (this contact costs no life), and the ghost is then updated as a DEAD
ghost: it stays DEAD at that speed unless it is within 0.1 of its spawn point, where it is
CHASING again at once. A ghost in contact that is WAITING, DEAD or DESPAWNED is only updated:
no score event, no death. So when no CHASING ghost is in contact, the loop ends with the
player alive and with one ghost-eaten event per FEARED ghost in contact, and the frame ends
with the lives unchanged. -/
theorem contact_with_feared_ghost_eats (sqrtf : ℚ → ℚ) (dt : ℚ) (w : World) (p : Pacman) :
    (∀ (done rest : List Ghost) (ghost : Ghost) (sc : Score) (rng : Random),
      World.intersectsPickup p.toEntity ghost.toEntity = true →
      ghost.state = GhostState.FEARED →
        World.ghostLoop sqrtf dt w p done (ghost :: rest) sc rng =
          World.ghostLoop sqrtf dt w p
            (done ++ [(ghost.die.update sqrtf dt (w.validDirections ghost.die) p rng).1]) rest
            sc.onGhostEaten
            (ghost.die.update sqrtf dt (w.validDirections ghost.die) p rng).2 ∧
        ghost.die.state = GhostState.DEAD ∧ ghost.die.speed = (5 / 2) * ghost.baseSpeed ∧
        (¬ sqrtf ((ghost.startX - ghost.x) * (ghost.startX - ghost.x) +
            (ghost.startY - ghost.y) * (ghost.startY - ghost.y)) < 1 / 10 →
          (ghost.die.update sqrtf dt (w.validDirections ghost.die) p rng).1.state
            = GhostState.DEAD ∧
          (ghost.die.update sqrtf dt (w.validDirections ghost.die) p rng).1.speed
            = (5 / 2) * ghost.baseSpeed) ∧
        (sqrtf ((ghost.startX - ghost.x) * (ghost.startX - ghost.x) +
            (ghost.startY - ghost.y) * (ghost.startY - ghost.y)) < 1 / 10 →
          (ghost.die.update sqrtf dt (w.validDirections ghost.die) p rng).1.state
            = GhostState.CHASING)) ∧
    (∀ (done rest : List Ghost) (ghost : Ghost) (sc : Score) (rng : Random),
      World.intersectsPickup p.toEntity ghost.toEntity = true →
      (ghost.state = GhostState.WAITING ∨ ghost.state = GhostState.DEAD ∨
        ghost.state = GhostState.DESPAWNED) →
        World.ghostLoop sqrtf dt w p done (ghost :: rest) sc rng =
          World.ghostLoop sqrtf dt w p
            (done ++ [(ghost.update sqrtf dt (w.validDirections ghost) p rng).1]) rest
            sc (ghost.update sqrtf dt (w.validDirections ghost) p rng).2) ∧
    (∀ (todo : List Ghost) (sc : Score) (rng : Random),
      (∀ g ∈ todo, ¬ (g.state = GhostState.CHASING ∧
        World.intersectsPickup p.toEntity g.toEntity = true)) →
      ∃ (upd : List Ghost) (rng1 : Random), upd.length = todo.length ∧
        World.ghostLoop sqrtf dt w p [] todo sc rng =
          { died := false, pacman := p, ghosts := upd,
            score := (Score.onGhostEaten^[todo.countP (fun g =>
              World.intersectsPickup p.toEntity g.toEntity &&
                decide (g.state = GhostState.FEARED))]) sc,
            rng := rng1 }) ∧
    (∀ (input : Char) (w0 : World) (rng : Random) (p0 : Pacman),
      w0.pacman = some p0 → p0.dying = false → w0.runsFrame input →
      (∀ g ∈ w0.ghosts, ¬ (g.state = GhostState.CHASING ∧
        World.intersectsPickup (w0.movedPlayer dt input p0).toEntity g.toEntity = true)) →
      ∃ (w1 : World) (rng1 : Random) (p1 : Pacman),
        w0.update sqrtf dt input rng = some (w1, rng1) ∧ w1.pacman = some p1 ∧
        p1.lives = p0.lives ∧ p1.dying = false) := by
  refine ⟨?_, ?_, ?_, ?_⟩
  · intro done rest ghost sc rng ht hs
    refine ⟨World.ghostLoop_cons_feared sqrtf dt w p done rest ghost sc rng ht hs, rfl,
      by simp only [Ghost.die]; ring, ?_, ?_⟩
    · intro hfar
      have hfar2 : ¬ sqrtf ((ghost.die.startX - ghost.die.x) * (ghost.die.startX - ghost.die.x)
          + (ghost.die.startY - ghost.die.y) * (ghost.die.startY - ghost.die.y)) < 1 / 10 :=
        hfar
      have hds : ghost.die.state = GhostState.DEAD := rfl
      simp only [Ghost.update, hds, reduceCtorEq, ↓reduceIte, hfar2, Ghost.setPosition]
      simp only [Ghost.die]
      exact ⟨trivial, by ring⟩
    · intro hnear
      have hnear2 : sqrtf ((ghost.die.startX - ghost.die.x) * (ghost.die.startX - ghost.die.x)
          + (ghost.die.startY - ghost.die.y) * (ghost.die.startY - ghost.die.y)) < 1 / 10 :=
        hnear
      have hds : ghost.die.state = GhostState.DEAD := rfl
      simp only [Ghost.update, hds, reduceCtorEq, ↓reduceIte, hnear2]
  · intro done rest ghost sc rng _ hs
    refine World.ghostLoop_cons_other sqrtf dt w p done rest ghost sc rng (Or.inr ?_)
    rcases hs with h | h | h <;> rw [h] <;> exact ⟨by decide, by decide⟩
  · intro todo sc rng hno
    exact World.ghostLoop_no_kill sqrtf dt w p todo sc rng hno
  · intro input w0 rng p0 hp hd hrun hno
    obtain ⟨hg, _, _, hsc, _, _, hgs⟩ := World.frameStart_moved dt input w0 p0
    obtain ⟨hl, hdy, _, _⟩ :=
      (World.updatePacmanTileBased_keeps dt input (w0.frameStart dt) p0).2
    obtain ⟨upd, rng1, _, h6⟩ :=
      World.ghostLoop_no_kill sqrtf dt ((w0.frameStart dt).updatePacmanTileBased dt input p0).1
        (w0.movedPlayer dt input p0) w0.ghosts (w0.scoreSystem.update dt) rng hno
    rw [World.update_runs sqrtf dt input w0 rng p0 hp hd hrun]
    refine ⟨(World.playFrame sqrtf dt input (w0.frameStart dt) p0 rng).1,
      (World.playFrame sqrtf dt input (w0.frameStart dt) p0 rng).2,
      w0.movedPlayer dt input p0, rfl, ?_, hl, hdy.trans hd⟩
    unfold World.playFrame
    unfold World.movedPlayer at h6 ⊢
    simp only [hgs, hg, hsc, ↓reduceIte, h6, Bool.false_eq_true]

/-! ## Player tile controller: the decision at a tile centre -/

/-- The decision of the tile controller in terms of the wall test of the code. Let `b` be the
buffered direction after this frame's input is latched and `m` the current direction. At a
tile boundary (progress exactly 0, hence no instant reversal this frame)
`updatePacmanTileBased` commits `b` (and clears the buffer) if `b` is a direction other than
`m` for whose target tile `isTileWall` is false; otherwise it keeps `m` (and the buffer) if
`isTileWall` is false for the target tile of `m`; otherwise it stops: direction neutral,
moving false, progress 0, position exactly the centre of the tile. Mid-transit (progress > 0)
the direction after the frame is `m`, unless the instant reversal fires, and then it is `b`,
the opposite of `m`. -/
theorem World.updatePacmanTileBased_by_wall_test (dt : ℚ) (input : Char) (w : World)
    (p : Pacman) :
    ((w.bufferInput input).pacmanBufferedInput
        = (if input ≠ Char.ofNat 0 ∧ input ≠ ' ' then input else w.pacmanBufferedInput) ∧
      (w.bufferInput input).pacmanMoveDir = w.pacmanMoveDir ∧
      (w.bufferInput input).pacmanTileProgress = w.pacmanTileProgress ∧
      (w.bufferInput input).pacmanTileX = w.pacmanTileX ∧
      (w.bufferInput input).pacmanTileY = w.pacmanTileY ∧
      (w.bufferInput input).walls = w.walls ∧
      (w.bufferInput input).B_width = w.B_width ∧
      (w.bufferInput input).B_height = w.B_height) ∧
    ((w.bufferInput input).pacmanTileProgress = 0 →
      ((w.bufferInput input).pacmanBufferedInput ≠ ' ' →
        (w.bufferInput input).pacmanBufferedInput ≠ (w.bufferInput input).pacmanMoveDir →
        (w.bufferInput input).isTileWall
          (stepTile (w.bufferInput input).pacmanBufferedInput (w.bufferInput input).pacmanTileX
            (w.bufferInput input).pacmanTileY).1
          (stepTile (w.bufferInput input).pacmanBufferedInput (w.bufferInput input).pacmanTileX
            (w.bufferInput input).pacmanTileY).2 = false →
        (w.updatePacmanTileBased dt input p).1.pacmanMoveDir
          = (w.bufferInput input).pacmanBufferedInput ∧
        (w.updatePacmanTileBased dt input p).1.pacmanBufferedInput = ' ' ∧
        (w.updatePacmanTileBased dt input p).2.moving = true ∧
        (p.dying = false →
          ((w.bufferInput input).pacmanBufferedInput = 'U' ∨
           (w.bufferInput input).pacmanBufferedInput = 'D' ∨
           (w.bufferInput input).pacmanBufferedInput = 'L' ∨
           (w.bufferInput input).pacmanBufferedInput = 'R') →
          (w.updatePacmanTileBased dt input p).2.direction
            = (w.bufferInput input).pacmanBufferedInput)) ∧
      (¬ ((w.bufferInput input).pacmanBufferedInput ≠ ' ' ∧
          (w.bufferInput input).pacmanBufferedInput ≠ (w.bufferInput input).pacmanMoveDir ∧
          (w.bufferInput input).isTileWall
            (stepTile (w.bufferInput input).pacmanBufferedInput
              (w.bufferInput input).pacmanTileX (w.bufferInput input).pacmanTileY).1
            (stepTile (w.bufferInput input).pacmanBufferedInput
              (w.bufferInput input).pacmanTileX (w.bufferInput input).pacmanTileY).2 = false) →
        ((w.bufferInput input).pacmanMoveDir ≠ ' ' →
          (w.bufferInput input).isTileWall
            (stepTile (w.bufferInput input).pacmanMoveDir (w.bufferInput input).pacmanTileX
              (w.bufferInput input).pacmanTileY).1
            (stepTile (w.bufferInput input).pacmanMoveDir (w.bufferInput input).pacmanTileX
              (w.bufferInput input).pacmanTileY).2 = false →
          (w.updatePacmanTileBased dt input p).1.pacmanMoveDir
            = (w.bufferInput input).pacmanMoveDir ∧
          (w.updatePacmanTileBased dt input p).1.pacmanBufferedInput
            = (w.bufferInput input).pacmanBufferedInput ∧
          (w.updatePacmanTileBased dt input p).2.moving = true) ∧
        ((w.bufferInput input).pacmanMoveDir = ' ' ∨
          (w.bufferInput input).isTileWall
            (stepTile (w.bufferInput input).pacmanMoveDir (w.bufferInput input).pacmanTileX
              (w.bufferInput input).pacmanTileY).1
            (stepTile (w.bufferInput input).pacmanMoveDir (w.bufferInput input).pacmanTileX
              (w.bufferInput input).pacmanTileY).2 = true →
          (w.updatePacmanTileBased dt input p).1.pacmanMoveDir = ' ' ∧
          (w.updatePacmanTileBased dt input p).2.moving = false ∧
          (w.updatePacmanTileBased dt input p).1.pacmanTileProgress = 0 ∧
          (w.updatePacmanTileBased dt input p).1.pacmanTileX = w.pacmanTileX ∧
          (w.updatePacmanTileBased dt input p).1.pacmanTileY = w.pacmanTileY ∧
          ((w.updatePacmanTileBased dt input p).2.x, (w.updatePacmanTileBased dt input p).2.y)
            = w.getPositionFromTile w.pacmanTileX w.pacmanTileY ∧
          (p.dying = false → (w.bufferInput input).pacmanMoveDir ≠ ' ' →
            (w.updatePacmanTileBased dt input p).2.direction = ' ')))) ∧
    (0 < (w.bufferInput input).pacmanTileProgress →
      (w.updatePacmanTileBased dt input p).1.pacmanMoveDir =
        (if (w.bufferInput input).pacmanBufferedInput ≠ ' ' ∧
            (w.bufferInput input).pacmanMoveDir ≠ ' ' ∧
            (w.bufferInput input).isOppositeInput = true
         then (w.bufferInput input).pacmanBufferedInput
         else (w.bufferInput input).pacmanMoveDir)) := by
  have hb : (w.bufferInput input).pacmanBufferedInput
        = (if input ≠ Char.ofNat 0 ∧ input ≠ ' ' then input else w.pacmanBufferedInput) ∧
      (w.bufferInput input).pacmanMoveDir = w.pacmanMoveDir ∧
      (w.bufferInput input).pacmanTileProgress = w.pacmanTileProgress ∧
      (w.bufferInput input).pacmanTileX = w.pacmanTileX ∧
      (w.bufferInput input).pacmanTileY = w.pacmanTileY ∧
      (w.bufferInput input).walls = w.walls ∧
      (w.bufferInput input).B_width = w.B_width ∧
      (w.bufferInput input).B_height = w.B_height := by
    unfold World.bufferInput
    split_ifs <;> exact ⟨rfl, rfl, rfl, rfl, rfl, rfl, rfl, rfl⟩
  refine ⟨hb, ?_, ?_⟩
  · obtain ⟨_, _, _, hx, hy, _, hbw, hbh⟩ := hb
    have hpos : w.getPositionFromTile w.pacmanTileX w.pacmanTileY =
        (w.bufferInput input).getPositionFromTile (w.bufferInput input).pacmanTileX
          (w.bufferInput input).pacmanTileY := by
      unfold World.getPositionFromTile
      rw [hx, hy, hbw, hbh]
    rw [hpos, ← hx, ← hy]
    unfold World.updatePacmanTileBased
    simp only []
    generalize w.bufferInput input = w1
    intro h0
    have hrev : w1.instantReversalStep p = (w1, p, false) := by
      unfold World.instantReversalStep
      simp only [h0, lt_self_iff_false, false_and, and_false, ↓reduceIte]
    simp only [hrev, h0, and_self, ↓reduceIte]
    refine ⟨?_, ?_⟩
    · intro h1 h2 h3
      have ha : w1.applyBufferedInput p =
          ({ w1 with pacmanMoveDir := w1.pacmanBufferedInput, pacmanBufferedInput := ' ' },
            p.setDirection w1.pacmanBufferedInput) := by
        unfold World.applyBufferedInput
        simp only [h1, h2, h3, ne_eq, not_false_eq_true, and_self, ↓reduceIte, Bool.not_false]
      have h3b : World.isTileWall
          { w1 with pacmanMoveDir := w1.pacmanBufferedInput, pacmanBufferedInput := ' ' }
          (stepTile w1.pacmanBufferedInput w1.pacmanTileX w1.pacmanTileY).1
          (stepTile w1.pacmanBufferedInput w1.pacmanTileX w1.pacmanTileY).2 = false := h3
      have hs : w1.tileCenterStep p =
          ({ w1 with pacmanMoveDir := w1.pacmanBufferedInput, pacmanBufferedInput := ' ' },
            p.setDirection w1.pacmanBufferedInput) := by
        unfold World.tileCenterStep
        rw [ha]
        unfold World.stopAtWall
        simp only [h1, ne_eq, not_false_eq_true, ↓reduceIte, h3b, Bool.false_eq_true]
      rw [hs]
      unfold World.advanceStep
      simp only [h1, ne_eq, not_false_eq_true, ↓reduceIte]
      refine ⟨?_, ?_, ?_, ?_⟩
      · split_ifs <;> rfl
      · split_ifs <;> rfl
      · split_ifs <;> rfl
      · intro hd hdir
        have hsd : (p.setDirection w1.pacmanBufferedInput).direction
            = w1.pacmanBufferedInput := by
          unfold Pacman.setDirection
          rcases hdir with h | h | h | h <;> simp [hd, h]
        split_ifs <;> exact hsd
    · intro hno
      have ha : w1.applyBufferedInput p = (w1, p) := by
        unfold World.applyBufferedInput
        by_cases c1 : w1.pacmanBufferedInput ≠ ' ' ∧ w1.pacmanBufferedInput ≠ w1.pacmanMoveDir
        · have c2 : ¬ w1.isTileWall
              (stepTile w1.pacmanBufferedInput w1.pacmanTileX w1.pacmanTileY).1
              (stepTile w1.pacmanBufferedInput w1.pacmanTileX w1.pacmanTileY).2 = false :=
            fun h => hno ⟨c1.1, c1.2, h⟩
          simp only [c1, ne_eq, not_false_eq_true, and_self, ↓reduceIte]
          rw [Bool.not_eq_false] at c2
          simp only [c2, Bool.not_true, Bool.false_eq_true, ↓reduceIte]
        · simp only [c1, ↓reduceIte]
      refine ⟨?_, ?_⟩
      · intro hm hw
        have hs : w1.tileCenterStep p = (w1, p) := by
          unfold World.tileCenterStep
          rw [ha]
          unfold World.stopAtWall
          simp only [hm, ne_eq, not_false_eq_true, ↓reduceIte, hw, Bool.false_eq_true]
        rw [hs]
        unfold World.advanceStep
        simp only [hm, ne_eq, not_false_eq_true, ↓reduceIte]
        refine ⟨?_, ?_, ?_⟩ <;> split_ifs <;> rfl
      · intro hstop
        have hs : (w1.tileCenterStep p).1 = { w1 with pacmanMoveDir := ' ' } ∧
            (w1.pacmanMoveDir ≠ ' ' →
              (w1.tileCenterStep p).2 = (p.setDirection ' ').setMoving false) := by
          unfold World.tileCenterStep
          rw [ha]
          unfold World.stopAtWall
          by_cases hm : w1.pacmanMoveDir = ' '
          · simp only [hm, ne_eq, not_true_eq_false, ↓reduceIte, false_implies, and_true]
            rw [← hm]
          · have hw : w1.isTileWall
                (stepTile w1.pacmanMoveDir w1.pacmanTileX w1.pacmanTileY).1
                (stepTile w1.pacmanMoveDir w1.pacmanTileX w1.pacmanTileY).2 = true := by
              rcases hstop with h | h
              · exact absurd h hm
              · exact h
            simp only [hm, ne_eq, not_false_eq_true, ↓reduceIte, hw, true_implies, and_self]
        obtain ⟨hs1, hs2⟩ := hs
        unfold World.advanceStep World.visualPosition
        simp only [hs1, ne_eq, not_true_eq_false, ↓reduceIte, false_and, Pacman.setPosition,
          Pacman.setMoving, h0, true_and]
        refine ⟨rfl, ?_⟩
        intro hd hm
        rw [hs2 hm]
        unfold Pacman.setDirection
        simp [hd, Pacman.setMoving]
  · unfold World.updatePacmanTileBased
    simp only []
    generalize w.bufferInput input = w1
    intro hpos
    have hadv : ∀ (delta : ℚ) (v : World) (q : Pacman),
        (v.advanceStep delta q).1.pacmanMoveDir = v.pacmanMoveDir := by
      intro delta v q
      unfold World.advanceStep
      simp only []
      split_ifs <;> rfl
    by_cases hr : w1.pacmanBufferedInput ≠ ' ' ∧ w1.pacmanMoveDir ≠ ' ' ∧
        w1.isOppositeInput = true
    · have hrev : w1.instantReversalStep p =
          ({ w1 with
              pacmanTileX := (stepTile w1.pacmanMoveDir w1.pacmanTileX w1.pacmanTileY).1,
              pacmanTileY := (stepTile w1.pacmanMoveDir w1.pacmanTileX w1.pacmanTileY).2,
              pacmanMoveDir := w1.pacmanBufferedInput, pacmanBufferedInput := ' ',
              pacmanTileProgress := 1 - w1.pacmanTileProgress },
            p.setDirection w1.pacmanBufferedInput, true) := by
        unfold World.instantReversalStep
        simp only [hr.1, hr.2.1, hr.2.2, hpos, ne_eq, not_false_eq_true, and_self, ↓reduceIte]
      rw [hrev, if_pos hr]
      simp only [Bool.true_eq_false, false_and, ↓reduceIte, hadv]
    · have hrev : w1.instantReversalStep p = (w1, p, false) := by
        unfold World.instantReversalStep
        have hr2 : ¬ (w1.pacmanBufferedInput ≠ ' ' ∧ w1.pacmanMoveDir ≠ ' ' ∧
            0 < w1.pacmanTileProgress ∧ w1.isOppositeInput = true) :=
          fun h => hr ⟨h.1, h.2.1, h.2.2.2⟩
        rw [if_neg hr2]
      rw [hrev, if_neg hr]
      simp only [ne_of_gt hpos, and_false, ↓reduceIte, hadv]
/-! ## Frames: the dying branch and the gates -/

/-- The three ways through `World::update` for a world with a player: the dying branch, a
frame stopped at a gate, and a frame that runs. -/
theorem World.update_cases (sqrtf : ℚ → ℚ) (dt : ℚ) (input : Char) (w0 : World)
    (rng : Random) (p0 : Pacman) (hp : w0.pacman = some p0) :
    (p0.dying = true →
      w0.update sqrtf dt input rng =
        (dyingFrame dt { w0 with scoreSystem := w0.scoreSystem.update dt } p0).map
          (fun w1 => (w1, rng))) ∧
    (p0.dying = false → ¬ w0.runsFrame input →
      w0.update sqrtf dt input rng
        = some ({ w0 with scoreSystem := w0.scoreSystem.update dt }, rng)) ∧
    (p0.dying = false → w0.runsFrame input →
      w0.update sqrtf dt input rng =
        some (playFrame sqrtf dt input (w0.frameStart dt) p0 rng)) := by
  refine ⟨?_, ?_, fun hd hrun => World.update_runs sqrtf dt input w0 rng p0 hp hd hrun⟩
  · intro hd
    unfold World.update
    rw [hp]
    simp only [hd, ↓reduceIte]
    split <;> rename_i h <;> rw [h] <;> rfl
  · intro hd hno
    unfold World.update World.runsFrame at *
    rw [hp]
    simp only [hd, Bool.false_eq_true, ↓reduceIte]
    obtain ⟨d, l, pm, gh, co, fr, wa, lc, bw, bh, ss, fm, wr, gs, tp, tx, ty, md, bi⟩ := w0
    cases wr <;> cases gs <;> cases hi : isStartInput input <;> simp_all

/-- C27: while the player is dying, an update only advances the death timer (and the coin
timer of the score engine, as every frame does): the tile state of the player, the ghosts,
coins, fruits, score total and combo are untouched, as long as the timer stays below the
animation duration. On the update where the timer reaches the duration, with lives left the
player is back at its spawn point and not dying, tile progress is 0 with direction and buffer
cleared, every ghost is WAITING at its spawn point with its original wait time, the score
engine has received a player-died event, and the world waits for a start input; with no life
left only the timer has advanced, the player stays dying and the game is over. -/
theorem dying_frame_effects (sqrtf : ℚ → ℚ) (dt : ℚ) (input : Char) (w0 : World)
    (rng : Random) (p0 : Pacman) (hp : w0.pacman = some p0) (hd : p0.dying = true) :
    (¬ (Pacman.deathAnimationDuration ≤ p0.deathTimer + dt ∧ 0 < p0.lives) →
      w0.update sqrtf dt input rng =
        some ({ w0 with
                scoreSystem := { w0.scoreSystem with
                  timeSinceLastCoin := w0.scoreSystem.timeSinceLastCoin + dt },
                pacman := some { p0 with deathTimer := p0.deathTimer + dt } }, rng)) ∧
    (Pacman.deathAnimationDuration ≤ p0.deathTimer + dt → p0.lives ≤ 0 →
      ∃ w1 : World, w0.update sqrtf dt input rng = some (w1, rng) ∧
        w1.isGameOver = true ∧
        ∃ p1 : Pacman, w1.pacman = some p1 ∧ p1.dying = true) ∧
    (Pacman.deathAnimationDuration ≤ p0.deathTimer + dt → 0 < p0.lives →
      ∃ w1 : World, w0.update sqrtf dt input rng = some (w1, rng) ∧
        w1.pacman = some { p0 with
          dying := false, deathTimer := 0, direction := ' ', directionBuffer := ' ',
          moving := false, x := p0.spawnX, y := p0.spawnY } ∧
        (w1.pacmanTileX, w1.pacmanTileY) = w0.getTileFromPosition p0.spawnX p0.spawnY ∧
        w1.pacmanTileProgress = 0 ∧ w1.pacmanMoveDir = ' ' ∧ w1.pacmanBufferedInput = ' ' ∧
        w1.ghosts = w0.ghosts.map Ghost.resetForPacmanDeath ∧
        (∀ g ∈ w1.ghosts, g.state = GhostState.WAITING ∧ g.x = g.startX ∧ g.y = g.startY ∧
          g.spawnTimer = g.originalSpawnTime ∧ g.direction = ' ') ∧
        w1.scoreSystem = (w0.scoreSystem.update dt).onPacmanDied ∧
        w1.scoreSystem.currentScore = w0.scoreSystem.currentScore ∧
        w1.waitingToRestart = true ∧ w1.gameStarted = false ∧
        w1.coins = w0.coins ∧ w1.fruits = w0.fruits ∧ w1.walls = w0.walls) := by
  have hu := (World.update_cases sqrtf dt input w0 rng p0 hp).1 hd
  have hpu : p0.update dt = { p0 with deathTimer := p0.deathTimer + dt } := by
    unfold Pacman.update Pacman.updateDeath
    simp only [hd, ↓reduceIte, Bool.not_true, Bool.false_eq_true]
  refine ⟨?_, ?_, ?_⟩
  · intro hno
    rw [hu]
    unfold World.dyingFrame
    simp only [hpu, Pacman.isDeathAnimationComplete, decide_eq_true_eq]
    by_cases hc : Pacman.deathAnimationDuration ≤ p0.deathTimer + dt
    · have hl : ¬ 0 < p0.lives := fun h => hno ⟨hc, h⟩
      simp only [hc, hl, ↓reduceIte]
      rfl
    · simp only [hc, ↓reduceIte]
      rfl
  · intro hc hl
    have hl2 : ¬ 0 < p0.lives := not_lt.mpr hl
    refine ⟨{ w0 with
        scoreSystem := w0.scoreSystem.update dt,
        pacman := some { p0 with deathTimer := p0.deathTimer + dt } }, ?_, ?_, _, rfl, hd⟩
    · rw [hu]
      unfold World.dyingFrame
      simp only [hpu, Pacman.isDeathAnimationComplete, decide_eq_true_eq, hc, hl2, ↓reduceIte]
      rfl
    · simp only [World.isGameOver, Pacman.isDeathAnimationComplete, hd, hc, hl, decide_True,
        Bool.and_self]
  · intro hc hl
    refine ⟨{ w0 with
        scoreSystem := (w0.scoreSystem.update dt).onPacmanDied,
        pacman := some { p0 with
          dying := false, deathTimer := 0, direction := ' ', directionBuffer := ' ',
          moving := false, x := p0.spawnX, y := p0.spawnY },
        pacmanTileX := (w0.getTileFromPosition p0.spawnX p0.spawnY).1,
        pacmanTileY := (w0.getTileFromPosition p0.spawnX p0.spawnY).2,
        pacmanTileProgress := 0, pacmanMoveDir := ' ', pacmanBufferedInput := ' ',
        ghosts := w0.ghosts.map Ghost.resetForPacmanDeath,
        waitingToRestart := true, gameStarted := false },
      ?_, rfl, rfl, rfl, rfl, rfl, rfl, ?_, rfl, rfl, rfl, rfl, rfl, rfl, rfl⟩
    · rw [hu]
      unfold World.dyingFrame
      simp only [hpu, Pacman.isDeathAnimationComplete, decide_eq_true_eq, hc, hl, ↓reduceIte,
        World.resetPositions, Option.map_some']
      rfl
    · intro g hg
      obtain ⟨a, _, rfl⟩ := List.mem_map.mp hg
      exact ⟨rfl, rfl, rfl, rfl, rfl⟩
/-- C27, witness: the corridor level with a player that has just started to die; one frame of
1/60 s only advances the death timer (and the coin timer). -/
theorem dying_frame_effects_witness :
    dyingWorld.update (fun q => q) (1 / 60) 'R' zeroRandom =
      some ({ dyingWorld with
              scoreSystem := { dyingWorld.scoreSystem with
                timeSinceLastCoin := dyingWorld.scoreSystem.timeSinceLastCoin + 1 / 60 },
              pacman := some { ({ corridorPacman with dying := true, lives := 2 } : Pacman) with
                deathTimer :=
                  ({ corridorPacman with dying := true, lives := 2 } : Pacman).deathTimer
                    + 1 / 60 } }, zeroRandom) :=
  (dying_frame_effects (fun q => q) (1 / 60) 'R' dyingWorld zeroRandom
    { corridorPacman with dying := true, lives := 2 } rfl rfl).1
    (by norm_num [Pacman.deathAnimationDuration, corridorPacman, Pacman.new])

/-- The play frame leaves the two start flags as the tile controller left them. -/
theorem World.playFrame_flags (sqrtf : ℚ → ℚ) (dt : ℚ) (input : Char) (w : World)
    (p0 : Pacman) (rng : Random) :
    (playFrame sqrtf dt input w p0 rng).1.gameStarted
      = (w.updatePacmanTileBased dt input p0).1.gameStarted ∧
    (playFrame sqrtf dt input w p0 rng).1.waitingToRestart
      = (w.updatePacmanTileBased dt input p0).1.waitingToRestart := by
  unfold World.playFrame
  simp only []
  split_ifs <;> exact ⟨rfl, rfl⟩

/-- In every state the program reaches, a dying player means a started world that is not
waiting to restart. -/
theorem Reachable.dying_started (lines : List (List Char)) (w : World)
    (h : Reachable lines w) :
    ∀ p : Pacman, w.pacman = some p → p.dying = true →
      w.gameStarted = true ∧ w.waitingToRestart = false := by
  induction h with
  | init w h0 =>
    rw [World.new_eq] at h0
    intro p hp hd
    exfalso
    by_cases hP : ∃ c r : ℕ, mapCharAt lines (c : ℤ) (r : ℤ) = some 'P'
    · obtain ⟨c, r, hcr⟩ := hP
      obtain ⟨w1, h1, q, hq, _, hdq⟩ :=
        World.initializeLevel_fresh_player lines World.blank c r hcr
      rw [h0] at h1
      have e := Except.ok.inj h1
      subst e
      rw [hp] at hq
      have e2 := Option.some.inj hq
      subst e2
      rw [hd] at hdq
      cases hdq
    · have := (World.initializeLevel_no_P lines hP World.blank w h0).1
      rw [hp] at this
      simp [World.blank] at this
  | update sqrtf dt input rng rng1 w w1 _ _ hu ih =>
    obtain ⟨p0, hp0, _⟩ := World.update_shape sqrtf dt input w w1 rng rng1 hu
    obtain ⟨c1, c2, c3⟩ := World.update_cases sqrtf dt input w rng p0 hp0
    intro q hq hdq
    cases hd0 : p0.dying
    · by_cases hrun : w.runsFrame input
      · rw [c3 hd0 hrun] at hu
        have e := (Prod.mk.inj (Option.some.inj hu)).1
        subst e
        obtain ⟨_, _, _, _, _, hwr, hgs⟩ := World.frameStart_moved dt input w p0
        obtain ⟨f1, f2⟩ := World.playFrame_flags sqrtf dt input (w.frameStart dt) p0 rng
        exact ⟨f1.trans hgs, f2.trans hwr⟩
      · rw [c2 hd0 hrun] at hu
        have e := (Prod.mk.inj (Option.some.inj hu)).1
        subst e
        have hq2 : w.pacman = some q := hq
        rw [hp0] at hq2
        have e2 := Option.some.inj hq2
        subst e2
        rw [hd0] at hdq
        cases hdq
    · obtain ⟨hg, hw⟩ := ih p0 hp0 hd0
      rw [c1 hd0] at hu
      unfold World.dyingFrame at hu
      simp only [] at hu
      split_ifs at hu with k1 k2
      · exfalso
        unfold World.resetPositions at hu
        simp only [Option.map_some'] at hu
        have e := (Prod.mk.inj (Option.some.inj hu)).1
        subst e
        have hq2 := Option.some.inj hq
        subst hq2
        simp [Pacman.respawn] at hdq
      · have e := (Prod.mk.inj (Option.some.inj hu)).1
        subst e
        exact ⟨hg, hw⟩
      · have e := (Prod.mk.inj (Option.some.inj hu)).1
        subst e
        exact ⟨hg, hw⟩
  | nextLevel w w1 _ hn _ =>
    obtain ⟨v, w3, p, _, _, _, _, hp1, _, _⟩ := World.nextLevel_shape lines w w1 hn
    intro q hq hdq
    rw [hq] at hp1
    have e := Option.some.inj hp1
    subst e
    simp [Pacman.respawn] at hdq

/-- C28: in every state the program reaches that has a player, while the world is waiting to
restart or not yet started, the player is not dying, and an update with no input (0 or a
blank) changes nothing but the coin timer of the score engine: the tile, progress, direction
and position of the player, every ghost, the coins, the fruits, the score total and the lives
are as before; an update with a direction input (any other character) starts the game in that
same frame: it is the play frame, and afterwards the world is started and not waiting. -/
theorem gated_frame_changes_nothing (lines : List (List Char)) (sqrtf : ℚ → ℚ) (dt : ℚ)
    (input : Char) (w0 : World) (rng : Random) (p0 : Pacman) (hr : Reachable lines w0)
    (hp : w0.pacman = some p0)
    (hw : w0.waitingToRestart = true ∨ w0.gameStarted = false) :
    p0.dying = false ∧
    (World.isStartInput input = false ↔ (input = Char.ofNat 0 ∨ input = ' ')) ∧
    (World.isStartInput input = false →
      w0.update sqrtf dt input rng =
        some ({ w0 with scoreSystem := { w0.scoreSystem with
                  timeSinceLastCoin := w0.scoreSystem.timeSinceLastCoin + dt } }, rng)) ∧
    (World.isStartInput input = true →
      w0.update sqrtf dt input rng =
        some (World.playFrame sqrtf dt input (w0.frameStart dt) p0 rng) ∧
      (World.playFrame sqrtf dt input (w0.frameStart dt) p0 rng).1.gameStarted = true ∧
      (World.playFrame sqrtf dt input (w0.frameStart dt) p0 rng).1.waitingToRestart
        = false) := by
  have hd : p0.dying = false := by
    cases hd : p0.dying
    · rfl
    · exfalso
      obtain ⟨h1, h2⟩ := Reachable.dying_started lines w0 hr p0 hp hd
      rcases hw with h | h
      · rw [h2] at h
        cases h
      · rw [h1] at h
        cases h
  obtain ⟨_, c2, c3⟩ := World.update_cases sqrtf dt input w0 rng p0 hp
  refine ⟨hd, ?_, ?_, ?_⟩
  · unfold World.isStartInput
    rw [decide_eq_false_iff_not]
    constructor
    · intro h
      by_contra hc
      exact h ⟨fun e => hc (Or.inl e), fun e => hc (Or.inr e)⟩
    · rintro (h | h) ⟨h1, h2⟩
      · exact h1 h
      · exact h2 h
  · intro hi
    have hno : ¬ w0.runsFrame input := by
      unfold World.runsFrame
      rintro (h | ⟨h1, h2⟩)
      · rw [hi] at h
        cases h
      · rcases hw with h | h
        · rw [h1] at h
          cases h
        · rw [h2] at h
          cases h
    rw [c2 hd hno]
    rfl
  · intro hi
    obtain ⟨_, _, _, _, _, hwr, hgs⟩ := World.frameStart_moved dt input w0 p0
    obtain ⟨f1, f2⟩ := World.playFrame_flags sqrtf dt input (w0.frameStart dt) p0 rng
    exact ⟨c3 hd (Or.inl hi), f1.trans hgs, f2.trans hwr⟩

/-- C28, witness: the corridor level as loaded (not yet started); a frame of 1/60 s without
input only advances the coin timer. -/
theorem gated_frame_changes_nothing_witness :
    corridorWorld.update (fun q => q) (1 / 60) (Char.ofNat 0) zeroRandom =
      some ({ corridorWorld with scoreSystem := { corridorWorld.scoreSystem with
                timeSinceLastCoin := corridorWorld.scoreSystem.timeSinceLastCoin + 1 / 60 } },
            zeroRandom) :=
  (gated_frame_changes_nothing corridorMap (fun q => q) (1 / 60) (Char.ofNat 0) corridorWorld
    zeroRandom corridorPacman (Reachable.init corridorWorld World.new_corridorMap) rfl
    (Or.inr rfl)).2.2.1 (by decide)

/-! ## Level loading: an unrecognized character -/

/-- The loader skips a character that is none of `#`, `0`, `P`, `f`, `R`, `I`, `B`, `O`. -/
theorem World.placeChar_skip (y : ℚ) (v : World) (x : ℚ) (ch : Char)
    (h : ch ≠ '#' ∧ ch ≠ '0' ∧ ch ≠ 'P' ∧ ch ≠ 'f' ∧ ch ≠ 'R' ∧ ch ≠ 'I' ∧ ch ≠ 'B' ∧
      ch ≠ 'O') :
    World.placeChar y (v, x) ch = (v, x + v.B_width) := by
  obtain ⟨h1, h2, h3, h4, h5, h6, h7, h8⟩ := h
  unfold World.placeChar
  simp only [h1, h2, h3, h4, h5, h6, h7, h8, ↓reduceIte, or_self]

/-- The placement of the character of the cell, against skipping it. -/
theorem World.placeChar_differs (y : ℚ) (v : World) (x : ℚ) (old : Char) :
    World.DiffersByCell old { x := x, y := y, width := v.B_width, height := v.B_height }
      (World.placeChar y (v, x) old).1 v := by
  unfold World.placeChar World.DiffersByCell
  simp only []
  by_cases h3 : old = 'P'
  · subst h3
    refine ⟨⟨v.walls, [], ?_, ?_⟩, ⟨v.coins, [], ?_, ?_⟩, ⟨v.fruits, [], ?_, ?_⟩,
      ⟨v.ghosts, [], ?_, ?_⟩, Or.inr ?_, ?_⟩
    all_goals simp +decide
    rfl
  by_cases h1 : old = '#'
  · subst h1
    refine ⟨⟨v.walls, [], ?_, ?_⟩, ⟨v.coins, [], ?_, ?_⟩, ⟨v.fruits, [], ?_, ?_⟩,
      ⟨v.ghosts, [], ?_, ?_⟩, Or.inl ?_, ?_⟩ <;> simp +decide
  by_cases h2 : old = '0'
  · subst h2
    refine ⟨⟨v.walls, [], ?_, ?_⟩, ⟨v.coins, [], ?_, ?_⟩, ⟨v.fruits, [], ?_, ?_⟩,
      ⟨v.ghosts, [], ?_, ?_⟩, Or.inl ?_, ?_⟩ <;> simp +decide
  by_cases h4 : old = 'f'
  · subst h4
    refine ⟨⟨v.walls, [], ?_, ?_⟩, ⟨v.coins, [], ?_, ?_⟩, ⟨v.fruits, [], ?_, ?_⟩,
      ⟨v.ghosts, [], ?_, ?_⟩, Or.inl ?_, ?_⟩ <;> simp +decide
  by_cases h5 : old = 'R' ∨ old = 'I' ∨ old = 'B' ∨ old = 'O'
  · refine ⟨⟨v.walls, [], ?_, ?_⟩, ⟨v.coins, [], ?_, ?_⟩, ⟨v.fruits, [], ?_, ?_⟩,
      ⟨v.ghosts, [], ?_, ?_⟩, Or.inl ?_, ?_⟩ <;> simp [h1, h2, h3, h4, h5]
  · refine ⟨⟨v.walls, [], ?_, ?_⟩, ⟨v.coins, [], ?_, ?_⟩, ⟨v.fruits, [], ?_, ?_⟩,
      ⟨v.ghosts, [], ?_, ?_⟩, Or.inl ?_, ?_⟩ <;> simp [h1, h2, h3, h4, h5]

/-- The placement of a later character keeps two levels that differ by one cell in that
relation. -/
theorem World.placeChar_keeps_differs (old : Char) (e : Entity) (y : ℚ) (va vb : World)
    (x : ℚ) (ch : Char) (h : World.DiffersByCell old e va vb) :
    World.DiffersByCell old e (World.placeChar y (va, x) ch).1
      (World.placeChar y (vb, x) ch).1 := by
  obtain ⟨⟨A1, B1, a1, b1⟩, ⟨A2, B2, a2, b2⟩, ⟨A3, B3, a3, b3⟩, ⟨A4, B4, a4, b4⟩, hpl,
    hw, hh, s1, s2, s3, s4, s5, s6, s7⟩ := h
  have hT : va.getTileFromPosition x y = vb.getTileFromPosition x y := by
    unfold World.getTileFromPosition
    rw [hw, hh]
  unfold World.placeChar World.DiffersByCell
  simp only []
  by_cases h1 : ch = '#'
  · simp only [h1, ↓reduceIte]
    refine ⟨⟨A1, B1 ++ [{ x := x, y := y, width := vb.B_width, height := vb.B_height }],
      ?_, ?_⟩, ⟨A2, B2, a2, b2⟩, ⟨A3, B3, a3, b3⟩, ⟨A4, B4, a4, b4⟩, hpl,
      hw, hh, s1, s2, s3, s4, s5, s6, s7⟩
    · rw [a1, hw, hh]
      simp only [List.append_assoc]
    · rw [b1]
      simp only [List.append_assoc]
  by_cases h2 : ch = '0'
  · simp only [h2, ↓reduceIte, reduceCtorEq, Char.reduceEq]
    refine ⟨⟨A1, B1, a1, b1⟩,
      ⟨A2, B2 ++ [{ x := x, y := y, width := vb.B_width, height := vb.B_height }], ?_, ?_⟩,
      ⟨A3, B3, a3, b3⟩, ⟨A4, B4, a4, b4⟩, hpl, hw, hh, s1, s2, s3, s4, s5, s6, s7⟩
    · rw [a2, hw, hh]
      simp only [List.append_assoc]
    · rw [b2]
      simp only [List.append_assoc]
  by_cases h3 : ch = 'P'
  · simp only [h3, ↓reduceIte, Char.reduceEq]
    refine ⟨⟨A1, B1, a1, b1⟩, ⟨A2, B2, a2, b2⟩, ⟨A3, B3, a3, b3⟩, ⟨A4, B4, a4, b4⟩,
      Or.inl ⟨?_, ?_, ?_, trivial, trivial, trivial⟩, hw, hh, s1, s2, s3, s4, s5, s6, s7⟩
    · rw [hw, hh]
    · rw [hT]
    · rw [hT]
  by_cases h4 : ch = 'f'
  · simp only [h4, ↓reduceIte, Char.reduceEq]
    refine ⟨⟨A1, B1, a1, b1⟩, ⟨A2, B2, a2, b2⟩,
      ⟨A3, B3 ++ [{ x := x, y := y, width := vb.B_width, height := vb.B_height }], ?_, ?_⟩,
      ⟨A4, B4, a4, b4⟩, hpl, hw, hh, s1, s2, s3, s4, s5, s6, s7⟩
    · rw [a3, hw, hh]
      simp only [List.append_assoc]
    · rw [b3]
      simp only [List.append_assoc]
  by_cases h5 : ch = 'R' ∨ ch = 'I' ∨ ch = 'B' ∨ ch = 'O'
  · simp only [h1, h2, h3, h4, h5, ↓reduceIte]
    refine ⟨⟨A1, B1, a1, b1⟩, ⟨A2, B2, a2, b2⟩, ⟨A3, B3, a3, b3⟩,
      ⟨A4, B4 ++ [createGhost x y vb.B_width vb.B_height ch], ?_, ?_⟩,
      hpl, hw, hh, s1, s2, s3, s4, s5, s6, s7⟩
    · rw [a4, hw, hh]
      simp only [List.append_assoc]
    · rw [b4]
      simp only [List.append_assoc]
  · simp only [h1, h2, h3, h4, h5, ↓reduceIte]
    exact ⟨⟨A1, B1, a1, b1⟩, ⟨A2, B2, a2, b2⟩, ⟨A3, B3, a3, b3⟩, ⟨A4, B4, a4, b4⟩, hpl,
      hw, hh, s1, s2, s3, s4, s5, s6, s7⟩
/-- The character loop keeps the tile size and advances `x` by one tile per character. -/
theorem World.foldl_placeChar_track (y : ℚ) :
    ∀ (l : List Char) (v : World) (x : ℚ),
      (l.foldl (World.placeChar y) (v, x)).2 = x + (l.length : ℚ) * v.B_width ∧
      (l.foldl (World.placeChar y) (v, x)).1.B_width = v.B_width ∧
      (l.foldl (World.placeChar y) (v, x)).1.B_height = v.B_height := by
  intro l
  induction l with
  | nil =>
    intro v x
    simp
  | cons a t ih =>
    intro v x
    rw [List.foldl_cons]
    have hp : World.placeChar y (v, x) a = ((World.placeChar y (v, x) a).1, x + v.B_width) :=
      Prod.ext rfl (World.placeChar_snd y v x a)
    rw [hp]
    obtain ⟨i1, i2, i3⟩ := ih (World.placeChar y (v, x) a).1 (x + v.B_width)
    obtain ⟨b1, b2⟩ := World.placeChar_B y v x a
    rw [i1, i2, i3, b1, b2]
    refine ⟨?_, rfl, rfl⟩
    rw [List.length_cons]
    push_cast
    ring

/-- The character loop keeps two levels that differ by one cell in that relation. -/
theorem World.foldl_placeChar_keeps_differs (old : Char) (e : Entity) (y : ℚ) :
    ∀ (l : List Char) (va vb : World) (x : ℚ), World.DiffersByCell old e va vb →
      World.DiffersByCell old e (l.foldl (World.placeChar y) (va, x)).1
        (l.foldl (World.placeChar y) (vb, x)).1 ∧
      (l.foldl (World.placeChar y) (va, x)).2 = (l.foldl (World.placeChar y) (vb, x)).2 := by
  intro l
  induction l with
  | nil =>
    intro va vb x h
    exact ⟨h, rfl⟩
  | cons a t ih =>
    intro va vb x h
    rw [List.foldl_cons, List.foldl_cons]
    have hw : va.B_width = vb.B_width := h.2.2.2.2.2.1
    have hpa : World.placeChar y (va, x) a =
        ((World.placeChar y (va, x) a).1, x + va.B_width) :=
      Prod.ext rfl (World.placeChar_snd y va x a)
    have hpb : World.placeChar y (vb, x) a =
        ((World.placeChar y (vb, x) a).1, x + va.B_width) := by
      rw [hw]
      exact Prod.ext rfl (World.placeChar_snd y vb x a)
    rw [hpa, hpb]
    exact ih _ _ _ (World.placeChar_keeps_differs old e y va vb x a h)

/-- The line of the cell: laid out with the character `old` in column `l1.length` against the
same line with an unrecognized character there. -/
theorem World.placeLine_differs (v : World) (y : ℚ) (l1 l2 : List Char) (old new : Char)
    (hnew : new ≠ '#' ∧ new ≠ '0' ∧ new ≠ 'P' ∧ new ≠ 'f' ∧ new ≠ 'R' ∧ new ≠ 'I' ∧
      new ≠ 'B' ∧ new ≠ 'O') :
    World.DiffersByCell old
      { x := -1 + v.B_width / 2 + (l1.length : ℚ) * v.B_width, y := y,
        width := v.B_width, height := v.B_height }
      (World.placeLine (v, y) (l1 ++ old :: l2)).1
      (World.placeLine (v, y) (l1 ++ new :: l2)).1 ∧
    (World.placeLine (v, y) (l1 ++ old :: l2)).2 = (World.placeLine (v, y) (l1 ++ new :: l2)).2
      := by
  unfold World.placeLine
  simp only [List.foldl_append, List.foldl_cons]
  obtain ⟨t1, t2, t3⟩ := World.foldl_placeChar_track y l1 v (-1 + v.B_width / 2)
  have hs : l1.foldl (World.placeChar y) (v, -1 + v.B_width / 2) =
      ((l1.foldl (World.placeChar y) (v, -1 + v.B_width / 2)).1,
        -1 + v.B_width / 2 + (l1.length : ℚ) * v.B_width) := Prod.ext rfl t1
  rw [hs]
  generalize (l1.foldl (World.placeChar y) (v, -1 + v.B_width / 2)).1 = v1 at t2 t3 ⊢
  rw [World.placeChar_skip y v1 _ new hnew]
  have hc := World.placeChar_differs y v1 (-1 + v.B_width / 2 + (l1.length : ℚ) * v.B_width)
    old
  rw [t2, t3] at hc
  have hpa : World.placeChar y (v1, -1 + v.B_width / 2 + (l1.length : ℚ) * v.B_width) old =
      ((World.placeChar y (v1, -1 + v.B_width / 2 + (l1.length : ℚ) * v.B_width) old).1,
        -1 + v.B_width / 2 + (l1.length : ℚ) * v.B_width + v1.B_width) :=
    Prod.ext rfl (World.placeChar_snd y v1 _ old)
  rw [hpa]
  exact ⟨(World.foldl_placeChar_keeps_differs old _ y l2 _ _ _ hc).1, trivial⟩

/-- A later line keeps two levels that differ by one cell in that relation. -/
theorem World.placeLine_keeps_differs (old : Char) (e : Entity) (va vb : World) (y : ℚ)
    (row : List Char) (h : World.DiffersByCell old e va vb) :
    World.DiffersByCell old e (World.placeLine (va, y) row).1 (World.placeLine (vb, y) row).1 ∧
    (World.placeLine (va, y) row).2 = (World.placeLine (vb, y) row).2 := by
  have hw : va.B_width = vb.B_width := h.2.2.2.2.2.1
  have hh : va.B_height = vb.B_height := h.2.2.2.2.2.2.1
  unfold World.placeLine
  simp only []
  rw [hw, hh]
  exact ⟨(World.foldl_placeChar_keeps_differs old e y row va vb _ h).1, rfl⟩

/-- The line loop keeps two levels that differ by one cell in that relation. -/
theorem World.foldl_placeLine_keeps_differs (old : Char) (e : Entity) :
    ∀ (rows : List (List Char)) (va vb : World) (y : ℚ), World.DiffersByCell old e va vb →
      World.DiffersByCell old e (rows.foldl World.placeLine (va, y)).1
        (rows.foldl World.placeLine (vb, y)).1 := by
  intro rows
  induction rows with
  | nil =>
    intro va vb y h
    exact h
  | cons a t ih =>
    intro va vb y h
    rw [List.foldl_cons, List.foldl_cons]
    obtain ⟨k1, k2⟩ := World.placeLine_keeps_differs old e va vb y a h
    have hpa : World.placeLine (va, y) a =
        ((World.placeLine (va, y) a).1, (World.placeLine (va, y) a).2) := rfl
    have hpb : World.placeLine (vb, y) a =
        ((World.placeLine (vb, y) a).1, (World.placeLine (va, y) a).2) := by
      rw [k2]
    rw [hpa, hpb]
    exact ih _ _ _ k1

/-- The line loop keeps the tile size and advances `y` by one tile per line. -/
theorem World.foldl_placeLine_track :
    ∀ (rows : List (List Char)) (v : World) (y : ℚ),
      (rows.foldl World.placeLine (v, y)).2 = y + (rows.length : ℚ) * v.B_height ∧
      (rows.foldl World.placeLine (v, y)).1.B_width = v.B_width ∧
      (rows.foldl World.placeLine (v, y)).1.B_height = v.B_height := by
  intro rows
  induction rows with
  | nil =>
    intro v y
    simp
  | cons a t ih =>
    intro v y
    rw [List.foldl_cons]
    obtain ⟨_, t2, t3⟩ := World.foldl_placeChar_track y a v (-1 + v.B_width / 2)
    have hp : World.placeLine (v, y) a =
        ((a.foldl (World.placeChar y) (v, -1 + v.B_width / 2)).1, y + v.B_height) := rfl
    rw [hp]
    obtain ⟨i1, i2, i3⟩ := ih (a.foldl (World.placeChar y) (v, -1 + v.B_width / 2)).1
      (y + v.B_height)
    rw [i1, i2, i3, t2, t3]
    refine ⟨?_, rfl, rfl⟩
    rw [List.length_cons]
    push_cast
    ring
/-- Replacing one element of a list leaves the other indices as they are. -/
theorem getElem?_replace_ne {α : Type} (l1 l2 : List α) (a b : α) (i : ℕ)
    (h : i ≠ l1.length) : (l1 ++ a :: l2)[i]? = (l1 ++ b :: l2)[i]? := by
  rcases Nat.lt_or_gt_of_ne h with h | h
  · rw [List.getElem?_append_left h, List.getElem?_append_left h]
  · rw [List.getElem?_append_right (le_of_lt h), List.getElem?_append_right (le_of_lt h)]
    obtain ⟨k, hk⟩ : ∃ k, i - l1.length = k + 1 := ⟨i - l1.length - 1, by omega⟩
    rw [hk, List.getElem?_cons_succ, List.getElem?_cons_succ]

/-- The flag `gameStarted` that the loader clears at its end plays no part in the relation. -/
theorem World.DiffersByCell_gameStarted (old : Char) (e : Entity) (va vb : World)
    (h : World.DiffersByCell old e va vb) :
    World.DiffersByCell old e { va with gameStarted := false }
      { vb with gameStarted := false } := by
  obtain ⟨h1, h2, h3, h4, h5, h6, h7, s1, s2, s3, s4, s5, s6, _⟩ := h
  exact ⟨h1, h2, h3, h4, h5, h6, h7, s1, s2, s3, s4, s5, s6, rfl⟩

/-- C29: an unrecognized map character (none of `#`, `0`, `P`, `f`, `R`, `I`, `B`, `O`) is
skipped without failing. For every map, written as the rows before the cell, the row of the
cell (the characters before it, the character `old` of the cell, the characters after it) and
the rows after it, replacing `old` by an unrecognized character `new` changes no other cell
of the map, both maps load, and the two loaded levels differ only by the entity of that cell:
the wall, coin, fruit or ghost of `old` on that tile is missing from its collection (whose
other members are the same, in the same order), or the player created there is; every other
entity has the same kind, position and size, and the tile size and all flags are the same. -/
theorem unrecognized_character_is_skipped (rs1 rs2 : List (List Char)) (l1 l2 : List Char)
    (old new : Char) (w : World)
    (hnew : new ≠ '#' ∧ new ≠ '0' ∧ new ≠ 'P' ∧ new ≠ 'f' ∧ new ≠ 'R' ∧ new ≠ 'I' ∧
      new ≠ 'B' ∧ new ≠ 'O') :
    ∃ w1 w2 : World,
      w.initializeLevel (some (rs1 ++ (l1 ++ old :: l2) :: rs2)) = Except.ok w1 ∧
      w.initializeLevel (some (rs1 ++ (l1 ++ new :: l2) :: rs2)) = Except.ok w2 ∧
      World.DiffersByCell old
        (tileEntityAt (rs1 ++ (l1 ++ old :: l2) :: rs2) l1.length rs1.length) w1 w2 ∧
      mapCharAt (rs1 ++ (l1 ++ old :: l2) :: rs2) (l1.length : ℤ) (rs1.length : ℤ)
        = some old ∧
      mapCharAt (rs1 ++ (l1 ++ new :: l2) :: rs2) (l1.length : ℤ) (rs1.length : ℤ)
        = some new ∧
      (∀ c r : ℕ, ¬ (c = l1.length ∧ r = rs1.length) →
        mapCharAt (rs1 ++ (l1 ++ new :: l2) :: rs2) (c : ℤ) (r : ℤ)
          = mapCharAt (rs1 ++ (l1 ++ old :: l2) :: rs2) (c : ℤ) (r : ℤ)) := by
  have hW : getWidth (rs1 ++ (l1 ++ new :: l2) :: rs2)
      = getWidth (rs1 ++ (l1 ++ old :: l2) :: rs2) := by
    cases rs1 with
    | nil => simp [getWidth]
    | cons a t => rfl
  have hH : countLines (rs1 ++ (l1 ++ new :: l2) :: rs2)
      = countLines (rs1 ++ (l1 ++ old :: l2) :: rs2) := by
    simp [countLines]
  obtain ⟨w0, hw0⟩ : ∃ w0 : World, w0 =
      { w with
        B_width := 2 / ((getWidth (rs1 ++ (l1 ++ old :: l2) :: rs2) : ℤ) : ℚ),
        B_height := 2 / ((countLines (rs1 ++ (l1 ++ old :: l2) :: rs2) : ℤ) : ℚ) } :=
    ⟨_, rfl⟩
  have hb1 : w0.B_width = 2 / ((getWidth (rs1 ++ (l1 ++ old :: l2) :: rs2) : ℤ) : ℚ) := by
    rw [hw0]
  have hb2 : w0.B_height = 2 / ((countLines (rs1 ++ (l1 ++ old :: l2) :: rs2) : ℤ) : ℚ) := by
    rw [hw0]
  have hi1 : w.initializeLevel (some (rs1 ++ (l1 ++ old :: l2) :: rs2)) = Except.ok
      { ((rs1 ++ (l1 ++ old :: l2) :: rs2).foldl World.placeLine
          (w0, -1 + w0.B_height / 2)).1 with gameStarted := false } := by
    rw [hw0]
    rfl
  have hi2 : w.initializeLevel (some (rs1 ++ (l1 ++ new :: l2) :: rs2)) = Except.ok
      { ((rs1 ++ (l1 ++ new :: l2) :: rs2).foldl World.placeLine
          (w0, -1 + w0.B_height / 2)).1 with gameStarted := false } := by
    rw [hw0]
    unfold World.initializeLevel
    simp only [hW, hH]
  refine ⟨_, _, hi1, hi2, ?_, ?_, ?_, ?_⟩
  · apply World.DiffersByCell_gameStarted
    rw [List.foldl_append, List.foldl_append, List.foldl_cons, List.foldl_cons]
    obtain ⟨t1, t2, t3⟩ := World.foldl_placeLine_track rs1 w0 (-1 + w0.B_height / 2)
    have hs : rs1.foldl World.placeLine (w0, -1 + w0.B_height / 2) =
        ((rs1.foldl World.placeLine (w0, -1 + w0.B_height / 2)).1,
          -1 + w0.B_height / 2 + (rs1.length : ℚ) * w0.B_height) := Prod.ext rfl t1
    rw [hs]
    generalize (rs1.foldl World.placeLine (w0, -1 + w0.B_height / 2)).1 = v at t2 t3 ⊢
    obtain ⟨k1, k2⟩ := World.placeLine_differs v
      (-1 + w0.B_height / 2 + (rs1.length : ℚ) * w0.B_height) l1 l2 old new hnew
    obtain ⟨e1, e2, e3, e4, _, _⟩ := tileEntityAt_eq (rs1 ++ (l1 ++ old :: l2) :: rs2) w0
      l1.length rs1.length hb1 hb2
    have he : Entity.mk (-1 + v.B_width / 2 + (l1.length : ℚ) * v.B_width)
        (-1 + w0.B_height / 2 + (rs1.length : ℚ) * w0.B_height) v.B_width v.B_height
        = tileEntityAt (rs1 ++ (l1 ++ old :: l2) :: rs2) l1.length rs1.length := by
      rw [t2, t3, e1, e2, e3, e4]
    rw [he] at k1
    have hpa : World.placeLine (v, -1 + w0.B_height / 2 + (rs1.length : ℚ) * w0.B_height)
          (l1 ++ old :: l2) =
        ((World.placeLine (v, -1 + w0.B_height / 2 + (rs1.length : ℚ) * w0.B_height)
          (l1 ++ old :: l2)).1,
         (World.placeLine (v, -1 + w0.B_height / 2 + (rs1.length : ℚ) * w0.B_height)
          (l1 ++ old :: l2)).2) := rfl
    have hpb : World.placeLine (v, -1 + w0.B_height / 2 + (rs1.length : ℚ) * w0.B_height)
          (l1 ++ new :: l2) =
        ((World.placeLine (v, -1 + w0.B_height / 2 + (rs1.length : ℚ) * w0.B_height)
          (l1 ++ new :: l2)).1,
         (World.placeLine (v, -1 + w0.B_height / 2 + (rs1.length : ℚ) * w0.B_height)
          (l1 ++ old :: l2)).2) := by
      rw [k2]
    rw [hpa, hpb]
    exact World.foldl_placeLine_keeps_differs old _ rs2 _ _ _ k1
  · rw [mapCharAt_natCast]
    simp only [List.getElem?_append_right (le_refl _), Nat.sub_self, List.getElem?_cons_zero,
      Option.some_bind]
  · rw [mapCharAt_natCast]
    simp only [List.getElem?_append_right (le_refl _), Nat.sub_self, List.getElem?_cons_zero,
      Option.some_bind]
  · intro c r hne
    rw [mapCharAt_natCast, mapCharAt_natCast]
    by_cases hr : r = rs1.length
    · subst hr
      have hc : c ≠ l1.length := fun h => hne ⟨h, rfl⟩
      simp only [List.getElem?_append_right (le_refl _), Nat.sub_self, List.getElem?_cons_zero,
        Option.some_bind]
      exact (getElem?_replace_ne l1 l2 old new c hc).symm
    · rw [getElem?_replace_ne rs1 rs2 (l1 ++ new :: l2) (l1 ++ old :: l2) r hr]

/-- C29, witness: the one-row map `P#` followed by two blanks, with the wall replaced by
`x`. -/
theorem unrecognized_character_is_skipped_witness :
    ∃ w1 w2 : World,
      World.blank.initializeLevel (some [['P', '#', ' ', ' ']]) = Except.ok w1 ∧
      World.blank.initializeLevel (some [['P', 'x', ' ', ' ']]) = Except.ok w2 ∧
      World.DiffersByCell '#' (tileEntityAt [['P', '#', ' ', ' ']] 1 0) w1 w2 := by
  obtain ⟨w1, w2, h1, h2, h3, _⟩ :=
    unrecognized_character_is_skipped [] [] ['P'] [' ', ' '] '#' 'x' World.blank (by decide)
  exact ⟨w1, w2, h1, h2, h3⟩

/-! ## Box intersection (`Entity::intersects`) -/

/-- What `Entity::intersects` tests: on both axes each box reaches more than 0.008 past the
near edge of the other. -/
theorem Entity.intersects_iff (a b : Entity) :
    a.intersects b = true ↔
      (b.x - b.width / 2 + 8 / 1000 < a.x + a.width / 2 ∧
       a.x - a.width / 2 < b.x + b.width / 2 - 8 / 1000 ∧
       b.y - b.height / 2 + 8 / 1000 < a.y + a.height / 2 ∧
       a.y - a.height / 2 < b.y + b.height / 2 - 8 / 1000) := by
  simp only [Entity.intersects, Bool.not_eq_true', Bool.or_eq_false_iff, decide_eq_false_iff_not,
    not_le]
  tauto

/-- Two open intervals with a common point, and conversely. -/
theorem exists_between_iff (l1 r1 l2 r2 : ℚ) (h1 : l1 < r1) (h2 : l2 < r2) :
    (l1 < r2 ∧ l2 < r1) ↔ ∃ p : ℚ, l1 < p ∧ p < r1 ∧ l2 < p ∧ p < r2 := by
  constructor
  · rintro ⟨ha, hb⟩
    refine ⟨(max l1 l2 + min r1 r2) / 2, ?_, ?_, ?_, ?_⟩
    · have := le_max_left l1 l2
      have : max l1 l2 < min r1 r2 := max_lt (lt_min h1 ha) (lt_min hb h2)
      linarith [le_max_left l1 l2]
    · have : max l1 l2 < min r1 r2 := max_lt (lt_min h1 ha) (lt_min hb h2)
      linarith [min_le_left r1 r2]
    · have : max l1 l2 < min r1 r2 := max_lt (lt_min h1 ha) (lt_min hb h2)
      linarith [le_max_right l1 l2]
    · have : max l1 l2 < min r1 r2 := max_lt (lt_min h1 ha) (lt_min hb h2)
      linarith [min_le_right r1 r2]
  · rintro ⟨p, h3, h4, h5, h6⟩
    exact ⟨by linarith, by linarith⟩

/-- C31, counterexample: two boxes of size 1 x 1 whose centres are 0.99 apart overlap by a
strip of width 0.01. `Entity::intersects` reports an intersection, but after every edge of
each box has been moved inward by 0.008 the boxes are 0.006 apart and do not overlap. -/
theorem intersects_true_although_shrunk_boxes_are_apart :
    unitBox.intersects unitBoxShifted = true ∧
    ¬ boxesOverlap (unitBox.shrink (8 / 1000)) (unitBoxShifted.shrink (8 / 1000)) ∧
    (unitBoxShifted.shrink (8 / 1000)).x - (unitBoxShifted.shrink (8 / 1000)).width / 2
      - ((unitBox.shrink (8 / 1000)).x + (unitBox.shrink (8 / 1000)).width / 2) = 6 / 1000 := by
  refine ⟨?_, ?_, ?_⟩
  · rw [Entity.intersects_iff]
    norm_num [unitBox, unitBoxShifted]
  · norm_num [boxesOverlap, Entity.shrink, unitBox, unitBoxShifted]
  · norm_num [Entity.shrink, unitBox, unitBoxShifted]

/-- C31, amended: `Entity::intersects(a, b)` is true if and only if the box of `a` overlaps
the box of `b` after every edge of one of the two boxes has been moved inward by 0.008
(which is the same as moving every edge of each box inward by 0.004): the total margin per
axis is 0.008, not 0.016. For a box `a` of positive size and a box `b` larger than 0.016 in
both dimensions this says that `a` and the shrunk `b` have a common interior point. The test
is symmetric. -/
theorem intersects_iff_overlap_after_shrinking_one_box (a b : Entity) :
    (a.intersects b = true ↔ boxesOverlap a (b.shrink (8 / 1000))) ∧
    (a.intersects b = true ↔ boxesOverlap (a.shrink (8 / 1000)) b) ∧
    (a.intersects b = true ↔ boxesOverlap (a.shrink (4 / 1000)) (b.shrink (4 / 1000))) ∧
    (0 < a.width → 0 < a.height → 16 / 1000 < b.width → 16 / 1000 < b.height →
      (a.intersects b = true ↔
        ∃ px py : ℚ, a.containsPoint px py ∧ (b.shrink (8 / 1000)).containsPoint px py)) ∧
    a.intersects b = b.intersects a := by
  refine ⟨?_, ?_, ?_, ?_, ?_⟩
  · rw [Entity.intersects_iff]
    simp only [boxesOverlap, Entity.shrink]
    constructor <;> rintro ⟨h1, h2, h3, h4⟩ <;> refine ⟨?_, ?_, ?_, ?_⟩ <;> linarith
  · rw [Entity.intersects_iff]
    simp only [boxesOverlap, Entity.shrink]
    constructor <;> rintro ⟨h1, h2, h3, h4⟩ <;> refine ⟨?_, ?_, ?_, ?_⟩ <;> linarith
  · rw [Entity.intersects_iff]
    simp only [boxesOverlap, Entity.shrink]
    constructor <;> rintro ⟨h1, h2, h3, h4⟩ <;> refine ⟨?_, ?_, ?_, ?_⟩ <;> linarith
  · intro haw hah hbw hbh
    rw [Entity.intersects_iff]
    simp only [Entity.containsPoint, Entity.shrink]
    have hx := exists_between_iff (a.x - a.width / 2) (a.x + a.width / 2)
      (b.x - (b.width - 2 * (8 / 1000)) / 2) (b.x + (b.width - 2 * (8 / 1000)) / 2)
      (by linarith) (by linarith)
    have hy := exists_between_iff (a.y - a.height / 2) (a.y + a.height / 2)
      (b.y - (b.height - 2 * (8 / 1000)) / 2) (b.y + (b.height - 2 * (8 / 1000)) / 2)
      (by linarith) (by linarith)
    constructor
    · rintro ⟨h1, h2, h3, h4⟩
      obtain ⟨px, hpx⟩ := hx.mp ⟨by linarith, by linarith⟩
      obtain ⟨py, hpy⟩ := hy.mp ⟨by linarith, by linarith⟩
      exact ⟨px, py, ⟨hpx.1, hpx.2.1, hpy.1, hpy.2.1⟩, ⟨hpx.2.2.1, hpx.2.2.2, hpy.2.2.1, hpy.2.2.2⟩⟩
    · rintro ⟨px, py, ⟨h1, h2, h3, h4⟩, ⟨h5, h6, h7, h8⟩⟩
      have hx1 := hx.mpr ⟨px, h1, h2, h5, h6⟩
      have hy1 := hy.mpr ⟨py, h3, h4, h7, h8⟩
      refine ⟨?_, ?_, ?_, ?_⟩ <;> linarith [hx1.1, hx1.2, hy1.1, hy1.2]
  · rw [Bool.eq_iff_iff, Entity.intersects_iff, Entity.intersects_iff]
    constructor <;> rintro ⟨h1, h2, h3, h4⟩ <;> refine ⟨?_, ?_, ?_, ?_⟩ <;> linarith

/-! ## Where DESPAWNED ghosts occur in the game -/

/-- The moves `getBestManhattanDirection` collects are moves of the legal set. -/
theorem bestManhattan_fold_subset (sx sy tx ty : ℚ) (l : List Char) :
    ∀ (acc : ℚ × List Char), ∀ m ∈ (l.foldl (bestManhattanStep sx sy tx ty) acc).2,
      m ∈ acc.2 ∨ m ∈ l := by
  induction l with
  | nil =>
    intro acc m hm
    exact Or.inl hm
  | cons a t ih =>
    intro acc m hm
    rw [List.foldl_cons] at hm
    rcases ih _ m hm with h | h
    · rw [bestManhattanStep_eq] at h
      split_ifs at h
      · rw [List.mem_singleton] at h
        exact Or.inr (h ▸ List.mem_cons_self _ _)
      · rcases List.mem_append.mp h with h | h
        · exact Or.inl h
        · rw [List.mem_singleton] at h
          exact Or.inr (h ▸ List.mem_cons_self _ _)
      · exact Or.inl h
    · exact Or.inr (List.mem_cons_of_mem _ h)

/-- An index drawn by `nextInt(0, size - 1)` on a non-empty vector is in bounds. -/
theorem nextInt_index_in_bounds (l : List Char) (rng : Random) (hl : l ≠ []) :
    0 ≤ (rng.nextInt 0 ((l.length : Int) - 1)).1 ∧
    (rng.nextInt 0 ((l.length : Int) - 1)).1 < (l.length : Int) ∧
    (rng.nextInt 0 ((l.length : Int) - 1)).1.toNat < l.length := by
  have hpos : 0 < l.length := List.length_pos.mpr hl
  unfold Random.nextInt
  simp only [zero_add, sub_zero, sub_add_cancel]
  have h0 : (0 : Int) ≤ (rng.draws rng.pos : Int) % (l.length : Int) :=
    Int.emod_nonneg _ (by omega)
  have h1 : (rng.draws rng.pos : Int) % (l.length : Int) < (l.length : Int) :=
    Int.emod_lt_of_pos _ (by omega)
  omega

/-- Function `getBestManhattanDirection` returns a member of a non-empty legal set. -/
theorem getBestManhattanDirection_mem (sx sy tx ty : ℚ) (valid : List Char) (rng : Random)
    (hv : valid ≠ []) : (getBestManhattanDirection sx sy tx ty valid rng).1 ∈ valid := by
  unfold getBestManhattanDirection
  simp only []
  split_ifs with he
  · have hpos : 0 < valid.length := List.length_pos.mpr hv
    simp only []
    rw [List.getD_eq_getElem _ _ hpos]
    exact List.getElem_mem hpos
  · have hne : (valid.foldl (bestManhattanStep sx sy tx ty) (FLT_MAX, [])).2 ≠ [] := by
      intro h
      rw [h] at he
      exact he rfl
    have hm := getD_nextInt_mem _ rng hne
    rcases bestManhattan_fold_subset sx sy tx ty valid (FLT_MAX, []) _ hm with h | h
    · simp at h
    · exact h

/-- Method `RedGhost::decideDirection` returns a member of a non-empty legal set. -/
theorem Ghost.decideDirectionRed_mem (g : Ghost) (valid : List Char) (rng : Random)
    (hv : valid ≠ []) : (g.decideDirectionRed valid rng).1 ∈ valid := by
  have he : valid.isEmpty = false := by
    rw [List.isEmpty_eq_false]
    exact hv
  have hstraight : valid.any (fun c => c == g.direction) = true → g.direction ∈ valid := by
    intro h
    obtain ⟨c, hc, hcd⟩ := List.any_eq_true.mp h
    have : c = g.direction := by simpa using hcd
    exact this ▸ hc
  have hzero : valid.getD 0 ' ' ∈ valid := by
    have hpos : 0 < valid.length := List.length_pos.mpr hv
    rw [List.getD_eq_getElem _ _ hpos]
    exact List.getElem_mem hpos
  unfold Ghost.decideDirectionRed
  simp only [he, Bool.false_eq_true, ↓reduceIte]
  split_ifs with h1 h2 h3 h4
  · exact getD_nextInt_mem valid _ hv
  · exact hstraight h3
  · exact getD_nextInt_mem valid _ hv
  · exact hstraight h4
  · exact hzero

/-- Every variant of `decideDirection` returns a member of a non-empty legal set. -/
theorem Ghost.decideDirection_mem (g : Ghost) (valid : List Char) (pacman : Pacman)
    (rng : Random) (hv : valid ≠ []) : (g.decideDirection valid pacman rng).1 ∈ valid := by
  have he : valid.isEmpty = false := by
    rw [List.isEmpty_eq_false]
    exact hv
  unfold Ghost.decideDirection
  cases g.kind with
  | Red => exact g.decideDirectionRed_mem valid rng hv
  | Pink =>
    simp only [Ghost.decideDirectionPink, he, Bool.false_eq_true, ↓reduceIte]
    exact getBestManhattanDirection_mem _ _ _ _ valid rng hv
  | Blue =>
    simp only [Ghost.decideDirectionBlue, he, Bool.false_eq_true, ↓reduceIte]
    exact getBestManhattanDirection_mem _ _ _ _ valid rng hv
  | Orange =>
    simp only [Ghost.decideDirectionOrange, he, Bool.false_eq_true, ↓reduceIte]
    exact getBestManhattanDirection_mem _ _ _ _ valid rng hv

/-- C37: for every ghost of every class (Red, Pink, Blue, Orange), every player, every legal
set and every state of the random source, `decideDirection` and `pickRandomDirection` (and so
the choice made at a decision point) return a member of the legal set when it is not empty,
and the neutral direction ' ' without a random draw when it is empty. Every vector access of
these functions is in bounds: an index drawn by `nextInt(0, size - 1)` on a non-empty vector
lies in `0 .. size - 1` and the access yields the returned element, the moves collected by
`getBestManhattanDirection` are indexed only when there is one, and `valid[0]` is read only
from a non-empty legal set. -/
theorem decided_direction_is_in_legal_set (g : Ghost) (valid : List Char) (pacman : Pacman)
    (rng : Random) :
    (valid ≠ [] →
      (g.decideDirection valid pacman rng).1 ∈ valid ∧
      (Ghost.pickRandomDirection valid rng).1 ∈ valid ∧
      (g.chooseDirection valid pacman rng).1 ∈ valid) ∧
    (valid = [] →
      g.decideDirection valid pacman rng = (' ', rng) ∧
      Ghost.pickRandomDirection valid rng = (' ', rng) ∧
      g.chooseDirection valid pacman rng = (' ', rng)) ∧
    (∀ (l : List Char) (r : Random), l ≠ [] →
      0 ≤ (r.nextInt 0 ((l.length : Int) - 1)).1 ∧
      (r.nextInt 0 ((l.length : Int) - 1)).1 < (l.length : Int) ∧
      l[(r.nextInt 0 ((l.length : Int) - 1)).1.toNat]?
        = some (l.getD (r.nextInt 0 ((l.length : Int) - 1)).1.toNat ' ')) ∧
    (∀ (sx sy tx ty : ℚ),
      (∀ m ∈ (valid.foldl (bestManhattanStep sx sy tx ty) (FLT_MAX, [])).2, m ∈ valid) ∧
      (valid ≠ [] → (getBestManhattanDirection sx sy tx ty valid rng).1 ∈ valid)) ∧
    (valid ≠ [] → valid[0]? = some (valid.getD 0 ' ')) := by
  refine ⟨?_, ?_, ?_, ?_, ?_⟩
  · intro hv
    refine ⟨g.decideDirection_mem valid pacman rng hv, Ghost.pickRandomDirection_mem valid rng hv,
      ?_⟩
    unfold Ghost.chooseDirection
    split_ifs
    · exact Ghost.pickRandomDirection_mem valid rng hv
    · exact g.decideDirection_mem valid pacman rng hv
  · intro hv
    subst hv
    have hd : g.decideDirection [] pacman rng = (' ', rng) := by
      unfold Ghost.decideDirection
      cases g.kind <;> rfl
    refine ⟨hd, rfl, ?_⟩
    unfold Ghost.chooseDirection
    split_ifs
    · rfl
    · exact hd
  · intro l r hl
    obtain ⟨h0, h1, h2⟩ := nextInt_index_in_bounds l r hl
    refine ⟨h0, h1, ?_⟩
    rw [List.getD_eq_getElem _ _ h2]
    exact List.getElem?_eq_getElem h2
  · intro sx sy tx ty
    refine ⟨?_, getBestManhattanDirection_mem sx sy tx ty valid rng⟩
    intro m hm
    rcases bestManhattan_fold_subset sx sy tx ty valid (FLT_MAX, []) m hm with h | h
    · simp at h
    · exact h
  · intro hv
    have hpos : 0 < valid.length := List.length_pos.mpr hv
    rw [List.getD_eq_getElem _ _ hpos]
    exact List.getElem?_eq_getElem hpos

/-! ## Player tile controller: one grid step per call -/

/-- The switch on the direction moves a pair of tile indices by at most one grid step. -/
theorem stepTile_dist (d : Char) (tx ty : Int) :
    |(stepTile d tx ty).1 - tx| + |(stepTile d tx ty).2 - ty| ≤ 1 := by
  unfold stepTile
  split_ifs <;> simp

/-- The tile after step 5 of the controller: one step ahead when the tile is completed, the
same tile otherwise. -/
theorem World.advanceStep_tileStep (delta : ℚ) (w : World) (p : Pacman) :
    ((w.advanceStep delta p).1.pacmanTileX, (w.advanceStep delta p).1.pacmanTileY) =
      if w.pacmanMoveDir ≠ ' ' ∧ 1 ≤ w.pacmanTileProgress + delta then
        stepTile w.pacmanMoveDir w.pacmanTileX w.pacmanTileY
      else (w.pacmanTileX, w.pacmanTileY) := by
  unfold World.advanceStep
  simp only []
  by_cases h1 : w.pacmanMoveDir ≠ ' '
  · by_cases h2 : 1 ≤ w.pacmanTileProgress + delta
    · rw [if_pos h1, if_pos h2, if_pos ⟨h1, h2⟩]
    · rw [if_pos h1, if_neg h2, if_neg (fun h => h2 h.2)]
  · rw [if_neg h1, if_neg (fun h => h1 h.1)]

/-- The state the instant reversal leaves when it fires. -/
theorem World.instantReversalStep_true (w : World) (p : Pacman)
    (h : (w.instantReversalStep p).2.2 = true) :
    w.isOppositeInput = true ∧ 0 < w.pacmanTileProgress ∧
    (w.instantReversalStep p).1 =
      { w with pacmanTileX := (stepTile w.pacmanMoveDir w.pacmanTileX w.pacmanTileY).1,
               pacmanTileY := (stepTile w.pacmanMoveDir w.pacmanTileX w.pacmanTileY).2,
               pacmanMoveDir := w.pacmanBufferedInput, pacmanBufferedInput := ' ',
               pacmanTileProgress := 1 - w.pacmanTileProgress } := by
  unfold World.instantReversalStep at h ⊢
  simp only [] at h ⊢
  split_ifs at h ⊢ with hc
  exact ⟨hc.2.2.2, hc.2.2.1, rfl⟩

/-- The test of the instant reversal in terms of the state: it fires exactly when the player
is in transit and the buffered direction is the opposite of the current one. -/
theorem World.instantReversalStep_flag (w : World) (p : Pacman) :
    (w.instantReversalStep p).2.2 = true ↔
      (0 < w.pacmanTileProgress ∧ w.isOppositeInput = true) := by
  constructor
  · intro h
    obtain ⟨h1, h2, _⟩ := w.instantReversalStep_true p h
    exact ⟨h2, h1⟩
  · rintro ⟨h1, h2⟩
    have hne : w.pacmanBufferedInput ≠ ' ' ∧ w.pacmanMoveDir ≠ ' ' := by
      have h3 := h2
      simp only [World.isOppositeInput, decide_eq_true_eq] at h3
      rcases h3 with ⟨a, b⟩ | ⟨a, b⟩ | ⟨a, b⟩ | ⟨a, b⟩ <;> rw [a, b] <;> decide
    unfold World.instantReversalStep
    simp only [hne.1, hne.2, h1, h2, ne_eq, not_false_eq_true, and_self, ↓reduceIte]

/-- C38: for every world state, every input character and every elapsed time `dt` (however
large, and also for `dt < 0`), one call of `updatePacmanTileBased` moves the logical tile of
the player by at most one grid step, `|dx| + |dy| ≤ 1`. The instant reversal fires exactly
when the player is in transit and the direction buffered after this frame's input is the
opposite of the current one; when it fires and the tile is completed in the same call
(`(1 - progress) + 5 dt ≥ 1`), the logical tile ends where it started, with progress 0;
when it fires without completing the tile, the logical tile is the one ahead in the old
direction; when it does not fire, the tile is the one ahead in the direction of travel if
the tile is completed and unchanged otherwise. -/
theorem tile_changes_by_at_most_one_step (dt : ℚ) (input : Char) (w : World) (p : Pacman) :
    |(w.updatePacmanTileBased dt input p).1.pacmanTileX - w.pacmanTileX| +
      |(w.updatePacmanTileBased dt input p).1.pacmanTileY - w.pacmanTileY| ≤ 1 ∧
    (((w.bufferInput input).instantReversalStep p).2.2 = true ↔
      (0 < w.pacmanTileProgress ∧ (w.bufferInput input).isOppositeInput = true)) ∧
    (((w.bufferInput input).instantReversalStep p).2.2 = true →
      1 ≤ (1 - w.pacmanTileProgress) + 5 * dt →
      (w.updatePacmanTileBased dt input p).1.pacmanTileX = w.pacmanTileX ∧
      (w.updatePacmanTileBased dt input p).1.pacmanTileY = w.pacmanTileY ∧
      (w.updatePacmanTileBased dt input p).1.pacmanTileProgress = 0) ∧
    (((w.bufferInput input).instantReversalStep p).2.2 = true →
      ¬ 1 ≤ (1 - w.pacmanTileProgress) + 5 * dt →
      ((w.updatePacmanTileBased dt input p).1.pacmanTileX,
        (w.updatePacmanTileBased dt input p).1.pacmanTileY)
        = stepTile w.pacmanMoveDir w.pacmanTileX w.pacmanTileY) ∧
    (((w.bufferInput input).instantReversalStep p).2.2 = false →
      ((w.updatePacmanTileBased dt input p).1.pacmanTileX,
        (w.updatePacmanTileBased dt input p).1.pacmanTileY)
        = (w.pacmanTileX, w.pacmanTileY) ∨
      ((w.updatePacmanTileBased dt input p).1.pacmanTileX,
        (w.updatePacmanTileBased dt input p).1.pacmanTileY)
        = stepTile (w.updatePacmanTileBased dt input p).1.pacmanMoveDir
            w.pacmanTileX w.pacmanTileY) := by
  obtain ⟨_, hbx, hby, hbp, hbd⟩ := w.bufferInput_keeps input
  -- the reversal case
  have hrev : ((w.bufferInput input).instantReversalStep p).2.2 = true →
      ((w.updatePacmanTileBased dt input p).1.pacmanTileX,
        (w.updatePacmanTileBased dt input p).1.pacmanTileY) =
        (if 1 ≤ (1 - w.pacmanTileProgress) + 5 * dt then (w.pacmanTileX, w.pacmanTileY)
         else stepTile w.pacmanMoveDir w.pacmanTileX w.pacmanTileY) ∧
      (1 ≤ (1 - w.pacmanTileProgress) + 5 * dt →
        (w.updatePacmanTileBased dt input p).1.pacmanTileProgress = 0) := by
    intro hr
    obtain ⟨hopp, _, heq⟩ := (w.bufferInput input).instantReversalStep_true p hr
    have hopp2 := hopp
    simp only [World.isOppositeInput, decide_eq_true_eq] at hopp2
    have hne : (w.bufferInput input).pacmanBufferedInput ≠ ' ' := by
      rcases hopp2 with ⟨a, b⟩ | ⟨a, b⟩ | ⟨a, b⟩ | ⟨a, b⟩ <;> rw [b] <;> decide
    have hback := stepTile_back (w.bufferInput input).pacmanMoveDir
      (w.bufferInput input).pacmanBufferedInput (w.bufferInput input).pacmanTileX
      (w.bufferInput input).pacmanTileY hopp2
    unfold World.updatePacmanTileBased
    simp only [hr, Bool.true_eq_false, false_and, ↓reduceIte]
    constructor
    · rw [World.advanceStep_tileStep, heq]
      simp only [hne, ne_eq, not_false_eq_true, true_and, hbp]
      split_ifs with hc
      · rw [hback, hbx, hby]
      · rw [hbd, hbx, hby]
    · intro hc
      rw [heq]
      unfold World.advanceStep
      simp only [hne, ne_eq, not_false_eq_true, ↓reduceIte, hbp, hc]
  -- the case without reversal
  have hnorev : ((w.bufferInput input).instantReversalStep p).2.2 = false →
      ((w.updatePacmanTileBased dt input p).1.pacmanTileX,
        (w.updatePacmanTileBased dt input p).1.pacmanTileY)
        = (w.pacmanTileX, w.pacmanTileY) ∨
      ((w.updatePacmanTileBased dt input p).1.pacmanTileX,
        (w.updatePacmanTileBased dt input p).1.pacmanTileY)
        = stepTile (w.updatePacmanTileBased dt input p).1.pacmanMoveDir
            w.pacmanTileX w.pacmanTileY := by
    intro hr
    have heq := (w.bufferInput input).instantReversalStep_false p hr
    have hadv : ∀ (v : World) (q : Pacman), v.pacmanTileX = w.pacmanTileX →
        v.pacmanTileY = w.pacmanTileY →
        ((v.advanceStep (5 * dt) q).1.pacmanTileX, (v.advanceStep (5 * dt) q).1.pacmanTileY)
          = (w.pacmanTileX, w.pacmanTileY) ∨
        ((v.advanceStep (5 * dt) q).1.pacmanTileX, (v.advanceStep (5 * dt) q).1.pacmanTileY)
          = stepTile (v.advanceStep (5 * dt) q).1.pacmanMoveDir w.pacmanTileX w.pacmanTileY := by
      intro v q hx hy
      have hdir : (v.advanceStep (5 * dt) q).1.pacmanMoveDir = v.pacmanMoveDir := by
        unfold World.advanceStep
        simp only []
        split_ifs <;> rfl
      rw [World.advanceStep_tileStep, hdir]
      split_ifs
      · right; rw [hx, hy]
      · left; rw [hx, hy]
    unfold World.updatePacmanTileBased
    simp only [hr, heq, true_and]
    split_ifs with hc
    · obtain ⟨_, _, hx, hy, _⟩ := (w.bufferInput input).tileCenterStep_keeps
        ((w.bufferInput input).instantReversalStep p).2.1
      exact hadv _ _ (hx.trans hbx) (hy.trans hby)
    · exact hadv _ _ hbx hby
  refine ⟨?_, ?_, ?_, ?_, hnorev⟩
  · cases hr : ((w.bufferInput input).instantReversalStep p).2.2 with
    | true =>
      have h := (hrev hr).1
      have hx := congrArg Prod.fst h
      have hy := congrArg Prod.snd h
      simp only [] at hx hy
      rw [hx, hy]
      split_ifs
      · simp
      · exact stepTile_dist _ _ _
    | false =>
      rcases hnorev hr with h | h
      · have hx := congrArg Prod.fst h
        have hy := congrArg Prod.snd h
        simp only [] at hx hy
        rw [hx, hy]
        simp
      · have hx := congrArg Prod.fst h
        have hy := congrArg Prod.snd h
        simp only [] at hx hy
        rw [hx, hy]
        exact stepTile_dist _ _ _
  · rw [World.instantReversalStep_flag, hbp]
  · intro hr hc
    have h := (hrev hr).1
    rw [if_pos hc] at h
    exact ⟨congrArg Prod.fst h, congrArg Prod.snd h, (hrev hr).2 hc⟩
  · intro hr hc
    have h := (hrev hr).1
    rw [if_neg hc] at h
    exact h

/-! ## Lives -/

theorem ReachableByUpdates.reachable (lines : List (List Char)) (w : World)
    (h : ReachableByUpdates lines w) : Reachable lines w := by
  induction h with
  | init w h0 => exact Reachable.init w h0
  | update sqrtf dt input rng rng1 w w1 _ hdt hu ih =>
    exact Reachable.update sqrtf dt input rng rng1 w w1 ih hdt hu

/-- What one frame does to the lives and the dying flag of the player. -/
theorem World.update_lives (sqrtf : ℚ → ℚ) (dt : ℚ) (input : Char) (w w1 : World)
    (rng rng1 : Random) (p : Pacman) (hp : w.pacman = some p)
    (h : w.update sqrtf dt input rng = some (w1, rng1)) :
    ∃ p1, w1.pacman = some p1 ∧
      ((p1.lives = p.lives ∧ (p1.dying = true → p.dying = true)) ∨
       (p.dying = false ∧ p1.dying = true ∧ p1.lives = p.lives - 1)) ∧
      (p.dying = true → p1.lives = p.lives ∧ (p1.dying = true ∨ 0 < p.lives)) := by
  obtain ⟨p0, hp0, hcase⟩ := World.update_shape sqrtf dt input w w1 rng rng1 h
  rw [hp] at hp0
  have e := Option.some.inj hp0
  subst e
  rcases hcase with ⟨hd, v, _, _, hdf⟩ | ⟨hd, _, _, hp1⟩ | ⟨hd, ws, _, _, hw1⟩
  · obtain ⟨_, hc | hc⟩ := World.dyingFrame_shape dt v w1 p hd hdf
    · obtain ⟨_, q1, hq1, hl, hdy, _⟩ := hc
      exact ⟨q1, hq1, Or.inl ⟨hl, fun _ => hd⟩, fun _ => ⟨hl, Or.inl (hdy.trans hd)⟩⟩
    · obtain ⟨hpos, q1, hq1, hl, _⟩ := hc
      exact ⟨q1, hq1, Or.inl ⟨hl, fun _ => hd⟩, fun _ => ⟨hl, Or.inr hpos⟩⟩
  · refine ⟨p, hp1, Or.inl ⟨rfl, fun h1 => h1⟩, ?_⟩
    intro h1
    rw [hd] at h1
    cases h1
  · subst hw1
    have hs := World.playFrame_shape sqrtf dt input ws p rng
    obtain ⟨hl, hdy, _⟩ := (World.updatePacmanTileBased_keeps dt input ws p).2
    have hnd : p.dying = true → False := by
      intro h1
      rw [hd] at h1
      cases h1
    rcases hs.2.2 with hq1 | hq1
    · refine ⟨_, hq1, Or.inl ⟨hl, ?_⟩, fun h1 => (hnd h1).elim⟩
      intro h1
      rw [hdy] at h1
      exact h1
    · refine ⟨_, hq1, Or.inr ⟨hd, ?_, ?_⟩, fun h1 => (hnd h1).elim⟩
      · rw [hd] at hdy
        simp only [Pacman.die, hdy, Bool.false_eq_true, if_false]
      · rw [hd] at hdy
        simp only [Pacman.die, hdy, Bool.false_eq_true, if_false, hl]

/-- C40: in every world state reached from a freshly loaded level by `update` calls, the
lives of the player are within 0..3, and a player with no life left is dying. `Pacman::die`
does nothing to a player that is dying and otherwise takes exactly one life and starts the
death animation. One further `update` either keeps the lives, or the player dies in that
frame (it was not dying and is now) and loses exactly one life; a player that goes from not
dying to dying has lost exactly one life; a dying player keeps its lives; and once the lives
are 0 they stay 0 and the player stays dying. -/
theorem lives_stay_within_zero_and_three (lines : List (List Char)) (w : World) (p : Pacman)
    (hr : ReachableByUpdates lines w) (hp : w.pacman = some p) :
    (0 ≤ p.lives ∧ p.lives ≤ 3) ∧
    (p.lives = 0 → p.dying = true) ∧
    (p.dying = true → p.die = p) ∧
    (p.dying = false → p.die.lives = p.lives - 1 ∧ p.die.dying = true) ∧
    ∀ (sqrtf : ℚ → ℚ) (dt : ℚ) (input : Char) (rng rng1 : Random) (w1 : World),
      w.update sqrtf dt input rng = some (w1, rng1) →
      ∃ p1, w1.pacman = some p1 ∧
        (p1.lives = p.lives ∨ (p.dying = false ∧ p1.dying = true ∧ p1.lives = p.lives - 1)) ∧
        (p.dying = false → p1.dying = true → p1.lives = p.lives - 1) ∧
        (p.dying = true → p1.lives = p.lives) ∧
        (p.lives = 0 → p1.lives = 0 ∧ p1.dying = true) := by
  obtain ⟨h0, h3, hdl, _⟩ := Reachable.livesInv lines w (hr.reachable lines w) p hp
  have hzero : p.lives = 0 → p.dying = true := by
    intro hl
    cases hd : p.dying with
    | true => rfl
    | false =>
      have := hdl hd
      omega
  refine ⟨⟨h0, h3⟩, hzero, ?_, ?_, ?_⟩
  · intro hd
    simp only [Pacman.die, hd, if_true]
  · intro hd
    simp only [Pacman.die, hd, Bool.false_eq_true, if_false, and_self]
  · intro sqrtf dt input rng rng1 w1 hu
    obtain ⟨p1, hp1, hcase, hdying⟩ := World.update_lives sqrtf dt input w w1 rng rng1 p hp hu
    refine ⟨p1, hp1, ?_, ?_, fun hd => (hdying hd).1, ?_⟩
    · rcases hcase with ⟨hl, _⟩ | hc
      · exact Or.inl hl
      · exact Or.inr hc
    · intro hd hd1
      rcases hcase with ⟨_, hc⟩ | hc
      · have := hc hd1
        rw [hd] at this
        cases this
      · exact hc.2.2
    · intro hl
      have hd := hzero hl
      obtain ⟨hl1, hd1⟩ := hdying hd
      refine ⟨hl1.trans hl, ?_⟩
      rcases hd1 with hd1 | hd1
      · exact hd1
      · omega

/-- C40, witness: the freshly loaded corridor level, whose player has three lives. -/
theorem lives_stay_within_zero_and_three_witness :
    (0 ≤ corridorPacman.lives ∧ corridorPacman.lives ≤ 3) ∧
    (corridorPacman.lives = 0 → corridorPacman.dying = true) :=
  have h := lives_stay_within_zero_and_three corridorMap corridorWorld corridorPacman
    (ReachableByUpdates.init corridorWorld World.new_corridorMap) rfl
  ⟨h.1, h.2.1⟩

/-! ## A dead ghost on its way back to its spawn point -/

/-- The move branch of the DEAD case of `Ghost::update`. -/
theorem Ghost.update_dead_far (sqrtf : ℚ → ℚ) (dt : ℚ) (valid : List Char) (pacman : Pacman)
    (rng : Random) (g : Ghost) (hs : g.state = GhostState.DEAD)
    (hfar : 1 / 10 ≤ sqrtf g.spawnDistSq) :
    g.update sqrtf dt valid pacman rng =
      (g.setPosition
        (g.x + (g.startX - g.x) / sqrtf g.spawnDistSq * (g.speed * (5 / 2) * dt))
        (g.y + (g.startY - g.y) / sqrtf g.spawnDistSq * (g.speed * (5 / 2) * dt)), rng) := by
  have h : ¬ sqrtf ((g.startX - g.x) * (g.startX - g.x) + (g.startY - g.y) * (g.startY - g.y))
      < 1 / 10 := not_lt.mpr hfar
  simp only [Ghost.update, hs, reduceCtorEq, ↓reduceIte, h, Ghost.spawnDistSq]

theorem rat_sqrt_one : Rat.sqrt 1 = 1 := by
  simp

theorem eatenGhost_spawnDistSq : eatenGhost.spawnDistSq = 1 := by
  norm_num [Ghost.spawnDistSq, eatenGhost, Ghost.new]

/-- C34: what the DEAD branch of `Ghost::update` does to a ghost whose distance to its spawn
point, as the branch computes it, is at least the arrival threshold 0.1. The ghost is moved
along the line to its spawn point by `speed * 2.5 * dt` times the unit vector the branch
computes; with an exact square root the length of that step is `speed * 2.5 * dt`, and for a
ghost that `die()` has given the speed `2.5 * baseSpeed` it is `6.25 * baseSpeed * dt`, not
`2.5 * baseSpeed * dt`. On `eatenGhost` (base speed 0.3, speed 0.75, one unit to the left of
its spawn point) a frame of 1/60 s moves the ghost by 1/32, where `2.5 * baseSpeed * dt`
is 1/80. -/
theorem dead_ghost_moves_by_speed_times_two_and_a_half :
    (∀ (sqrtf : ℚ → ℚ) (dt : ℚ) (valid : List Char) (pacman : Pacman) (rng : Random)
        (g : Ghost), g.state = GhostState.DEAD → 1 / 10 ≤ sqrtf g.spawnDistSq →
      (g.update sqrtf dt valid pacman rng).1.x - g.x
        = (g.startX - g.x) / sqrtf g.spawnDistSq * (g.speed * (5 / 2) * dt) ∧
      (g.update sqrtf dt valid pacman rng).1.y - g.y
        = (g.startY - g.y) / sqrtf g.spawnDistSq * (g.speed * (5 / 2) * dt) ∧
      (g.update sqrtf dt valid pacman rng).1 =
        g.setPosition (g.update sqrtf dt valid pacman rng).1.x
          (g.update sqrtf dt valid pacman rng).1.y ∧
      (g.update sqrtf dt valid pacman rng).2 = rng ∧
      (sqrtf g.spawnDistSq * sqrtf g.spawnDistSq = g.spawnDistSq →
        ((g.update sqrtf dt valid pacman rng).1.x - g.x) ^ 2
          + ((g.update sqrtf dt valid pacman rng).1.y - g.y) ^ 2
          = (g.speed * (5 / 2) * dt) ^ 2 ∧
        (g.speed = g.baseSpeed * (5 / 2) →
          ((g.update sqrtf dt valid pacman rng).1.x - g.x) ^ 2
            + ((g.update sqrtf dt valid pacman rng).1.y - g.y) ^ 2
            = (25 / 4 * g.baseSpeed * dt) ^ 2))) ∧
    eatenGhost.state = GhostState.DEAD ∧
    eatenGhost.speed = eatenGhost.baseSpeed * (5 / 2) ∧
    Rat.sqrt eatenGhost.spawnDistSq = 1 ∧
    (eatenGhost.update Rat.sqrt (1 / 60) [] corridorPacman zeroRandom).1.x - eatenGhost.x
      = 1 / 32 ∧
    (eatenGhost.update Rat.sqrt (1 / 60) [] corridorPacman zeroRandom).1.y = eatenGhost.y ∧
    5 / 2 * eatenGhost.baseSpeed * (1 / 60) = 1 / 80 ∧
    25 / 4 * eatenGhost.baseSpeed * (1 / 60) = 1 / 32 := by
  have hroot : Rat.sqrt eatenGhost.spawnDistSq = 1 := by
    rw [eatenGhost_spawnDistSq, rat_sqrt_one]
  have hupd := Ghost.update_dead_far Rat.sqrt (1 / 60) [] corridorPacman zeroRandom eatenGhost
    rfl (by rw [hroot]; norm_num)
  refine ⟨?_, rfl, ?_, hroot, ?_, ?_, ?_, ?_⟩
  · intro sqrtf dt valid pacman rng g hs hfar
    rw [Ghost.update_dead_far sqrtf dt valid pacman rng g hs hfar]
    have hpos : sqrtf g.spawnDistSq ≠ 0 := by
      intro h0
      rw [h0] at hfar
      norm_num at hfar
    refine ⟨?_, ?_, rfl, rfl, ?_⟩
    · simp only [Ghost.setPosition]; ring
    · simp only [Ghost.setPosition]; ring
    · intro hexact
      have hlen : (g.x + (g.startX - g.x) / sqrtf g.spawnDistSq * (g.speed * (5 / 2) * dt)
            - g.x) ^ 2
          + (g.y + (g.startY - g.y) / sqrtf g.spawnDistSq * (g.speed * (5 / 2) * dt)
            - g.y) ^ 2 = (g.speed * (5 / 2) * dt) ^ 2 := by
        have h1 : (g.x + (g.startX - g.x) / sqrtf g.spawnDistSq * (g.speed * (5 / 2) * dt)
              - g.x) ^ 2
            + (g.y + (g.startY - g.y) / sqrtf g.spawnDistSq * (g.speed * (5 / 2) * dt)
              - g.y) ^ 2
            = g.spawnDistSq / (sqrtf g.spawnDistSq * sqrtf g.spawnDistSq)
              * (g.speed * (5 / 2) * dt) ^ 2 := by
          simp only [Ghost.spawnDistSq]
          field_simp
          ring
        rw [h1, hexact, div_self (by rw [← hexact]; exact mul_ne_zero hpos hpos), one_mul]
      refine ⟨hlen, ?_⟩
      intro hsp
      simp only [Ghost.setPosition] at hlen ⊢
      rw [hlen, hsp]
      ring
  · norm_num [eatenGhost, Ghost.new]
  · rw [hupd, hroot]
    norm_num [Ghost.setPosition, eatenGhost, Ghost.new]
  · rw [hupd, hroot]
    norm_num [Ghost.setPosition, eatenGhost, Ghost.new]
  · norm_num [eatenGhost, Ghost.new]
  · norm_num [eatenGhost, Ghost.new]
/-! ## A dead ghost: approach to the spawn point -/

/-- Sections 3 and 4 of `Ghost::update` in terms of the ghost that leaves section 2. -/
theorem Ghost.updateMovement_eq (dt : ℚ) (valid : List Char) (pacman : Pacman) (g0 : Ghost)
    (rng0 : Random) (g : Ghost) (rng : Random)
    (hg : g0.firstDirection valid pacman rng0 = (g, rng)) :
    g0.updateMovement dt valid pacman rng0 =
      if (!(valid.any (fun c => c == g.direction)) &&
          !(g.approachingCenter (getGridCenter g.x g.width) (getGridCenter g.y g.height)))
          = true then
        ({ (g.setPosition (getGridCenter g.x g.width) (getGridCenter g.y g.height)) with
            direction := ((g.setPosition (getGridCenter g.x g.width)
              (getGridCenter g.y g.height)).chooseDirection valid pacman rng).1 },
          ((g.setPosition (getGridCenter g.x g.width)
              (getGridCenter g.y g.height)).chooseDirection valid pacman rng).2)
      else if (g.approachingCenter (getGridCenter g.x g.width) (getGridCenter g.y g.height) &&
          decide (g.distRemaining (getGridCenter g.x g.width) (getGridCenter g.y g.height)
            ≤ g.speed * dt)) = true then
        ((Ghost.advance
            (g.speed * dt
              - g.distRemaining (getGridCenter g.x g.width) (getGridCenter g.y g.height))
            { (g.setPosition (getGridCenter g.x g.width) (getGridCenter g.y g.height)) with
              direction := ((g.setPosition (getGridCenter g.x g.width)
                (getGridCenter g.y g.height)).chooseDirection valid pacman rng).1 }).axisLock
            (getGridCenter g.x g.width) (getGridCenter g.y g.height),
          ((g.setPosition (getGridCenter g.x g.width)
              (getGridCenter g.y g.height)).chooseDirection valid pacman rng).2)
      else
        ((g.advance (g.speed * dt)).axisLock (getGridCenter g.x g.width)
          (getGridCenter g.y g.height), rng) := by
  unfold Ghost.firstDirection at hg
  obtain ⟨rfl, rfl⟩ := Prod.mk.inj hg
  rfl

/-- A ghost on the tile centre that is moved by `o` along its direction and axis-locked ends
at the centre displaced by `o` times the unit step of its direction. -/
theorem Ghost.advance_axisLock_at_centre (gd : Ghost) (o cx cy : ℚ) (hx : gd.x = cx)
    (hy : gd.y = cy) :
    ((gd.advance o).axisLock cx cy).x = cx + o * dirX gd.direction ∧
    ((gd.advance o).axisLock cx cy).y = cy + o * dirY gd.direction ∧
    (gd.advance o).axisLock cx cy
      = gd.setPosition ((gd.advance o).axisLock cx cy).x ((gd.advance o).axisLock cx cy).y := by
  subst hx hy
  unfold Ghost.advance Ghost.axisLock dirX dirY
  by_cases hU : gd.direction = 'U'
  · simp +decide [hU, Ghost.setPosition]
    ring
  · by_cases hD : gd.direction = 'D'
    · simp +decide [hD, Ghost.setPosition]
    · by_cases hL : gd.direction = 'L'
      · simp +decide [hL, Ghost.setPosition]
        ring
      · by_cases hR : gd.direction = 'R'
        · simp +decide [hR, Ghost.setPosition]
        · simp +decide [hU, hD, hL, hR, Ghost.setPosition]
/-- The unit step of one of the four directions has length 1. -/
theorem dir_abs (d : Char) (h : d = 'U' ∨ d = 'D' ∨ d = 'L' ∨ d = 'R') :
    |dirX d| + |dirY d| = 1 := by
  rcases h with rfl | rfl | rfl | rfl <;> simp +decide [dirX, dirY]

/-- Any other character stands for no step. -/
theorem dir_zero (d : Char) (h : ¬ (d = 'U' ∨ d = 'D' ∨ d = 'L' ∨ d = 'R')) :
    dirX d = 0 ∧ dirY d = 0 := by
  push_neg at h
  simp [dirX, dirY, h.1, h.2.1, h.2.2.1, h.2.2.2]

/-- For a ghost that approaches the centre along its row or column, `distRemaining` is its
distance to the centre. -/
theorem Ghost.distRemaining_on_axis (g : Ghost) (cx cy : ℚ)
    (happ : g.approachingCenter cx cy = true)
    (h1 : g.direction = 'U' ∨ g.direction = 'D' → g.x = cx)
    (h2 : g.direction = 'L' ∨ g.direction = 'R' → g.y = cy) :
    |g.x - cx| + |g.y - cy| = g.distRemaining cx cy := by
  unfold Ghost.approachingCenter at happ
  unfold Ghost.distRemaining
  by_cases hU : g.direction = 'U'
  · simp only [hU, ↓reduceIte]
    rw [h1 (Or.inl hU)]
    simp
  · by_cases hD : g.direction = 'D'
    · simp only [hD, ↓reduceIte]
      rw [h1 (Or.inr hD)]
      simp
    · by_cases hL : g.direction = 'L'
      · simp +decide only [hL, ↓reduceIte]
        rw [h2 (Or.inl hL)]
        simp
      · by_cases hR : g.direction = 'R'
        · simp +decide only [hR, ↓reduceIte]
          rw [h2 (Or.inr hR)]
          simp
        · simp [hU, hD, hL, hR] at happ

/-- C35: grid movement of a ghost, for every ghost `g0` that enters it (CHASING or FEARED
after the state handling), every legal set, player and random state. Let `g` be the ghost
after section 2 (a ghost without a direction has taken a first one), `(cx, cy)` the centre
of its tile and `r = distRemaining`. If `g` approaches the centre and `r ≤ speed * dt`, the
ghost ends the frame at the centre displaced by exactly `speed * dt - r ≥ 0` along the
direction chosen at the centre, which is its direction afterwards: for a direction U, D, L
or R its distance to the centre is `speed * dt - r`, and for a ghost that came along its row
or column the way to the centre plus the way from it is `speed * dt`; when no direction is
chosen (the neutral ' ', an empty legal set) the ghost stays on the centre. If the direction
of `g` is not in the legal set and `g` is not approaching the centre, the ghost is placed on
the centre, takes the direction chosen there and does not move. For a CHASING ghost `update`
is this grid movement. -/
theorem ghost_overshoot_continues_in_new_direction (dt : ℚ) (valid : List Char)
    (pacman : Pacman) (g0 : Ghost) (rng0 : Random) (g : Ghost) (rng : Random) (cx cy : ℚ)
    (hg : g0.firstDirection valid pacman rng0 = (g, rng))
    (hcx : cx = Ghost.getGridCenter g.x g.width) (hcy : cy = Ghost.getGridCenter g.y g.height) :
    (g.approachingCenter cx cy = true → g.distRemaining cx cy ≤ g.speed * dt →
      (g0.updateMovement dt valid pacman rng0).1.direction
        = ((g.setPosition cx cy).chooseDirection valid pacman rng).1 ∧
      (g0.updateMovement dt valid pacman rng0).2
        = ((g.setPosition cx cy).chooseDirection valid pacman rng).2 ∧
      (g0.updateMovement dt valid pacman rng0).1.x
        = cx + (g.speed * dt - g.distRemaining cx cy)
            * dirX (g0.updateMovement dt valid pacman rng0).1.direction ∧
      (g0.updateMovement dt valid pacman rng0).1.y
        = cy + (g.speed * dt - g.distRemaining cx cy)
            * dirY (g0.updateMovement dt valid pacman rng0).1.direction ∧
      (g0.updateMovement dt valid pacman rng0).1
        = { g with x := (g0.updateMovement dt valid pacman rng0).1.x,
                   y := (g0.updateMovement dt valid pacman rng0).1.y,
                   direction := (g0.updateMovement dt valid pacman rng0).1.direction } ∧
      ((g0.updateMovement dt valid pacman rng0).1.direction = 'U' ∨
        (g0.updateMovement dt valid pacman rng0).1.direction = 'D' ∨
        (g0.updateMovement dt valid pacman rng0).1.direction = 'L' ∨
        (g0.updateMovement dt valid pacman rng0).1.direction = 'R' →
        |(g0.updateMovement dt valid pacman rng0).1.x - cx|
            + |(g0.updateMovement dt valid pacman rng0).1.y - cy|
          = g.speed * dt - g.distRemaining cx cy ∧
        ((g.direction = 'U' ∨ g.direction = 'D' → g.x = cx) →
          (g.direction = 'L' ∨ g.direction = 'R' → g.y = cy) →
          (|g.x - cx| + |g.y - cy|)
            + (|(g0.updateMovement dt valid pacman rng0).1.x - cx|
              + |(g0.updateMovement dt valid pacman rng0).1.y - cy|) = g.speed * dt)) ∧
      (¬ ((g0.updateMovement dt valid pacman rng0).1.direction = 'U' ∨
          (g0.updateMovement dt valid pacman rng0).1.direction = 'D' ∨
          (g0.updateMovement dt valid pacman rng0).1.direction = 'L' ∨
          (g0.updateMovement dt valid pacman rng0).1.direction = 'R') →
        (g0.updateMovement dt valid pacman rng0).1.x = cx ∧
        (g0.updateMovement dt valid pacman rng0).1.y = cy)) ∧
    (g.approachingCenter cx cy = false → valid.any (fun c => c == g.direction) = false →
      g0.updateMovement dt valid pacman rng0 =
        ({ g with x := cx, y := cy,
                  direction := ((g.setPosition cx cy).chooseDirection valid pacman rng).1 },
          ((g.setPosition cx cy).chooseDirection valid pacman rng).2) ∧
      (g0.updateMovement dt valid pacman rng0).1.x = cx ∧
      (g0.updateMovement dt valid pacman rng0).1.y = cy) ∧
    (g0.state = GhostState.CHASING → ∀ sqrtf : ℚ → ℚ,
      g0.update sqrtf dt valid pacman rng0 = g0.updateMovement dt valid pacman rng0) := by
  subst hcx hcy
  have heq := Ghost.updateMovement_eq dt valid pacman g0 rng0 g rng hg
  refine ⟨?_, ?_, ?_⟩
  · intro happ hrem
    have hc1 : ¬ ((!(valid.any (fun c => c == g.direction)) &&
        !(g.approachingCenter (Ghost.getGridCenter g.x g.width) (Ghost.getGridCenter g.y g.height)))
        = true) := by
      rw [happ]
      simp
    have hc2 : (g.approachingCenter (Ghost.getGridCenter g.x g.width) (Ghost.getGridCenter g.y g.height) &&
        decide (g.distRemaining (Ghost.getGridCenter g.x g.width) (Ghost.getGridCenter g.y g.height)
          ≤ g.speed * dt)) = true := by
      rw [happ]
      simpa using hrem
    rw [if_neg hc1, if_pos hc2] at heq
    obtain ⟨ax, ay, aeq⟩ := Ghost.advance_axisLock_at_centre
      { (g.setPosition (Ghost.getGridCenter g.x g.width) (Ghost.getGridCenter g.y g.height)) with
        direction := ((g.setPosition (Ghost.getGridCenter g.x g.width)
          (Ghost.getGridCenter g.y g.height)).chooseDirection valid pacman rng).1 }
      (g.speed * dt
        - g.distRemaining (Ghost.getGridCenter g.x g.width) (Ghost.getGridCenter g.y g.height))
      (Ghost.getGridCenter g.x g.width) (Ghost.getGridCenter g.y g.height) rfl rfl
    have hdir : (g0.updateMovement dt valid pacman rng0).1.direction
        = ((g.setPosition (Ghost.getGridCenter g.x g.width)
            (Ghost.getGridCenter g.y g.height)).chooseDirection valid pacman rng).1 := by
      rw [heq]
      simp only []
      rw [aeq]
      rfl
    have hx : (g0.updateMovement dt valid pacman rng0).1.x
        = Ghost.getGridCenter g.x g.width
          + (g.speed * dt
              - g.distRemaining (Ghost.getGridCenter g.x g.width) (Ghost.getGridCenter g.y g.height))
            * dirX (g0.updateMovement dt valid pacman rng0).1.direction := by
      rw [hdir, heq]
      exact ax
    have hy : (g0.updateMovement dt valid pacman rng0).1.y
        = Ghost.getGridCenter g.y g.height
          + (g.speed * dt
              - g.distRemaining (Ghost.getGridCenter g.x g.width) (Ghost.getGridCenter g.y g.height))
            * dirY (g0.updateMovement dt valid pacman rng0).1.direction := by
      rw [hdir, heq]
      exact ay
    have ho : 0 ≤ g.speed * dt
        - g.distRemaining (Ghost.getGridCenter g.x g.width) (Ghost.getGridCenter g.y g.height) := by
      linarith
    refine ⟨hdir, by rw [heq], hx, hy, ?_, ?_, ?_⟩
    · rw [heq]
      simp only []
      rw [aeq]
      rfl
    · intro hin
      have hlen : |(g0.updateMovement dt valid pacman rng0).1.x - Ghost.getGridCenter g.x g.width|
          + |(g0.updateMovement dt valid pacman rng0).1.y - Ghost.getGridCenter g.y g.height|
          = g.speed * dt
            - g.distRemaining (Ghost.getGridCenter g.x g.width) (Ghost.getGridCenter g.y g.height) := by
        have e1 : (g0.updateMovement dt valid pacman rng0).1.x - Ghost.getGridCenter g.x g.width
            = (g.speed * dt
                - g.distRemaining (Ghost.getGridCenter g.x g.width) (Ghost.getGridCenter g.y g.height))
              * dirX (g0.updateMovement dt valid pacman rng0).1.direction := by
          linarith
        have e2 : (g0.updateMovement dt valid pacman rng0).1.y - Ghost.getGridCenter g.y g.height
            = (g.speed * dt
                - g.distRemaining (Ghost.getGridCenter g.x g.width) (Ghost.getGridCenter g.y g.height))
              * dirY (g0.updateMovement dt valid pacman rng0).1.direction := by
          linarith
        rw [e1, e2, abs_mul, abs_mul, abs_of_nonneg ho, ← mul_add, dir_abs _ hin, mul_one]
      refine ⟨hlen, ?_⟩
      intro h1 h2
      rw [hlen, Ghost.distRemaining_on_axis g _ _ happ h1 h2]
      ring
    · intro hout
      obtain ⟨z1, z2⟩ := dir_zero _ hout
      rw [z1] at hx
      rw [z2] at hy
      exact ⟨by linarith, by linarith⟩
  · intro happ hblocked
    have hc1 : (!(valid.any (fun c => c == g.direction)) &&
        !(g.approachingCenter (Ghost.getGridCenter g.x g.width) (Ghost.getGridCenter g.y g.height)))
        = true := by
      rw [happ, hblocked]
      rfl
    rw [if_pos hc1] at heq
    rw [heq]
    exact ⟨rfl, rfl, rfl⟩
  · intro hs sqrtf
    simp only [Ghost.update, hs, reduceCtorEq, ↓reduceIte]

/-- C35, witness: the ghost `ghostNearCentre`, 0.01 short of the centre (1/4, 0) and moving
right with speed 0.3, in a frame of 0.1 s with the legal set R: it ends at 1/4 + 0.02. -/
theorem ghost_overshoot_witness :
    (ghostNearCentre.updateMovement (1 / 10) ['R'] corridorPacman zeroRandom).1.x
      = 1 / 4 + (ghostNearCentre.speed * (1 / 10)
          - ghostNearCentre.distRemaining (1 / 4) 0)
        * dirX (ghostNearCentre.updateMovement (1 / 10) ['R'] corridorPacman
            zeroRandom).1.direction :=
  (ghost_overshoot_continues_in_new_direction (1 / 10) ['R'] corridorPacman ghostNearCentre
    zeroRandom ghostNearCentre zeroRandom (1 / 4) 0
    (by simp +decide [Ghost.firstDirection, ghostNearCentre, Ghost.new])
    (by simp +decide [Ghost.getGridCenter, ghostNearCentre, Ghost.new, truncToInt]
        norm_num)
    (by simp +decide [Ghost.getGridCenter, ghostNearCentre, Ghost.new, truncToInt]
        norm_num)).1
    (by simp +decide [Ghost.approachingCenter, ghostNearCentre, Ghost.new])
    (by simp +decide [Ghost.distRemaining, ghostNearCentre, Ghost.new]
        norm_num [abs_of_pos])
    |>.2.2.1

/-! ## Level loading: the wall collection -/

/-- The loader appends to the wall collection: one wall for a `#`, nothing otherwise. -/
theorem World.placeChar_walls (y : ℚ) (v : World) (x : ℚ) (ch : Char) :
    (World.placeChar y (v, x) ch).1.walls =
      v.walls ++ (if ch = '#' then
        [({ x := x, y := y, width := v.B_width, height := v.B_height } : Entity)] else []) := by
  unfold World.placeChar
  simp only []
  split_ifs <;> simp_all

/-- The walls one line adds depend on the line, the position and the tile size only. -/
theorem World.foldl_placeChar_walls (y bw bh : ℚ) (chars : List Char) :
    ∀ x : ℚ, ∃ D : List Entity, ∀ v : World, v.B_width = bw → v.B_height = bh →
      (chars.foldl (World.placeChar y) (v, x)).1.walls = v.walls ++ D ∧
      (chars.foldl (World.placeChar y) (v, x)).1.B_width = bw ∧
      (chars.foldl (World.placeChar y) (v, x)).1.B_height = bh := by
  induction chars with
  | nil =>
    intro x
    exact ⟨[], fun v h1 h2 => ⟨by simp, h1, h2⟩⟩
  | cons ch t ih =>
    intro x
    obtain ⟨D, hD⟩ := ih (x + bw)
    refine ⟨(if ch = '#' then
      [({ x := x, y := y, width := bw, height := bh } : Entity)] else []) ++ D, ?_⟩
    intro v h1 h2
    rw [List.foldl_cons]
    have hB := World.placeChar_B y v x ch
    have hs : World.placeChar y (v, x) ch = ((World.placeChar y (v, x) ch).1, x + bw) := by
      rw [← h1]
      rfl
    rw [hs]
    obtain ⟨e1, e2, e3⟩ := hD (World.placeChar y (v, x) ch).1 (hB.1.trans h1) (hB.2.trans h2)
    refine ⟨?_, e2, e3⟩
    rw [e1, World.placeChar_walls, h1, h2, List.append_assoc]

/-- The walls the lines add depend on the lines, the position and the tile size only. -/
theorem World.foldl_placeLine_walls (bw bh : ℚ) (rows : List (List Char)) :
    ∀ y : ℚ, ∃ D : List Entity, ∀ v : World, v.B_width = bw → v.B_height = bh →
      (rows.foldl World.placeLine (v, y)).1.walls = v.walls ++ D ∧
      (rows.foldl World.placeLine (v, y)).1.B_width = bw ∧
      (rows.foldl World.placeLine (v, y)).1.B_height = bh := by
  induction rows with
  | nil =>
    intro y
    exact ⟨[], fun v h1 h2 => ⟨by simp, h1, h2⟩⟩
  | cons row t ih =>
    intro y
    obtain ⟨D1, hD1⟩ := World.foldl_placeChar_walls y bw bh row (-1 + bw / 2)
    obtain ⟨D, hD⟩ := ih (y + bh)
    refine ⟨D1 ++ D, ?_⟩
    intro v h1 h2
    rw [List.foldl_cons]
    have hs : World.placeLine (v, y) row
        = ((row.foldl (World.placeChar y) (v, -1 + bw / 2)).1, y + bh) := by
      rw [← h1, ← h2]
      rfl
    rw [hs]
    obtain ⟨a1, a2, a3⟩ := hD1 v h1 h2
    obtain ⟨e1, e2, e3⟩ := hD (row.foldl (World.placeChar y) (v, -1 + bw / 2)).1 a2 a3
    refine ⟨?_, e2, e3⟩
    rw [e1, a1, List.append_assoc]

/-- The loader never removes a wall: it appends the walls of the map, the same list whatever
the world it starts from. -/
theorem World.initializeLevel_walls (lines : List (List Char)) :
    ∃ D : List Entity, ∀ w w1 : World, w.initializeLevel (some lines) = Except.ok w1 →
      w1.walls = w.walls ++ D := by
  obtain ⟨D, hD⟩ := World.foldl_placeLine_walls (2 / ((getWidth lines : ℤ) : ℚ))
    (2 / ((countLines lines : ℤ) : ℚ)) lines
    (-1 + 2 / ((countLines lines : ℤ) : ℚ) / 2)
  refine ⟨D, ?_⟩
  intro w w1 h
  unfold World.initializeLevel at h
  simp only [Except.ok.injEq] at h
  subst h
  exact (hD { w with B_width := 2 / ((getWidth lines : ℤ) : ℚ),
                     B_height := 2 / ((countLines lines : ℤ) : ℚ) } rfl rfl).1

/-- The walls after `nextLevel` are those the loader leaves when it starts from the walls of
the finished level. -/
theorem World.nextLevel_walls (lines : List (List Char)) (w w1 : World)
    (h : w.nextLevel (some lines) = Except.ok w1) :
    ∃ v w3 : World, v.walls = w.walls ∧ v.initializeLevel (some lines) = Except.ok w3 ∧
      w1.walls = w3.walls ∧ v.coins = [] ∧ v.fruits = [] ∧ v.ghosts = [] := by
  unfold World.nextLevel at h
  simp only [] at h
  split at h
  · cases h
  · rename_i w3 h3
    split at h
    · cases h
    · rename_i p hp
      simp only [Except.ok.injEq] at h
      subst h
      exact ⟨{ w with scoreSystem := w.scoreSystem.onLevelCleared,
                      currentLevel := w.currentLevel + 1, coins := [], fruits := [],
                      ghosts := [] }, w3, rfl, h3, rfl, rfl, rfl, rfl⟩

theorem World.new_wallCoinPlayerMap :
    World.new (some wallCoinPlayerMap) = Except.ok wallCoinPlayerWorld := by
  simp [World.new, World.initializeLevel, wallCoinPlayerMap, getWidth, countLines,
    World.placeLine, World.placeChar, World.blank, wallCoinPlayerWorld, firstTileWall,
    World.getTileFromPosition, truncToInt, Pacman.new]
  norm_num

/-- C32: the walls after `nextLevel`. `nextLevel` clears the coins, fruits and ghosts before
it loads the map again, but not the walls, and the loader only appends: for every map and
every world, the wall collection after `nextLevel` is the wall collection before it followed
by the walls of a fresh load of the map. Directly after the initial load every wall is there
twice. On the map `#0P` the initial load gives one wall and one coin; after `nextLevel` there
are two walls on the tile of the `#` and still one coin. -/
theorem nextLevel_appends_the_walls_again :
    (∀ (lines : List (List Char)) (w w0 w1 : World),
      World.new (some lines) = Except.ok w0 → w.nextLevel (some lines) = Except.ok w1 →
      w1.walls = w.walls ++ w0.walls ∧
      w1.walls.length = w.walls.length + w0.walls.length) ∧
    (∀ (lines : List (List Char)) (w0 w1 : World),
      World.new (some lines) = Except.ok w0 → w0.nextLevel (some lines) = Except.ok w1 →
      w1.walls = w0.walls ++ w0.walls ∧ (w0.walls ≠ [] → w1.walls ≠ w0.walls)) ∧
    World.new (some wallCoinPlayerMap) = Except.ok wallCoinPlayerWorld ∧
    wallCoinPlayerWorld.walls = [firstTileWall] ∧
    (∃ w1 : World, wallCoinPlayerWorld.nextLevel (some wallCoinPlayerMap) = Except.ok w1 ∧
      w1.walls = [firstTileWall, firstTileWall] ∧
      w1.coins = wallCoinPlayerWorld.coins ∧ w1.coins.length = 1) := by
  have hgen : ∀ (lines : List (List Char)) (w w0 w1 : World),
      World.new (some lines) = Except.ok w0 → w.nextLevel (some lines) = Except.ok w1 →
      w1.walls = w.walls ++ w0.walls := by
    intro lines w w0 w1 h0 h1
    obtain ⟨D, hD⟩ := World.initializeLevel_walls lines
    rw [World.new_eq] at h0
    have e0 := hD World.blank w0 h0
    obtain ⟨v, w3, hv, h3, e1, _⟩ := World.nextLevel_walls lines w w1 h1
    have e3 := hD v w3 h3
    rw [e1, e3, hv, e0]
    simp [World.blank]
  refine ⟨?_, ?_, World.new_wallCoinPlayerMap, rfl, ?_⟩
  · intro lines w w0 w1 h0 h1
    have := hgen lines w w0 w1 h0 h1
    exact ⟨this, by rw [this, List.length_append]⟩
  · intro lines w0 w1 h0 h1
    have := hgen lines w0 w0 w1 h0 h1
    refine ⟨this, ?_⟩
    intro hne heq
    rw [this] at heq
    have hl := congrArg List.length heq
    rw [List.length_append] at hl
    have : w0.walls.length = 0 := by omega
    exact hne (List.length_eq_zero.mp this)
  · simp [World.nextLevel, World.initializeLevel, wallCoinPlayerMap, getWidth, countLines,
      World.placeLine, World.placeChar, wallCoinPlayerWorld, World.blank, firstTileWall,
      World.getTileFromPosition, truncToInt, Pacman.new, Pacman.respawn]
    norm_num

/-! ## The wall test of the tile controller and the map -/

/-- An integer whose absolute value is below 3/10 is 0. -/
theorem int_abs_small (z : ℤ) : |(z : ℚ)| < 3 / 10 ↔ z = 0 := by
  constructor
  · intro h
    have h1 : ((|z| : ℤ) : ℚ) < 1 := by
      rw [Int.cast_abs]
      linarith
    have h2 : |z| < 1 := by exact_mod_cast h1
    have h3 : |z| = 0 := by
      have := abs_nonneg z
      omega
    exact abs_eq_zero.mp h3
  · rintro rfl
    norm_num

/-- The two comparisons of `isTileWall` for the wall of the cell `(c, r)` and the tile
`(tx, ty)`, on a map of `W` columns and `H` rows: the columns agree, and the rows are less
than `0.3 * H / W` apart. -/
theorem tile_close_iff (W H : ℤ) (hW : 0 < W) (hH : 0 < H) (c tx r ty : ℤ) :
    (|(-1 + ((c : ℚ) + 1 / 2) * (2 / (W : ℚ))) - (-1 + (tx : ℚ) * (2 / (W : ℚ))
        + 2 / (W : ℚ) / 2)| < 2 / (W : ℚ) * (3 / 10) ∧
      |(-1 + ((r : ℚ) + 1 / 2) * (2 / (H : ℚ))) - (-1 + (ty : ℚ) * (2 / (H : ℚ))
        + 2 / (H : ℚ) / 2)| < 2 / (W : ℚ) * (3 / 10)) ↔
    (c = tx ∧ 10 * |r - ty| * W < 3 * H) := by
  have hWq : (0 : ℚ) < (W : ℚ) := by exact_mod_cast hW
  have hHq : (0 : ℚ) < (H : ℚ) := by exact_mod_cast hH
  have hbw : (0 : ℚ) < 2 / (W : ℚ) := by positivity
  have hbh : (0 : ℚ) < 2 / (H : ℚ) := by positivity
  have ex : (-1 + ((c : ℚ) + 1 / 2) * (2 / (W : ℚ))) - (-1 + (tx : ℚ) * (2 / (W : ℚ))
      + 2 / (W : ℚ) / 2) = ((c - tx : ℤ) : ℚ) * (2 / (W : ℚ)) := by
    push_cast
    ring
  have ey : (-1 + ((r : ℚ) + 1 / 2) * (2 / (H : ℚ))) - (-1 + (ty : ℚ) * (2 / (H : ℚ))
      + 2 / (H : ℚ) / 2) = ((r - ty : ℤ) : ℚ) * (2 / (H : ℚ)) := by
    push_cast
    ring
  rw [ex, ey, abs_mul, abs_mul, abs_of_pos hbw, abs_of_pos hbh]
  have h1 : |((c - tx : ℤ) : ℚ)| * (2 / (W : ℚ)) < 2 / (W : ℚ) * (3 / 10) ↔ c = tx := by
    rw [mul_comm, mul_lt_mul_left hbw, int_abs_small]
    omega
  have h2 : |((r - ty : ℤ) : ℚ)| * (2 / (H : ℚ)) < 2 / (W : ℚ) * (3 / 10) ↔
      10 * |r - ty| * W < 3 * H := by
    have e : |((r - ty : ℤ) : ℚ)| = ((|r - ty| : ℤ) : ℚ) := by rw [Int.cast_abs]
    rw [e]
    have e2 : ((|r - ty| : ℤ) : ℚ) * (2 / (H : ℚ)) < 2 / (W : ℚ) * (3 / 10) ↔
        (10 : ℚ) * ((|r - ty| : ℤ) : ℚ) * (W : ℚ) < 3 * (H : ℚ) := by
      rw [show ((|r - ty| : ℤ) : ℚ) * (2 / (H : ℚ)) = (2 * ((|r - ty| : ℤ) : ℚ)) / (H : ℚ) by ring,
        show 2 / (W : ℚ) * (3 / 10) = (3 / 5) / (W : ℚ) by ring,
        div_lt_div_iff₀ hHq hWq]
      constructor <;> intro h <;> linarith
    rw [e2]
    exact_mod_cast Iff.rfl
  rw [h1, h2]

/-- Every wall of a freshly loaded level is the tile entity of a `#` of the map. -/
theorem World.new_walls_from_map (lines : List (List Char)) (w : World)
    (h : World.new (some lines) = Except.ok w) :
    ∀ e ∈ w.walls, ∃ c r : ℕ, mapCharAt lines (c : ℤ) (r : ℤ) = some '#' ∧
      e = tileEntityAt lines c r := by
  rw [World.new_eq] at h
  obtain ⟨w1, h1, hI, _, _⟩ := World.initializeLevel_induction lines World.blank
    (fun v => ∀ e ∈ v.walls, ∃ c r : ℕ, mapCharAt lines (c : ℤ) (r : ℤ) = some '#' ∧
      e = tileEntityAt lines c r)
    (by
      intro e he
      simp [World.blank] at he)
    (by
      intro v c r ch hbw hbh hv hcell e he
      rw [World.placeChar_walls] at he
      rcases List.mem_append.mp he with he | he
      · exact hv e he
      · split_ifs at he with hch
        · rw [List.mem_singleton] at he
          refine ⟨c, r, by rw [hcell, hch], ?_⟩
          obtain ⟨t1, t2, t3, t4, _, _⟩ := tileEntityAt_eq lines v c r hbw hbh
          rw [he, t1, t2, t3, t4]
        · simp at he)
    (fun v hv => hv)
  rw [h] at h1
  have e := Except.ok.inj h1
  subst e
  exact hI
/-- The tile size of a freshly loaded level. -/
theorem World.new_tileSize (lines : List (List Char)) (w : World)
    (h : World.new (some lines) = Except.ok w) :
    w.B_width = 2 / ((getWidth lines : ℤ) : ℚ) ∧
    w.B_height = 2 / ((countLines lines : ℤ) : ℚ) := by
  rw [World.new_eq] at h
  obtain ⟨w1, h1, _, hb1, hb2⟩ := World.initializeLevel_induction lines World.blank
    (fun _ => True) trivial (fun _ _ _ _ _ _ _ _ => trivial) (fun _ _ => trivial)
  rw [h] at h1
  have e := Except.ok.inj h1
  subst e
  exact ⟨hb1, hb2⟩

/-- A map whose first line is not empty has a line. -/
theorem countLines_pos_of_getWidth_pos (lines : List (List Char)) (hW : 0 < getWidth lines) :
    0 < countLines lines := by
  cases lines with
  | nil => simp [getWidth] at hW
  | cons a t =>
    simp only [countLines, List.length_cons]
    omega

/-- What `isTileWall` tests on a freshly loaded level of `W` columns and `H` rows: there is a
`#` in column `tx` whose row is less than `0.3 * H / W` rows away from `ty`. -/
theorem World.isTileWall_new (lines : List (List Char)) (w : World)
    (hW : 0 < getWidth lines) (h : World.new (some lines) = Except.ok w) (tx ty : ℤ) :
    w.isTileWall tx ty = true ↔
      ∃ r : ℕ, mapCharAt lines tx (r : ℤ) = some '#' ∧
        10 * |(r : ℤ) - ty| * getWidth lines < 3 * countLines lines := by
  have hH := countLines_pos_of_getWidth_pos lines hW
  obtain ⟨hbw, hbh⟩ := World.new_tileSize lines w h
  have hfrom := World.new_walls_from_map lines w h
  have hloaded : WallsLoaded lines w := by
    rw [World.new_eq] at h
    exact World.initializeLevel_wallsLoaded lines hW World.blank w h
  unfold World.isTileWall
  simp only [List.any_eq_true, Bool.and_eq_true, decide_eq_true_eq, World.getPositionFromTile,
    hbw, hbh]
  constructor
  · rintro ⟨e, he, hx, hy⟩
    obtain ⟨c, r, hcell, rfl⟩ := hfrom e he
    simp only [tileEntityAt] at hx hy
    have hclose := (tile_close_iff (getWidth lines) (countLines lines) hW hH (c : ℤ) tx
      (r : ℤ) ty).mp ⟨by push_cast; exact hx, by push_cast; exact hy⟩
    refine ⟨r, ?_, hclose.2⟩
    rw [← hclose.1]
    exact hcell
  · rintro ⟨r, hcell, hlt⟩
    have htx : 0 ≤ tx := by
      unfold mapCharAt at hcell
      split_ifs at hcell with h0
      exact h0.1
    obtain ⟨c, rfl⟩ := Int.eq_ofNat_of_zero_le htx
    obtain ⟨e, he, ex, ey⟩ := hloaded.2.2 c r hcell
    have hclose := (tile_close_iff (getWidth lines) (countLines lines) hW hH (c : ℤ) (c : ℤ)
      (r : ℤ) ty).mpr ⟨rfl, hlt⟩
    refine ⟨e, he, ?_, ?_⟩
    · rw [ex]
      simp only [World.getPositionFromTile, hbw]
      have := hclose.1
      push_cast at this ⊢
      rw [show -1 + ((c : ℚ) + 1 / 2) * (2 / ((getWidth lines : ℤ) : ℚ))
          = -1 + (c : ℚ) * (2 / ((getWidth lines : ℤ) : ℚ))
            + 2 / ((getWidth lines : ℤ) : ℚ) / 2 by ring] at this
      exact this
    · rw [ey]
      simp only [World.getPositionFromTile, hbh]
      have := hclose.2
      push_cast at this ⊢
      rw [show -1 + ((r : ℚ) + 1 / 2) * (2 / ((countLines lines : ℤ) : ℚ))
          = -1 + (r : ℚ) * (2 / ((countLines lines : ℤ) : ℚ))
            + 2 / ((countLines lines : ℤ) : ℚ) / 2 by ring] at this
      exact this

theorem World.new_tallMap : World.new (some tallMap) = Except.ok tallWorld := by
  simp [World.new, World.initializeLevel, tallMap, getWidth, countLines,
    World.placeLine, World.placeChar, World.blank, tallWorld,
    World.getTileFromPosition, truncToInt, Pacman.new]
  norm_num

/-- C33: the wall test `isTileWall` on a freshly loaded level, for every map whose first line
is not empty (`W` columns, `H` rows) and every pair of tile indices. The test compares both
coordinates of each wall with the tolerance `0.3 * B_width`, so it is true exactly when column
`tx` holds a `#` less than `0.3 * H / W` rows away from row `ty`. On maps with `3 H ≤ 10 W` it
is true exactly when the map holds `#` at column `tx`, row `ty`. On the map `tallMap` of one
column and four rows (`#`, blank, blank, `P`) the test reports a wall on the free tile
`(0, 1)` below the `#`. -/
theorem isTileWall_uses_tile_width_on_both_axes :
    (∀ (lines : List (List Char)) (w : World), 0 < getWidth lines →
      World.new (some lines) = Except.ok w → ∀ tx ty : ℤ,
      (w.isTileWall tx ty = true ↔
        ∃ r : ℕ, mapCharAt lines tx (r : ℤ) = some '#' ∧
          10 * |(r : ℤ) - ty| * getWidth lines < 3 * countLines lines) ∧
      (3 * countLines lines ≤ 10 * getWidth lines →
        (w.isTileWall tx ty = true ↔ isWallTile lines tx ty))) ∧
    World.new (some tallMap) = Except.ok tallWorld ∧
    getWidth tallMap = 1 ∧ countLines tallMap = 4 ∧
    mapCharAt tallMap 0 0 = some '#' ∧
    mapCharAt tallMap 0 1 = some ' ' ∧
    ¬ isWallTile tallMap 0 1 ∧
    tallWorld.isTileWall 0 1 = true ∧
    tallWorld.isTileWall 0 2 = false := by
  refine ⟨?_, World.new_tallMap, rfl, rfl, rfl, rfl, by unfold isWallTile; decide, ?_, ?_⟩
  · intro lines w hW h tx ty
    have hchar := World.isTileWall_new lines w hW h tx ty
    refine ⟨hchar, ?_⟩
    intro hshape
    rw [hchar]
    unfold isWallTile
    constructor
    · rintro ⟨r, hcell, hlt⟩
      have h1 : |(r : ℤ) - ty| < 1 := by
        by_contra hc
        have h2 : 1 ≤ |(r : ℤ) - ty| := not_lt.mp hc
        nlinarith
      have h3 : (r : ℤ) = ty := by
        have := abs_nonneg ((r : ℤ) - ty)
        have h4 : |(r : ℤ) - ty| = 0 := by omega
        have := abs_eq_zero.mp h4
        omega
      rw [← h3]
      exact hcell
    · intro hcell
      have hty : 0 ≤ ty := by
        unfold mapCharAt at hcell
        split_ifs at hcell with h0
        exact h0.2
      obtain ⟨r, rfl⟩ := Int.eq_ofNat_of_zero_le hty
      refine ⟨r, hcell, ?_⟩
      have hH := countLines_pos_of_getWidth_pos lines hW
      simp only [sub_self, abs_zero, mul_zero, zero_mul]
      omega
  · simp +decide [World.isTileWall, tallWorld, World.blank, World.getPositionFromTile]
    norm_num [abs_of_neg]
  · simp +decide [World.isTileWall, tallWorld, World.blank, World.getPositionFromTile]
    norm_num [abs_of_neg]

/-! ## The maze of every reachable world is the maze of the map -/

/-- The loader, started from a world whose walls sit on `#` tiles of the map, gives a world
whose maze is the maze of the map. -/
theorem World.initializeLevel_mazeFromMap (lines : List (List Char)) (hW : 0 < getWidth lines)
    (w w1 : World)
    (hpre : ∀ e ∈ w.walls, ∃ c r : ℕ, mapCharAt lines (c : ℤ) (r : ℤ) = some '#' ∧
      e.x = (tileEntityAt lines c r).x ∧ e.y = (tileEntityAt lines c r).y)
    (h : w.initializeLevel (some lines) = Except.ok w1) : MazeFromMap lines w1 := by
  obtain ⟨w2, h2, hI, hb1, hb2⟩ := World.initializeLevel_induction lines w
    (fun v => ∀ e ∈ v.walls, ∃ c r : ℕ, mapCharAt lines (c : ℤ) (r : ℤ) = some '#' ∧
      e.x = (tileEntityAt lines c r).x ∧ e.y = (tileEntityAt lines c r).y)
    hpre
    (by
      intro v c r ch hbw hbh hv hcell e he
      rw [World.placeChar_walls] at he
      rcases List.mem_append.mp he with he | he
      · exact hv e he
      · split_ifs at he with hch
        · rw [List.mem_singleton] at he
          refine ⟨c, r, by rw [hcell, hch], ?_⟩
          obtain ⟨t1, t2, _, _, _, _⟩ := tileEntityAt_eq lines v c r hbw hbh
          rw [he]
          exact ⟨t1, t2⟩
        · simp at he)
    (fun v hv => hv)
  rw [h] at h2
  have e := Except.ok.inj h2
  subst e
  have hl := World.initializeLevel_wallsLoaded lines hW w w1 h
  refine ⟨hb1, hb2, hI, ?_⟩
  intro c r hcell
  obtain ⟨e, he, ex, ey⟩ := hl.2.2 c r hcell
  obtain ⟨_, _, _, _, t5, t6⟩ := tileEntityAt_eq lines w1 c r hb1 hb2
  exact ⟨e, he, ex.trans t5, ey.trans t6⟩

theorem MazeFromMap_of_sameMaze (lines : List (List Char)) {w v : World} (h : w.sameMaze v)
    (hm : MazeFromMap lines w) : MazeFromMap lines v := by
  unfold MazeFromMap at hm ⊢
  rw [h.1, h.2.1, h.2.2]
  exact hm

/-- A frame leaves walls and tile size as they are. -/
theorem World.update_sameMaze (sqrtf : ℚ → ℚ) (dt : ℚ) (input : Char) (w w1 : World)
    (rng rng1 : Random) (h : w.update sqrtf dt input rng = some (w1, rng1)) :
    w.sameMaze w1 := by
  obtain ⟨p0, _, hc⟩ := World.update_shape sqrtf dt input w w1 rng rng1 h
  rcases hc with ⟨hd, v, hm, _, hv⟩ | ⟨_, hm, _, _⟩ | ⟨_, ws, hm, _, rfl⟩
  · exact World.sameMaze_trans hm (World.dyingFrame_shape dt v w1 p0 hd hv).1
  · exact hm
  · exact World.sameMaze_trans hm (World.sameMaze_trans
      (World.updatePacmanTileBased_keeps dt input ws p0).1
      (World.playFrame_shape sqrtf dt input ws p0 rng).1)

/-- The maze after `nextLevel` is the maze the loader leaves when it starts from the walls of
the finished level. -/
theorem World.nextLevel_maze (lines : List (List Char)) (w w1 : World)
    (h : w.nextLevel (some lines) = Except.ok w1) :
    ∃ v w3 : World, v.walls = w.walls ∧ v.initializeLevel (some lines) = Except.ok w3 ∧
      w3.sameMaze w1 := by
  unfold World.nextLevel at h
  simp only [] at h
  split at h
  · cases h
  · rename_i w3 h3
    split at h
    · cases h
    · rename_i p hp
      simp only [Except.ok.injEq] at h
      subst h
      exact ⟨{ w with scoreSystem := w.scoreSystem.onLevelCleared,
                      currentLevel := w.currentLevel + 1, coins := [], fruits := [],
                      ghosts := [] }, w3, rfl, h3, ⟨rfl, rfl, rfl⟩⟩

/-- In every world state the program reaches, the maze is the maze of the map. -/
theorem Reachable.mazeFromMap (lines : List (List Char)) (hW : 0 < getWidth lines) (w : World)
    (h : Reachable lines w) : MazeFromMap lines w := by
  induction h with
  | init w h =>
    rw [World.new_eq] at h
    exact World.initializeLevel_mazeFromMap lines hW World.blank w
      (by intro e he; simp [World.blank] at he) h
  | update sqrtf dt input rng rng1 w w1 _ _ hu ih =>
    exact MazeFromMap_of_sameMaze lines (World.update_sameMaze sqrtf dt input w w1 rng rng1 hu) ih
  | nextLevel w w1 _ hn ih =>
    obtain ⟨v, w3, hv, h3, hm⟩ := World.nextLevel_maze lines w w1 hn
    exact MazeFromMap_of_sameMaze lines hm
      (World.initializeLevel_mazeFromMap lines hW v w3 (by rw [hv]; exact ih.2.2.1) h3)

/-- The wall search of `isTileWall` and `checkGhostWallCollision` in a world whose maze is
the maze of the map: when the two comparisons with the tolerance `eps` mean "same column, row
`r` with `P r`" for the centres of the tiles, the search finds a wall exactly when column `tx`
of the map holds a `#` in such a row. -/
theorem World.wallNear_iff (lines : List (List Char)) (w : World) (hm : MazeFromMap lines w)
    (tx ty : ℤ) (eps : ℚ) (P : ℤ → Prop)
    (hclose : ∀ c r : ℤ,
      (|(-1 + ((c : ℚ) + 1 / 2) * (2 / ((getWidth lines : ℤ) : ℚ)))
          - (-1 + (tx : ℚ) * (2 / ((getWidth lines : ℤ) : ℚ))
            + 2 / ((getWidth lines : ℤ) : ℚ) / 2)| < eps ∧
        |(-1 + ((r : ℚ) + 1 / 2) * (2 / ((countLines lines : ℤ) : ℚ)))
          - (-1 + (ty : ℚ) * (2 / ((countLines lines : ℤ) : ℚ))
            + 2 / ((countLines lines : ℤ) : ℚ) / 2)| < eps) ↔ (c = tx ∧ P r)) :
    w.walls.any (fun wall => decide (|wall.x - (w.getPositionFromTile tx ty).1| < eps) &&
        decide (|wall.y - (w.getPositionFromTile tx ty).2| < eps)) = true ↔
      ∃ r : ℕ, mapCharAt lines tx (r : ℤ) = some '#' ∧ P (r : ℤ) := by
  obtain ⟨hbw, hbh, hfrom, hto⟩ := hm
  simp only [List.any_eq_true, Bool.and_eq_true, decide_eq_true_eq, World.getPositionFromTile,
    hbw, hbh]
  constructor
  · rintro ⟨e, he, hx, hy⟩
    obtain ⟨c, r, hcell, ex, ey⟩ := hfrom e he
    rw [ex] at hx
    rw [ey] at hy
    simp only [tileEntityAt] at hx hy
    have hc := (hclose (c : ℤ) (r : ℤ)).mp ⟨by push_cast; exact hx, by push_cast; exact hy⟩
    refine ⟨r, ?_, hc.2⟩
    rw [← hc.1]
    exact hcell
  · rintro ⟨r, hcell, hP⟩
    have htx : 0 ≤ tx := by
      unfold mapCharAt at hcell
      split_ifs at hcell with h0
      exact h0.1
    obtain ⟨c, rfl⟩ := Int.eq_ofNat_of_zero_le htx
    obtain ⟨e, he, ex, ey⟩ := hto c r hcell
    have hc := (hclose (c : ℤ) (r : ℤ)).mpr ⟨rfl, hP⟩
    refine ⟨e, he, ?_, ?_⟩
    · rw [ex]
      simp only [tileEntityAt]
      have := hc.1
      push_cast at this ⊢
      exact this
    · rw [ey]
      simp only [tileEntityAt]
      have := hc.2
      push_cast at this ⊢
      exact this

/-- What `isTileWall` tests in a world whose maze is the maze of a map of `W` columns and `H`
rows: there is a `#` in column `tx` whose row is less than `0.3 * H / W` rows away from
`ty`. -/
theorem World.isTileWall_maze (lines : List (List Char)) (hW : 0 < getWidth lines) (w : World)
    (hm : MazeFromMap lines w) (tx ty : ℤ) :
    w.isTileWall tx ty = true ↔
      ∃ r : ℕ, mapCharAt lines tx (r : ℤ) = some '#' ∧
        10 * |(r : ℤ) - ty| * getWidth lines < 3 * countLines lines := by
  have hH := countLines_pos_of_getWidth_pos lines hW
  unfold World.isTileWall
  simp only []
  rw [hm.1]
  exact World.wallNear_iff lines w hm tx ty _
    (fun r => 10 * |r - ty| * getWidth lines < 3 * countLines lines)
    (fun c r => tile_close_iff (getWidth lines) (countLines lines) hW hH c tx r ty)

/-- On a map with `3 H ≤ 10 W`, a `#` in column `tx` less than `0.3 * H / W` rows away from
row `ty` is a `#` in row `ty`; the same for every bound `k * |r - ty| * W < n * H` with
`n H ≤ k W`. -/
theorem near_row_iff (lines : List (List Char)) (hW : 0 < getWidth lines) (k n : ℤ)
    (hn : 0 < n) (hshape : n * countLines lines ≤ k * getWidth lines) (tx ty : ℤ) :
    (∃ r : ℕ, mapCharAt lines tx (r : ℤ) = some '#' ∧
        k * |(r : ℤ) - ty| * getWidth lines < n * countLines lines) ↔
      isWallTile lines tx ty := by
  have hH := countLines_pos_of_getWidth_pos lines hW
  unfold isWallTile
  constructor
  · rintro ⟨r, hcell, hlt⟩
    have h1 : |(r : ℤ) - ty| < 1 := by
      by_contra hc
      have h2 : 1 ≤ |(r : ℤ) - ty| := not_lt.mp hc
      have hk : 0 ≤ k * getWidth lines := by nlinarith
      nlinarith
    have h3 : (r : ℤ) = ty := by
      have := abs_nonneg ((r : ℤ) - ty)
      have h4 : |(r : ℤ) - ty| = 0 := by omega
      have := abs_eq_zero.mp h4
      omega
    rw [← h3]
    exact hcell
  · intro hcell
    have hty : 0 ≤ ty := by
      unfold mapCharAt at hcell
      split_ifs at hcell with h0
      exact h0.2
    obtain ⟨r, rfl⟩ := Int.eq_ofNat_of_zero_le hty
    refine ⟨r, hcell, ?_⟩
    simp only [sub_self, abs_zero, mul_zero, zero_mul]
    positivity

/-- An integer whose absolute value is below 1/4 is 0. -/
theorem int_abs_quarter (z : ℤ) : |(z : ℚ)| < 1 / 4 ↔ z = 0 := by
  constructor
  · intro h
    have h1 : ((|z| : ℤ) : ℚ) < 1 := by
      rw [Int.cast_abs]
      linarith
    have h2 : |z| < 1 := by exact_mod_cast h1
    have h3 : |z| = 0 := by
      have := abs_nonneg z
      omega
    exact abs_eq_zero.mp h3
  · rintro rfl
    norm_num

/-- The two comparisons of `checkGhostWallCollision` for the wall of the cell `(c, r)` and
the tile `(tx, ty)`, on a map of `W` columns and `H` rows: the columns agree, and the rows are
less than `0.25 * H / W` apart. -/
theorem tile_close_quarter_iff (W H : ℤ) (hW : 0 < W) (hH : 0 < H) (c tx r ty : ℤ) :
    (|(-1 + ((c : ℚ) + 1 / 2) * (2 / (W : ℚ))) - (-1 + (tx : ℚ) * (2 / (W : ℚ))
        + 2 / (W : ℚ) / 2)| < 2 / (W : ℚ) * (1 / 4) ∧
      |(-1 + ((r : ℚ) + 1 / 2) * (2 / (H : ℚ))) - (-1 + (ty : ℚ) * (2 / (H : ℚ))
        + 2 / (H : ℚ) / 2)| < 2 / (W : ℚ) * (1 / 4)) ↔
    (c = tx ∧ 4 * |r - ty| * W < H) := by
  have hWq : (0 : ℚ) < (W : ℚ) := by exact_mod_cast hW
  have hHq : (0 : ℚ) < (H : ℚ) := by exact_mod_cast hH
  have hbw : (0 : ℚ) < 2 / (W : ℚ) := by positivity
  have hbh : (0 : ℚ) < 2 / (H : ℚ) := by positivity
  have ex : (-1 + ((c : ℚ) + 1 / 2) * (2 / (W : ℚ))) - (-1 + (tx : ℚ) * (2 / (W : ℚ))
      + 2 / (W : ℚ) / 2) = ((c - tx : ℤ) : ℚ) * (2 / (W : ℚ)) := by
    push_cast
    ring
  have ey : (-1 + ((r : ℚ) + 1 / 2) * (2 / (H : ℚ))) - (-1 + (ty : ℚ) * (2 / (H : ℚ))
      + 2 / (H : ℚ) / 2) = ((r - ty : ℤ) : ℚ) * (2 / (H : ℚ)) := by
    push_cast
    ring
  rw [ex, ey, abs_mul, abs_mul, abs_of_pos hbw, abs_of_pos hbh]
  have h1 : |((c - tx : ℤ) : ℚ)| * (2 / (W : ℚ)) < 2 / (W : ℚ) * (1 / 4) ↔ c = tx := by
    rw [mul_comm, mul_lt_mul_left hbw, int_abs_quarter]
    omega
  have h2 : |((r - ty : ℤ) : ℚ)| * (2 / (H : ℚ)) < 2 / (W : ℚ) * (1 / 4) ↔
      4 * |r - ty| * W < H := by
    have e : |((r - ty : ℤ) : ℚ)| = ((|r - ty| : ℤ) : ℚ) := by rw [Int.cast_abs]
    rw [e]
    have e2 : ((|r - ty| : ℤ) : ℚ) * (2 / (H : ℚ)) < 2 / (W : ℚ) * (1 / 4) ↔
        (4 : ℚ) * ((|r - ty| : ℤ) : ℚ) * (W : ℚ) < (H : ℚ) := by
      rw [show ((|r - ty| : ℤ) : ℚ) * (2 / (H : ℚ)) = (2 * ((|r - ty| : ℤ) : ℚ)) / (H : ℚ) by ring,
        show 2 / (W : ℚ) * (1 / 4) = (1 / 2) / (W : ℚ) by ring,
        div_lt_div_iff₀ hHq hWq]
      constructor <;> intro h <;> linarith
    rw [e2]
    exact_mod_cast Iff.rfl
  rw [h1, h2]

/-- The test position of `checkGhostWallCollision` is the centre of the tile next to the tile
the ghost is on: for each of the four directions the method searches the walls around the
centre of `stepTile dir` of `getTileFromPosition`. -/
theorem World.checkGhostWallCollision_eq (w : World) (g : Ghost) (d : Char)
    (hd : d = 'U' ∨ d = 'D' ∨ d = 'L' ∨ d = 'R') :
    w.checkGhostWallCollision g d =
      w.walls.any (fun wall =>
        decide (|wall.x - (w.getPositionFromTile
            (stepTile d (w.getTileFromPosition g.x g.y).1 (w.getTileFromPosition g.x g.y).2).1
            (stepTile d (w.getTileFromPosition g.x g.y).1 (w.getTileFromPosition g.x g.y).2).2).1|
          < w.B_width * (1 / 4)) &&
        decide (|wall.y - (w.getPositionFromTile
            (stepTile d (w.getTileFromPosition g.x g.y).1 (w.getTileFromPosition g.x g.y).2).1
            (stepTile d (w.getTileFromPosition g.x g.y).1 (w.getTileFromPosition g.x g.y).2).2).2|
          < w.B_width * (1 / 4))) := by
  unfold World.checkGhostWallCollision
  simp only [hd, ↓reduceIte]
  congr 1
  funext wall
  rcases hd with rfl | rfl | rfl | rfl
  all_goals
    simp +decide only [stepTile, World.getPositionFromTile, World.getTileFromPosition,
      getCenteredPosition, ↓reduceIte, Int.cast_sub, Int.cast_add, Int.cast_one]
    congr 3 <;> ring_nf

/-- What `checkGhostWallCollision` tests in a world whose maze is the maze of a map of `W`
columns and `H` rows, for the tile `(tx, ty)` next to the ghost in the direction asked:
there is a `#` in column `tx` whose row is less than `0.25 * H / W` rows away from `ty`. -/
theorem World.checkGhostWallCollision_maze (lines : List (List Char)) (hW : 0 < getWidth lines)
    (w : World) (hm : MazeFromMap lines w) (g : Ghost) (d : Char)
    (hd : d = 'U' ∨ d = 'D' ∨ d = 'L' ∨ d = 'R') :
    w.checkGhostWallCollision g d = true ↔
      ∃ r : ℕ, mapCharAt lines
          (stepTile d (w.getTileFromPosition g.x g.y).1 (w.getTileFromPosition g.x g.y).2).1
          (r : ℤ) = some '#' ∧
        4 * |(r : ℤ)
            - (stepTile d (w.getTileFromPosition g.x g.y).1 (w.getTileFromPosition g.x g.y).2).2|
          * getWidth lines < countLines lines := by
  have hH := countLines_pos_of_getWidth_pos lines hW
  rw [World.checkGhostWallCollision_eq w g d hd, hm.1]
  exact World.wallNear_iff lines w hm _ _ _
    (fun r => 4 * |r
      - (stepTile d (w.getTileFromPosition g.x g.y).1 (w.getTileFromPosition g.x g.y).2).2|
      * getWidth lines < countLines lines)
    (fun c r => tile_close_quarter_iff (getWidth lines) (countLines lines) hW hH c _ r _)

/-! ## The legal set offered to a ghost and the map -/

theorem World.new_narrowMap : World.new (some narrowMap) = Except.ok narrowWorld := by
  simp [World.new, World.initializeLevel, narrowMap, getWidth, countLines,
    World.placeLine, World.placeChar, World.blank, narrowWorld, narrowGhost, createGhost,
    World.getTileFromPosition, truncToInt, Pacman.new]
  norm_num

/-- C20: the direction set `World::update` offers to a ghost, in every world state the
program reaches with a map whose first line is not empty (`W` columns, `H` rows). The wall
test `checkGhostWallCollision` compares both coordinates of each wall with the tolerance
`0.25 * B_width`, so a direction is blocked exactly when the column of the adjacent tile holds
a `#` less than `0.25 * H / W` rows away from that tile. On maps with `H ≤ 4 W` the set is
exactly the directions among U, D, L, R whose adjacent tile is not a wall
tile of the map, without the reverse direction whenever more than one direction is free; it
holds the reverse direction only when that is the sole free direction, and it is empty exactly
when all four neighbours are wall tiles. On the map `narrowMap` of one column and five rows
the ghost stands on tile `(0, 2)`, the tile `(0, 1)` above it is blank, and U is not
offered. -/
theorem validDirections_blocked_by_wall_beyond_adjacent_tile :
    (∀ (lines : List (List Char)) (w : World) (g : Ghost), 0 < getWidth lines →
      Reachable lines w →
      (∀ d : Char, d = 'U' ∨ d = 'D' ∨ d = 'L' ∨ d = 'R' →
        (w.checkGhostWallCollision g d = true ↔
          ∃ r : ℕ, mapCharAt lines (w.ghostNeighbourTile g d).1 (r : ℤ) = some '#' ∧
            4 * |(r : ℤ) - (w.ghostNeighbourTile g d).2| * getWidth lines
              < countLines lines)) ∧
      (∀ d : Char, d ∈ w.validDirections g ↔
        ((d = 'U' ∨ d = 'D' ∨ d = 'L' ∨ d = 'R') ∧ w.checkGhostWallCollision g d = false ∧
          (d = g.getOppositeDirection →
            ∀ d1 : Char, (d1 = 'U' ∨ d1 = 'D' ∨ d1 = 'L' ∨ d1 = 'R') →
              w.checkGhostWallCollision g d1 = false → d1 = d))) ∧
      (countLines lines ≤ 4 * getWidth lines →
        (∀ d : Char, d ∈ w.validDirections g ↔
          ((d = 'U' ∨ d = 'D' ∨ d = 'L' ∨ d = 'R') ∧
            ¬ isWallTile lines (w.ghostNeighbourTile g d).1 (w.ghostNeighbourTile g d).2 ∧
            (d = g.getOppositeDirection →
              ∀ d1 : Char, (d1 = 'U' ∨ d1 = 'D' ∨ d1 = 'L' ∨ d1 = 'R') →
                ¬ isWallTile lines (w.ghostNeighbourTile g d1).1
                    (w.ghostNeighbourTile g d1).2 → d1 = d))) ∧
        (g.getOppositeDirection ∈ w.validDirections g →
          w.validDirections g = [g.getOppositeDirection]) ∧
        (w.validDirections g = [] ↔
          (isWallTile lines (w.ghostNeighbourTile g 'U').1 (w.ghostNeighbourTile g 'U').2 ∧
           isWallTile lines (w.ghostNeighbourTile g 'D').1 (w.ghostNeighbourTile g 'D').2 ∧
           isWallTile lines (w.ghostNeighbourTile g 'L').1 (w.ghostNeighbourTile g 'L').2 ∧
           isWallTile lines (w.ghostNeighbourTile g 'R').1
             (w.ghostNeighbourTile g 'R').2)))) ∧
    World.new (some narrowMap) = Except.ok narrowWorld ∧
    narrowWorld.ghosts = [narrowGhost] ∧
    getWidth narrowMap = 1 ∧ countLines narrowMap = 5 ∧
    narrowWorld.getTileFromPosition narrowGhost.x narrowGhost.y = (0, 2) ∧
    narrowWorld.ghostNeighbourTile narrowGhost 'U' = (0, 1) ∧
    mapCharAt narrowMap 0 1 = some ' ' ∧
    ¬ isWallTile narrowMap 0 1 ∧
    narrowWorld.checkGhostWallCollision narrowGhost 'U' = true ∧
    narrowWorld.validDirections narrowGhost = ['D', 'L', 'R'] ∧
    'U' ∉ narrowWorld.validDirections narrowGhost := by
  have hU : narrowWorld.checkGhostWallCollision narrowGhost 'U' = true := by
    simp +decide [World.checkGhostWallCollision, getCenteredPosition,
      truncToInt, narrowWorld, narrowGhost, World.blank, Ghost.new]
    norm_num [abs_of_pos, abs_of_neg]
  have hD : narrowWorld.checkGhostWallCollision narrowGhost 'D' = false := by
    simp +decide [World.checkGhostWallCollision, getCenteredPosition,
      truncToInt, narrowWorld, narrowGhost, World.blank, Ghost.new]
    norm_num [abs_of_pos, abs_of_neg]
  have hL : narrowWorld.checkGhostWallCollision narrowGhost 'L' = false := by
    simp +decide [World.checkGhostWallCollision, getCenteredPosition,
      truncToInt, narrowWorld, narrowGhost, World.blank, Ghost.new]
    norm_num [abs_of_pos, abs_of_neg]
  have hR : narrowWorld.checkGhostWallCollision narrowGhost 'R' = false := by
    simp +decide [World.checkGhostWallCollision, getCenteredPosition,
      truncToInt, narrowWorld, narrowGhost, World.blank, Ghost.new]
    norm_num [abs_of_pos, abs_of_neg]
  have hval : narrowWorld.validDirections narrowGhost = ['D', 'L', 'R'] := by
    have hf : ['U', 'D', 'L', 'R'].filter
        (fun dir => !narrowWorld.checkGhostWallCollision narrowGhost dir) = ['D', 'L', 'R'] := by
      simp only [List.filter, hU, hD, hL, hR, Bool.not_true, Bool.not_false]
    have ho : narrowGhost.getOppositeDirection = ' ' := by
      simp +decide [Ghost.getOppositeDirection, narrowGhost, Ghost.new]
    rw [World.validDirections_eq, hf, ho]
    decide
  have htile : narrowWorld.getTileFromPosition narrowGhost.x narrowGhost.y = (0, 2) := by
    simp +decide [World.getTileFromPosition, truncToInt, narrowWorld, narrowGhost, World.blank,
      Ghost.new]
    norm_num
  refine ⟨?_, World.new_narrowMap, rfl, rfl, rfl, htile, ?_, rfl,
    by unfold isWallTile; decide, ?_, hval, ?_⟩
  · intro lines w g hW hr
    have hm := Reachable.mazeFromMap lines hW w hr
    have hchk : ∀ d : Char, d = 'U' ∨ d = 'D' ∨ d = 'L' ∨ d = 'R' →
        (w.checkGhostWallCollision g d = true ↔
          ∃ r : ℕ, mapCharAt lines (w.ghostNeighbourTile g d).1 (r : ℤ) = some '#' ∧
            4 * |(r : ℤ) - (w.ghostNeighbourTile g d).2| * getWidth lines
              < countLines lines) := fun d hd =>
      World.checkGhostWallCollision_maze lines hW w hm g d hd
    obtain ⟨hmem, hopp, hnil, _⟩ := World.validDirections_by_wall_test w g
    refine ⟨hchk, hmem, ?_⟩
    intro hshape
    have hwall : ∀ d : Char, d = 'U' ∨ d = 'D' ∨ d = 'L' ∨ d = 'R' →
        (w.checkGhostWallCollision g d = true ↔
          isWallTile lines (w.ghostNeighbourTile g d).1 (w.ghostNeighbourTile g d).2) := by
      intro d hd
      have hq := near_row_iff lines hW 4 1 (by norm_num) (by omega)
        (w.ghostNeighbourTile g d).1 (w.ghostNeighbourTile g d).2
      rw [one_mul] at hq
      exact (hchk d hd).trans hq
    have hfree : ∀ d : Char, d = 'U' ∨ d = 'D' ∨ d = 'L' ∨ d = 'R' →
        (w.checkGhostWallCollision g d = false ↔
          ¬ isWallTile lines (w.ghostNeighbourTile g d).1 (w.ghostNeighbourTile g d).2) := by
      intro d hd
      rw [← hwall d hd]
      simp
    refine ⟨?_, hopp, ?_⟩
    · intro d
      rw [hmem d]
      constructor
      · rintro ⟨h1, h2, h3⟩
        exact ⟨h1, (hfree d h1).mp h2, fun he d1 hd1 hf => h3 he d1 hd1 ((hfree d1 hd1).mpr hf)⟩
      · rintro ⟨h1, h2, h3⟩
        exact ⟨h1, (hfree d h1).mpr h2, fun he d1 hd1 hf => h3 he d1 hd1 ((hfree d1 hd1).mp hf)⟩
    · rw [hnil, hwall 'U' (by simp), hwall 'D' (by simp), hwall 'L' (by simp),
        hwall 'R' (by simp)]
  · unfold World.ghostNeighbourTile
    rw [htile]
    rfl
  · exact hU
  · rw [hval]
    decide

/-! ## The decision at a tile centre and the map -/

theorem World.update_tallWorld :
    tallWorld.update (fun _ => 0) (1 / 4) 'U' zeroRandom
      = some (tallAfterFrame, zeroRandom) := by
  simp +decide [World.update, World.playFrame, World.isStartInput, World.ghostLoop,
    World.collectCoins, World.collectFruits,
    World.updatePacmanTileBased, World.bufferInput, World.instantReversalStep,
    World.tileCenterStep, World.applyBufferedInput, World.stopAtWall, World.advanceStep,
    World.visualPosition, World.isTileWall, World.getPositionFromTile, stepTile,
    tallWorld, tallAfterFrame, World.blank, Pacman.new,
    Pacman.setDirection, Pacman.setMoving, Pacman.setPosition, World.isOppositeInput,
    Score.update, Score.new]
  norm_num [abs_of_pos, abs_of_neg]
  simp +decide [World.ghostLoop]
  norm_num

theorem World.update_tallAfterFrame :
    tallAfterFrame.update (fun _ => 0) (1 / 8) 'U' zeroRandom
      = some (tallStopped, zeroRandom) := by
  simp +decide [World.update, World.playFrame, World.isStartInput, World.ghostLoop,
    World.collectCoins, World.collectFruits,
    World.updatePacmanTileBased, World.bufferInput, World.instantReversalStep,
    World.tileCenterStep, World.applyBufferedInput, World.stopAtWall, World.advanceStep,
    World.visualPosition, World.isTileWall, World.getPositionFromTile, stepTile,
    tallWorld, tallAfterFrame, tallStopped, World.blank, Pacman.new,
    Pacman.setDirection, Pacman.setMoving, Pacman.setPosition, World.isOppositeInput,
    Score.update, Score.new]
  norm_num [abs_of_pos, abs_of_neg]
  simp +decide [World.ghostLoop]

/-- The state `tallAfterFrame` is reachable with the map `tallMap`. -/
theorem Reachable.tallAfterFrame : Reachable tallMap tallAfterFrame :=
  Reachable.update (fun _ => 0) (1 / 4) 'U' zeroRandom zeroRandom tallWorld
    Logic.tallAfterFrame (Reachable.init tallWorld World.new_tallMap) (by norm_num)
    World.update_tallWorld

/-- C26: the decision of the player controller at a tile boundary, in every world state the
program reaches with a map of `W > 0` columns and `H` rows. Let `b` be the buffered direction
after this frame's input is latched and `m` the current direction. On maps with `3 H ≤ 10 W`
the decision is this: at progress exactly 0 the controller commits `b` (and
clears the buffer) if `b` is a direction other than `m` whose target tile is not a wall tile
of the map; otherwise it keeps `m` if the target tile of `m` is not a wall tile; otherwise it
stops: direction neutral, moving false, progress 0, position exactly the centre of the tile.
Mid-transit (progress > 0) the direction after the frame is `m`, unless the instant reversal
fires, and then it is `b`, the opposite of `m`. The wall test `isTileWall` compares both
coordinates with the tolerance `0.3 * B_width`, so on taller maps a free tile counts as a
wall: on `tallMap` (one column, four rows) the player, moving up and arrived at the centre of
tile `(0, 2)` after one frame, is stopped there in the next frame although the target tile
`(0, 1)` is blank. -/
theorem player_stops_before_free_tile_on_tall_map :
    (∀ (lines : List (List Char)) (w : World) (p : Pacman) (dt : ℚ) (input : Char),
      0 < getWidth lines → 3 * countLines lines ≤ 10 * getWidth lines → Reachable lines w →
      (w.pacmanTileProgress = 0 →
        ((w.bufferInput input).pacmanBufferedInput ≠ ' ' →
          (w.bufferInput input).pacmanBufferedInput ≠ w.pacmanMoveDir →
          ¬ isWallTile lines
            (stepTile (w.bufferInput input).pacmanBufferedInput w.pacmanTileX w.pacmanTileY).1
            (stepTile (w.bufferInput input).pacmanBufferedInput w.pacmanTileX
              w.pacmanTileY).2 →
          (w.updatePacmanTileBased dt input p).1.pacmanMoveDir
            = (w.bufferInput input).pacmanBufferedInput ∧
          (w.updatePacmanTileBased dt input p).1.pacmanBufferedInput = ' ' ∧
          (w.updatePacmanTileBased dt input p).2.moving = true ∧
          (p.dying = false →
            ((w.bufferInput input).pacmanBufferedInput = 'U' ∨
             (w.bufferInput input).pacmanBufferedInput = 'D' ∨
             (w.bufferInput input).pacmanBufferedInput = 'L' ∨
             (w.bufferInput input).pacmanBufferedInput = 'R') →
            (w.updatePacmanTileBased dt input p).2.direction
              = (w.bufferInput input).pacmanBufferedInput)) ∧
        (¬ ((w.bufferInput input).pacmanBufferedInput ≠ ' ' ∧
            (w.bufferInput input).pacmanBufferedInput ≠ w.pacmanMoveDir ∧
            ¬ isWallTile lines
              (stepTile (w.bufferInput input).pacmanBufferedInput w.pacmanTileX
                w.pacmanTileY).1
              (stepTile (w.bufferInput input).pacmanBufferedInput w.pacmanTileX
                w.pacmanTileY).2) →
          (w.pacmanMoveDir ≠ ' ' →
            ¬ isWallTile lines (stepTile w.pacmanMoveDir w.pacmanTileX w.pacmanTileY).1
              (stepTile w.pacmanMoveDir w.pacmanTileX w.pacmanTileY).2 →
            (w.updatePacmanTileBased dt input p).1.pacmanMoveDir = w.pacmanMoveDir ∧
            (w.updatePacmanTileBased dt input p).1.pacmanBufferedInput
              = (w.bufferInput input).pacmanBufferedInput ∧
            (w.updatePacmanTileBased dt input p).2.moving = true) ∧
          (w.pacmanMoveDir = ' ' ∨
            isWallTile lines (stepTile w.pacmanMoveDir w.pacmanTileX w.pacmanTileY).1
              (stepTile w.pacmanMoveDir w.pacmanTileX w.pacmanTileY).2 →
            (w.updatePacmanTileBased dt input p).1.pacmanMoveDir = ' ' ∧
            (w.updatePacmanTileBased dt input p).2.moving = false ∧
            (w.updatePacmanTileBased dt input p).1.pacmanTileProgress = 0 ∧
            (w.updatePacmanTileBased dt input p).1.pacmanTileX = w.pacmanTileX ∧
            (w.updatePacmanTileBased dt input p).1.pacmanTileY = w.pacmanTileY ∧
            ((w.updatePacmanTileBased dt input p).2.x,
              (w.updatePacmanTileBased dt input p).2.y)
              = w.getPositionFromTile w.pacmanTileX w.pacmanTileY ∧
            (p.dying = false → w.pacmanMoveDir ≠ ' ' →
              (w.updatePacmanTileBased dt input p).2.direction = ' ')))) ∧
      (0 < w.pacmanTileProgress →
        (w.updatePacmanTileBased dt input p).1.pacmanMoveDir =
          (if (w.bufferInput input).pacmanBufferedInput ≠ ' ' ∧ w.pacmanMoveDir ≠ ' ' ∧
              (w.bufferInput input).isOppositeInput = true
           then (w.bufferInput input).pacmanBufferedInput
           else w.pacmanMoveDir))) ∧
    (∀ (lines : List (List Char)) (w : World), 0 < getWidth lines → Reachable lines w →
      ∀ tx ty : ℤ, (w.isTileWall tx ty = true ↔
        ∃ r : ℕ, mapCharAt lines tx (r : ℤ) = some '#' ∧
          10 * |(r : ℤ) - ty| * getWidth lines < 3 * countLines lines)) ∧
    Reachable tallMap tallAfterFrame ∧
    getWidth tallMap = 1 ∧ countLines tallMap = 4 ∧
    tallAfterFrame.pacmanTileProgress = 0 ∧
    tallAfterFrame.pacmanMoveDir = 'U' ∧
    (tallAfterFrame.pacmanTileX, tallAfterFrame.pacmanTileY) = (0, 2) ∧
    stepTile 'U' 0 2 = (0, 1) ∧
    mapCharAt tallMap 0 1 = some ' ' ∧
    ¬ isWallTile tallMap 0 1 ∧
    tallAfterFrame.update (fun _ => 0) (1 / 8) 'U' zeroRandom
      = some (tallStopped, zeroRandom) ∧
    tallStopped.pacmanMoveDir = ' ' ∧
    (tallStopped.pacmanTileX, tallStopped.pacmanTileY) = (0, 2) ∧
    tallStopped.pacman.map (fun q => (q.moving, q.direction)) = some (false, ' ') := by
  refine ⟨?_, ?_, Reachable.tallAfterFrame, rfl, rfl, rfl, rfl, rfl, rfl, rfl,
    by unfold isWallTile; decide, World.update_tallAfterFrame, rfl, rfl, rfl⟩
  · intro lines w p dt input hW hshape hr
    have hm := Reachable.mazeFromMap lines hW w hr
    have hmb : MazeFromMap lines (w.bufferInput input) :=
      MazeFromMap_of_sameMaze lines (World.bufferInput_keeps input w).1 hm
    have hwall : ∀ tx ty : ℤ,
        ((w.bufferInput input).isTileWall tx ty = true ↔ isWallTile lines tx ty) := by
      intro tx ty
      rw [World.isTileWall_maze lines hW _ hmb tx ty]
      exact near_row_iff lines hW 10 3 (by norm_num) hshape tx ty
    have hfree : ∀ tx ty : ℤ,
        ((w.bufferInput input).isTileWall tx ty = false ↔ ¬ isWallTile lines tx ty) := by
      intro tx ty
      rw [← hwall tx ty]
      simp
    obtain ⟨⟨_, hmd, hpr, hx, hy, _, _, _⟩, h0, hmid⟩ :=
      World.updatePacmanTileBased_by_wall_test dt input w p
    rw [hmd, hpr, hx, hy] at h0
    rw [hmd, hpr] at hmid
    refine ⟨?_, hmid⟩
    intro hz
    obtain ⟨hc, hk⟩ := h0 hz
    refine ⟨?_, ?_⟩
    · intro h1 h2 h3
      exact hc h1 h2 ((hfree _ _).mpr h3)
    · intro hno
      obtain ⟨hk1, hk2⟩ := hk (fun hh => hno ⟨hh.1, hh.2.1, (hfree _ _).mp hh.2.2⟩)
      refine ⟨?_, ?_⟩
      · intro h1 h2
        exact hk1 h1 ((hfree _ _).mpr h2)
      · intro h1
        exact hk2 (h1.imp id (fun h => (hwall _ _).mpr h))
  · intro lines w hW hr tx ty
    exact World.isTileWall_maze lines hW w (Reachable.mazeFromMap lines hW w hr) tx ty

end Logic
